import Mathlib

/-!
# togglcsv

A shallow embedding of the `toggl` package - the time-range chunker
(`toggl/timereange.go`), the time record repository (`toggl/timerecord.go`), the
model converter (`toggl/modelconverter.go`) and the entity repositories
(`toggl/workspace.go`, `toggl/client.go`, `toggl/project.go`) -, of the CSV layer
of the command (`csvmapper.go`, `import.go`, `export.go`, `cli.go`) and of the
request gate of the API client (`togglapi/restclient.go`), followed by theorems
about them.  The remote Toggl service is not part of the package: it appears as a
parameter (any `model.TogglAPI`), and, where a statement is about what the
service holds after a creation, as the service `idealAPI` described below.  The
libraries that the command calls (the CSV reader and writer, the argument parser
with its date layout, the HTTP client) appear as parameters too; `time.Parse`
and `Time.Format` with the layout of the ISO 8601 formatter are written out
(`date.Parse`, `GetDateString`).

Conventions

* Go's `time.Time` is an instant together with a location.  It is embedded as the
  number of nanoseconds since the Unix epoch plus the UTC offset (in seconds) that
  the value's location has at that instant.  `After`, `Before` and `Equal` compare
  instants only; `Year`, `Month`, `Day` and the clock read the instant in the
  location.
* Integers are `Int`.  Where the source computes in 64 bits and the result can
  leave the range - the second counts of package `time` and the durations of the
  request gate - the wrap is written out (`int64`, `uint64`, `Duration.sub`).  A
  `time.Time` holds its seconds since the year 1 in an `int64`, so it ends on
  December 6 of the year 292277024627; its methods read the calendar from an
  unsigned count of seconds that starts on March 1 of the year -292277022400
  (package `time` as of Go 1.24).  The values of `Time` that a Go program can
  hold are the ones with `Time.Valid`.
* `(T, error)` results are `Except Error T`: an error carries no data.  An error
  is its message, abridged: the IDs, names and records that the source formats
  into a message are left out.
* Collaborators reached through a Go interface and the remote API are functions
  that take and return a state, so that every call they receive is visible in
  the state they return.
* Go slices are lists; the `nil` slice is the empty list (the code only ever
  builds slices with `append` from `nil`, so a slice is `nil` exactly when it is
  empty).
* Indexing a slice out of its range panics.  A function of the CSV layer that can
  panic returns an `Option`, and `none` is the panic.
-/

namespace Toggl

/-! ## Calendar arithmetic of package `time` -/

/-- Leap year rule of the proleptic Gregorian calendar (`time.isLeap`). -/
def isLeap (year : Int) : Bool :=
  year % 4 == 0 && (year % 100 != 0 || year % 400 == 0)

/-- Table `time.daysBefore`: `daysBefore m` is the number of days of a non-leap
year that lie before the end of month `m` (`daysBefore 0 = 0`, `daysBefore 12 = 365`). -/
def daysBefore (m : Int) : Int :=
  if m ≤ 0 then 0 else if m = 1 then 31 else if m = 2 then 59 else if m = 3 then 90
  else if m = 4 then 120 else if m = 5 then 151 else if m = 6 then 181
  else if m = 7 then 212 else if m = 8 then 243 else if m = 9 then 273
  else if m = 10 then 304 else if m = 11 then 334 else 365

/-- Number of days of month `m` (`time.daysIn`). -/
def daysIn (m : Int) (leap : Bool) : Int :=
  if m = 2 ∧ leap = true then 29 else daysBefore m - daysBefore (m - 1)

/-- Days from 0001-01-01 to January 1 of `year` in the proleptic Gregorian
calendar. -/
def daysSinceEpoch (year : Int) : Int :=
  365 * (year - 1) + (year - 1) / 4 - (year - 1) / 100 + (year - 1) / 400

/-- Zero-based day of the year of a month and day of month. -/
def yearDay (leap : Bool) (month day : Int) : Int :=
  daysBefore (month - 1) + (if leap = true ∧ 3 ≤ month then 1 else 0) + (day - 1)

/-- Days from 0001-01-01 to the given date. -/
def daysUpTo (year month day : Int) : Int :=
  daysSinceEpoch year + yearDay (isLeap year) month day

/-- Year and zero-based day of the year of a day count since 0001-01-01, by the
split into cycles of 400, 100, 4 and 1 years: the year that the methods of
`time.Time` read off a day count. -/
def absYear (d : Int) : Int × Int :=
  let n400 := d / 146097
  let d1 := d - 146097 * n400
  let n100 := d1 / 36524
  let n100 := n100 - n100 / 4
  let d2 := d1 - 36524 * n100
  let n4 := d2 / 1461
  let d3 := d2 - 1461 * n4
  let n1 := d3 / 365
  let n1 := n1 - n1 / 4
  let d4 := d3 - 365 * n1
  (400 * n400 + 100 * n100 + 4 * n4 + n1 + 1, d4)

/-- Month and day of month of a zero-based day of the year: the month and day
that the methods of `time.Time` read off a day count. -/
def monthDay (leap : Bool) (yday : Int) : Int × Int :=
  if leap = true ∧ yday = 31 + 29 - 1 then (2, 29)
  else
    let day := if leap = true ∧ yday > 31 + 29 - 1 then yday - 1 else yday
    let month := day / 31
    let stop := daysBefore (month + 1)
    if day ≥ stop then (month + 2, day - stop + 1)
    else (month + 1, day - daysBefore month + 1)

/-! ## `time.Time` -/

/-- Conversion to `int64`: the value modulo 2^64 in the range from -2^63 to 2^63 - 1. -/
def int64 (x : Int) : Int :=
  (x + 9223372036854775808) % 18446744073709551616 - 9223372036854775808

/-- Conversion to `uint64`: the value modulo 2^64 in the range from 0 to 2^64 - 1. -/
def uint64 (x : Int) : Int := x % 18446744073709551616

/-- An instant with the UTC offset of its location. -/
structure Time where
  /-- Nanoseconds since 1970-01-01T00:00:00Z. -/
  unixNano : Int
  /-- Seconds east of UTC of the value's location at this instant. -/
  offset : Int
deriving DecidableEq, Repr

/-- The location `time.UTC`. -/
def UTC : Int := 0

namespace Time

/-- The values that a `time.Time` can hold: the seconds since
0001-01-01T00:00:00Z (62135596800 s before the Unix epoch) fit in an `int64`. -/
def Valid (t : Time) : Prop :=
  -9223372036854775808 ≤ t.unixNano / 1000000000 + 62135596800 ∧
    t.unixNano / 1000000000 + 62135596800 ≤ 9223372036854775807

instance (t : Time) : Decidable t.Valid := by
  unfold Valid
  infer_instance

/-- The instant `t` is after `u`. -/
def After (t u : Time) : Bool := decide (u.unixNano < t.unixNano)

/-- The instant `t` is before `u`. -/
def Before (t u : Time) : Bool := decide (t.unixNano < u.unixNano)

/-- The two values are the same instant (their locations may differ). -/
def Equal (t u : Time) : Bool := decide (t.unixNano = u.unixNano)

/-- Nanoseconds since 0001-01-01T00:00:00 on the wall clock of the location, as
the methods of `time.Time` read them.  `t.absSec()` is the `uint64` of the
seconds since the absolute epoch, March 1 of the year -292277022400, which lies
9223371966606163200 s (730692556 cycles of 400 years and the 306 days from March
to December) before the year 1 and 9223372028741760000 s before the Unix epoch;
here the count is moved back to the year 1 and the nanoseconds of the second are
added. -/
def abs (t : Time) : Int :=
  (uint64 (t.unixNano / 1000000000 + t.offset + 9223372028741760000) - 9223371966606163200)
    * 1000000000 + t.unixNano % 1000000000

/-- Days since 0001-01-01 of the calendar day in the location. -/
def days (t : Time) : Int := t.abs / 86400000000000

/-- Nanoseconds since midnight in the location. -/
def nanoOfDay (t : Time) : Int := t.abs % 86400000000000

/-- Calendar year in the location. -/
def Year (t : Time) : Int := (absYear t.days).1

/-- Calendar month (1 to 12) in the location. -/
def Month (t : Time) : Int := (monthDay (isLeap t.Year) (absYear t.days).2).1

/-- Day of the month in the location. -/
def Day (t : Time) : Int := (monthDay (isLeap t.Year) (absYear t.days).2).2

/-- Hour of the day in the location. -/
def Hour (t : Time) : Int := t.nanoOfDay / 3600000000000

/-- Minute of the hour in the location. -/
def Minute (t : Time) : Int := t.nanoOfDay / 60000000000 % 60

/-- Second of the minute in the location. -/
def Second (t : Time) : Int := t.nanoOfDay / 1000000000 % 60

/-- Nanosecond of the second. -/
def Nanosecond (t : Time) : Int := t.nanoOfDay % 1000000000

end Time

/-- Days from the absolute epoch to a date (`time.dateToAbsDays`).  The absolute
years start on March 1: January and February count as months 13 and 14 of the
year before.  The years since the absolute epoch, the days of the centuries and
the result are unsigned 64-bit numbers. -/
def dateToAbsDays (year month day : Int) : Int :=
  let janFeb : Int := if month < 3 then 1 else 0
  let amonth := month + 12 * janFeb
  let y := uint64 (year - janFeb + 292277022400)
  let ayday := (979 * amonth - 2919) / 32
  let century := y / 100
  let cyear := y % 100
  let cday := 1461 * cyear / 4
  let centurydays := uint64 (146097 * century) / 4
  uint64 (centurydays + (cday + ayday + day - 1))

/-- Constructor `time.Date(year, month, day, hour, min, sec, nsec, loc)`.  A month
outside 1..12 carries into the year and a nanosecond outside its range into the
second (`norm`); a day, hour, minute or second outside its range carries into
the next larger unit, which the linear formula does by itself.  The steps from
the days since the absolute epoch to Unix time, to UTC and to the seconds since
the year 1 are `int64` operations: past December 6 of the year 292277024627 the
result wraps to an instant 2^64 s earlier. -/
def Date (year month day hour min sec nsec : Int) (offset : Int) : Time :=
  -- normalize month, overflowing into year; normalize nsec, overflowing into sec
  let y := year + (month - 1) / 12
  let m := (month - 1) % 12 + 1
  let sec := sec + nsec / 1000000000
  let nsec := nsec % 1000000000
  -- convert to absolute time and then Unix time
  let unix := int64 (dateToAbsDays y m day * 86400 + (hour * 3600 + min * 60 + sec)
    - 9223372028741760000)
  -- adjust to UTC
  let unix := int64 (unix - offset)
  { unixNano := (int64 (unix + 62135596800) - 62135596800) * 1000000000 + nsec,
    offset := offset }

namespace Time

/-- Method `t.AddDate(years, months, days)`, in the location of `t`. -/
def AddDate (t : Time) (years months days : Int) : Time :=
  Date (t.Year + years) (t.Month + months) (t.Day + days)
    t.Hour t.Minute t.Second t.Nanosecond t.offset

/-- Method `t.Add(d)` with `d` in nanoseconds.  The seconds do not wrap: beyond
the range of an `int64` they stay at its last second (`addSec`). -/
def Add (t : Time) (d : Int) : Time :=
  let sum := t.unixNano + d
  let sec := sum / 1000000000 + 62135596800
  if 9223372036854775807 < sec then
    { t with unixNano := (9223372036854775807 - 62135596800) * 1000000000 + sum % 1000000000 }
  else if sec < -9223372036854775808 then
    { t with unixNano := (-9223372036854775807 - 62135596800) * 1000000000 + sum % 1000000000 }
  else
    { t with unixNano := sum }

/-- The zero value `time.Time{}`: 0001-01-01T00:00:00Z. -/
def zero : Time := { unixNano := -62135596800000000000, offset := 0 }

end Time

/-! ## `github.com/jinzhu/now` -/

namespace now

/-- First instant of the month of `t`: `now.New(t).BeginningOfMonth()`. -/
def BeginningOfMonth (t : Time) : Time :=
  Date t.Year t.Month 1 0 0 0 0 t.offset

/-- Last nanosecond of the month of `t`: `now.New(t).EndOfMonth()`, which is
`BeginningOfMonth().AddDate(0, 1, 0).Add(-time.Nanosecond)`. -/
def EndOfMonth (t : Time) : Time :=
  ((BeginningOfMonth t).AddDate 0 1 0).Add (-1)

end now

/-! ## Errors -/

/-- Go `error` values, by their message. -/
abbrev Error := String

/-- Wrapper `errors.Wrap(err, message)`. -/
def Wrap (err : Error) (message : String) : Error := message ++ ": " ++ err

/-! ## `toggl/timereange.go` -/

/-- A timeRange defines a time range based on a given start and stop date. -/
structure timeRange where
  start : Time
  stop : Time
deriving DecidableEq, Repr

/-- Start returns the start date and time of the range. -/
def timeRange.Start (r : timeRange) : Time := r.start

/-- Stop returns the stop date and time of the range. -/
def timeRange.Stop (r : timeRange) : Time := r.stop

/-- Creates a new timeRange instance (`newTimeRange`). -/
def newTimeRange (start stop : Time) : Except Error timeRange :=
  if start.After stop then
    .error "The start date cannot be before the end date"
  else if stop.Equal start then
    .error "The start and end date cannot be the same"
  else
    .ok { start := start, stop := stop }

namespace fullMonthTimeRangeProvider

/-- The `for month.Before(end)` loop of `GetTimeRanges`.  `start` and `stop` are
the normalized bounds, `month` the loop variable and `ranges` the slice built so
far.  Each iteration uses one unit of `fuel`; `none` means that the fuel ran out
before the loop condition became false. -/
def rangesLoop (start stop : Time) : Nat → Time → List timeRange →
    Option (Except Error (List timeRange))
  | 0, _, _ => none
  | fuel + 1, month, ranges =>
    if month.Before stop then
      -- determine the start
      let isFirstMonthInRange := month.Year == start.Year && month.Month == start.Month
      let monthStart := if isFirstMonthInRange then start else now.BeginningOfMonth month
      -- determine the end
      let isLastMonthInRange := month.Year == stop.Year && month.Month == stop.Month
      let monthEnd := if isLastMonthInRange then stop else now.EndOfMonth month
      match newTimeRange monthStart monthEnd with
      | .error newRangeError =>
        some (.error (Wrap newRangeError "Failed to calculate time ranges"))
      | .ok monthRange =>
        -- make sure the next month starts at the beginning
        let month1 := if month.Day != 1 then now.BeginningOfMonth month else month
        -- next month
        rangesLoop start stop fuel (month1.AddDate 0 1 0) (ranges ++ [monthRange])
    else
      some (.ok ranges)

/-- Method `fullMonthTimeRangeProvider.GetTimeRanges(startDate, endDate)`, with the
fuel of its loop. -/
def GetTimeRanges (fuel : Nat) (startDate endDate : Time) :
    Option (Except Error (List timeRange)) :=
  -- normalize the time of the start and end date
  let start := Date startDate.Year startDate.Month startDate.Day 0 0 1 0 UTC
  let stop := Date endDate.Year endDate.Month endDate.Day 23 59 59 0 UTC
  -- validate start and end date
  if startDate.After endDate then
    some (.error "The start date cannot be before the end date")
  else
    rangesLoop start stop fuel start []

end fullMonthTimeRangeProvider

/-! ## `togglapi/model`: wire entities and the remote API -/

namespace model

/-- Project defines the key properties of a Toggl project. -/
structure Project where
  ID : Int
  WorkspaceID : Int
  ClientID : Int
  Name : String
deriving DecidableEq, Repr

/-- Workspace defines the key properties of a Toggl workspace. -/
structure Workspace where
  ID : Int
  Name : String
deriving DecidableEq, Repr

/-- TimeEntry represents a single Toggl time tracking record. -/
structure TimeEntry where
  ID : Int
  Wid : Int
  Pid : Int
  Start : Time
  Stop : Time
  Billable : Bool
  Description : String
  Tags : List String
  CreatedWith : String
deriving DecidableEq, Repr

/-- Client defines the key properties of a Toggl client. -/
structure Client where
  ID : Int
  WorkspaceID : Int
  Name : String
  Notes : String
deriving DecidableEq, Repr

/-- The TimeEntryAPI interface, over the state `σ` of whatever implements it. -/
structure TimeEntryAPI (σ : Type) where
  CreateTimeEntry : TimeEntry → σ → Except Error TimeEntry × σ
  GetTimeEntries : Time → Time → σ → Except Error (List TimeEntry) × σ

/-- The TogglAPI interface (WorkspaceAPI, ProjectAPI, TimeEntryAPI and ClientAPI
together), over the state `σ` of the remote service and its client. -/
structure TogglAPI (σ : Type) where
  GetWorkspaces : σ → Except Error (List Workspace) × σ
  CreateProject : Project → σ → Except Error Project × σ
  GetProjects : Int → σ → Except Error (List Project) × σ
  CreateTimeEntry : TimeEntry → σ → Except Error TimeEntry × σ
  GetTimeEntries : Time → Time → σ → Except Error (List TimeEntry) × σ
  CreateClient : Client → σ → Except Error Client × σ
  GetClients : σ → Except Error (List Client) × σ

end model

/-! ## Domain entities -/

/-- A Workspace defines a grouping for time reporting entries. -/
structure Workspace where
  ID : Int
  Name : String
deriving DecidableEq, Repr

/-- A Client describes a time reporting client. -/
structure Client where
  ID : Int
  Name : String
  Workspace : Workspace
deriving DecidableEq, Repr

/-- A Project describes a time reporting project. -/
structure Project where
  ID : Int
  Name : String
  Client : Client
  Workspace : Workspace
deriving DecidableEq, Repr

/-- TimeRecord represents a single time tracking record. -/
structure TimeRecord where
  WorkspaceName : String
  ProjectName : String
  ClientName : String
  Start : Time
  Stop : Time
  Description : String
  Tags : List String
deriving DecidableEq, Repr

/-- The zero value `Workspace{}`. -/
def Workspace.zero : Workspace := { ID := 0, Name := "" }

/-- The zero value `Client{}`. -/
def Client.zero : Client := { ID := 0, Name := "", Workspace := Workspace.zero }

/-- The zero value `Project{}`. -/
def Project.zero : Project :=
  { ID := 0, Name := "", Client := Client.zero, Workspace := Workspace.zero }

deriving instance DecidableEq for Except

/-! ## The entity repositories (`workspace.go`, `client.go`, `project.go`)

The three repositories of one process share the remote API; their caches and
the state of the remote make up one state. -/

/-- The caches of the WorkspaceRepository, ClientRepository and
ProjectRepository, and the state of the remote API they talk to.  An empty
cache is the `nil` slice: not populated. -/
structure Repositories (σ : Type) where
  remote : σ
  workspacesCache : List Workspace
  clientsCache : List Client
  projectsCache : List Project
deriving DecidableEq

namespace WorkspaceRepository

variable {σ : Type}

/-- GetWorkspaces returns all available workspaces. -/
def GetWorkspaces (api : model.TogglAPI σ) (s : Repositories σ) :
    Except Error (List Workspace) × Repositories σ :=
  if !s.workspacesCache.isEmpty then
    (.ok s.workspacesCache, s)
  else
    match api.GetWorkspaces s.remote with
    | (.error workspacesError, remote) =>
      (.error ("Failed to get workspaces from Toggl: " ++ workspacesError),
        { s with remote := remote })
    | (.ok workspaces, remote) =>
      let workspaceModels : List Workspace :=
        workspaces.map fun workspace => { ID := workspace.ID, Name := workspace.Name }
      -- store in cache
      (.ok workspaceModels, { s with remote := remote, workspacesCache := workspaceModels })

/-- GetWorkspaceByID returns the workspace for the given workspace id. -/
def GetWorkspaceByID (api : model.TogglAPI σ) (workspaceID : Int) (s : Repositories σ) :
    Except Error Workspace × Repositories σ :=
  match GetWorkspaces api s with
  | (.error workspacesError, s1) => (.error workspacesError, s1)
  | (.ok workspaces, s1) =>
    match workspaces.find? (fun workspace => workspace.ID == workspaceID) with
    | some workspace => (.ok workspace, s1)
    | none => (.error "unknown workspace", s1)

/-- GetWorkspaceByName returns the workspace for the given workspace name. -/
def GetWorkspaceByName (api : model.TogglAPI σ) (workspaceName : String)
    (s : Repositories σ) : Except Error Workspace × Repositories σ :=
  match GetWorkspaces api s with
  | (.error workspacesError, s1) => (.error workspacesError, s1)
  | (.ok workspaces, s1) =>
    match workspaces.find? (fun workspace => workspace.Name == workspaceName) with
    | some workspace => (.ok workspace, s1)
    | none => (.error "Workspace was not found", s1)

end WorkspaceRepository

namespace ClientRepository

variable {σ : Type}

/-- The `for _, client := range clients` loop of GetClients: resolves the
workspace of each client, appending to `clientModels`. -/
def GetClients.loop (api : model.TogglAPI σ) :
    List model.Client → List Client → Repositories σ →
      Except Error (List Client) × Repositories σ
  | [], clientModels, s => (.ok clientModels, s)
  | client :: rest, clientModels, s =>
    match WorkspaceRepository.GetWorkspaceByID api client.WorkspaceID s with
    | (.error workspaceErr, s1) =>
      (.error (Wrap workspaceErr "Failed to get workspace for client"), s1)
    | (.ok workspace, s1) =>
      GetClients.loop api rest
        (clientModels ++ [{ ID := client.ID, Name := client.Name, Workspace := workspace }]) s1

/-- GetClients returns all clients. -/
def GetClients (api : model.TogglAPI σ) (s : Repositories σ) :
    Except Error (List Client) × Repositories σ :=
  if !s.clientsCache.isEmpty then
    (.ok s.clientsCache, s)
  else
    match api.GetClients s.remote with
    | (.error clientsError, remote) =>
      (.error (Wrap clientsError "Failed to get clients from Toggl"), { s with remote := remote })
    | (.ok clients, remote) =>
      match GetClients.loop api clients [] { s with remote := remote } with
      | (.error err, s1) => (.error err, s1)
      | (.ok clientModels, s1) =>
        -- store in cache
        (.ok clientModels, { s1 with clientsCache := clientModels })

/-- GetClientByID returns the client for the given client id. -/
def GetClientByID (api : model.TogglAPI σ) (clientID : Int) (s : Repositories σ) :
    Except Error Client × Repositories σ :=
  match GetClients api s with
  | (.error clientsError, s1) => (.error clientsError, s1)
  | (.ok clients, s1) =>
    match clients.find? (fun client => client.ID == clientID) with
    | some client => (.ok client, s1)
    | none => (.error "No client found with id", s1)

/-- GetClientByName returns the client for the given client name. -/
def GetClientByName (api : model.TogglAPI σ) (workspaceName clientName : String)
    (s : Repositories σ) : Except Error Client × Repositories σ :=
  match GetClients api s with
  | (.error clientsError, s1) => (.error clientsError, s1)
  | (.ok clients, s1) =>
    match clients.find?
        (fun client => client.Workspace.Name == workspaceName && client.Name == clientName) with
    | some client => (.ok client, s1)
    | none => (.error "Client was not found", s1)

end ClientRepository

namespace ProjectRepository

variable {σ : Type}

/-- The `for _, projectModel := range projectsByWorkspace` loop of GetProjects:
resolves the client of each project of one workspace, appending to `projects`. -/
def GetProjects.inner (api : model.TogglAPI σ) (workspace : Workspace) :
    List model.Project → List Project → Repositories σ →
      Except Error (List Project) × Repositories σ
  | [], projects, s => (.ok projects, s)
  | projectModel :: rest, projects, s =>
    let clientID := projectModel.ClientID
    if clientID != 0 then
      match ClientRepository.GetClientByID api clientID s with
      | (.error clientByIDError, s1) => (.error (Wrap clientByIDError "Failed to get client"), s1)
      | (.ok clientByID, s1) =>
        GetProjects.inner api workspace rest
          (projects ++ [{ ID := projectModel.ID, Name := projectModel.Name,
                          Workspace := workspace, Client := clientByID }]) s1
    else
      GetProjects.inner api workspace rest
        (projects ++ [{ ID := projectModel.ID, Name := projectModel.Name,
                        Workspace := workspace, Client := Client.zero }]) s

/-- The `for _, workspace := range workspaces` loop of GetProjects: fetches the
projects of each workspace. -/
def GetProjects.outer (api : model.TogglAPI σ) :
    List Workspace → List Project → Repositories σ →
      Except Error (List Project) × Repositories σ
  | [], projects, s => (.ok projects, s)
  | workspace :: rest, projects, s =>
    match api.GetProjects workspace.ID s.remote with
    | (.error projectsByWorkspaceError, remote) =>
      (.error (Wrap projectsByWorkspaceError "Failed to get projects from Toggl"),
        { s with remote := remote })
    | (.ok projectsByWorkspace, remote) =>
      match GetProjects.inner api workspace projectsByWorkspace projects
          { s with remote := remote } with
      | (.error err, s1) => (.error err, s1)
      | (.ok projects1, s1) => GetProjects.outer api rest projects1 s1

/-- GetProjects returns all projects. -/
def GetProjects (api : model.TogglAPI σ) (s : Repositories σ) :
    Except Error (List Project) × Repositories σ :=
  if !s.projectsCache.isEmpty then
    (.ok s.projectsCache, s)
  else
    match WorkspaceRepository.GetWorkspaces api s with
    | (.error workspacesError, s1) =>
      (.error (Wrap workspacesError "Failed to retrieve workspaces"), s1)
    | (.ok workspaces, s1) =>
      match GetProjects.outer api workspaces [] s1 with
      | (.error err, s2) => (.error err, s2)
      | (.ok projects, s2) =>
        -- store in cache
        (.ok projects, { s2 with projectsCache := projects })

/-- GetProjectByID returns the project for the given project id. -/
def GetProjectByID (api : model.TogglAPI σ) (projectID : Int) (s : Repositories σ) :
    Except Error Project × Repositories σ :=
  match GetProjects api s with
  | (.error projectsError, s1) => (.error projectsError, s1)
  | (.ok projects, s1) =>
    match projects.find? (fun project => project.ID == projectID) with
    | some project => (.ok project, s1)
    | none => (.error "No project found with id", s1)

/-- GetProjectByName returns the project for the given project name. -/
def GetProjectByName (api : model.TogglAPI σ) (projectName workspaceName clientName : String)
    (s : Repositories σ) : Except Error Project × Repositories σ :=
  match GetProjects api s with
  | (.error projectsError, s1) => (.error projectsError, s1)
  | (.ok projects, s1) =>
    match projects.find? (fun project =>
        project.Name == projectName && project.Workspace.Name == workspaceName
          && project.Client.Name == clientName) with
    | some project => (.ok project, s1)
    | none => (.error "Project was not found", s1)

end ProjectRepository

/-! ## `toggl/modelconverter.go` -/

namespace togglModelConverter

variable {σ : Type}

/-- ConvertTimeRecordToTimeEntry converts the given TimeRecord model into a
TimeEntry model. -/
def ConvertTimeRecordToTimeEntry (api : model.TogglAPI σ) (timeRecord : TimeRecord)
    (s : Repositories σ) : Except Error model.TimeEntry × Repositories σ :=
  -- lookup the workspace
  match WorkspaceRepository.GetWorkspaceByName api timeRecord.WorkspaceName s with
  | (.error workspaceError, s1) =>
    (.error (Wrap workspaceError "Cannot convert time record to time entry."), s1)
  | (.ok workspace, s1) =>
    -- lookup the project
    match ProjectRepository.GetProjectByName api timeRecord.ProjectName
        timeRecord.WorkspaceName timeRecord.ClientName s1 with
    | (.error projectError, s2) =>
      (.error (Wrap projectError "Cannot convert time record to time entry."), s2)
    | (.ok project, s2) =>
      -- create the time entry
      (.ok { ID := 0, Wid := workspace.ID, Pid := project.ID,
             Start := timeRecord.Start, Stop := timeRecord.Stop, Billable := false,
             Description := timeRecord.Description, Tags := timeRecord.Tags,
             CreatedWith := "" }, s2)

/-- ConvertTimeEntryToTimeRecord converts the given TimeEntry model into a
TimeRecord model. -/
def ConvertTimeEntryToTimeRecord (api : model.TogglAPI σ) (timeEntry : model.TimeEntry)
    (s : Repositories σ) : Except Error TimeRecord × Repositories σ :=
  -- workspace
  match WorkspaceRepository.GetWorkspaceByID api timeEntry.Wid s with
  | (.error _, s1) => (.error "No workspace found with ID", s1)
  | (.ok workspace, s1) =>
    let record (project : Project) (client : Client) : TimeRecord :=
      { WorkspaceName := workspace.Name, ProjectName := project.Name,
        ClientName := client.Name, Start := timeEntry.Start, Stop := timeEntry.Stop,
        Tags := timeEntry.Tags, Description := timeEntry.Description }
    -- project + client (optional)
    let projectID := timeEntry.Pid
    if projectID != 0 then
      -- load the project
      match ProjectRepository.GetProjectByID api projectID s1 with
      | (.error projectByIDError, s2) =>
        (.error (Wrap projectByIDError "No project found with ID"), s2)
      | (.ok project, s2) =>
        -- load the client id
        let clientID := project.Client.ID
        if clientID != 0 then
          match ClientRepository.GetClientByID api clientID s2 with
          | (.error clientByIDError, s3) =>
            (.error (Wrap clientByIDError "No client found with ID"), s3)
          | (.ok client, s3) => (.ok (record project client), s3)
        else
          (.ok (record project Client.zero), s2)
    else
      (.ok (record Project.zero Client.zero), s1)

end togglModelConverter

/-! ## `toggl/timerecord.go` -/

/-- The timeRangeProvider interface. -/
structure timeRangeProvider (σ : Type) where
  GetTimeRanges : Time → Time → σ → Except Error (List timeRange) × σ

/-- The modelConverter interface. -/
structure modelConverter (σ : Type) where
  ConvertTimeEntryToTimeRecord : model.TimeEntry → σ → Except Error TimeRecord × σ
  ConvertTimeRecordToTimeEntry : TimeRecord → σ → Except Error model.TimeEntry × σ

/-- The Workspacer interface. -/
structure Workspacer (σ : Type) where
  CreateWorkspace : String → σ → Except Error Workspace × σ
  GetWorkspaces : σ → Except Error (List Workspace) × σ
  GetWorkspaceByID : Int → σ → Except Error Workspace × σ
  GetWorkspaceByName : String → σ → Except Error Workspace × σ

/-- The Projecter interface. -/
structure Projecter (σ : Type) where
  CreateProject : String → String → String → σ → Except Error Project × σ
  GetProjects : σ → Except Error (List Project) × σ
  GetProjectByID : Int → σ → Except Error Project × σ
  GetProjectByName : String → String → String → σ → Except Error Project × σ

/-- TimeRecordRepository provides read/write access to the Toggl time records.
Its collaborators are interface values; they act on one shared state `σ`. -/
structure TimeRecordRepository (σ : Type) where
  timeEntryAPI : model.TimeEntryAPI σ
  timeRangeProvider : timeRangeProvider σ
  workspaces : Workspacer σ
  projects : Projecter σ
  modelConverter : modelConverter σ

namespace TimeRecordRepository

variable {σ : Type}

/-- The `for _, timeEntry := range timeEntries` loop of getTimeRecords, with
`records` the slice built so far. -/
def getTimeRecords.loop (repository : TimeRecordRepository σ) :
    List model.TimeEntry → List TimeRecord → σ → Except Error (List TimeRecord) × σ
  | [], records, s => (.ok records, s)
  | timeEntry :: rest, records, s =>
    -- skip entries without project
    if timeEntry.Pid == 0 then
      getTimeRecords.loop repository rest records s
    -- skip running entries
    else if timeEntry.Stop.Equal Time.zero then
      getTimeRecords.loop repository rest records s
    else
      match repository.modelConverter.ConvertTimeEntryToTimeRecord timeEntry s with
      | (.error conversionError, s1) =>
        (.error (Wrap conversionError "Failed to convert time entry"), s1)
      | (.ok timeRecord, s1) =>
        getTimeRecords.loop repository rest (records ++ [timeRecord]) s1

/-- Method getTimeRecords: all time records from the given start date until the
given stop date, in one request. -/
def getTimeRecords (repository : TimeRecordRepository σ) (start stop : Time) (s : σ) :
    Except Error (List TimeRecord) × σ :=
  match repository.timeEntryAPI.GetTimeEntries start stop s with
  | (.error err, s1) => (.error err, s1)
  | (.ok timeEntries, s1) => getTimeRecords.loop repository timeEntries [] s1

/-- The `for _, monthRange := range rangesSinceStartDate` loop of GetTimeRecords,
with `timeRecords` the slice built so far. -/
def GetTimeRecords.loop (repository : TimeRecordRepository σ) :
    List timeRange → List TimeRecord → σ → Except Error (List TimeRecord) × σ
  | [], timeRecords, s => (.ok timeRecords, s)
  | monthRange :: rest, timeRecords, s =>
    -- get the records for the current chunk
    match getTimeRecords repository monthRange.Start monthRange.Stop s with
    | (.error timeRecordsError, s1) => (.error timeRecordsError, s1)
    | (.ok records, s1) => GetTimeRecords.loop repository rest (timeRecords ++ records) s1

/-- GetTimeRecords returns all time records from the given start date until the
given stop date. -/
def GetTimeRecords (repository : TimeRecordRepository σ) (start stop : Time) (s : σ) :
    Except Error (List TimeRecord) × σ :=
  if start.After stop then
    (.error "The start date cannot be before the stop date", s)
  else
    -- fetch the records in monthly chunks
    match repository.timeRangeProvider.GetTimeRanges start stop s with
    | (.error timeRangeError, s1) => (.error timeRangeError, s1)
    | (.ok rangesSinceStartDate, s1) => GetTimeRecords.loop repository rangesSinceStartDate [] s1

end TimeRecordRepository

/-! ## Creating entities (`workspace.go`, `client.go`, `project.go`) -/

/-- CreateWorkspace creates a new Toggl workspace: not supported by the Toggl API. -/
def WorkspaceRepository.CreateWorkspace {σ : Type} (_api : model.TogglAPI σ) (_name : String)
    (s : Repositories σ) : Except Error Workspace × Repositories σ :=
  (.error "Creating workspaces is unfortunately not supported by the Toggl API.", s)

/-- CreateClient creates a new client with the given name. -/
def ClientRepository.CreateClient {σ : Type} (api : model.TogglAPI σ) (workspaceID : Int)
    (name : String) (s : Repositories σ) : Except Error Client × Repositories σ :=
  match WorkspaceRepository.GetWorkspaceByID api workspaceID s with
  | (.error workspaceError, s1) =>
    (.error (Wrap workspaceError "Failed to get workspace with id"), s1)
  | (.ok workspace, s1) =>
    match api.CreateClient { ID := 0, WorkspaceID := workspace.ID, Name := name, Notes := "" }
        s1.remote with
    | (.error err, remote) => (.error err, { s1 with remote := remote })
    | (.ok createdClient, remote) =>
      -- reset the clients cache
      (.ok { ID := createdClient.ID, Name := createdClient.Name, Workspace := workspace },
        { s1 with remote := remote, clientsCache := [] })

/-- The end of CreateProject: the create request for the project with the client
decided before, the reset of the projects cache and the returned project. -/
def ProjectRepository.CreateProject.submit {σ : Type} (api : model.TogglAPI σ)
    (projectName : String) (workspace : Workspace) (client : Client) (s : Repositories σ) :
    Except Error Project × Repositories σ :=
  match api.CreateProject
      { ID := 0, WorkspaceID := workspace.ID, ClientID := client.ID, Name := projectName }
      s.remote with
  | (.error createClientError, remote) => (.error createClientError, { s with remote := remote })
  | (.ok createdProject, remote) =>
    -- reset the projects cache
    (.ok { ID := createdProject.ID, Name := createdProject.Name, Workspace := workspace,
           Client := client },
      { s with remote := remote, projectsCache := [] })

/-- CreateProject creates a new project with the given name. -/
def ProjectRepository.CreateProject {σ : Type} (api : model.TogglAPI σ)
    (projectName workspaceName clientName : String) (s : Repositories σ) :
    Except Error Project × Repositories σ :=
  match WorkspaceRepository.GetWorkspaceByName api workspaceName s with
  | (.error workspaceError, s1) => (.error (Wrap workspaceError "Failed to get workspace"), s1)
  | (.ok workspace, s1) =>
    if clientName != "" then
      match ClientRepository.GetClientByName api workspaceName clientName s1 with
      | (.error _, s2) =>
        match ClientRepository.CreateClient api workspace.ID clientName s2 with
        | (.error createClientError, s3) =>
          (.error (Wrap createClientError "Failed to create client"), s3)
        | (.ok createdClient, s3) =>
          ProjectRepository.CreateProject.submit api projectName workspace createdClient s3
      | (.ok existingClient, s2) =>
        ProjectRepository.CreateProject.submit api projectName workspace existingClient s2
    else
      ProjectRepository.CreateProject.submit api projectName workspace Client.zero s1

/-! ## The repositories as interface values -/

/-- The Clienter interface. -/
structure Clienter (σ : Type) where
  CreateClient : Int → String → σ → Except Error Client × σ
  GetClients : σ → Except Error (List Client) × σ
  GetClientByID : Int → σ → Except Error Client × σ
  GetClientByName : String → String → σ → Except Error Client × σ

/-- NewWorkspaceRepository creates a new workspace provider instance. -/
def NewWorkspaceRepository {σ : Type} (api : model.TogglAPI σ) : Workspacer (Repositories σ) where
  CreateWorkspace := WorkspaceRepository.CreateWorkspace api
  GetWorkspaces := WorkspaceRepository.GetWorkspaces api
  GetWorkspaceByID := WorkspaceRepository.GetWorkspaceByID api
  GetWorkspaceByName := WorkspaceRepository.GetWorkspaceByName api

/-- NewClientRepository creates a new client repository instance (over the
workspace repository of the same API). -/
def NewClientRepository {σ : Type} (api : model.TogglAPI σ) : Clienter (Repositories σ) where
  CreateClient := ClientRepository.CreateClient api
  GetClients := ClientRepository.GetClients api
  GetClientByID := ClientRepository.GetClientByID api
  GetClientByName := ClientRepository.GetClientByName api

/-- NewProjectRepository creates a new project repository instance (over the
workspace and client repositories of the same API). -/
def NewProjectRepository {σ : Type} (api : model.TogglAPI σ) : Projecter (Repositories σ) where
  CreateProject := ProjectRepository.CreateProject api
  GetProjects := ProjectRepository.GetProjects api
  GetProjectByID := ProjectRepository.GetProjectByID api
  GetProjectByName := ProjectRepository.GetProjectByName api

/-! ## The model converter over interface values

The struct `togglModelConverter` holds a Workspacer, a Projecter and a Clienter.
`TogglModelConverter` is that struct with arbitrary interface values; the two
functions of namespace `togglModelConverter` above are its two methods with the
three repositories of one API as collaborators (`ConvertTimeRecordToTimeEntry_wired`,
`ConvertTimeEntryToTimeRecord_wired`). -/

/-- The struct togglModelConverter: converts TimeEntry models into TimeRecord
models and vice versa. -/
structure TogglModelConverter (σ : Type) where
  workspaces : Workspacer σ
  projects : Projecter σ
  clients : Clienter σ

namespace TogglModelConverter

variable {σ : Type}

/-- ConvertTimeRecordToTimeEntry converts the given TimeRecord model into a
TimeEntry model. -/
def ConvertTimeRecordToTimeEntry (converter : TogglModelConverter σ) (timeRecord : TimeRecord)
    (s : σ) : Except Error model.TimeEntry × σ :=
  -- lookup the workspace
  match converter.workspaces.GetWorkspaceByName timeRecord.WorkspaceName s with
  | (.error workspaceError, s1) =>
    (.error (Wrap workspaceError "Cannot convert time record to time entry."), s1)
  | (.ok workspace, s1) =>
    -- lookup the project
    match converter.projects.GetProjectByName timeRecord.ProjectName
        timeRecord.WorkspaceName timeRecord.ClientName s1 with
    | (.error projectError, s2) =>
      (.error (Wrap projectError "Cannot convert time record to time entry."), s2)
    | (.ok project, s2) =>
      -- create the time entry
      (.ok { ID := 0, Wid := workspace.ID, Pid := project.ID,
             Start := timeRecord.Start, Stop := timeRecord.Stop, Billable := false,
             Description := timeRecord.Description, Tags := timeRecord.Tags,
             CreatedWith := "" }, s2)

/-- ConvertTimeEntryToTimeRecord converts the given TimeEntry model into a
TimeRecord model. -/
def ConvertTimeEntryToTimeRecord (converter : TogglModelConverter σ)
    (timeEntry : model.TimeEntry) (s : σ) : Except Error TimeRecord × σ :=
  -- workspace
  match converter.workspaces.GetWorkspaceByID timeEntry.Wid s with
  | (.error _, s1) => (.error "No workspace found with ID", s1)
  | (.ok workspace, s1) =>
    let record (project : Project) (client : Client) : TimeRecord :=
      { WorkspaceName := workspace.Name, ProjectName := project.Name,
        ClientName := client.Name, Start := timeEntry.Start, Stop := timeEntry.Stop,
        Tags := timeEntry.Tags, Description := timeEntry.Description }
    -- project + client (optional)
    let projectID := timeEntry.Pid
    if projectID != 0 then
      -- load the project
      match converter.projects.GetProjectByID projectID s1 with
      | (.error projectByIDError, s2) =>
        (.error (Wrap projectByIDError "No project found with ID"), s2)
      | (.ok project, s2) =>
        -- load the client id
        let clientID := project.Client.ID
        if clientID != 0 then
          match converter.clients.GetClientByID clientID s2 with
          | (.error clientByIDError, s3) =>
            (.error (Wrap clientByIDError "No client found with ID"), s3)
          | (.ok client, s3) => (.ok (record project client), s3)
        else
          (.ok (record project Client.zero), s2)
    else
      (.ok (record Project.zero Client.zero), s1)

/-- The converter as a value of the modelConverter interface. -/
def asModelConverter (converter : TogglModelConverter σ) : modelConverter σ where
  ConvertTimeEntryToTimeRecord := converter.ConvertTimeEntryToTimeRecord
  ConvertTimeRecordToTimeEntry := converter.ConvertTimeRecordToTimeEntry

end TogglModelConverter

/-! ## Creating a time record (`toggl/timerecord.go`) -/

namespace TimeRecordRepository

variable {σ : Type}

/-- The end of CreateTimeRecord, once the project exists: converts the record and
submits the time entry.  A Go `error` result is `Except Error Unit`: `.ok ()` is
`nil`. -/
def CreateTimeRecord.submit (repository : TimeRecordRepository σ) (timeRecord : TimeRecord)
    (s : σ) : Except Error Unit × σ :=
  match repository.modelConverter.ConvertTimeRecordToTimeEntry timeRecord s with
  | (.error conversionError, s1) =>
    (.error (Wrap conversionError "Failed to convert the given time record"), s1)
  | (.ok timeEntry, s1) =>
    match repository.timeEntryAPI.CreateTimeEntry timeEntry s1 with
    | (.error createError, s2) => (.error (Wrap createError "Failed to create time record"), s2)
    | (.ok _, s2) => (.ok (), s2)

/-- CreateTimeRecord creates a new time record. -/
def CreateTimeRecord (repository : TimeRecordRepository σ) (timeRecord : TimeRecord) (s : σ) :
    Except Error Unit × σ :=
  -- create the project if it does not exist
  match repository.projects.GetProjectByName timeRecord.ProjectName timeRecord.WorkspaceName
      timeRecord.ClientName s with
  | (.error _, s1) =>
    match repository.projects.CreateProject timeRecord.ProjectName timeRecord.WorkspaceName
        timeRecord.ClientName s1 with
    | (.error createProjectError, s2) =>
      (.error (Wrap createProjectError "Failed to create project for time record"), s2)
    | (.ok _, s2) => CreateTimeRecord.submit repository timeRecord s2
  | (.ok _, s1) => CreateTimeRecord.submit repository timeRecord s1

end TimeRecordRepository

/-- The time range provider of NewTimeRecordRepository: the
fullMonthTimeRangeProvider, run with fuel for one iteration more than the number
of months between the two dates, which is enough when the years of the two dates
are at most 292277024626 (see `GetTimeRanges_eq`); where the fuel runs out the
provider gives an error. -/
def fullMonthTimeRangeProvider.provider {σ : Type} : timeRangeProvider σ where
  GetTimeRanges := fun startDate endDate s =>
    ((fullMonthTimeRangeProvider.GetTimeRanges
        ((12 * (endDate.Year - startDate.Year) + (endDate.Month - startDate.Month) + 1).toNat + 1)
        startDate endDate).getD (.error "The time ranges could not be calculated"), s)

/-- NewTimeRecordRepository creates a new time record repository instance, here
over the three repositories of the API that also serves the time entries, as
`main.go` wires them. -/
def NewTimeRecordRepository {σ : Type} (api : model.TogglAPI σ) :
    TimeRecordRepository (Repositories σ) where
  timeEntryAPI :=
    { CreateTimeEntry := fun timeEntry s =>
        ((api.CreateTimeEntry timeEntry s.remote).1,
          { s with remote := (api.CreateTimeEntry timeEntry s.remote).2 })
      GetTimeEntries := fun start stop s =>
        ((api.GetTimeEntries start stop s.remote).1,
          { s with remote := (api.GetTimeEntries start stop s.remote).2 }) }
  timeRangeProvider := fullMonthTimeRangeProvider.provider
  workspaces := NewWorkspaceRepository api
  projects := NewProjectRepository api
  modelConverter :=
    { workspaces := NewWorkspaceRepository api, projects := NewProjectRepository api,
      clients := NewClientRepository api : TogglModelConverter (Repositories σ) }.asModelConverter

/-! ## Observing the collaborators of the TimeRecordRepository

To state which calls a run makes, the collaborators are wrapped so that each call
appends a record of its arguments and its answer to a log kept in the state.  The
wrapped collaborators answer as the original ones do (`recording_GetTimeRecords`). -/

/-- One call received by a collaborator of the TimeRecordRepository, with the
answer it gave. -/
inductive Call where
  | GetTimeRanges (start stop : Time) (result : Except Error (List timeRange))
  | GetTimeEntries (start stop : Time) (result : Except Error (List model.TimeEntry))
  | CreateTimeEntry (timeEntry : model.TimeEntry) (result : Except Error model.TimeEntry)
  | ConvertTimeEntryToTimeRecord (timeEntry : model.TimeEntry)
      (result : Except Error TimeRecord)
  | ConvertTimeRecordToTimeEntry (timeRecord : TimeRecord)
      (result : Except Error model.TimeEntry)
  | CreateProject (projectName workspaceName clientName : String)
      (result : Except Error Project)
  | GetProjectByName (projectName workspaceName clientName : String)
      (result : Except Error Project)
  | other
deriving DecidableEq

/-- The call answered with an error. -/
def Call.failed : Call → Bool
  | .GetTimeRanges _ _ (.error _) => true
  | .GetTimeEntries _ _ (.error _) => true
  | .CreateTimeEntry _ (.error _) => true
  | .ConvertTimeEntryToTimeRecord _ (.error _) => true
  | .ConvertTimeRecordToTimeEntry _ (.error _) => true
  | .CreateProject _ _ _ (.error _) => true
  | .GetProjectByName _ _ _ (.error _) => true
  | _ => false

/-- Runs a collaborator call on the wrapped state and appends its record to the log. -/
def logged {σ α : Type} (call : σ → Except Error α × σ) (entry : Except Error α → Call)
    (s : σ × List Call) : Except Error α × (σ × List Call) :=
  let r := call s.1
  (r.1, (r.2, s.2 ++ [entry r.1]))

/-- The same repository with every collaborator recording its calls. -/
def TimeRecordRepository.recording {σ : Type} (repository : TimeRecordRepository σ) :
    TimeRecordRepository (σ × List Call) where
  timeEntryAPI :=
    { CreateTimeEntry := fun timeEntry =>
        logged (repository.timeEntryAPI.CreateTimeEntry timeEntry) (.CreateTimeEntry timeEntry)
      GetTimeEntries := fun start stop =>
        logged (repository.timeEntryAPI.GetTimeEntries start stop) (.GetTimeEntries start stop) }
  timeRangeProvider :=
    { GetTimeRanges := fun start stop =>
        logged (repository.timeRangeProvider.GetTimeRanges start stop)
          (.GetTimeRanges start stop) }
  workspaces :=
    { CreateWorkspace := fun name =>
        logged (repository.workspaces.CreateWorkspace name) (fun _ => .other)
      GetWorkspaces := logged repository.workspaces.GetWorkspaces (fun _ => .other)
      GetWorkspaceByID := fun workspaceID =>
        logged (repository.workspaces.GetWorkspaceByID workspaceID) (fun _ => .other)
      GetWorkspaceByName := fun workspaceName =>
        logged (repository.workspaces.GetWorkspaceByName workspaceName) (fun _ => .other) }
  projects :=
    { CreateProject := fun projectName workspaceName clientName =>
        logged (repository.projects.CreateProject projectName workspaceName clientName)
          (.CreateProject projectName workspaceName clientName)
      GetProjects := logged repository.projects.GetProjects (fun _ => .other)
      GetProjectByID := fun projectID =>
        logged (repository.projects.GetProjectByID projectID) (fun _ => .other)
      GetProjectByName := fun projectName workspaceName clientName =>
        logged (repository.projects.GetProjectByName projectName workspaceName clientName)
          (.GetProjectByName projectName workspaceName clientName) }
  modelConverter :=
    { ConvertTimeEntryToTimeRecord := fun timeEntry =>
        logged (repository.modelConverter.ConvertTimeEntryToTimeRecord timeEntry)
          (.ConvertTimeEntryToTimeRecord timeEntry)
      ConvertTimeRecordToTimeEntry := fun timeRecord =>
        logged (repository.modelConverter.ConvertTimeRecordToTimeEntry timeRecord)
          (.ConvertTimeRecordToTimeEntry timeRecord) }

/-- The (start, stop) arguments of the GetTimeEntries calls of a log, in call order. -/
def fetchCalls : List Call → List (Time × Time)
  | [] => []
  | .GetTimeEntries start stop _ :: log => (start, stop) :: fetchCalls log
  | _ :: log => fetchCalls log

/-- The time entries returned by the GetTimeEntries calls of a log, concatenated
in call order. -/
def fetchedEntries : List Call → List model.TimeEntry
  | [] => []
  | .GetTimeEntries _ _ (.ok timeEntries) :: log => timeEntries ++ fetchedEntries log
  | _ :: log => fetchedEntries log

/-- The time entries passed to ConvertTimeEntryToTimeRecord, in call order. -/
def convertCalls : List Call → List model.TimeEntry
  | [] => []
  | .ConvertTimeEntryToTimeRecord timeEntry _ :: log => timeEntry :: convertCalls log
  | _ :: log => convertCalls log

/-- The successful ConvertTimeEntryToTimeRecord calls of a log: each entry with
the record it was converted to, in call order. -/
def conversions : List Call → List (model.TimeEntry × TimeRecord)
  | [] => []
  | .ConvertTimeEntryToTimeRecord timeEntry (.ok timeRecord) :: log =>
    (timeEntry, timeRecord) :: conversions log
  | _ :: log => conversions log

/-- The entries that getTimeRecords does not skip: those with a project and a
stop time. -/
def isFinishedProjectEntry (timeEntry : model.TimeEntry) : Bool :=
  !(timeEntry.Pid == 0) && !(timeEntry.Stop.Equal Time.zero)

/-! ## Observing the repositories behind the model converter -/

/-- One call received by a Workspacer, Projecter or Clienter. -/
inductive RepositoryCall where
  | CreateWorkspace (name : String)
  | GetWorkspaces
  | GetWorkspaceByID (workspaceID : Int)
  | GetWorkspaceByName (workspaceName : String)
  | CreateProject (projectName workspaceName clientName : String)
  | GetProjects
  | GetProjectByID (projectID : Int)
  | GetProjectByName (projectName workspaceName clientName : String)
  | CreateClient (workspaceID : Int) (name : String)
  | GetClients
  | GetClientByID (clientID : Int)
  | GetClientByName (workspaceName clientName : String)
deriving DecidableEq

/-- The call is a Create operation of one of the repositories. -/
def RepositoryCall.isCreate : RepositoryCall → Bool
  | .CreateWorkspace _ => true
  | .CreateProject _ _ _ => true
  | .CreateClient _ _ => true
  | _ => false

/-- Runs a repository call on the wrapped state and appends its record to the log. -/
def noted {σ α : Type} (call : σ → Except Error α × σ) (entry : RepositoryCall)
    (s : σ × List RepositoryCall) : Except Error α × (σ × List RepositoryCall) :=
  ((call s.1).1, ((call s.1).2, s.2 ++ [entry]))

/-- The same converter with its three repositories recording their calls. -/
def TogglModelConverter.recording {σ : Type} (converter : TogglModelConverter σ) :
    TogglModelConverter (σ × List RepositoryCall) where
  workspaces :=
    { CreateWorkspace := fun name =>
        noted (converter.workspaces.CreateWorkspace name) (.CreateWorkspace name)
      GetWorkspaces := noted converter.workspaces.GetWorkspaces .GetWorkspaces
      GetWorkspaceByID := fun workspaceID =>
        noted (converter.workspaces.GetWorkspaceByID workspaceID) (.GetWorkspaceByID workspaceID)
      GetWorkspaceByName := fun workspaceName =>
        noted (converter.workspaces.GetWorkspaceByName workspaceName)
          (.GetWorkspaceByName workspaceName) }
  projects :=
    { CreateProject := fun projectName workspaceName clientName =>
        noted (converter.projects.CreateProject projectName workspaceName clientName)
          (.CreateProject projectName workspaceName clientName)
      GetProjects := noted converter.projects.GetProjects .GetProjects
      GetProjectByID := fun projectID =>
        noted (converter.projects.GetProjectByID projectID) (.GetProjectByID projectID)
      GetProjectByName := fun projectName workspaceName clientName =>
        noted (converter.projects.GetProjectByName projectName workspaceName clientName)
          (.GetProjectByName projectName workspaceName clientName) }
  clients :=
    { CreateClient := fun workspaceID name =>
        noted (converter.clients.CreateClient workspaceID name) (.CreateClient workspaceID name)
      GetClients := noted converter.clients.GetClients .GetClients
      GetClientByID := fun clientID =>
        noted (converter.clients.GetClientByID clientID) (.GetClientByID clientID)
      GetClientByName := fun workspaceName clientName =>
        noted (converter.clients.GetClientByName workspaceName clientName)
          (.GetClientByName workspaceName clientName) }

/-! ## Observing the remote API -/

/-- One request received by the remote API, with the answer it gave. -/
inductive RemoteCall where
  | GetWorkspaces (result : Except Error (List model.Workspace))
  | CreateProject (project : model.Project) (result : Except Error model.Project)
  | GetProjects (workspaceID : Int) (result : Except Error (List model.Project))
  | CreateTimeEntry (timeEntry : model.TimeEntry) (result : Except Error model.TimeEntry)
  | GetTimeEntries (start stop : Time) (result : Except Error (List model.TimeEntry))
  | CreateClient (client : model.Client) (result : Except Error model.Client)
  | GetClients (result : Except Error (List model.Client))
deriving DecidableEq

/-- The request creates an entity (a client, a project or a time entry). -/
def RemoteCall.isCreate : RemoteCall → Bool
  | .CreateProject _ _ => true
  | .CreateTimeEntry _ _ => true
  | .CreateClient _ _ => true
  | _ => false

/-- The create requests of a log, in the order they were issued. -/
def creations (log : List RemoteCall) : List RemoteCall :=
  log.filter RemoteCall.isCreate

/-- The number of requests to the workspace listing endpoint. -/
def workspaceListings (log : List RemoteCall) : Nat :=
  (log.filter fun call => match call with | .GetWorkspaces _ => true | _ => false).length

/-- The number of requests to the client listing endpoint. -/
def clientListings (log : List RemoteCall) : Nat :=
  (log.filter fun call => match call with | .GetClients _ => true | _ => false).length

/-- The number of requests to the project listing endpoint. -/
def projectListings (log : List RemoteCall) : Nat :=
  (log.filter fun call => match call with | .GetProjects _ _ => true | _ => false).length

/-- Runs a request on the wrapped remote state and appends its record to the log. -/
def traced {σ α : Type} (call : σ → Except Error α × σ) (entry : Except Error α → RemoteCall)
    (s : σ × List RemoteCall) : Except Error α × (σ × List RemoteCall) :=
  ((call s.1).1, ((call s.1).2, s.2 ++ [entry (call s.1).1]))

/-- The same API recording the requests it receives. -/
def model.TogglAPI.recording {σ : Type} (api : model.TogglAPI σ) :
    model.TogglAPI (σ × List RemoteCall) where
  GetWorkspaces := traced api.GetWorkspaces .GetWorkspaces
  CreateProject := fun project => traced (api.CreateProject project) (.CreateProject project)
  GetProjects := fun workspaceID =>
    traced (api.GetProjects workspaceID) (.GetProjects workspaceID)
  CreateTimeEntry := fun timeEntry =>
    traced (api.CreateTimeEntry timeEntry) (.CreateTimeEntry timeEntry)
  GetTimeEntries := fun start stop =>
    traced (api.GetTimeEntries start stop) (.GetTimeEntries start stop)
  CreateClient := fun client => traced (api.CreateClient client) (.CreateClient client)
  GetClients := traced api.GetClients .GetClients

/-- The answer of a lookup in the list of a GetAll call, by the key predicate
`p`: the state is the one GetAll left; if GetAll failed the lookup fails; else
the result is the first entity of the list that matches, and an error exactly
when no entity of the list matches. -/
def LookupIn {α σ : Type} (p : α → Prop) (all : Except Error (List α) × σ)
    (result : Except Error α × σ) : Prop :=
  result.2 = all.2 ∧
  match all.1 with
  | .error _ => ∃ e, result.1 = .error e
  | .ok list =>
    (∀ x, result.1 = .ok x ↔
      ∃ before after, list = before ++ x :: after ∧ p x ∧ ∀ y ∈ before, ¬ p y)
    ∧ ((∃ e, result.1 = .error e) ↔ ∀ y ∈ list, ¬ p y)

/-! ## Notions used in the statements -/

/-- A date of the calendar: month 1 to 12, day 1 to the length of the month. -/
def validDate (y m d : Int) : Prop :=
  1 ≤ m ∧ m ≤ 12 ∧ 1 ≤ d ∧ d ≤ daysIn m (isLeap y)

/-- Months are numbered consecutively: month `m` of year `y` is month number
`12 * y + (m - 1)`.  `firstDay i` is the day count of the first day of month
number `i`. -/
def firstDay (i : Int) : Int := daysUpTo (i / 12) (i % 12 + 1) 1

/-- The months all of whose days lie inside both 64-bit second counts of package
`time`: month number `i` from March of the year -292277022400, where the unsigned
count of the methods starts, to January of the year 292277024627, in the December
of which the signed count of `time.Time` ends. -/
def safeMonth (i : Int) : Prop := 12 * -292277022400 + 2 ≤ i ∧ i ≤ 12 * 292277024627

/-- The normalized start of GetTimeRanges: the calendar day of `startDate` at
00:00:01 UTC. -/
def normalizedStart (startDate : Time) : Time :=
  Date startDate.Year startDate.Month startDate.Day 0 0 1 0 UTC

/-- The normalized end of GetTimeRanges: the calendar day of `endDate` at
23:59:59 UTC. -/
def normalizedEnd (endDate : Time) : Time :=
  Date endDate.Year endDate.Month endDate.Day 23 59 59 0 UTC

/-- Number of calendar months from the month of `startDate` to the month of
`endDate`, both included. -/
def monthCount (startDate endDate : Time) : Int :=
  12 * (endDate.Year - startDate.Year) + (endDate.Month - startDate.Month) + 1

/-- Lower bound of the range of the `k`-th month counted from the month of
`startDate`: the normalized start in the first month, the first instant of the
month otherwise. -/
def chunkStart (startDate : Time) (k : Nat) : Time :=
  if k = 0 then normalizedStart startDate
  else Date startDate.Year (startDate.Month + k) 1 0 0 0 0 UTC

/-- Upper bound of the range of the `k`-th month out of `n`: the normalized end
in the last month, the last nanosecond before the next month otherwise. -/
def chunkStop (startDate endDate : Time) (n k : Nat) : Time :=
  if k + 1 = n then normalizedEnd endDate
  else (Date startDate.Year (startDate.Month + k + 1) 1 0 0 0 0 UTC).Add (-1)

/-- The ranges by calendar month between two dates, in closed form: one range
per month from the month of `startDate` to the month of `endDate` when the
calendar day of `startDate` is not after the calendar day of `endDate`, and no
range otherwise. -/
def monthlyRanges (startDate endDate : Time) : List timeRange :=
  if startDate.days ≤ endDate.days then
    (List.range (monthCount startDate endDate).toNat).map fun k =>
      { start := chunkStart startDate k,
        stop := chunkStop startDate endDate (monthCount startDate endDate).toNat k }
  else []

/-- State of the loop of GetTimeRanges at the start of iteration `k` (from 0):
the loop variable `month` is a UTC time, its seconds within the range of
`time.Time`, in the `k`-th month counted from the month of `startDate`; it is the
normalized start in iteration 0 and the first day of its month, at most one second
after midnight, afterwards. -/
def loopState (startDate : Time) (month : Time) (k : Nat) : Prop :=
  month.Valid ∧ month.offset = 0 ∧
  12 * month.Year + month.Month - 1 = 12 * startDate.Year + startDate.Month - 1 + k ∧
  (k = 0 → month = normalizedStart startDate) ∧
  (k ≠ 0 → month.Day = 1) ∧
  month.nanoOfDay ≤ 1000000000

/-! ## Example inputs -/

/-- 2016-01-01 00:00:01 UTC. -/
def jan1 : Time := Date 2016 1 1 0 0 1 0 UTC

/-- 2016-07-12 00:00:01 UTC. -/
def jul12 : Time := Date 2016 7 12 0 0 1 0 UTC

/-- 2016-08-01 00:00:00 UTC. -/
def aug1 : Time := Date 2016 8 1 0 0 0 0 UTC

/-- 2016-08-12 00:00:01 UTC. -/
def aug12 : Time := Date 2016 8 12 0 0 1 0 UTC

/-- 2016-08-30 00:00:01 UTC. -/
def aug30 : Time := Date 2016 8 30 0 0 1 0 UTC

/-- 2016-08-02 00:30:00 at UTC+02:00, the instant 2016-08-01 22:30:00 UTC. -/
def aug2East : Time := Date 2016 8 2 0 30 0 0 7200

/-- 2016-08-01 23:00:00 UTC. -/
def aug1Late : Time := Date 2016 8 1 23 0 0 0 UTC

/-- The largest `time.Time`, 292277024627-12-06 15:30:07.999999999 UTC: the last
nanosecond of second 2^63 - 1 after the year 1 (`time.Unix(1<<63-1-62135596800,
999999999).UTC()`). -/
def lastInstant : Time :=
  { unixNano := (9223372036854775807 - 62135596800) * 1000000000 + 999999999, offset := 0 }

/-- 292277024627-12-02 00:00:01 UTC, in the last month that a `time.Time` reaches. -/
def lastDec2 : Time := Date 292277024627 12 2 0 0 1 0 UTC

/-- 292277024627-12-03 00:00:01 UTC. -/
def lastDec3 : Time := Date 292277024627 12 3 0 0 1 0 UTC

/-- The instant one day before the absolute epoch of package `time`
(`time.Unix(-9223372028741846400, 0).UTC()`), the 30th of December of the year
-292277022401.  The methods of `time.Time`, which count the seconds from the
absolute epoch in a `uint64`, read it as a day of the year 292277026854. -/
def beforeEpoch : Time := { unixNano := -9223372028741846400 * 1000000000, offset := 0 }

/-- -292277022399-01-30 00:00:00 UTC, 335 days after the absolute epoch. -/
def afterEpoch : Time := Date (-292277022399) 1 30 0 0 0 0 UTC

/-- Some range of the list does not stop before the next range starts. -/
def overlapping : List timeRange → Bool
  | range :: next :: rest => !range.Stop.Before next.Start || overlapping (next :: rest)
  | _ => false

/-- Both bounds of the `i`-th range of the list lie in the `i`-th calendar month
counted from month number `first`, for every `i`. -/
def inMonths (first : Int) : List timeRange → Bool
  | [] => true
  | range :: rest =>
    (12 * range.Start.Year + range.Start.Month == first
      && 12 * range.Stop.Year + range.Stop.Month == first) && inMonths (first + 1) rest

/-- A TimeRecordRepository over stateless stand-ins, like the mocks of
`timerecord_test.go`: the three functions answer the calls of GetTimeRecords, and
the collaborators it does not use answer with an error. -/
def standIn (getTimeRanges : Time → Time → Except Error (List timeRange))
    (getTimeEntries : Time → Time → Except Error (List model.TimeEntry))
    (convertTimeEntryToTimeRecord : model.TimeEntry → Except Error TimeRecord) :
    TimeRecordRepository Unit where
  timeEntryAPI :=
    { CreateTimeEntry := fun _ s => (.error "not set", s)
      GetTimeEntries := fun start stop s => (getTimeEntries start stop, s) }
  timeRangeProvider := { GetTimeRanges := fun start stop s => (getTimeRanges start stop, s) }
  workspaces :=
    { CreateWorkspace := fun _ s => (.error "not set", s)
      GetWorkspaces := fun s => (.error "not set", s)
      GetWorkspaceByID := fun _ s => (.error "not set", s)
      GetWorkspaceByName := fun _ s => (.error "not set", s) }
  projects :=
    { CreateProject := fun _ _ _ s => (.error "not set", s)
      GetProjects := fun s => (.error "not set", s)
      GetProjectByID := fun _ s => (.error "not set", s)
      GetProjectByName := fun _ _ _ s => (.error "not set", s) }
  modelConverter :=
    { ConvertTimeEntryToTimeRecord := fun timeEntry s => (convertTimeEntryToTimeRecord timeEntry, s)
      ConvertTimeRecordToTimeEntry := fun _ s => (.error "not set", s) }

/-- A finished time entry of project 1 with the given description. -/
def finishedEntry (description : String) : model.TimeEntry :=
  { ID := 0, Wid := 1, Pid := 1, Start := aug1, Stop := aug12, Billable := false,
    Description := description, Tags := [], CreatedWith := "" }

/-- A time entry without project. -/
def entryWithoutProject : model.TimeEntry := { finishedEntry "no project" with Pid := 0 }

/-- A running time entry: its stop is the zero time. -/
def runningEntry : model.TimeEntry := { finishedEntry "running" with Stop := Time.zero }

/-- A converter stand-in that always succeeds. -/
def convertAll (timeEntry : model.TimeEntry) : Except Error TimeRecord :=
  .ok { WorkspaceName := "Workspace", ProjectName := "Project", ClientName := "",
        Start := timeEntry.Start, Stop := timeEntry.Stop,
        Description := timeEntry.Description, Tags := timeEntry.Tags }

/-- A converter stand-in that fails on the entry with description "b". -/
def convertAllButB (timeEntry : model.TimeEntry) : Except Error TimeRecord :=
  if timeEntry.Description == "b" then .error "Conversion failed" else convertAll timeEntry

/-- A provider stand-in returning two chunks: July and August 2016. -/
def twoChunks (_ _ : Time) : Except Error (List timeRange) :=
  .ok [{ start := jul12, stop := aug1 }, { start := aug1, stop := aug12 }]

/-- An API stand-in: one finished entry, one without project and one running in
the chunk that starts on July 12, two finished entries in every other chunk. -/
def entriesByChunk (start _ : Time) : Except Error (List model.TimeEntry) :=
  if start.Equal jul12 then .ok [finishedEntry "a", entryWithoutProject, runningEntry]
  else .ok [finishedEntry "b", finishedEntry "c"]

/-- An API stand-in that fails. -/
def failingAPI (_ _ : Time) : Except Error (List model.TimeEntry) := .error "API error"

/-- The run of GetTimeRecords over recording stand-ins with two chunks in which
every call succeeds: the result, the final state and the log. -/
def twoChunkRun : Except Error (List TimeRecord) × (Unit × List Call) :=
  TimeRecordRepository.GetTimeRecords (standIn twoChunks entriesByChunk convertAll).recording
    jan1 aug30 ((), [])

/-- The run of GetTimeRecords over recording stand-ins with two chunks and a
converter that fails on entry "b". -/
def failingRun : Except Error (List TimeRecord) × (Unit × List Call) :=
  TimeRecordRepository.GetTimeRecords (standIn twoChunks entriesByChunk convertAllButB).recording
    jan1 aug30 ((), [])

/-- Every project of `projects` that has a client (a non-zero client ID) carries
the client that the client cache of `s` holds under that ID, and every other
project carries the zero client. -/
def clientsResolved {σ : Type} (projects : List Project) (s : Repositories σ) : Prop :=
  ∀ p ∈ projects,
    (p.Client.ID ≠ 0 →
      s.clientsCache.find? (fun client => client.ID == p.Client.ID) = some p.Client)
    ∧ (p.Client.ID = 0 → p.Client = Client.zero)

/-- The project cache agrees with the client cache: every cached project that
has a client carries the client that the client cache holds under that ID, and
every other cached project carries the zero client.  It holds whenever the project cache is not populated, and the reads of the
repositories keep it. -/
def cachesConsistent {σ : Type} (s : Repositories σ) : Prop :=
  clientsResolved s.projectsCache s

/-- A remote API stand-in with a fixed account: the workspaces, clients and
projects given; creation and time entries are not supported. -/
def fixedAPI (workspaces : List model.Workspace) (clients : List model.Client)
    (projects : List model.Project) : model.TogglAPI Unit where
  GetWorkspaces := fun s => (.ok workspaces, s)
  CreateProject := fun _ s => (.error "not set", s)
  GetProjects := fun workspaceID s =>
    (.ok (projects.filter fun project => project.WorkspaceID == workspaceID), s)
  CreateTimeEntry := fun _ s => (.error "not set", s)
  GetTimeEntries := fun _ _ s => (.error "not set", s)
  CreateClient := fun _ s => (.error "not set", s)
  GetClients := fun s => (.ok clients, s)

/-- Repositories that have not fetched anything yet. -/
def freshRepositories : Repositories Unit :=
  { remote := (), workspacesCache := [], clientsCache := [], projectsCache := [] }

/-- An account with workspace 1 "Workspace", client 5 "Client" and project 7
"Project" of that client. -/
def accountAPI : model.TogglAPI Unit :=
  fixedAPI [{ ID := 1, Name := "Workspace" }]
    [{ ID := 5, WorkspaceID := 1, Name := "Client", Notes := "" }]
    [{ ID := 7, WorkspaceID := 1, ClientID := 5, Name := "Project" }]

/-- An account whose only project, "Project" without client, has the ID 0. -/
def zeroProjectAPI : model.TogglAPI Unit :=
  fixedAPI [{ ID := 1, Name := "Workspace" }] []
    [{ ID := 0, WorkspaceID := 1, ClientID := 0, Name := "Project" }]

/-- A record of project "Project" of client `clientName` in workspace "Workspace". -/
def projectRecord (clientName : String) : TimeRecord :=
  { WorkspaceName := "Workspace", ProjectName := "Project", ClientName := clientName,
    Start := aug1, Stop := aug12, Description := "work", Tags := ["tag"] }

/-- The repositories after the account of `accountAPI` has been fetched. -/
def accountRepositories : Repositories Unit :=
  { remote := (),
    workspacesCache := [{ ID := 1, Name := "Workspace" }],
    clientsCache := [{ ID := 5, Name := "Client", Workspace := { ID := 1, Name := "Workspace" } }],
    projectsCache :=
      [{ ID := 7, Name := "Project",
         Client := { ID := 5, Name := "Client", Workspace := { ID := 1, Name := "Workspace" } },
         Workspace := { ID := 1, Name := "Workspace" } }] }

/-- An account with two projects named "Project" in workspace 1 "Workspace":
project 7 of client 5 "Client", then project 8 without client. -/
def twoProjectsAPI : model.TogglAPI Unit :=
  fixedAPI [{ ID := 1, Name := "Workspace" }]
    [{ ID := 5, WorkspaceID := 1, Name := "Client", Notes := "" }]
    [{ ID := 7, WorkspaceID := 1, ClientID := 5, Name := "Project" },
     { ID := 8, WorkspaceID := 1, ClientID := 0, Name := "Project" }]

/-! ## A remote service that accepts every request

The Toggl service itself is not part of the repository.  The statements about
what a creation leaves behind are made against the following service: every call
succeeds, a creation stores the entity under a fresh ID and returns it, and the
listings return what the account holds, earlier creations included. -/

/-- The content of an account on the remote service, and the next free ID. -/
structure Remote where
  workspaces : List model.Workspace
  clients : List model.Client
  projects : List model.Project
  timeEntries : List model.TimeEntry
  nextID : Int
deriving DecidableEq

/-- The remote service whose calls all succeed and whose listings reflect
earlier creations. -/
def idealAPI : model.TogglAPI Remote where
  GetWorkspaces := fun remote => (.ok remote.workspaces, remote)
  CreateProject := fun project remote =>
    (.ok { project with ID := remote.nextID },
      { remote with projects := remote.projects ++ [{ project with ID := remote.nextID }],
                    nextID := remote.nextID + 1 })
  GetProjects := fun workspaceID remote =>
    (.ok (remote.projects.filter fun project => project.WorkspaceID == workspaceID), remote)
  CreateTimeEntry := fun timeEntry remote =>
    (.ok { timeEntry with ID := remote.nextID },
      { remote with timeEntries := remote.timeEntries ++ [{ timeEntry with ID := remote.nextID }],
                    nextID := remote.nextID + 1 })
  GetTimeEntries := fun start stop remote =>
    (.ok (remote.timeEntries.filter fun timeEntry =>
      !timeEntry.Start.Before start && !timeEntry.Start.After stop), remote)
  CreateClient := fun client remote =>
    (.ok { client with ID := remote.nextID },
      { remote with clients := remote.clients ++ [{ client with ID := remote.nextID }],
                    nextID := remote.nextID + 1 })
  GetClients := fun remote => (.ok remote.clients, remote)

/-- The same service, except that it rejects every time entry. -/
def rejectingAPI : model.TogglAPI Remote :=
  { idealAPI with CreateTimeEntry := fun _ remote => (.error "rejected", remote) }

/-- An account with the single workspace 1 "Workspace", no client, no project and
no time entry; the next free ID is 10. -/
def emptyAccount : Remote :=
  { workspaces := [{ ID := 1, Name := "Workspace" }], clients := [], projects := [],
    timeEntries := [], nextID := 10 }

/-- An account with workspace 1 "Workspace", client 5 "Client" and project 7
"Project" of that client; the next free ID is 10. -/
def smallAccount : Remote :=
  { workspaces := [{ ID := 1, Name := "Workspace" }],
    clients := [{ ID := 5, WorkspaceID := 1, Name := "Client", Notes := "" }],
    projects := [{ ID := 7, WorkspaceID := 1, ClientID := 5, Name := "Project" }],
    timeEntries := [], nextID := 10 }

/-- An account with workspace 1 "Workspace" and a client 5 "Stray" of a workspace
2 that the account does not have; the next free ID is 10. -/
def strayClientAccount : Remote :=
  { workspaces := [{ ID := 1, Name := "Workspace" }],
    clients := [{ ID := 5, WorkspaceID := 2, Name := "Stray", Notes := "" }],
    projects := [], timeEntries := [], nextID := 10 }

/-- An account with workspace 1 "Workspace" and a project 7 "Project" of a client
5 that the account does not have; the next free ID is 10. -/
def strayProjectAccount : Remote :=
  { workspaces := [{ ID := 1, Name := "Workspace" }], clients := [],
    projects := [{ ID := 7, WorkspaceID := 1, ClientID := 5, Name := "Project" }],
    timeEntries := [], nextID := 10 }

/-- An account with workspace 1 "Workspace" and client 10 "Client", whose remote
gives the ID 10 to the next entity it creates, although the client has it. -/
def takenIDAccount : Remote :=
  { workspaces := [{ ID := 1, Name := "Workspace" }],
    clients := [{ ID := 10, WorkspaceID := 1, Name := "Client", Notes := "" }],
    projects := [], timeEntries := [], nextID := 10 }

/-- An account with workspace 1 "Workspace", whose remote gives the ID 0 to the
next entity it creates. -/
def zeroIDAccount : Remote :=
  { workspaces := [{ ID := 1, Name := "Workspace" }], clients := [], projects := [],
    timeEntries := [], nextID := 0 }

/-- Repositories over the remote state `remote` that have not fetched anything yet. -/
def Repositories.fresh {σ : Type} (remote : σ) : Repositories σ :=
  { remote := remote, workspacesCache := [], clientsCache := [], projectsCache := [] }

/-- The calls CreateTimeRecord makes for the project of the record: the lookup by
name and, when the lookup failed, the creation. -/
def projectCalls (timeRecord : TimeRecord) (lookup creation : Except Error Project) : List Call :=
  match lookup with
  | .ok _ =>
    [.GetProjectByName timeRecord.ProjectName timeRecord.WorkspaceName timeRecord.ClientName
      lookup]
  | .error _ =>
    [.GetProjectByName timeRecord.ProjectName timeRecord.WorkspaceName timeRecord.ClientName
      lookup,
     .CreateProject timeRecord.ProjectName timeRecord.WorkspaceName timeRecord.ClientName
      creation]

/-- The project of the record is there after the calls of `projectCalls`: it was
found, or it was created. -/
def projectReady (lookup creation : Except Error Project) : Bool :=
  match lookup, creation with
  | .ok _, _ => true
  | .error _, .ok _ => true
  | .error _, .error _ => false

/-- From `s` to `s1` the remote received no create request: the log of `s1` is
the log of `s` followed by requests that create nothing. -/
def Quiet {σ : Type} (s s1 : Repositories (σ × List RemoteCall)) : Prop :=
  ∃ calls, s1.remote.2 = s.remote.2 ++ calls ∧ creations calls = []

/-! ## Sequences of calls on the repositories -/

/-- The state of the repositories of `api` after the call `call`. -/
def RepositoryCall.run {σ : Type} (api : model.TogglAPI σ) :
    RepositoryCall → Repositories σ → Repositories σ
  | .CreateWorkspace name, s => (WorkspaceRepository.CreateWorkspace api name s).2
  | .GetWorkspaces, s => (WorkspaceRepository.GetWorkspaces api s).2
  | .GetWorkspaceByID workspaceID, s =>
    (WorkspaceRepository.GetWorkspaceByID api workspaceID s).2
  | .GetWorkspaceByName workspaceName, s =>
    (WorkspaceRepository.GetWorkspaceByName api workspaceName s).2
  | .CreateProject projectName workspaceName clientName, s =>
    (ProjectRepository.CreateProject api projectName workspaceName clientName s).2
  | .GetProjects, s => (ProjectRepository.GetProjects api s).2
  | .GetProjectByID projectID, s => (ProjectRepository.GetProjectByID api projectID s).2
  | .GetProjectByName projectName workspaceName clientName, s =>
    (ProjectRepository.GetProjectByName api projectName workspaceName clientName s).2
  | .CreateClient workspaceID name, s =>
    (ClientRepository.CreateClient api workspaceID name s).2
  | .GetClients, s => (ClientRepository.GetClients api s).2
  | .GetClientByID clientID, s => (ClientRepository.GetClientByID api clientID s).2
  | .GetClientByName workspaceName clientName, s =>
    (ClientRepository.GetClientByName api workspaceName clientName s).2

/-- Something done with the repositories of one process and their API: a call of
a method of a repository, or a request to the time entry API (which the
TimeRecordRepository sends directly). -/
inductive Operation where
  | repository (call : RepositoryCall)
  | CreateTimeEntry (timeEntry : model.TimeEntry)
  | GetTimeEntries (start stop : Time)
deriving DecidableEq

/-- The operation is a Create call of a repository. -/
def Operation.isCreate : Operation → Bool
  | .repository call => call.isCreate
  | _ => false

/-- The state after the operation. -/
def Operation.run {σ : Type} (api : model.TogglAPI σ) : Operation → Repositories σ → Repositories σ
  | .repository call, s => call.run api s
  | .CreateTimeEntry timeEntry, s =>
    { s with remote := (api.CreateTimeEntry timeEntry s.remote).2 }
  | .GetTimeEntries start stop, s =>
    { s with remote := (api.GetTimeEntries start stop s.remote).2 }

/-- The state after the operations, done one after the other. -/
def runAll {σ : Type} (api : model.TogglAPI σ) (operations : List Operation)
    (s : Repositories σ) : Repositories σ :=
  operations.foldl (fun state operation => operation.run api state) s

/-- From `s` to `s1` every populated cache was kept, and no request went to the
listing endpoint behind a populated cache. -/
def Kept {σ : Type} (s s1 : Repositories (σ × List RemoteCall)) : Prop :=
  (s.workspacesCache ≠ [] →
    s1.workspacesCache = s.workspacesCache
    ∧ workspaceListings s1.remote.2 = workspaceListings s.remote.2)
  ∧ (s.clientsCache ≠ [] →
    s1.clientsCache = s.clientsCache ∧ clientListings s1.remote.2 = clientListings s.remote.2)
  ∧ (s.projectsCache ≠ [] →
    s1.projectsCache = s.projectsCache
    ∧ projectListings s1.remote.2 = projectListings s.remote.2)

/-- The request went to a listing endpoint and was answered with an error. -/
def RemoteCall.failedListing : RemoteCall → Bool
  | .GetWorkspaces (.error _) => true
  | .GetProjects _ (.error _) => true
  | .GetClients (.error _) => true
  | _ => false

/-- From `s` to `s1` the remote received exactly the requests `calls`. -/
def Sent {σ : Type} (s s1 : Repositories (σ × List RemoteCall)) (calls : List RemoteCall) : Prop :=
  s1.remote.2 = s.remote.2 ++ calls

/-- An account without workspaces (and so without clients and projects). -/
def noWorkspaces : Remote :=
  { workspaces := [], clients := [], projects := [], timeEntries := [], nextID := 10 }

/-- The list is what the clients cache may hold: nothing, or the complete list
that one successful GetClients call returned when it fetched the clients (the
cache was not populated before the call). -/
def FetchedClients {σ : Type} (api : model.TogglAPI σ) (list : List Client) : Prop :=
  list = [] ∨ ∃ s0 s1, s0.clientsCache = [] ∧ ClientRepository.GetClients api s0 = (.ok list, s1)

/-- The list is what the projects cache may hold: nothing, or the complete list
that one successful GetProjects call returned when it fetched the projects. -/
def FetchedProjects {σ : Type} (api : model.TogglAPI σ) (list : List Project) : Prop :=
  list = [] ∨ ∃ s0 s1, s0.projectsCache = [] ∧ ProjectRepository.GetProjects api s0 = (.ok list, s1)

/-- From `s` to `s1` each of the clients cache and the projects cache was left
as it was or set to a list that it may hold. -/
def CacheStep {σ : Type} (api : model.TogglAPI σ) (s s1 : Repositories σ) : Prop :=
  (s1.clientsCache = s.clientsCache ∨ FetchedClients api s1.clientsCache)
  ∧ (s1.projectsCache = s.projectsCache ∨ FetchedProjects api s1.projectsCache)

/-- The projects that the project listing of the remote returned, over all the
successful GetProjects requests of a log, in the order of the requests. -/
def listedProjects : List RemoteCall → List model.Project
  | [] => []
  | .GetProjects _ (.ok projects) :: log => projects ++ listedProjects log
  | _ :: log => listedProjects log

/-! ## The account of the remote service, as the repositories see it -/

/-- The workspaces of the account, as GetWorkspaces maps them. -/
def Remote.workspaceList (remote : Remote) : List Workspace :=
  remote.workspaces.map fun workspace => { ID := workspace.ID, Name := workspace.Name }

/-- The first workspace of the account with the ID given. -/
def Remote.findWorkspace (remote : Remote) (workspaceID : Int) : Option Workspace :=
  remote.workspaceList.find? fun workspace => workspace.ID == workspaceID

/-- A client of the account, as GetClients maps it. -/
def Remote.toClient (remote : Remote) (client : model.Client) : Client :=
  { ID := client.ID, Name := client.Name,
    Workspace := (remote.findWorkspace client.WorkspaceID).getD Workspace.zero }

/-- The clients of the account, as GetClients maps them. -/
def Remote.clientList (remote : Remote) : List Client :=
  remote.clients.map remote.toClient

/-- The first client of the account with the ID given. -/
def Remote.findClient (remote : Remote) (clientID : Int) : Option Client :=
  remote.clientList.find? fun client => client.ID == clientID

/-- A project of the account listed for the workspace, as GetProjects maps it. -/
def Remote.toProject (remote : Remote) (workspace : Workspace) (project : model.Project) :
    Project :=
  { ID := project.ID, Name := project.Name, Workspace := workspace,
    Client := if project.ClientID != 0 then (remote.findClient project.ClientID).getD Client.zero
              else Client.zero }

/-- The projects of the account listed for the workspace, as GetProjects maps them. -/
def Remote.projectsOf (remote : Remote) (workspace : Workspace) : List Project :=
  (remote.projects.filter fun project => project.WorkspaceID == workspace.ID).map
    (remote.toProject workspace)

/-- The projects of the account, as GetProjects maps them: workspace by workspace. -/
def Remote.projectList (remote : Remote) : List Project :=
  remote.workspaceList.flatMap remote.projectsOf

/-- The account after the ideal remote has created, in this order, a client
named `clientName` in the workspace `workspaceID` and a project named
`projectName` of that client in that workspace. -/
def Remote.afterCreation (remote : Remote) (workspaceID : Int)
    (clientName projectName : String) : Remote :=
  { workspaces := remote.workspaces,
    clients := remote.clients
      ++ [{ ID := remote.nextID, WorkspaceID := workspaceID, Name := clientName, Notes := "" }],
    projects := remote.projects
      ++ [{ ID := remote.nextID + 1, WorkspaceID := workspaceID, ClientID := remote.nextID,
            Name := projectName }],
    timeEntries := remote.timeEntries,
    nextID := remote.nextID + 1 + 1 }

/-- The references of the account resolve and its next ID is free: every client
belongs to a workspace of the account, every project has no client (client ID 0)
or a client of the account, the next ID is positive and above the IDs of the
clients. -/
def Remote.WellFormed (remote : Remote) : Prop :=
  (∀ client ∈ remote.clients, ∃ workspace ∈ remote.workspaces, workspace.ID = client.WorkspaceID)
  ∧ (∀ project ∈ remote.projects,
      project.ClientID = 0 ∨ ∃ client ∈ remote.clients, client.ID = project.ClientID)
  ∧ 0 < remote.nextID
  ∧ ∀ client ∈ remote.clients, client.ID < remote.nextID

/-- The caches agree with the account of the remote: each cache is not populated
or holds what a fetch of the account gives. -/
def Synced (s : Repositories (Remote × List RemoteCall)) : Prop :=
  (s.workspacesCache = [] ∨ s.workspacesCache = s.remote.1.workspaceList)
  ∧ (s.clientsCache = [] ∨ s.clientsCache = s.remote.1.clientList)
  ∧ (s.projectsCache = [] ∨ s.projectsCache = s.remote.1.projectList)

/-- From `s` to `s1` the account of the remote is the same, and the caches of
`s1` agree with it. -/
def Settled (s s1 : Repositories (Remote × List RemoteCall)) : Prop :=
  s1.remote.1 = s.remote.1 ∧ Synced s1

/-- A record of project "New" of client "Newcomer" in workspace "Workspace". -/
def newProjectRecord : TimeRecord :=
  { WorkspaceName := "Workspace", ProjectName := "New", ClientName := "Newcomer",
    Start := aug1, Stop := aug12, Description := "work", Tags := ["tag"] }

/-! ## Package `strings`

Go strings are byte sequences; they are embedded as Lean strings, which are
sequences of Unicode code points, so the strings covered are the ones that are
valid UTF-8.  `len(s)` is the number of bytes of the encoding, `s.utf8ByteSize`. -/

namespace strings

/-- White space as defined by Unicode's White Space property (`unicode.IsSpace`). -/
def IsSpace (c : Char) : Bool :=
  c.toNat == 0x09 || c.toNat == 0x0A || c.toNat == 0x0B || c.toNat == 0x0C || c.toNat == 0x0D
    || c.toNat == 0x20 || c.toNat == 0x85 || c.toNat == 0xA0 || c.toNat == 0x1680
    || (0x2000 ≤ c.toNat && c.toNat ≤ 0x200A) || c.toNat == 0x2028 || c.toNat == 0x2029
    || c.toNat == 0x202F || c.toNat == 0x205F || c.toNat == 0x3000

/-- TrimSpace returns `s` with all leading and trailing white space removed. -/
def TrimSpace (s : String) : String :=
  String.mk ((s.toList.dropWhile IsSpace).reverse.dropWhile IsSpace).reverse

/-- The scan of Split for a non-empty separator: `skip` counts the characters of
a separator that was just found and are still to be passed over, `piece` holds
the characters of the current piece, last one first. -/
def Split.scan (sep : List Char) : Nat → List Char → List Char → List String
  | _, [], piece => [String.mk piece.reverse]
  | skip + 1, _ :: rest, piece => Split.scan sep skip rest piece
  | 0, c :: rest, piece =>
    if sep.isPrefixOf (c :: rest) then
      String.mk piece.reverse :: Split.scan sep (sep.length - 1) rest []
    else
      Split.scan sep 0 rest (c :: piece)

/-- Split slices `s` into all substrings separated by `sep`; with an empty `sep`
it splits after each character. -/
def Split (s sep : String) : List String :=
  if sep.isEmpty then s.toList.map (fun c => String.mk [c])
  else Split.scan sep.toList 0 s.toList []

/-- Join concatenates the elements, with `sep` between them. -/
def Join (elems : List String) (sep : String) : String := sep.intercalate elems

end strings

/-! ## `togglapi/date/formatter.go` -/

namespace date

/-- A Formatter interface provides functions for parsing and formatting dates. -/
structure Formatter where
  /-- GetDateString returns a formatted date string for the given date. -/
  GetDateString : Time → String
  /-- GetDate returns a time.Time model for a given date string. -/
  GetDate : String → Except Error Time

/-- Decimal digits of `x`, padded with zeros to at least `width` digits, after a
minus sign if `x` is negative (`time.appendInt`). -/
def appendInt (x : Int) (width : Nat) : String :=
  (if x < 0 then "-" else "")
    ++ String.mk (List.replicate (width - (toString x.natAbs).length) '0')
    ++ toString x.natAbs

/-- The number written by a string of decimal digits. -/
def number (digits : List Char) : Option Int :=
  digits.foldl
    (fun value c =>
      value.bind fun n =>
        if 48 ≤ c.toNat ∧ c.toNat ≤ 57 then some (10 * n + ((c.toNat - 48 : Nat) : Int))
        else none)
    (some 0)

/-- A decimal digit (`time.isDigit`). -/
def isDigit (c : Char) : Bool := decide (48 ≤ c.toNat ∧ c.toNat ≤ 57)

/-- The number of one or two digits at the head of `s`, and the rest of `s`;
with `fixed` the number must have two digits (`time.getnum`).  `none` is the
error. -/
def getnum (s : List Char) (fixed : Bool) : Option (Int × List Char) :=
  match s with
  | [] => none
  | c :: rest =>
    if isDigit c = true then
      match rest with
      | [] => if fixed = true then none else some (((c.toNat - 48 : Nat) : Int), [])
      | d :: rest' =>
        if isDigit d = true then
          some (((c.toNat - 48 : Nat) : Int) * 10 + ((d.toNat - 48 : Nat) : Int), rest')
        else if fixed = true then none
        else some (((c.toNat - 48 : Nat) : Int), d :: rest')
    else none

/-- The rest of `value` after the character `c` of the layout (`time.skip` on a
literal of the layout, none of which is a space). -/
def skip (value : List Char) (c : Char) : Option (List Char) :=
  match value with
  | [] => none
  | d :: rest => if d = c then some rest else none

/-- The fraction of a second that Parse reads after the seconds although the
layout has none: a period or a comma and the digits that follow, of which the
first nine count (`time.parseNanoseconds`).  The result is the nanoseconds and
the rest of `value`. -/
def fraction (value : List Char) : Option (Int × List Char) :=
  match value with
  | c :: d :: rest =>
    if (c = '.' ∨ c = ',') ∧ isDigit d = true then
      (number (((d :: rest).takeWhile isDigit).take 9)).map fun ns =>
        (ns * 10 ^ (9 - (((d :: rest).takeWhile isDigit).take 9).length),
          (d :: rest).dropWhile isDigit)
    else some (0, value)
  | _ => some (0, value)

/-- The year, the month and the day at the head of `value`, and the rest of
`value`: the chunks `2006`, `-01` and `-02` of the layout.  The year has four
digits, the month and the day two; the month is checked to be one of the
twelve. -/
def parseDate (value : List Char) : Option (Int × Int × Int × List Char) :=
  if value.length < 4 ∨ ¬ (value.head?.any isDigit = true) then none
  else
    match number (value.take 4), skip (value.drop 4) '-' with
    | some year, some value =>
      match getnum value true with
      | some (month, value) =>
        if month ≤ 0 ∨ 12 < month then none
        else
          match skip value '-' with
          | some value =>
            match getnum value true with
            | some (day, value) => some (year, month, day, value)
            | none => none
          | none => none
      | none => none
    | _, _ => none

/-- The hour, the minute, the second and the nanosecond at the head of `value`,
and the rest of `value`: the chunks `T15`, `:04` and `:05` of the layout.  The
hour has one or two digits, the minute and the second two. -/
def parseClock (value : List Char) : Option (Int × Int × Int × Int × List Char) :=
  match skip value 'T' with
  | none => none
  | some value =>
    match getnum value false with
    | none => none
    | some (hour, value) =>
      if 24 ≤ hour then none
      else
        match skip value ':' with
        | none => none
        | some value =>
          match getnum value true with
          | none => none
          | some (min, value) =>
            if 60 ≤ min then none
            else
              match skip value ':' with
              | none => none
              | some value =>
                match getnum value true with
                | none => none
                | some (sec, value) =>
                  if 60 ≤ sec then none
                  else
                    match fraction value with
                    | none => none
                    | some (nsec, value) => some (hour, min, sec, nsec, value)

/-- The offset of the zone in seconds: the chunk `-07:00` of the layout.  It
takes six characters: the sign, two digits of hours, a colon and two digits of
minutes; an offset of 24 hours or of 60 minutes is read, a larger one is not.
Nothing may follow it. -/
def parseZone (value : List Char) : Option Int :=
  match value with
  | [sign, h0, h1, colon, m0, m1] =>
    if colon ≠ ':' then none
    else
      match getnum [h0, h1] true, getnum [m0, m1] true with
      | some (hr, _), some (mm, _) =>
        if 24 < hr ∨ 60 < mm then none
        else if sign = '+' then some ((hr * 60 + mm) * 60)
        else if sign = '-' then some (-((hr * 60 + mm) * 60))
        else none
      | _, _ => none
  | _ => none

/-- Parse reads a time in the layout `2006-01-02T15:04:05-07:00` (`time.Parse`
with that layout): the date, the clock with a fraction of a second if there is
one, and the offset of the zone; then the day is checked against the month.  The
time is built in UTC and moved by the offset.  Go reads bytes where this reads
characters; every character that is accepted is a single byte.  `none` is the
error. -/
def Parse (value : List Char) : Option Time :=
  match parseDate value with
  | none => none
  | some (year, month, day, value) =>
    match parseClock value with
    | none => none
    | some (hour, min, sec, nsec, value) =>
      match parseZone value with
      | none => none
      | some zoneOffset =>
        if day < 1 ∨ daysIn month (isLeap year) < day then none
        else
          some { (Date year month day hour min sec nsec UTC).Add (-zoneOffset * 1000000000) with
            offset := zoneOffset }

namespace iso80601Formatter

/-- GetDateString returns an ISO 8601 formatted date: `date.Format` with the
layout `2006-01-02T15:04:05-07:00`. -/
def GetDateString (date : Time) : String :=
  let zone := Int.tdiv date.offset 60
  appendInt date.Year 4 ++ "-" ++ appendInt date.Month 2 ++ "-" ++ appendInt date.Day 2
    ++ "T" ++ appendInt date.Hour 2 ++ ":" ++ appendInt date.Minute 2
    ++ ":" ++ appendInt date.Second 2
    ++ (if zone < 0 then "-" else "+")
    ++ appendInt (zone.natAbs / 60) 2 ++ ":" ++ appendInt (zone.natAbs % 60) 2

/-- GetDate returns the time for an ISO 8601 date string: `time.Parse` with the
layout `2006-01-02T15:04:05-07:00`. -/
def GetDate (date : String) : Except Error Time :=
  match Parse date.toList with
  | some t => .ok t
  | none => .error "parsing time: cannot parse"

end iso80601Formatter

/-- NewISO8601Formatter creates a new ISO 8601 date formatter. -/
def NewISO8601Formatter : Formatter where
  GetDateString := iso80601Formatter.GetDateString
  GetDate := iso80601Formatter.GetDate

end date

/-! ## `csvmapper.go`

Indexing a slice beyond its length makes the Go program panic.  A function that
indexes a row returns an `Option`: `none` is the panic, `some` the returned
`(T, error)` pair. -/

/-- The TimeRecordMapper interface provides functions for mapping CSV records to
time records and vice versa.  The mappers of the program keep no state: their
methods are functions of the arguments. -/
structure TimeRecordMapper where
  /-- GetTimeRecords returns a list of time records for the given CSV table rows. -/
  GetTimeRecords : List (List String) → Option (Except Error (List TimeRecord))
  /-- GetTimeRecord returns a TimeRecord model from an CSV row. -/
  GetTimeRecord : List String → Option (Except Error TimeRecord)
  /-- GetColumnNames returns the names of the CSV columns. -/
  GetColumnNames : List String
  /-- GetRow returns an CSV row for the given TimeRecord model. -/
  GetRow : TimeRecord → List String

/-- CSVTimeRecordMapper converts CSV time records into TimeRecord models. -/
structure CSVTimeRecordMapper where
  dateFormatter : date.Formatter
  /-- The list of all CSV column names for CSV-based time reports. -/
  columnNames : List String
  /-- The separator that is used to split and concatenate tags. -/
  tagsSeparator : String

namespace CSVTimeRecordMapper

/-- GetColumnNames returns the names of the CSV columns. -/
def GetColumnNames (mapper : CSVTimeRecordMapper) : List String := mapper.columnNames

/-- GetTimeRecord returns a TimeRecord model from an CSV row. -/
def GetTimeRecord (mapper : CSVTimeRecordMapper) (row : List String) :
    Option (Except Error TimeRecord) :=
  -- check the number of columns
  if row.length != mapper.GetColumnNames.length then
    some (.error "Wrong number of values in the given row")
  else
    -- Start date
    row[0]?.bind fun startDateVal =>
    match mapper.dateFormatter.GetDate startDateVal with
    | .error startDateError => some (.error ("Cannot parse the start date: " ++ startDateError))
    | .ok startDate =>
      -- Stop Date
      row[1]?.bind fun stopDateVal =>
      match mapper.dateFormatter.GetDate stopDateVal with
      | .error stopDateError =>
        some (.error ("Cannot parse the stop date: " ++ stopDateError))
      | .ok stopDate =>
        -- Workspace Name, Project Name, Client Name
        row[2]?.bind fun workspaceVal =>
        row[3]?.bind fun projectVal =>
        row[4]?.bind fun clientVal =>
        -- Tags
        row[5]?.bind fun tagsVal =>
        let tags := (strings.Split tagsVal mapper.tagsSeparator).map strings.TrimSpace
        -- Description
        row[6]?.bind fun descriptionVal =>
        let description := strings.TrimSpace descriptionVal
        if description.utf8ByteSize ≥ 3000 then
          some (.error "The description text of the time entry is too long")
        else
          some (.ok
            { Start := startDate
              Stop := stopDate
              WorkspaceName := strings.TrimSpace workspaceVal
              ProjectName := strings.TrimSpace projectVal
              ClientName := strings.TrimSpace clientVal
              Description := description
              Tags := tags })

/-- The `for _, row := range rows` loop of GetTimeRecords, with `timeRecords` the
slice built so far. -/
def GetTimeRecords.loop (mapper : CSVTimeRecordMapper) :
    List (List String) → List TimeRecord → Option (Except Error (List TimeRecord))
  | [], timeRecords => some (.ok timeRecords)
  | row :: rest, timeRecords =>
    match mapper.GetTimeRecord row with
    | none => none
    | some (.error timeRecordError) =>
      some (.error ("Failed to create time entry from row: " ++ timeRecordError))
    | some (.ok timeRecord) => GetTimeRecords.loop mapper rest (timeRecords ++ [timeRecord])

/-- The rows of a table without its headline: the first row is cut when its first
cell is the first column name. -/
def GetTimeRecords.cutHeadline (mapper : CSVTimeRecordMapper) :
    List (List String) → Option (List (List String))
  | [] => some []
  | firstLine :: rest =>
    mapper.GetColumnNames[0]?.bind fun firstColumnName =>
    firstLine[0]?.bind fun firstCell =>
    if firstCell == firstColumnName then some rest else some (firstLine :: rest)

/-- GetTimeRecords returns a list of time records for the given CSV table rows. -/
def GetTimeRecords (mapper : CSVTimeRecordMapper) (rows : List (List String)) :
    Option (Except Error (List TimeRecord)) :=
  -- cut the headline
  (GetTimeRecords.cutHeadline mapper rows).bind fun rows =>
  -- create time record models from each row
  GetTimeRecords.loop mapper rows []

/-- GetRow returns an CSV row for the given TimeRecord model. -/
def GetRow (mapper : CSVTimeRecordMapper) (timeRecord : TimeRecord) : List String :=
  [ mapper.dateFormatter.GetDateString timeRecord.Start,
    mapper.dateFormatter.GetDateString timeRecord.Stop,
    timeRecord.WorkspaceName,
    timeRecord.ProjectName,
    timeRecord.ClientName,
    strings.Join timeRecord.Tags mapper.tagsSeparator,
    timeRecord.Description ]

/-- The mapper as a TimeRecordMapper interface value. -/
def asTimeRecordMapper (mapper : CSVTimeRecordMapper) : TimeRecordMapper where
  GetTimeRecords := mapper.GetTimeRecords
  GetTimeRecord := mapper.GetTimeRecord
  GetColumnNames := mapper.GetColumnNames
  GetRow := mapper.GetRow

end CSVTimeRecordMapper

/-- NewCSVTimeRecordMapper converts CSV rows to TimeRecord models and vice versa. -/
def NewCSVTimeRecordMapper (dateFormatter : date.Formatter) : CSVTimeRecordMapper where
  dateFormatter := dateFormatter
  columnNames :=
    ["Start", "Stop", "Workspace Name", "Project Name", "Client Name", "Tag(s)", "Description"]
  tagsSeparator := ","

/-! ## `import.go` and `export.go` -/

/-- The TimeRecorder interface of package toggl provides functions for reading and
writing time records. -/
structure TimeRecorder (σ : Type) where
  /-- CreateTimeRecord creates a new time record. -/
  CreateTimeRecord : TimeRecord → σ → Except Error Unit × σ
  /-- GetTimeRecords returns all time records from the given start date until the
  given stop date. -/
  GetTimeRecords : Time → Time → σ → Except Error (List TimeRecord) × σ

/-- The TimeRecordRepository as a TimeRecorder interface value. -/
def TimeRecordRepository.asTimeRecorder {σ : Type} (repository : TimeRecordRepository σ) :
    TimeRecorder σ where
  CreateTimeRecord := repository.CreateTimeRecord
  GetTimeRecords := repository.GetTimeRecords

/-- What `csv.NewReader(input).ReadAll()` returns on an input: the rows of the
table, or the error of the reader or of the CSV syntax. -/
abbrev csv.Input := Except Error (List (List String))

/-- The `csv.Writer` on an output, as far as Export uses it: Write hands one row
to the writer, Flush sends what is buffered to the output. -/
structure csv.Writer (σ : Type) where
  Write : List String → σ → Except Error Unit × σ
  Flush : σ → σ

/-- TogglCSVImporter imports CSV records into a Toggl account.  The progress bar
that Import draws on the `output` field is left out: it takes no part in the
calls that Import makes or in what it returns. -/
structure TogglCSVImporter (σ : Type) where
  csvMapper : TimeRecordMapper
  timeRecordRepository : TimeRecorder σ

namespace TogglCSVImporter

variable {σ : Type}

/-- The `for recordIndex, record := range timeRecords` loop of Import. -/
def Import.loop (togglCSVImporter : TogglCSVImporter σ) :
    List TimeRecord → σ → Except Error Unit × σ
  | [], s => (.ok (), s)
  | record :: rest, s =>
    match togglCSVImporter.timeRecordRepository.CreateTimeRecord record s with
    | (.error err, s1) => (.error (Wrap err "Failed to create time record"), s1)
    | (.ok _, s1) => Import.loop togglCSVImporter rest s1

/-- Import reads time records supplied via Stdin and imports them into a Toggl
account. -/
def Import (togglCSVImporter : TogglCSVImporter σ) (input : csv.Input) (s : σ) :
    Option (Except Error Unit) × σ :=
  -- read the CSV data
  match input with
  | .error csvError => (some (.error ("Failed to read time records from CSV: " ++ csvError)), s)
  | .ok rows =>
    match togglCSVImporter.csvMapper.GetTimeRecords rows with
    | none => (none, s)
    | some (.error timeRecordsError) => (some (.error timeRecordsError), s)
    | some (.ok timeRecords) =>
      -- abort if no time records were returned
      if timeRecords.length == 0 then
        (some (.ok ()), s)
      else
        -- create the records
        (some (Import.loop togglCSVImporter timeRecords s).1,
          (Import.loop togglCSVImporter timeRecords s).2)

end TogglCSVImporter

/-- TogglCSVExporter exports time records from a Toggl account as CSV. -/
structure TogglCSVExporter (σ : Type) where
  csvMapper : TimeRecordMapper
  timeRecordRepository : TimeRecorder σ

namespace TogglCSVExporter

variable {σ : Type}

/-- The `for _, record := range records` loop of Export.  The error that Write
returns is dropped, as in the source. -/
def Export.loop (exporter : TogglCSVExporter σ) (csvWriter : csv.Writer σ) :
    List TimeRecord → σ → σ
  | [], s => s
  | record :: rest, s =>
    Export.loop exporter csvWriter rest
      (csvWriter.Flush (csvWriter.Write (exporter.csvMapper.GetRow record) s).2)

/-- Export prints all time records from the given start date as CSV.  The
`defer csvWriter.Flush()` is the Flush on the state that each return leaves. -/
def Export (exporter : TogglCSVExporter σ) (startDate endDate : Time)
    (csvWriter : csv.Writer σ) (s : σ) : Except Error Unit × σ :=
  -- write the header
  match exporter.timeRecordRepository.GetTimeRecords startDate endDate
      (csvWriter.Flush (csvWriter.Write exporter.csvMapper.GetColumnNames s).2) with
  | (.error timeRecordsError, s1) =>
    (.error ("Failed to retrieve time records: " ++ timeRecordsError), csvWriter.Flush s1)
  | (.ok records, s1) =>
    -- write the records one-by-one
    (.ok (), csvWriter.Flush (Export.loop exporter csvWriter records s1))

end TogglCSVExporter

/-! ## Observing the collaborators of the importer and the exporter -/

/-- One call received by the time record repository or by the CSV writer, with the
answer it gave. -/
inductive PortCall where
  | CreateTimeRecord (timeRecord : TimeRecord) (result : Except Error Unit)
  | GetTimeRecords (start stop : Time) (result : Except Error (List TimeRecord))
  | Write (row : List String) (result : Except Error Unit)
  | Flush
deriving DecidableEq

/-- The call answered with an error. -/
def PortCall.failed : PortCall → Bool
  | .CreateTimeRecord _ (.error _) => true
  | .GetTimeRecords _ _ (.error _) => true
  | .Write _ (.error _) => true
  | _ => false

/-- Runs a call on the wrapped state and appends its record to the log. -/
def observed {σ α : Type} (call : σ → Except Error α × σ) (entry : Except Error α → PortCall)
    (s : σ × List PortCall) : Except Error α × (σ × List PortCall) :=
  ((call s.1).1, ((call s.1).2, s.2 ++ [entry (call s.1).1]))

/-- The same time recorder recording its calls. -/
def TimeRecorder.recording {σ : Type} (recorder : TimeRecorder σ) :
    TimeRecorder (σ × List PortCall) where
  CreateTimeRecord := fun timeRecord =>
    observed (recorder.CreateTimeRecord timeRecord) (.CreateTimeRecord timeRecord)
  GetTimeRecords := fun start stop =>
    observed (recorder.GetTimeRecords start stop) (.GetTimeRecords start stop)

/-- The same writer recording its calls. -/
def csv.Writer.recording {σ : Type} (csvWriter : csv.Writer σ) :
    csv.Writer (σ × List PortCall) where
  Write := fun row => observed (csvWriter.Write row) (.Write row)
  Flush := fun s => (csvWriter.Flush s.1, s.2 ++ [.Flush])

/-- The same importer with a time record repository that records its calls. -/
def TogglCSVImporter.recording {σ : Type} (togglCSVImporter : TogglCSVImporter σ) :
    TogglCSVImporter (σ × List PortCall) where
  csvMapper := togglCSVImporter.csvMapper
  timeRecordRepository := togglCSVImporter.timeRecordRepository.recording

/-- The same exporter with a time record repository that records its calls. -/
def TogglCSVExporter.recording {σ : Type} (exporter : TogglCSVExporter σ) :
    TogglCSVExporter (σ × List PortCall) where
  csvMapper := exporter.csvMapper
  timeRecordRepository := exporter.timeRecordRepository.recording

/-- The records passed to CreateTimeRecord, in call order. -/
def createCalls : List PortCall → List TimeRecord
  | [] => []
  | .CreateTimeRecord timeRecord _ :: log => timeRecord :: createCalls log
  | _ :: log => createCalls log

/-- The records whose CreateTimeRecord call succeeded, in call order. -/
def createdRecords : List PortCall → List TimeRecord
  | [] => []
  | .CreateTimeRecord timeRecord (.ok _) :: log => timeRecord :: createdRecords log
  | _ :: log => createdRecords log

/-- The rows passed to Write, in call order. -/
def writtenRows : List PortCall → List (List String)
  | [] => []
  | .Write row _ :: log => row :: writtenRows log
  | _ :: log => writtenRows log

/-- The (start, stop) arguments of the GetTimeRecords calls, in call order. -/
def recordQueries : List PortCall → List (Time × Time)
  | [] => []
  | .GetTimeRecords start stop _ :: log => (start, stop) :: recordQueries log
  | _ :: log => recordQueries log

/-! ## The request gate (`togglapi/restclient.go`)

The gate reads a clock and sleeps, so its runs are runs in time.  Instants and
durations are in nanoseconds.  An instant is an integer; a `time.Duration` is a
signed 64-bit integer, and the two operations of the gate on durations keep to
that range as Go does: `Sub` saturates, the subtraction of two durations wraps.
How much time passes at each step of a call is not decided by the code: it is an
argument (`Timing`), and every field of it is a natural number, so that the clock
never runs backwards and a sleep never ends early. -/

/-- The largest `time.Duration`. -/
def maxDuration : Int := 9223372036854775807

/-- The smallest `time.Duration`. -/
def minDuration : Int := -9223372036854775808

/-- Method `t.Sub(u)` on instants: the duration `t - u`, or the largest or smallest
duration if `t - u` is out of range. -/
def Sub (t u : Int) : Int :=
  if maxDuration < t - u then maxDuration
  else if t - u < minDuration then minDuration
  else t - u

/-- Subtraction of two `time.Duration` values, which wraps around in 64 bits. -/
def Duration.sub (d e : Int) : Int := (d - e + 9223372036854775808) % 18446744073709551616
  - 9223372036854775808

/-- The togglRESTAPIClient perform the HTTP requests against the Toggl API and
returns the APIs' response. -/
structure togglRESTAPIClient where
  baseURL : String
  token : String
  /-- The pause in nanoseconds, e.g. time.Millisecond * 1000. -/
  pauseBetweenRequests : Int
  /-- The instant of the last request. -/
  lastRequestTimestamp : Int
deriving DecidableEq, Repr

/-- What happens in a run of the gate. -/
inductive Event where
  /-- The call `time.Sleep(waitTime)`. -/
  | slept (waitTime : Int)
  /-- The request time was captured and the request handed to `client.request`. -/
  | issued (timestamp : Int)
  /-- The call `client.request` returned. -/
  | completed (timestamp : Int)
deriving DecidableEq, Repr

/-- The time that passes during one call of Request, as far as the code leaves it
open. -/
structure Timing where
  /-- From the end of the previous call to the reading of the clock by `time.Since`. -/
  idle : Nat
  /-- By how much `time.Sleep` overruns the duration it was asked for. -/
  overslept : Nat
  /-- From the end of the pause to the reading of the clock by `time.Now`. -/
  lag : Nat
  /-- The time that `client.request`, the HTTP exchange, takes. -/
  exchange : Nat
deriving DecidableEq, Repr

/-- The surroundings of the gate: the clock, the remote end of the HTTP
connection, and the events so far. -/
structure World (ω : Type) where
  clock : Int
  remote : ω
  trace : List Event

/-- Function `time.Sleep(d)`: pauses for at least the duration `d`; a negative or
zero duration causes Sleep to return immediately. -/
def Sleep {ω : Type} (d : Int) (overslept : Nat) (w : World ω) : World ω :=
  { w with
    clock := if 0 < d then w.clock + d + overslept else w.clock
    trace := w.trace ++ [.slept d] }

/-- Request sends an HTTP request with the given parameters (method, route,
payload) to the Toggl API and returns the APIs' response or an error if the
request failed.  The HTTP exchange itself, `client.request`, is the parameter
`request`. -/
def togglRESTAPIClient.Request {ω : Type}
    (request : String → String → String → ω → Except Error String × ω)
    (timing : Timing) (method route payload : String)
    (clientAndWorld : togglRESTAPIClient × World ω) :
    Except Error String × (togglRESTAPIClient × World ω) :=
  let client := clientAndWorld.1
  let w0 := { clientAndWorld.2 with clock := clientAndWorld.2.clock + timing.idle }
  -- pause between requests to make sure not more than ~ one request per second.
  let timeSinceLastRequest := Sub w0.clock client.lastRequestTimestamp
  let w1 :=
    if timeSinceLastRequest < client.pauseBetweenRequests then
      Sleep (Duration.sub client.pauseBetweenRequests timeSinceLastRequest) timing.overslept w0
    else w0
  -- capture the request time
  let now := w1.clock + timing.lag
  let response := request method route payload w1.remote
  (response.1,
    ({ client with lastRequestTimestamp := now },
     { clock := now + timing.exchange
       remote := response.2
       trace := w1.trace ++ [.issued now, .completed (now + timing.exchange)] }))

/-- One call of Request as the caller makes it: its arguments, and the time its
steps take. -/
structure Outbound where
  timing : Timing
  method : String
  route : String
  payload : String
deriving DecidableEq, Repr

/-- Consecutive calls of Request on one gate, each made after the previous one
returned. -/
def togglRESTAPIClient.RequestAll {ω : Type}
    (request : String → String → String → ω → Except Error String × ω) :
    List Outbound → togglRESTAPIClient × World ω → togglRESTAPIClient × World ω
  | [], s => s
  | call :: rest, s =>
    togglRESTAPIClient.RequestAll request rest
      (togglRESTAPIClient.Request request call.timing call.method call.route call.payload s).2

/-- The REST client that NewAPI creates and hands to the four APIs (workspaces,
projects, time entries, clients): one gate for all of them, with a pause of
`time.Millisecond * 1000` and the zero time as the last request time. -/
def NewAPI.restAPI (baseURL token : String) : togglRESTAPIClient where
  baseURL := baseURL
  token := token
  pauseBetweenRequests := 1000000 * 1000
  lastRequestTimestamp := Time.zero.unixNano

/-- The instants at which the requests of a trace were issued, in order. -/
def issues : List Event → List Int
  | [] => []
  | .issued timestamp :: trace => timestamp :: issues trace
  | _ :: trace => issues trace

/-! ## `cli.go` -/

/-- The CSVImporter interface imports CSV records into a Toggl account. -/
structure CSVImporter (σ : Type) where
  Import : csv.Input → σ → Option (Except Error Unit) × σ

/-- The CSVExporter interface exports time records from a Toggl account as CSV. -/
structure CSVExporter (σ : Type) where
  Export : Time → Time → csv.Writer σ → σ → Except Error Unit × σ

/-- The importer as a CSVImporter interface value. -/
def TogglCSVImporter.asCSVImporter {σ : Type} (togglCSVImporter : TogglCSVImporter σ) :
    CSVImporter σ where
  Import := togglCSVImporter.Import

/-- The exporter as a CSVExporter interface value. -/
def TogglCSVExporter.asCSVExporter {σ : Type} (exporter : TogglCSVExporter σ) :
    CSVExporter σ where
  Export := exporter.Export

/-- The command line interface with its two factories, which make an importer
and an exporter for an API token. -/
structure togglCli (σ : Type) where
  importerFactory : String → CSVImporter σ
  exporterFactory : String → CSVExporter σ

/-- What `app.Parse(args)` of kingpin leaves behind: the selected command, the
error, and the values of the arguments that the two commands declare. -/
structure kingpin.Parsed where
  command : String
  err : Option Error
  exportAPIToken : String
  exportStartDate : String
  exportEndDate : String
  importAPIToken : String
deriving DecidableEq, Repr

/-- The termination handler that Execute installs with `app.Terminate`:
`func(int) { return }`, which does nothing. -/
def togglCli.terminate (_status : Int) (errorOutput : List String) : List String :=
  errorOutput

/-- Method `app.Fatalf` of kingpin: writes the error to the writer of the
application, which Execute sets to `errorOutput`, then calls the termination
handler with status 1.  The error output is the list of the messages written. -/
def togglCli.Fatalf (errorOutput : List String) (message : String) : List String :=
  togglCli.terminate 1 (errorOutput ++ [message])

/-- Execute parses the given arguments and performs the selected action.  The
libraries are arguments: `Parse` is `app.Parse` of the kingpin application that
Execute declares, `timeParse` is `time.Parse` with the layout `2006-01-02`,
`Now` is what `time.Now()` returns.  When `time.Parse` fails it returns the zero
time along with the error.  The result is `none` if the run panics. -/
def togglCli.Execute {σ : Type} (cli : togglCli σ) (Parse : List String → kingpin.Parsed)
    (timeParse : String → Except Error Time) (Now : Time)
    (input : csv.Input) (output : csv.Writer σ) (errorOutput : List String)
    (args : List String) (s : σ) : Option Bool × List String × σ :=
  let parsed := Parse args
  let errorOutput :=
    match parsed.err with
    | some err => togglCli.Fatalf errorOutput err
    | none => errorOutput
  -- export
  if parsed.command == "export" then
    -- start date (required)
    let (startDate, errorOutput) :=
      match timeParse parsed.exportStartDate with
      | .error startDateError =>
        (Time.zero,
          togglCli.Fatalf errorOutput
            ("Failed to parse the given start date. " ++ startDateError))
      | .ok startDate => (startDate, errorOutput)
    -- end date (optional): use current date as the default
    let (endDate, errorOutput) :=
      if parsed.exportEndDate.utf8ByteSize > 0 then
        match timeParse parsed.exportEndDate with
        | .error endDateError =>
          (Time.zero,
            togglCli.Fatalf errorOutput ("Failed to parse the given end date. " ++ endDateError))
        | .ok endDateParsed => (endDateParsed, errorOutput)
      else (Date Now.Year Now.Month Now.Day 23 59 59 0 UTC, errorOutput)
    match (cli.exporterFactory parsed.exportAPIToken).Export startDate endDate output s with
    | (.error exportError, s1) => (some false, errorOutput ++ ["Error: " ++ exportError], s1)
    | (.ok _, s1) => (some true, errorOutput, s1)
  -- import
  else if parsed.command == "import" then
    match (cli.importerFactory parsed.importAPIToken).Import input s with
    | (none, s1) => (none, errorOutput, s1)
    | (some (.error importError), s1) =>
      (some false, errorOutput ++ ["Error: " ++ importError], s1)
    | (some (.ok _), s1) => (some true, errorOutput, s1)
  else
    (some false, errorOutput, s)

/-! ## `main.go` -/

/-- getCSVImporter creates a new CSVImporter instance.  The API that `main.go`
makes for the token with `togglapi.NewAPI` is the parameter `api`. -/
def getCSVImporter {σ : Type} (api : model.TogglAPI σ) : TogglCSVImporter (Repositories σ) where
  csvMapper := (NewCSVTimeRecordMapper date.NewISO8601Formatter).asTimeRecordMapper
  timeRecordRepository := (NewTimeRecordRepository api).asTimeRecorder

/-- getCSVExporter creates a new CSVExporter instance.  The API that `main.go`
makes for the token with `togglapi.NewAPI` is the parameter `api`. -/
def getCSVExporter {σ : Type} (api : model.TogglAPI σ) : TogglCSVExporter (Repositories σ) where
  csvMapper := (NewCSVTimeRecordMapper date.NewISO8601Formatter).asTimeRecordMapper
  timeRecordRepository := (NewTimeRecordRepository api).asTimeRecorder

/-! ## Notions and example inputs for the CSV layer -/

/-- The mapper of the program: `NewCSVTimeRecordMapper(date.NewISO8601Formatter())`. -/
def csvTimeRecordMapper : CSVTimeRecordMapper := NewCSVTimeRecordMapper date.NewISO8601Formatter

/-- The headline of the CSV tables. -/
def headline : List String :=
  ["Start", "Stop", "Workspace Name", "Project Name", "Client Name", "Tag(s)", "Description"]

/-- A description cell of 3001 characters: 2999 letters followed by two blanks. -/
def paddedDescription : String := String.mk (List.replicate 2999 'x' ++ [' ', ' '])

/-- A description of 4000 letters. -/
def veryLongDescription : String := String.mk (List.replicate 4000 'x')

/-- The table of `Test_GetTimeRecords_HeadlineGiven_ThreeRows_ThreeRecordsAreReturned`. -/
def threeRows : List (List String) :=
  [ headline,
    ["2015-03-26T08:00:00+01:00", "2015-03-26T11:30:00+01:00", "Workspace", "Project XY",
      "Client X", "", "Some stuff"],
    ["2015-03-27T08:00:00+01:00", "2015-03-27T11:30:00+01:00", "Workspace", "Project XY",
      "Client X", "", "Some more stuff"],
    ["2015-03-28T08:00:00+01:00", "2015-03-28T11:30:00+01:00", "Workspace", "Project XY",
      "Client X", "", "Some more stuff"] ]

/-- The record of a morning of March 2015, 08:00 to 11:30 at one hour east of UTC. -/
def morning (day : Int) (description : String) : TimeRecord where
  WorkspaceName := "Workspace"
  ProjectName := "Project XY"
  ClientName := "Client X"
  Start := Date 2015 3 day 8 0 0 0 3600
  Stop := Date 2015 3 day 11 30 0 0 3600
  Description := description
  Tags := [""]

/-- A time recorder that keeps the records it created in its state and refuses
the records whose description is "refused"; it has no records to return. -/
def listRecorder : TimeRecorder (List TimeRecord) where
  CreateTimeRecord := fun timeRecord s =>
    if timeRecord.Description == "refused" then (.error "Create failed", s)
    else (.ok (), s ++ [timeRecord])
  GetTimeRecords := fun _ _ s => (.ok s, s)

/-- The importer of the program's mapper over the listRecorder. -/
def listImporter : TogglCSVImporter (List TimeRecord) where
  csvMapper := csvTimeRecordMapper.asTimeRecordMapper
  timeRecordRepository := listRecorder

/-- A table of three rows under a headline whose second row is refused by the
listRecorder. -/
def refusedSecond : List (List String) :=
  [ headline,
    ["2015-03-26T08:00:00+01:00", "2015-03-26T11:30:00+01:00", "Workspace", "Project XY",
      "Client X", "", "Some stuff"],
    ["2015-03-27T08:00:00+01:00", "2015-03-27T11:30:00+01:00", "Workspace", "Project XY",
      "Client X", "", "refused"],
    ["2015-03-28T08:00:00+01:00", "2015-03-28T11:30:00+01:00", "Workspace", "Project XY",
      "Client X", "", "Some more stuff"] ]

/-- A CSV writer that keeps the rows it was handed in its state. -/
def bufferWriter {σ : Type} : csv.Writer (σ × List (List String)) where
  Write := fun row s => (.ok (), (s.1, s.2 ++ [row]))
  Flush := fun s => s

/-- A time recorder over a state with an output buffer that returns the given
answer to GetTimeRecords. -/
def answering (answer : Except Error (List TimeRecord)) :
    TimeRecorder (Unit × List (List String)) where
  CreateTimeRecord := fun _ s => (.ok (), s)
  GetTimeRecords := fun _ _ s => (answer, s)

/-- The exporter of the program's mapper over a recorder with a given answer. -/
def answeringExporter (answer : Except Error (List TimeRecord)) :
    TogglCSVExporter (Unit × List (List String)) where
  csvMapper := csvTimeRecordMapper.asTimeRecordMapper
  timeRecordRepository := answering answer

/-- The kind of a request, with the name of what it creates. -/
def RemoteCall.name : RemoteCall → String
  | .GetWorkspaces _ => "GetWorkspaces"
  | .CreateProject project _ => "CreateProject " ++ project.Name
  | .GetProjects _ _ => "GetProjects"
  | .CreateTimeEntry timeEntry _ => "CreateTimeEntry " ++ timeEntry.Description
  | .GetTimeEntries _ _ _ => "GetTimeEntries"
  | .CreateClient client _ => "CreateClient " ++ client.Name
  | .GetClients _ => "GetClients"

/-- A table of two rows under a headline, both for project "New" of client
"Newcomer" in workspace "Workspace". -/
def twoNewRows : List (List String) :=
  [ headline,
    ["2016-08-01T00:00:00+00:00", "2016-08-12T00:00:01+00:00", "Workspace", "New", "Newcomer",
      "tag", "work"],
    ["2016-08-02T00:00:00+00:00", "2016-08-12T00:00:01+00:00", "Workspace", "New", "Newcomer",
      "tag", "more work"] ]

/-! ## Example inputs for the request gate -/

/-- An HTTP exchange that answers every request with an empty body. -/
def silent : String → String → String → Unit → Except Error String × Unit :=
  fun _ _ _ _ => (.ok "", ())

/-- A call of Request that nothing delays and whose HTTP exchange takes the given
number of milliseconds. -/
def getWorkspaces (exchangeMillis : Nat) : Outbound where
  timing := { idle := 0, overslept := 0, lag := 0, exchange := exchangeMillis * 1000000 }
  method := "GET"
  route := "workspaces"
  payload := ""

/-- The gate of the program, for the base URL of `main.go` and a token. -/
def gate : togglRESTAPIClient := NewAPI.restAPI "https://www.toggl.com/api/v8" "token"

/-- A world whose clock shows 2016-08-01T00:00:00Z, with no event so far. -/
def august : World Unit := { clock := aug1.unixNano, remote := (), trace := [] }

/-! ## Example inputs for the command line interface -/

/-- A stand-in for `time.Parse` with the layout `2006-01-02`: it reads the strings
`YYYY-MM-DD` that spell a date of the calendar out, as midnight UTC of that day,
and fails on every other string. -/
def parseDay (value : String) : Except Error Time :=
  match date.number (value.toList.take 4), date.number ((value.toList.drop 5).take 2),
      date.number ((value.toList.drop 8).take 2) with
  | some year, some month, some day =>
    if value.length = 10 ∧ value.toList[4]? = some '-' ∧ value.toList[7]? = some '-'
        ∧ 1 ≤ month ∧ month ≤ 12 ∧ 1 ≤ day ∧ day ≤ daysIn month (isLeap year) then
      .ok (Date year month day 0 0 0 0 UTC)
    else .error "parsing time: cannot parse"
  | _, _, _ => .error "parsing time: cannot parse"

/-- A stand-in for `app.Parse` of the kingpin application of Execute, for argument
lists without flags: `export <token> <startdate> [<enddate>]` and
`import <token>`; every other argument list is an error. -/
def parseArguments : List String → kingpin.Parsed
  | ["export", token, startdate] =>
    { command := "export", err := none, exportAPIToken := token,
      exportStartDate := startdate, exportEndDate := "", importAPIToken := "" }
  | ["export", token, startdate, enddate] =>
    { command := "export", err := none, exportAPIToken := token,
      exportStartDate := startdate, exportEndDate := enddate, importAPIToken := "" }
  | ["import", token] =>
    { command := "import", err := none, exportAPIToken := "",
      exportStartDate := "", exportEndDate := "", importAPIToken := token }
  | _ =>
    { command := "", err := some "the arguments do not select a command", exportAPIToken := "",
      exportStartDate := "", exportEndDate := "", importAPIToken := "" }

/-- A command line interface over mocks like `getMockCSVExporter(nil)` and
`getMockCSVImporter(nil)` of `cli_test.go`: the exporter and the importer return
nil; the state is the list of the (start, end) dates that Export was called
with. -/
def mockCli : togglCli (List (Time × Time)) where
  importerFactory := fun _ => { Import := fun _ s => (some (.ok ()), s) }
  exporterFactory := fun _ =>
    { Export := fun startDate endDate _ s => (.ok (), s ++ [(startDate, endDate)]) }

/-- A CSV writer that drops what it is handed. -/
def discard {σ : Type} : csv.Writer σ where
  Write := fun _ s => (.ok (), s)
  Flush := fun s => s

/-! ## Notions for the cells of a row -/

/-- The string has no leading and no trailing white space. -/
def strings.Trimmed (s : String) : Bool :=
  (s.toList.head?.all fun c => !strings.IsSpace c)
    && (s.toList.getLast?.all fun c => !strings.IsSpace c)

/-- The layout `2006-01-02T15:04:05-07:00` can spell the time: the year in the
location of the time has four digits, and the offset of the location is a whole
number of minutes, less than 25 hours from UTC. -/
def date.iso80601Formatter.Spells (t : Time) : Prop :=
  0 ≤ t.Year ∧ t.Year ≤ 9999 ∧ t.offset % 60 = 0 ∧ -90000 < t.offset ∧ t.offset < 90000

instance (t : Time) : Decidable (date.iso80601Formatter.Spells t) := by
  unfold date.iso80601Formatter.Spells
  infer_instance

/-- The time records that the round trip of rows is stated for: the workspace,
project and client names and the description have no leading and no trailing
white space, the description is shorter than 3000 bytes, there is at least one
tag, no tag has a comma or white space around it, and the start and the stop
have no fraction of a second. -/
def TimeRecord.Plain (timeRecord : TimeRecord) : Prop :=
  strings.Trimmed timeRecord.WorkspaceName = true
  ∧ strings.Trimmed timeRecord.ProjectName = true
  ∧ strings.Trimmed timeRecord.ClientName = true
  ∧ strings.Trimmed timeRecord.Description = true
  ∧ timeRecord.Description.utf8ByteSize < 3000
  ∧ timeRecord.Tags ≠ []
  ∧ (∀ tag ∈ timeRecord.Tags, ',' ∉ tag.toList ∧ strings.Trimmed tag = true)
  ∧ timeRecord.Start.Nanosecond = 0
  ∧ timeRecord.Stop.Nanosecond = 0

instance (timeRecord : TimeRecord) : Decidable timeRecord.Plain := by
  unfold TimeRecord.Plain
  infer_instance

/-- A record of one hour of work in the year 10000, in UTC. -/
def farRecord : TimeRecord where
  WorkspaceName := "Workspace"
  ProjectName := "Project XY"
  ClientName := "Client X"
  Start := Date 10000 1 1 8 0 0 0 UTC
  Stop := Date 10000 1 1 9 0 0 0 UTC
  Description := "Some stuff"
  Tags := ["Tag 1", "Tag 2"]

/-- A record of a morning of March 2015 in a location half a minute east of
UTC. -/
def halfMinuteRecord : TimeRecord where
  WorkspaceName := "Workspace"
  ProjectName := "Project XY"
  ClientName := "Client X"
  Start := Date 2015 3 26 8 0 0 0 30
  Stop := Date 2015 3 26 11 30 0 0 30
  Description := "Some stuff"
  Tags := ["Tag 1", "Tag 2"]

/-- A record of a morning of March 2015 in a location 25 hours east of UTC. -/
def dayAheadRecord : TimeRecord where
  WorkspaceName := "Workspace"
  ProjectName := "Project XY"
  ClientName := "Client X"
  Start := Date 2015 3 26 8 0 0 0 90000
  Stop := Date 2015 3 26 11 30 0 0 90000
  Description := "Some stuff"
  Tags := ["Tag 1", "Tag 2"]

/-- A record of a morning of March 2015 with two tags, at one hour east of
UTC. -/
def taggedRecord : TimeRecord where
  WorkspaceName := "Workspace"
  ProjectName := "Project XY"
  ClientName := "Client X"
  Start := Date 2015 3 26 8 0 0 0 3600
  Stop := Date 2015 3 26 11 30 0 0 3600
  Description := "Some stuff"
  Tags := ["Tag 1", "Tag 2"]

/-! ## Notions for the workspace of a fetched project -/

/-- The projects that the project listing of the remote returned, over all the
successful GetProjects requests of a log, in the order of the requests, each
with the workspace ID that its request asked for. -/
def listedUnder : List RemoteCall → List (Int × model.Project)
  | [] => []
  | .GetProjects workspaceID (.ok projects) :: log =>
    projects.map (fun project => (workspaceID, project)) ++ listedUnder log
  | _ :: log => listedUnder log

/-- The remote API of `Test_GetProjectByName_WorkspaceNameDoesNotMatch_ErrorIsReturned`:
the workspaces 1 "Workspace A" and 2 "Workspace B", and a project listing that
answers every request, whatever workspace it asks for, with "Project A" and
"Project B" of workspace 2. -/
def secondWorkspaceAPI : model.TogglAPI Unit where
  GetWorkspaces := fun s =>
    (.ok [{ ID := 1, Name := "Workspace A" }, { ID := 2, Name := "Workspace B" }], s)
  CreateProject := fun _ s => (.error "not set", s)
  GetProjects := fun _ s =>
    (.ok [{ ID := 0, WorkspaceID := 2, ClientID := 0, Name := "Project A" },
          { ID := 0, WorkspaceID := 2, ClientID := 0, Name := "Project B" }], s)
  CreateTimeEntry := fun _ s => (.error "not set", s)
  GetTimeEntries := fun _ _ s => (.error "not set", s)
  CreateClient := fun _ s => (.error "not set", s)
  GetClients := fun s => (.ok [], s)

/-! ## Stand-ins for the creation of a time record -/

/-- The TimeRecordRepository of `Test_CreateTimeRecord_ConversionFails_ErrorIsReturned`:
the lookup of a workspace and of a project by name return the zero workspace and
the zero project, the conversion of a time record fails, and the collaborators
that the test does not set answer with an error. -/
def conversionFails : TimeRecordRepository Unit where
  timeEntryAPI :=
    { CreateTimeEntry := fun _ s => (.error "not set", s)
      GetTimeEntries := fun _ _ s => (.error "not set", s) }
  timeRangeProvider := { GetTimeRanges := fun _ _ s => (.error "not set", s) }
  workspaces :=
    { CreateWorkspace := fun _ s => (.error "not set", s)
      GetWorkspaces := fun s => (.error "not set", s)
      GetWorkspaceByID := fun _ s => (.error "not set", s)
      GetWorkspaceByName := fun _ s => (.ok Workspace.zero, s) }
  projects :=
    { CreateProject := fun _ _ _ s => (.error "not set", s)
      GetProjects := fun s => (.error "not set", s)
      GetProjectByID := fun _ s => (.error "not set", s)
      GetProjectByName := fun _ _ _ s => (.ok Project.zero, s) }
  modelConverter :=
    { ConvertTimeEntryToTimeRecord := fun _ s => (.error "not set", s)
      ConvertTimeRecordToTimeEntry := fun _ s => (.error "Conversion failed", s) }

/-- The record of the tests of CreateTimeRecord: August 2016, "Yada Yada". -/
def yadaRecord : TimeRecord :=
  { WorkspaceName := "", ProjectName := "", ClientName := "",
    Start := Date 2016 8 1 0 0 1 0 UTC, Stop := Date 2016 8 31 23 59 59 0 UTC,
    Description := "Yada Yada", Tags := [] }

/-- The zero value `model.TimeEntry{}`. -/
def zeroEntry : model.TimeEntry :=
  { ID := 0, Wid := 0, Pid := 0, Start := Time.zero, Stop := Time.zero, Billable := false,
    Description := "", Tags := [], CreatedWith := "" }

/-- The TimeRecordRepository of `Test_CreateTimeRecord_CreateSucceeds_NoErrorIsReturned`:
the lookups by name return the zero workspace and the zero project, the
conversion of a time record and the submission of a time entry return the zero
time entry. -/
def createSucceeds : TimeRecordRepository Unit :=
  { conversionFails with
    timeEntryAPI :=
      { CreateTimeEntry := fun _ s => (.ok zeroEntry, s)
        GetTimeEntries := fun _ _ s => (.error "not set", s) }
    modelConverter :=
      { ConvertTimeEntryToTimeRecord := fun _ s => (.error "not set", s)
        ConvertTimeRecordToTimeEntry := fun _ s => (.ok zeroEntry, s) } }

/-! ## Notions for repeated creations -/

/-- The number of requests that create a project. -/
def projectCreations (log : List RemoteCall) : Nat :=
  (log.filter fun call => match call with | .CreateProject _ _ => true | _ => false).length

/-- The number of requests that create a client. -/
def clientCreations (log : List RemoteCall) : Nat :=
  (log.filter fun call => match call with | .CreateClient _ _ => true | _ => false).length

/-- The time entry that ConvertTimeRecordToTimeEntry makes of a record, for the
workspace and the project that its lookups resolved. -/
def entryOf (timeRecord : TimeRecord) (workspace : Workspace) (project : Project) :
    model.TimeEntry :=
  { ID := 0, Wid := workspace.ID, Pid := project.ID, Start := timeRecord.Start,
    Stop := timeRecord.Stop, Billable := false, Description := timeRecord.Description,
    Tags := timeRecord.Tags, CreatedWith := "" }

/-- A second record of project "New" of client "Newcomer" in workspace
"Workspace". -/
def secondNewProjectRecord : TimeRecord :=
  { newProjectRecord with Description := "more work", Tags := [] }

/-! # Theorems -/

set_option maxRecDepth 100000

/-! ## Calendar lemmas -/

theorem isLeap_iff (y : Int) :
    isLeap y = true ↔ y % 4 = 0 ∧ (y % 100 ≠ 0 ∨ y % 400 = 0) := by
  simp [isLeap]

theorem absYear_arith (d b c e f g i : Int)
    (hb : b = d / 146097) (hc : c = (d - 146097 * b) / 36524) (he : e = c / 4)
    (hf : f = (d - 146097 * b - 36524 * (c - e)) / 1461)
    (hg : g = (d - 146097 * b - 36524 * (c - e) - 1461 * f) / 365) (hi : i = g / 4) :
    daysSinceEpoch (400 * b + 100 * (c - e) + 4 * f + (g - i) + 1)
        + (d - 146097 * b - 36524 * (c - e) - 1461 * f - 365 * (g - i)) = d
    ∧ 0 ≤ d - 146097 * b - 36524 * (c - e) - 1461 * f - 365 * (g - i)
    ∧ d - 146097 * b - 36524 * (c - e) - 1461 * f - 365 * (g - i) < 366
    ∧ (isLeap (400 * b + 100 * (c - e) + 4 * f + (g - i) + 1) = false →
        d - 146097 * b - 36524 * (c - e) - 1461 * f - 365 * (g - i) < 365) := by
  have hc4 : 0 ≤ c ∧ c ≤ 4 := by omega
  have hce : 0 ≤ c - e ∧ c - e ≤ 3 := by omega
  have hf4 : 0 ≤ f ∧ f ≤ 24 := by omega
  have hg4 : 0 ≤ g ∧ g ≤ 4 := by omega
  have hgi : 0 ≤ g - i ∧ g - i ≤ 3 := by omega
  obtain ⟨x, hx⟩ : ∃ x, x = c - e := ⟨_, rfl⟩
  obtain ⟨y, hy⟩ : ∃ y, y = g - i := ⟨_, rfl⟩
  rw [← hx, ← hy]
  have e4 : (400 * b + 100 * x + 4 * f + y + 1 - 1) / 4 = 100 * b + 25 * x + f := by omega
  have e100 : (400 * b + 100 * x + 4 * f + y + 1 - 1) / 100 = 4 * b + x := by omega
  have e400 : (400 * b + 100 * x + 4 * f + y + 1 - 1) / 400 = b := by omega
  refine ⟨?_, by omega, by omega, ?_⟩
  · simp only [daysSinceEpoch]
    rw [e4, e100, e400]
    omega
  · intro hl
    have hn : ¬ (isLeap (400 * b + 100 * x + 4 * f + y + 1) = true) := by simp [hl]
    rw [isLeap_iff] at hn
    have m4 : (400 * b + 100 * x + 4 * f + y + 1) % 4 = (y + 1) % 4 := by omega
    have m100 : (400 * b + 100 * x + 4 * f + y + 1) % 100 = (4 * f + y + 1) % 100 := by omega
    have m400 : (400 * b + 100 * x + 4 * f + y + 1) % 400
        = (100 * x + 4 * f + y + 1) % 400 := by omega
    rw [m4, m100, m400] at hn
    omega

/-- The year split inverts the day count: the year and day of the year that
`absYear` returns add up to the day count, and the day lies within the year. -/
theorem absYear_spec (d : Int) :
    daysSinceEpoch (absYear d).1 + (absYear d).2 = d ∧ 0 ≤ (absYear d).2 ∧
    (absYear d).2 < 366 ∧ (isLeap (absYear d).1 = false → (absYear d).2 < 365) :=
  absYear_arith d _ _ _ _ _ _ rfl rfl rfl rfl rfl rfl

theorem daysSinceEpoch_succ (y : Int) :
    daysSinceEpoch (y + 1) = daysSinceEpoch y + 365 + (if isLeap y = true then 1 else 0) := by
  by_cases h : isLeap y = true
  · rw [if_pos h]; rw [isLeap_iff] at h; simp only [daysSinceEpoch]; omega
  · rw [if_neg h]; rw [isLeap_iff] at h; simp only [daysSinceEpoch]; omega

theorem daysSinceEpoch_mono (a b : Int) (h : a ≤ b) :
    daysSinceEpoch a + 365 * (b - a) ≤ daysSinceEpoch b := by
  simp only [daysSinceEpoch]
  omega

theorem daysBefore_cases (m : Int) (h0 : 0 ≤ m) (h1 : m ≤ 12) :
    (m = 0 ∧ daysBefore m = 0) ∨ (m = 1 ∧ daysBefore m = 31) ∨ (m = 2 ∧ daysBefore m = 59) ∨
    (m = 3 ∧ daysBefore m = 90) ∨ (m = 4 ∧ daysBefore m = 120) ∨ (m = 5 ∧ daysBefore m = 151) ∨
    (m = 6 ∧ daysBefore m = 181) ∨ (m = 7 ∧ daysBefore m = 212) ∨ (m = 8 ∧ daysBefore m = 243) ∨
    (m = 9 ∧ daysBefore m = 273) ∨ (m = 10 ∧ daysBefore m = 304) ∨
    (m = 11 ∧ daysBefore m = 334) ∨ (m = 12 ∧ daysBefore m = 365) := by
  interval_cases m <;> decide

/-- The month split inverts `yearDay` and returns a date of the calendar. -/
theorem monthDay_spec (leap : Bool) (yday : Int) (h0 : 0 ≤ yday)
    (h1 : yday < 365 + (if leap = true then 1 else 0)) :
    1 ≤ (monthDay leap yday).1 ∧ (monthDay leap yday).1 ≤ 12 ∧
    1 ≤ (monthDay leap yday).2 ∧ (monthDay leap yday).2 ≤ daysIn (monthDay leap yday).1 leap ∧
    yearDay leap (monthDay leap yday).1 (monthDay leap yday).2 = yday := by
  unfold monthDay
  by_cases hf : leap = true ∧ yday = 31 + 29 - 1
  · rw [if_pos hf]; obtain ⟨hl, hy⟩ := hf
    subst hl; subst hy; decide
  · rw [if_neg hf]
    obtain ⟨dd, hdd⟩ : ∃ dd, dd = (if leap = true ∧ yday > 31 + 29 - 1 then yday - 1 else yday) :=
      ⟨_, rfl⟩
    simp only [← hdd]
    have hd2 : (leap = true ∧ dd = yday - 1 ∧ 59 < yday) ∨
        (leap = true ∧ dd = yday ∧ yday < 59) ∨ (leap = false ∧ dd = yday) := by
      cases leap <;> simp at hf hdd ⊢ <;> (try split_ifs at hdd) <;> omega
    have hdb : 0 ≤ dd ∧ dd < 365 := by
      cases leap <;> simp at h1 hd2 <;> omega
    obtain ⟨k, hk⟩ : ∃ k, k = dd / 31 := ⟨_, rfl⟩
    have hk0 : 0 ≤ k ∧ k ≤ 11 := by omega
    rw [← hk]
    have c0 := daysBefore_cases k hk0.1 (by omega)
    have c1 := daysBefore_cases (k + 1) (by omega) (by omega)
    by_cases hge : dd ≥ daysBefore (k + 1)
    · rw [if_pos hge]
      have hk11 : k ≤ 10 := by omega
      have c2 := daysBefore_cases (k + 2) (by omega) (by omega)
      simp only [daysIn, yearDay]
      have e1 : k + 2 - 1 = k + 1 := by ring
      rw [e1]
      cases leap <;> simp at hd2 ⊢ <;> (try split_ifs) <;> omega
    · rw [if_neg hge]
      simp only [daysIn, yearDay]
      have e1 : k + 1 - 1 = k := by ring
      rw [e1]
      cases leap <;> simp at hd2 ⊢ <;> (try split_ifs) <;> omega

theorem yearDay_lt (leap : Bool) (m d m' d' : Int)
    (hm : 1 ≤ m ∧ m ≤ 12) (hd : 1 ≤ d ∧ d ≤ daysIn m leap)
    (hm' : 1 ≤ m' ∧ m' ≤ 12) (hd' : 1 ≤ d' ∧ d' ≤ daysIn m' leap)
    (h : m < m') : yearDay leap m d < yearDay leap m' d' := by
  have c0 := daysBefore_cases (m - 1) (by omega) (by omega)
  have c1 := daysBefore_cases m (by omega) (by omega)
  have c2 := daysBefore_cases (m' - 1) (by omega) (by omega)
  simp only [daysIn, yearDay] at *
  cases leap <;> simp at hd hd' ⊢ <;> (try split_ifs at hd hd' ⊢) <;> omega

theorem yearDay_bounds (leap : Bool) (m d : Int)
    (hm : 1 ≤ m ∧ m ≤ 12) (hd : 1 ≤ d ∧ d ≤ daysIn m leap) :
    0 ≤ yearDay leap m d ∧ yearDay leap m d < 365 + (if leap = true then 1 else 0) := by
  have c0 := daysBefore_cases (m - 1) (by omega) (by omega)
  have c1 := daysBefore_cases m (by omega) (by omega)
  simp only [daysIn, yearDay] at *
  cases leap <;> simp at hd ⊢ <;> (try split_ifs at hd ⊢) <;> omega

/-! ## Reading a date off an instant and back -/

theorem civil_valid (t : Time) :
    validDate t.Year t.Month t.Day ∧ daysUpTo t.Year t.Month t.Day = t.days := by
  obtain ⟨h1, h2, h3, h4⟩ := absYear_spec t.days
  have hy : (absYear t.days).2 < 365 + (if isLeap t.Year = true then 1 else 0) := by
    unfold Time.Year
    by_cases hl : isLeap (absYear t.days).1 = true
    · rw [if_pos hl]; omega
    · rw [if_neg hl]; have := h4 (by simpa using hl); omega
  obtain ⟨m1, m2, m3, m4, m5⟩ := monthDay_spec (isLeap t.Year) (absYear t.days).2 h2 hy
  refine ⟨⟨m1, m2, m3, m4⟩, ?_⟩
  show daysSinceEpoch t.Year + yearDay (isLeap t.Year) t.Month t.Day = t.days
  unfold Time.Month Time.Day
  rw [m5]; exact h1

theorem daysUpTo_inj (y m d y' m' d' : Int) (hv : validDate y m d) (hv' : validDate y' m' d')
    (h : daysUpTo y m d = daysUpTo y' m' d') : y = y' ∧ m = m' ∧ d = d' := by
  obtain ⟨a1, a2, a3, a4⟩ := hv
  obtain ⟨b1, b2, b3, b4⟩ := hv'
  have ya := yearDay_bounds (isLeap y) m d ⟨a1, a2⟩ ⟨a3, a4⟩
  have yb := yearDay_bounds (isLeap y') m' d' ⟨b1, b2⟩ ⟨b3, b4⟩
  unfold daysUpTo at h
  have hyy : y = y' := by
    rcases lt_trichotomy y y' with hlt | heq | hgt
    · exfalso
      have s1 := daysSinceEpoch_succ y
      have s2 := daysSinceEpoch_mono (y + 1) y' (by omega)
      omega
    · exact heq
    · exfalso
      have s1 := daysSinceEpoch_succ y'
      have s2 := daysSinceEpoch_mono (y' + 1) y (by omega)
      omega
  subst hyy
  have hyd : yearDay (isLeap y) m d = yearDay (isLeap y) m' d' := by omega
  have hmm : m = m' := by
    rcases lt_trichotomy m m' with hlt | heq | hgt
    · exfalso
      have := yearDay_lt (isLeap y) m d m' d' ⟨a1, a2⟩ ⟨a3, a4⟩ ⟨b1, b2⟩ ⟨b3, b4⟩ hlt
      omega
    · exact heq
    · exfalso
      have := yearDay_lt (isLeap y) m' d' m d ⟨b1, b2⟩ ⟨b3, b4⟩ ⟨a1, a2⟩ ⟨a3, a4⟩ hgt
      omega
  subst hmm
  refine ⟨rfl, rfl, ?_⟩
  unfold yearDay at hyd
  omega

/-- The calendar date of an instant is the only date of the calendar with its
day count. -/
theorem civil_unique (t : Time) (y m d : Int) (hv : validDate y m d)
    (h : t.days = daysUpTo y m d) : t.Year = y ∧ t.Month = m ∧ t.Day = d := by
  obtain ⟨v, e⟩ := civil_valid t
  exact daysUpTo_inj _ _ _ _ _ _ v hv (by rw [e, h])

theorem daysUpTo_day (y m d : Int) : daysUpTo y m d = daysUpTo y m 1 + (d - 1) := by
  unfold daysUpTo yearDay
  omega

theorem firstDay_succ (i : Int) :
    firstDay (i + 1) = firstDay i + daysIn (i % 12 + 1) (isLeap (i / 12)) := by
  obtain ⟨r, hr⟩ : ∃ r, r = i % 12 := ⟨_, rfl⟩
  obtain ⟨q, hq⟩ : ∃ q, q = i / 12 := ⟨_, rfl⟩
  have hr0 : 0 ≤ r ∧ r ≤ 11 := by omega
  unfold firstDay
  rw [← hr, ← hq]
  by_cases h11 : r = 11
  · have e1 : (i + 1) / 12 = q + 1 := by omega
    have e2 : (i + 1) % 12 = 0 := by omega
    rw [e1, e2, h11]
    unfold daysUpTo
    rw [daysSinceEpoch_succ]
    have v1 : ∀ l, yearDay l (0 + 1) 1 = 0 := by decide
    have v2 : ∀ l, yearDay l (11 + 1) 1 = 334 + (if l = true then 1 else 0) := by decide
    have v3 : ∀ l, daysIn (11 + 1) l = 31 := by decide
    rw [v1, v2, v3]
    omega
  · have e1 : (i + 1) / 12 = q := by omega
    have e2 : (i + 1) % 12 = r + 1 := by omega
    rw [e1, e2]
    have c0 := daysBefore_cases r hr0.1 (by omega)
    have c1 := daysBefore_cases (r + 1) (by omega) (by omega)
    have x1 : r + 1 + 1 - 1 = r + 1 := by ring
    have x2 : r + 1 - 1 = r := by ring
    simp only [daysUpTo, yearDay, daysIn, x1, x2]
    cases isLeap q
    · simp only [Bool.false_eq_true, false_and, and_false, if_false]
      omega
    · simp only [true_and, and_true]
      split_ifs <;> omega

theorem daysIn_ge (m : Int) (leap : Bool) (h : 1 ≤ m ∧ m ≤ 12) :
    28 ≤ daysIn m leap ∧ daysIn m leap ≤ 31 := by
  have c0 := daysBefore_cases (m - 1) (by omega) (by omega)
  have c1 := daysBefore_cases m (by omega) (by omega)
  simp only [daysIn]
  cases leap <;> simp <;> (try split_ifs) <;> omega

theorem firstDay_mono_nat (i : Int) (n : Nat) : firstDay i + 28 * n ≤ firstDay (i + n) := by
  induction n with
  | zero => simp
  | succ k ih =>
    have h := firstDay_succ (i + k)
    have g := daysIn_ge ((i + k) % 12 + 1) (isLeap ((i + k) / 12)) (by omega)
    have e : i + ((k + 1 : Nat) : Int) = i + k + 1 := by push_cast; ring
    rw [e, h]
    push_cast
    omega

theorem firstDay_mono (i j : Int) (h : i ≤ j) : firstDay i + 28 * (j - i) ≤ firstDay j := by
  have := firstDay_mono_nat i (j - i).toNat
  have e : ((j - i).toNat : Int) = j - i := Int.toNat_of_nonneg (by omega)
  rw [e] at this
  have e2 : i + (j - i) = j := by ring
  rw [e2] at this
  exact this


/-! ## Fields of a constructed time -/

theorem uint64_of_range (x : Int) (h0 : 0 ≤ x) (h1 : x < 18446744073709551616) :
    uint64 x = x := by
  unfold uint64
  omega

theorem int64_of_range (x : Int) (h0 : -9223372036854775808 ≤ x)
    (h1 : x ≤ 9223372036854775807) : int64 x = x := by
  unfold int64
  omega

/-- The methods read the wall clock without a wrap from the absolute epoch to the
end of the unsigned count, 2^64 s later. -/
theorem abs_of_range (t : Time)
    (h0 : -9223371966606163200 ≤ t.unixNano / 1000000000 + 62135596800 + t.offset)
    (h1 : t.unixNano / 1000000000 + 62135596800 + t.offset < 9223372107103388416) :
    t.abs = t.unixNano + (t.offset + 62135596800) * 1000000000 := by
  unfold Time.abs uint64
  omega

/-- The wall clock that the methods read is never before the absolute epoch. -/
theorem abs_ge (t : Time) : -9223371966606163200000000000 ≤ t.abs := by
  unfold Time.abs uint64
  omega

theorem uint64_modEq (x : Int) : uint64 x ≡ x [ZMOD 18446744073709551616] :=
  Int.mod_modEq x _

theorem int64_modEq (x : Int) : int64 x ≡ x [ZMOD 18446744073709551616] := by
  have h := (Int.mod_modEq (x + 9223372036854775808) 18446744073709551616).sub_right
    9223372036854775808
  simpa [int64] using h

/-- Two `int64` values that agree modulo 2^64 are equal. -/
theorem eq_of_modEq (a b : Int) (h : a ≡ b [ZMOD 18446744073709551616])
    (ha : -9223372036854775808 ≤ a ∧ a ≤ 9223372036854775807)
    (hb : -9223372036854775808 ≤ b ∧ b ≤ 9223372036854775807) : a = b := by
  unfold Int.ModEq at h
  omega

theorem int64_range (x : Int) :
    -9223372036854775808 ≤ int64 x ∧ int64 x ≤ 9223372036854775807 := by
  unfold int64
  omega

/-- The days of the centuries and of the years of a century add up to the days of
the years. -/
theorem century_days (Y : Int) :
    146097 * (Y / 100) / 4 + 1461 * (Y % 100) / 4 = 365 * Y + Y / 4 - Y / 100 + Y / 400 := by
  have g1 : 146097 * (Y / 100) / 4 = 36524 * (Y / 100) + Y / 100 / 4 := by omega
  have g2 : 1461 * (Y % 100) / 4 = 365 * (Y % 100) + Y % 100 / 4 := by omega
  have g3 : Y / 4 = 25 * (Y / 100) + Y % 100 / 4 := by omega
  have g4 : Y / 400 = Y / 100 / 4 := by omega
  rw [g1, g2, g3, g4]
  omega

/-- The days before January 1 of a year and of the next year. -/
theorem daysSinceEpoch_leap (y : Int) :
    365 * y + y / 4 - y / 100 + y / 400
      = daysSinceEpoch y + 365 + (if isLeap y = true then 1 else 0) := by
  have h := daysSinceEpoch_succ y
  have e : daysSinceEpoch (y + 1) = 365 * y + y / 4 - y / 100 + y / 400 := by
    unfold daysSinceEpoch
    have : y + 1 - 1 = y := by ring
    rw [this]
  rw [← e, h]

/-- The days of 730692556 cycles of 400 years. -/
theorem cycle_shift (x : Int) :
    365 * (x + 292277022400) + (x + 292277022400) / 4 - (x + 292277022400) / 100
        + (x + 292277022400) / 400
      = 365 * x + x / 4 - x / 100 + x / 400 + 106751990353932 := by
  have e4 : (x + 292277022400) / 4 = x / 4 + 73069255600 := by omega
  have e100 : (x + 292277022400) / 100 = x / 100 + 2922770224 := by omega
  have e400 : (x + 292277022400) / 400 = x / 400 + 730692556 := by omega
  rw [e4, e100, e400]
  ring

/-- The days since the absolute epoch of a date from March of the year
-292277022400 on, modulo 2^64: the days since the year 1 and the 106751990354238
days from the absolute epoch to the year 1. -/
theorem dateToAbsDays_of_range (y m d : Int) (hm : 1 ≤ m ∧ m ≤ 12)
    (hy : 12 * -292277022400 + 2 ≤ 12 * y + m - 1 ∧ y ≤ 292277024627) :
    dateToAbsDays y m d = uint64 (daysUpTo y m d + 106751990354238) := by
  obtain ⟨Y, hY⟩ : ∃ Y, Y = y - (if m < 3 then 1 else 0) + 292277022400 := ⟨_, rfl⟩
  have hY0 : 0 ≤ Y ∧ Y ≤ 584554047027 := by
    rw [hY]; split_ifs <;> omega
  have e1 : uint64 Y = Y := uint64_of_range _ (by omega) (by omega)
  have e2 : uint64 (146097 * (Y / 100)) = 146097 * (Y / 100) :=
    uint64_of_range _ (by omega) (by omega)
  have c := century_days Y
  have e3 : 146097 * (Y / 100) / 4 + (1461 * (Y % 100) / 4 + (979 * (m + 12 * (if m < 3 then 1
      else 0)) - 2919) / 32 + d - 1) = daysUpTo y m d + 106751990354238 := by
    have l := daysSinceEpoch_leap y
    unfold daysUpTo yearDay
    obtain ⟨h1, h12⟩ := hm
    by_cases h3 : m < 3
    · rw [if_pos h3] at hY ⊢
      have c1 := cycle_shift (y - 1)
      have e : y - 1 + 292277022400 = Y := by omega
      have c2 : 365 * (y - 1) + (y - 1) / 4 - (y - 1) / 100 + (y - 1) / 400
          = daysSinceEpoch y := rfl
      rw [e, c2] at c1
      have i3 : ¬ (isLeap y = true ∧ 3 ≤ m) := by omega
      rw [if_neg i3]
      generalize daysSinceEpoch y = D at *
      generalize 146097 * (Y / 100) / 4 = A at *
      generalize 1461 * (Y % 100) / 4 = B at *
      generalize Y / 4 = Y4 at *
      generalize Y / 100 = Y100 at *
      generalize Y / 400 = Y400 at *
      clear l e1 e2 hY hy e
      interval_cases m <;> simp only [daysBefore] <;> norm_num <;> omega
    · rw [if_neg h3] at hY ⊢
      have c1 := cycle_shift y
      have e : y + 292277022400 = Y := by omega
      rw [e, l] at c1
      by_cases hl : isLeap y = true
      · rw [if_pos hl] at c1
        have i3 : isLeap y = true ∧ 3 ≤ m := ⟨hl, by omega⟩
        rw [if_pos i3]
        generalize daysSinceEpoch y = D at *
        generalize 146097 * (Y / 100) / 4 = A at *
        generalize 1461 * (Y % 100) / 4 = B at *
        generalize Y / 4 = Y4 at *
        generalize Y / 100 = Y100 at *
        generalize Y / 400 = Y400 at *
        clear l e1 e2 hY hy e
        interval_cases m <;> simp only [daysBefore] <;> norm_num <;> omega
      · rw [if_neg hl] at c1
        have i3 : ¬ (isLeap y = true ∧ 3 ≤ m) := fun h => hl h.1
        rw [if_neg i3]
        generalize daysSinceEpoch y = D at *
        generalize 146097 * (Y / 100) / 4 = A at *
        generalize 1461 * (Y % 100) / 4 = B at *
        generalize Y / 4 = Y4 at *
        generalize Y / 100 = Y100 at *
        generalize Y / 400 = Y400 at *
        clear l e1 e2 hY hy e
        interval_cases m <;> simp only [daysBefore] <;> norm_num <;> omega
  simp only [dateToAbsDays, ← hY, e1, e2]
  rw [e3]

/-- The seconds since the year 1 of a constructed time, modulo 2^64: the linear
formula over the days since the absolute epoch. -/
theorem Date_modEq (y m d h mi s n off : Int) :
    (Date y m d h mi s n off).unixNano / 1000000000 + 62135596800
      ≡ dateToAbsDays (y + (m - 1) / 12) ((m - 1) % 12 + 1) d * 86400
        + (h * 3600 + mi * 60 + (s + n / 1000000000)) - 9223371966606163200 - off
      [ZMOD 18446744073709551616] := by
  have e : (Date y m d h mi s n off).unixNano / 1000000000 + 62135596800
      = int64 (int64 (int64 (dateToAbsDays (y + (m - 1) / 12) ((m - 1) % 12 + 1) d * 86400
        + (h * 3600 + mi * 60 + (s + n / 1000000000)) - 9223372028741760000) - off)
        + 62135596800) := by
    simp only [Date]
    omega
  rw [e]
  have a4 := int64_modEq (dateToAbsDays (y + (m - 1) / 12) ((m - 1) % 12 + 1) d * 86400
        + (h * 3600 + mi * 60 + (s + n / 1000000000)) - 9223372028741760000)
  have a5 := (int64_modEq _).trans (a4.sub_right off)
  have a6 := (int64_modEq _).trans (a5.add_right 62135596800)
  refine a6.trans ?_
  have e2 : ∀ X : Int, X - 9223372028741760000 - off + 62135596800
      = X - 9223371966606163200 - off := by intro X; ring
  rw [e2]

/-- The constructor without a wrap: from March of the year -292277022400 on, the
result is the instant of the linear formula whenever its seconds fit in an
`int64`. -/
theorem Date_of_range (y m d h mi s n off : Int)
    (hy : 12 * -292277022400 + 2 ≤ 12 * y + m - 1 ∧ y + (m - 1) / 12 ≤ 292277024627)
    (hn : 0 ≤ n ∧ n < 1000000000)
    (hlo : -9223372036854775808 ≤
      daysUpTo (y + (m - 1) / 12) ((m - 1) % 12 + 1) d * 86400 + h * 3600 + mi * 60 + s - off)
    (hhi : daysUpTo (y + (m - 1) / 12) ((m - 1) % 12 + 1) d * 86400 + h * 3600 + mi * 60 + s - off
      ≤ 9223372036854775807) :
    Date y m d h mi s n off =
      { unixNano := (daysUpTo (y + (m - 1) / 12) ((m - 1) % 12 + 1) d * 86400 + h * 3600
          + mi * 60 + s - 62135596800 - off) * 1000000000 + n,
        offset := off } := by
  have e1 := dateToAbsDays_of_range (y + (m - 1) / 12) ((m - 1) % 12 + 1) d (by omega)
    (by omega)
  have e3 : n / 1000000000 = 0 := by omega
  have e4 : n % 1000000000 = n := by omega
  have hm := Date_modEq y m d h mi s n off
  rw [e1, e3] at hm
  have hm2 : (Date y m d h mi s n off).unixNano / 1000000000 + 62135596800
      ≡ daysUpTo (y + (m - 1) / 12) ((m - 1) % 12 + 1) d * 86400 + h * 3600 + mi * 60 + s - off
      [ZMOD 18446744073709551616] := by
    refine hm.trans ?_
    have u := ((((uint64_modEq (daysUpTo (y + (m - 1) / 12) ((m - 1) % 12 + 1) d
      + 106751990354238)).mul_right 86400).add_right (h * 3600 + mi * 60 + (s + 0))).sub_right
      9223371966606163200).sub_right off
    refine u.trans ?_
    have e5 : (daysUpTo (y + (m - 1) / 12) ((m - 1) % 12 + 1) d + 106751990354238) * 86400
        + (h * 3600 + mi * 60 + (s + 0)) - 9223371966606163200 - off
        = daysUpTo (y + (m - 1) / 12) ((m - 1) % 12 + 1) d * 86400 + h * 3600 + mi * 60 + s
          - off := by ring
    rw [e5]
  have hr : -9223372036854775808 ≤ (Date y m d h mi s n off).unixNano / 1000000000 + 62135596800
      ∧ (Date y m d h mi s n off).unixNano / 1000000000 + 62135596800 ≤ 9223372036854775807 := by
    have r := int64_range (int64 (int64 (dateToAbsDays (y + (m - 1) / 12) ((m - 1) % 12 + 1) d
        * 86400 + (h * 3600 + mi * 60 + (s + n / 1000000000)) - 9223372028741760000) - off)
        + 62135596800)
    simp only [Date]
    omega
  have hq := eq_of_modEq _ _ hm2 hr ⟨hlo, hhi⟩
  have hnano : (Date y m d h mi s n off).unixNano % 1000000000 = n := by
    simp only [Date, e4]
    omega
  have ho : (Date y m d h mi s n off).offset = off := rfl
  generalize Date y m d h mi s n off = t at *
  cases t
  simp only [Time.mk.injEq] at *
  refine ⟨?_, ho⟩
  omega

theorem Date_abs (y m d h mi s n off : Int)
    (hy : 12 * -292277022400 + 2 ≤ 12 * y + m - 1 ∧ y + (m - 1) / 12 ≤ 292277024627)
    (hn : 0 ≤ n ∧ n < 1000000000)
    (hlo : -9223372036854775808 ≤
      daysUpTo (y + (m - 1) / 12) ((m - 1) % 12 + 1) d * 86400 + h * 3600 + mi * 60 + s - off)
    (hhi : daysUpTo (y + (m - 1) / 12) ((m - 1) % 12 + 1) d * 86400 + h * 3600 + mi * 60 + s - off
      ≤ 9223372036854775807)
    (hlo' : -9223371966606163200 ≤
      daysUpTo (y + (m - 1) / 12) ((m - 1) % 12 + 1) d * 86400 + h * 3600 + mi * 60 + s)
    (hhi' : daysUpTo (y + (m - 1) / 12) ((m - 1) % 12 + 1) d * 86400 + h * 3600 + mi * 60 + s
      < 9223372107103388416) :
    (Date y m d h mi s n off).abs =
      (daysUpTo (y + (m - 1) / 12) ((m - 1) % 12 + 1) d * 86400 + h * 3600 + mi * 60 + s)
        * 1000000000 + n := by
  rw [Date_of_range y m d h mi s n off hy hn hlo hhi, abs_of_range]
  · simp only
    ring
  · simp only
    omega
  · simp only
    omega

theorem Date_offset (y m d h mi s n off : Int) : (Date y m d h mi s n off).offset = off := rfl

/-- A constructed time is a value of `time.Time`. -/
theorem Date_Valid (y m d h mi s n off : Int) : (Date y m d h mi s n off).Valid := by
  have r := int64_range (int64 (int64 (dateToAbsDays (y + (m - 1) / 12) ((m - 1) % 12 + 1) d
      * 86400 + (h * 3600 + mi * 60 + (s + n / 1000000000)) - 9223372028741760000) - off)
      + 62135596800)
  simp only [Time.Valid, Date]
  omega

/-- The constructor reads year and month only through the month number. -/
theorem Date_congr (y m y' m' d h mi s n off : Int) (e : 12 * y + m = 12 * y' + m') :
    Date y m d h mi s n off = Date y' m' d h mi s n off := by
  have e1 : y + (m - 1) / 12 = y' + (m' - 1) / 12 := by omega
  have e2 : (m - 1) % 12 = (m' - 1) % 12 := by omega
  simp only [Date, e1, e2]

theorem daysUpTo_firstDay (y m d : Int) :
    daysUpTo (y + (m - 1) / 12) ((m - 1) % 12 + 1) d = firstDay (12 * y + m - 1) + (d - 1) := by
  have e1 : (12 * y + m - 1) / 12 = y + (m - 1) / 12 := by omega
  have e2 : (12 * y + m - 1) % 12 = (m - 1) % 12 := by omega
  rw [firstDay, e1, e2]
  exact daysUpTo_day _ _ _

/-- Day counts of the first days of the first and of the last safe month. -/
theorem firstDay_ends :
    firstDay (12 * -292277022400 + 2) = -106751990354238
    ∧ firstDay (12 * 292277024627) = 106751991166961 := by
  decide

theorem firstDay_safe (i : Int) (h : safeMonth i) :
    -106751990354238 ≤ firstDay i ∧ firstDay i ≤ 106751991166961 := by
  obtain ⟨h0, h1⟩ := h
  have a := firstDay_mono (12 * -292277022400 + 2) i h0
  have b := firstDay_mono i (12 * 292277024627) h1
  rw [firstDay_ends.1] at a
  rw [firstDay_ends.2] at b
  omega

/-- A time constructed in a safe month, as an instant: nothing wraps. -/
theorem Date_firstDay (y m d h mi s n off : Int) (hw : safeMonth (12 * y + m - 1))
    (hd : 1 ≤ d ∧ d ≤ 32) (hc : 0 ≤ h * 3600 + mi * 60 + s ∧ h * 3600 + mi * 60 + s < 86400)
    (hn : 0 ≤ n ∧ n < 1000000000) (ho : -1000000 ≤ off ∧ off ≤ 1000000) :
    Date y m d h mi s n off =
      { unixNano := ((firstDay (12 * y + m - 1) + (d - 1)) * 86400 + h * 3600 + mi * 60 + s
          - 62135596800 - off) * 1000000000 + n,
        offset := off } := by
  have f := firstDay_safe _ hw
  have e := daysUpTo_firstDay y m d
  unfold safeMonth at hw
  rw [Date_of_range y m d h mi s n off (by omega) hn (by rw [e]; omega) (by rw [e]; omega), e]

/-- Wall-clock nanoseconds of a time constructed in a safe month, by month number. -/
theorem Date_abs_firstDay (y m d h mi s n off : Int) (hw : safeMonth (12 * y + m - 1))
    (hd : 1 ≤ d ∧ d ≤ 32) (hc : 0 ≤ h * 3600 + mi * 60 + s ∧ h * 3600 + mi * 60 + s < 86400)
    (hn : 0 ≤ n ∧ n < 1000000000) (ho : -1000000 ≤ off ∧ off ≤ 1000000) :
    (Date y m d h mi s n off).abs =
      ((firstDay (12 * y + m - 1) + (d - 1)) * 86400 + h * 3600 + mi * 60 + s)
        * 1000000000 + n := by
  have f := firstDay_safe _ hw
  rw [Date_firstDay y m d h mi s n off hw hd hc hn ho, abs_of_range]
  · simp only
    ring
  · simp only
    omega
  · simp only
    omega

/-- Year, month and day of a time whose day count is day `e + 1` of month number `i`. -/
theorem civil_of_firstDay (t : Time) (i e : Int) (h : t.days = firstDay i + e)
    (he : 0 ≤ e ∧ e < daysIn (i % 12 + 1) (isLeap (i / 12))) :
    t.Year = i / 12 ∧ t.Month = i % 12 + 1 ∧ t.Day = e + 1 := by
  apply civil_unique
  · exact ⟨by omega, by omega, by omega, by omega⟩
  · rw [h, firstDay, daysUpTo_day (i / 12) (i % 12 + 1) (e + 1)]
    ring

/-- Month number of the calendar month of a time. -/
theorem days_eq_firstDay (t : Time) :
    t.days = firstDay (12 * t.Year + t.Month - 1) + (t.Day - 1) ∧
    0 ≤ t.Day - 1 ∧ t.Day - 1 < daysIn t.Month (isLeap t.Year) ∧ 1 ≤ t.Month ∧ t.Month ≤ 12 := by
  obtain ⟨⟨v1, v2, v3, v4⟩, e⟩ := civil_valid t
  refine ⟨?_, by omega, by omega, v1, v2⟩
  rw [← e]
  have h := daysUpTo_firstDay t.Year t.Month t.Day
  have e1 : (t.Month - 1) / 12 = 0 := by omega
  have e2 : (t.Month - 1) % 12 + 1 = t.Month := by omega
  rw [e1, e2, add_zero] at h
  exact h

/-- No method reads a month before the month of the absolute epoch, March of the
year -292277022400. -/
theorem month_ge (t : Time) : 12 * -292277022400 + 2 ≤ 12 * t.Year + t.Month - 1 := by
  by_contra hc
  obtain ⟨d1, d2, d3, d4, d5⟩ := days_eq_firstDay t
  have fs := firstDay_succ (12 * t.Year + t.Month - 1)
  have e1 : (12 * t.Year + t.Month - 1) / 12 = t.Year := by omega
  have e2 : (12 * t.Year + t.Month - 1) % 12 + 1 = t.Month := by omega
  rw [e1, e2] at fs
  have m := firstDay_mono (12 * t.Year + t.Month - 1 + 1) (12 * -292277022400 + 2) (by omega)
  rw [firstDay_ends.1] at m
  have a := abs_ge t
  have hd : -106751990354238 ≤ t.days := by unfold Time.days; omega
  omega

/-- The month of a time whose year is at most 292277024626, and the month after
it, are safe months. -/
theorem month_safe (t : Time) (h : t.Year ≤ 292277024626) :
    safeMonth (12 * t.Year + t.Month - 1) ∧ safeMonth (12 * t.Year + t.Month) := by
  have y := month_ge t
  obtain ⟨⟨v1, v2, _, _⟩, _⟩ := civil_valid t
  unfold safeMonth
  omega

/-- A value of `time.Time` in UTC that reads a safe month has not wrapped: its
wall clock is its instant. -/
theorem abs_of_safe (t : Time) (hv : t.Valid) (ho : t.offset = 0)
    (hw : safeMonth (12 * t.Year + t.Month - 1)) :
    t.abs = t.unixNano + 62135596800000000000 := by
  by_cases hlo : -9223371966606163200 ≤ t.unixNano / 1000000000 + 62135596800 + t.offset
  · obtain ⟨_, v2⟩ := hv
    rw [abs_of_range t hlo (by omega), ho]
    ring
  · exfalso
    obtain ⟨v1, _⟩ := hv
    have hb : 9223372036854775808000000000 ≤ t.abs := by
      unfold Time.abs uint64
      omega
    obtain ⟨d1, d2, d3, d4, d5⟩ := days_eq_firstDay t
    have f := firstDay_safe _ hw
    have hd : 106751991167300 ≤ t.days := by unfold Time.days; omega
    have g := daysIn_ge t.Month (isLeap t.Year) ⟨d4, d5⟩
    omega

/-- The clock fields recompose to the nanoseconds since midnight. -/
theorem clock_recompose (t : Time) :
    (t.Hour * 3600 + t.Minute * 60 + t.Second) * 1000000000 + t.Nanosecond = t.nanoOfDay := by
  have h : 0 ≤ t.nanoOfDay ∧ t.nanoOfDay < 86400000000000 := by
    unfold Time.nanoOfDay; omega
  unfold Time.Hour Time.Minute Time.Second Time.Nanosecond
  omega

theorem abs_split (t : Time) : t.abs = t.days * 86400000000000 + t.nanoOfDay := by
  unfold Time.days Time.nanoOfDay
  omega

/-- The clock fields of a time are a time of day. -/
theorem clock_range (t : Time) :
    (0 ≤ t.Hour * 3600 + t.Minute * 60 + t.Second
      ∧ t.Hour * 3600 + t.Minute * 60 + t.Second < 86400)
    ∧ 0 ≤ t.Nanosecond ∧ t.Nanosecond < 1000000000 := by
  have h : 0 ≤ t.nanoOfDay ∧ t.nanoOfDay < 86400000000000 := by
    unfold Time.nanoOfDay; omega
  unfold Time.Hour Time.Minute Time.Second Time.Nanosecond
  omega

/-- The day of the month of a time is a day of the calendar. -/
theorem Day_range (t : Time) : 1 ≤ t.Day ∧ t.Day ≤ 31 := by
  obtain ⟨⟨v1, v2, v3, v4⟩, _⟩ := civil_valid t
  have g := daysIn_ge t.Month (isLeap t.Year) ⟨v1, v2⟩
  omega

/-- Wall-clock nanoseconds after adding one month to a time, by month number. -/
theorem AddDate_month_abs (t : Time) (hw : safeMonth (12 * t.Year + t.Month))
    (ho : -1000000 ≤ t.offset ∧ t.offset ≤ 1000000) :
    (t.AddDate 0 1 0).abs =
      (firstDay (12 * t.Year + t.Month) + (t.Day - 1)) * 86400000000000 + t.nanoOfDay := by
  have hday := Day_range t
  obtain ⟨c1, c2⟩ := clock_range t
  have e : 12 * (t.Year + 0) + (t.Month + 1) - 1 = 12 * t.Year + t.Month := by ring
  unfold Time.AddDate
  rw [Date_abs_firstDay _ _ _ _ _ _ _ _ (by rw [e]; exact hw) (by omega) c1 c2 ho]
  have h := clock_recompose t
  rw [e]
  have e2 : t.Day + 0 - 1 = t.Day - 1 := by ring
  rw [e2]
  generalize firstDay (12 * t.Year + t.Month) = F at *
  generalize t.Hour = a at *
  generalize t.Minute = b at *
  generalize t.Second = c at *
  generalize t.Nanosecond = d at *
  omega

/-- Method Add without saturation: the sum, when its seconds fit in an `int64`. -/
theorem Add_of_range (t : Time) (d : Int)
    (h0 : -9223372036854775808 ≤ (t.unixNano + d) / 1000000000 + 62135596800)
    (h1 : (t.unixNano + d) / 1000000000 + 62135596800 ≤ 9223372036854775807) :
    t.Add d = { t with unixNano := t.unixNano + d } := by
  unfold Time.Add
  simp only
  rw [if_neg (by omega), if_neg (by omega)]


/-! ## The loop of GetTimeRanges -/

theorem fields_of_days (t u : Time) (h : t.days = u.days) :
    t.Year = u.Year ∧ t.Month = u.Month ∧ t.Day = u.Day := by
  simp only [Time.Year, Time.Month, Time.Day, h, and_self]

theorem days_nano_of_abs (t : Time) (d c : Int) (h : t.abs = d * 86400000000000 + c)
    (hc : 0 ≤ c ∧ c < 86400000000000) : t.days = d ∧ t.nanoOfDay = c := by
  unfold Time.days Time.nanoOfDay
  omega

/-- A UTC time constructed in a safe month has not wrapped: its wall clock is its
instant. -/
theorem Date_abs_nano (y m d h mi s n : Int) (hw : safeMonth (12 * y + m - 1))
    (hd : 1 ≤ d ∧ d ≤ 32) (hc : 0 ≤ h * 3600 + mi * 60 + s ∧ h * 3600 + mi * 60 + s < 86400)
    (hn : 0 ≤ n ∧ n < 1000000000) :
    (Date y m d h mi s n UTC).abs = (Date y m d h mi s n UTC).unixNano + 62135596800000000000 := by
  rw [Date_abs_firstDay y m d h mi s n UTC hw hd hc hn (by decide),
    Date_firstDay y m d h mi s n UTC hw hd hc hn (by decide)]
  simp only [UTC]
  ring

theorem normalizedStart_abs (t : Time) (h : t.Year ≤ 292277024626) :
    (normalizedStart t).abs = t.days * 86400000000000 + 1000000000 ∧
    (normalizedStart t).offset = 0 ∧
    (normalizedStart t).abs = (normalizedStart t).unixNano + 62135596800000000000 := by
  have hday := Day_range t
  obtain ⟨d1, _⟩ := days_eq_firstDay t
  refine ⟨?_, rfl, ?_⟩
  · unfold normalizedStart
    rw [Date_abs_firstDay _ _ _ _ _ _ _ _ (month_safe t h).1 (by omega) (by omega) (by omega)
      (by decide), d1]
    ring
  · exact Date_abs_nano _ _ _ _ _ _ _ (month_safe t h).1 (by omega) (by omega) (by omega)

theorem normalizedEnd_abs (t : Time) (h : t.Year ≤ 292277024626) :
    (normalizedEnd t).abs = t.days * 86400000000000 + 86399000000000 ∧
    (normalizedEnd t).offset = 0 ∧
    (normalizedEnd t).abs = (normalizedEnd t).unixNano + 62135596800000000000 := by
  have hday := Day_range t
  obtain ⟨d1, _⟩ := days_eq_firstDay t
  refine ⟨?_, rfl, ?_⟩
  · unfold normalizedEnd
    rw [Date_abs_firstDay _ _ _ _ _ _ _ _ (month_safe t h).1 (by omega) (by omega) (by omega)
      (by decide), d1]
    ring
  · exact Date_abs_nano _ _ _ _ _ _ _ (month_safe t h).1 (by omega) (by omega) (by omega)

theorem BeginningOfMonth_abs (t : Time) (hw : safeMonth (12 * t.Year + t.Month - 1))
    (ho : -1000000 ≤ t.offset ∧ t.offset ≤ 1000000) :
    (now.BeginningOfMonth t).abs = firstDay (12 * t.Year + t.Month - 1) * 86400000000000 ∧
    (now.BeginningOfMonth t).offset = t.offset := by
  refine ⟨?_, rfl⟩
  unfold now.BeginningOfMonth
  rw [Date_abs_firstDay _ _ _ _ _ _ _ _ hw (by omega) (by omega) (by omega) ho]
  ring

theorem BeginningOfMonth_fields (t : Time) (hw : safeMonth (12 * t.Year + t.Month - 1))
    (ho : -1000000 ≤ t.offset ∧ t.offset ≤ 1000000) :
    (now.BeginningOfMonth t).Year = t.Year ∧ (now.BeginningOfMonth t).Month = t.Month ∧
    (now.BeginningOfMonth t).Day = 1 ∧ (now.BeginningOfMonth t).nanoOfDay = 0 := by
  obtain ⟨a, _⟩ := BeginningOfMonth_abs t hw ho
  obtain ⟨hd, hn⟩ := days_nano_of_abs _ (firstDay (12 * t.Year + t.Month - 1)) 0
    (by rw [a]; ring) (by omega)
  obtain ⟨_, _, h3, h4, h5⟩ := days_eq_firstDay t
  have e1 : (12 * t.Year + t.Month - 1) / 12 = t.Year := by omega
  have e2 : (12 * t.Year + t.Month - 1) % 12 + 1 = t.Month := by omega
  obtain ⟨y, m, d⟩ := civil_of_firstDay (now.BeginningOfMonth t) (12 * t.Year + t.Month - 1) 0
    (by rw [hd]; ring) (by rw [e1, e2]; omega)
  rw [e1] at y
  rw [e2] at m
  exact ⟨y, m, by simpa using d, hn⟩

/-- One month after the beginning of a month is the first instant of the next
month. -/
theorem BeginningOfMonth_AddDate (t : Time) (hw : safeMonth (12 * t.Year + t.Month - 1))
    (ho : -1000000 ≤ t.offset ∧ t.offset ≤ 1000000) :
    (now.BeginningOfMonth t).AddDate 0 1 0 = Date t.Year (t.Month + 1) 1 0 0 0 0 t.offset := by
  obtain ⟨y, m, d, n⟩ := BeginningOfMonth_fields t hw ho
  have o : (now.BeginningOfMonth t).offset = t.offset := rfl
  have c1 : (now.BeginningOfMonth t).Hour = 0 := by simp [Time.Hour, n]
  have c2 : (now.BeginningOfMonth t).Minute = 0 := by simp [Time.Minute, n]
  have c3 : (now.BeginningOfMonth t).Second = 0 := by simp [Time.Second, n]
  have c4 : (now.BeginningOfMonth t).Nanosecond = 0 := by simp [Time.Nanosecond, n]
  have e1 : t.Year + 0 = t.Year := by ring
  have e2 : (1 : Int) + 0 = 1 := by norm_num
  unfold Time.AddDate
  rw [y, m, d, c1, c2, c3, c4, o, e1, e2]

/-- The end of a month is one nanosecond before the first instant of the next
month. -/
theorem EndOfMonth_eq (t : Time) (hw : safeMonth (12 * t.Year + t.Month - 1))
    (ho : -1000000 ≤ t.offset ∧ t.offset ≤ 1000000) :
    now.EndOfMonth t = (Date t.Year (t.Month + 1) 1 0 0 0 0 t.offset).Add (-1) := by
  unfold now.EndOfMonth
  rw [BeginningOfMonth_AddDate t hw ho]

/-- Adding one month to a time on the first day of a month leads to the first
day of the next month at the same time of day. -/
theorem AddDate_first (t : Time) (hd : t.Day = 1) (hw : safeMonth (12 * t.Year + t.Month))
    (ho : -1000000 ≤ t.offset ∧ t.offset ≤ 1000000) :
    (t.AddDate 0 1 0).offset = t.offset ∧
    (t.AddDate 0 1 0).days = firstDay (12 * t.Year + t.Month) ∧
    (t.AddDate 0 1 0).nanoOfDay = t.nanoOfDay ∧
    12 * (t.AddDate 0 1 0).Year + (t.AddDate 0 1 0).Month - 1 = 12 * t.Year + t.Month ∧
    (t.AddDate 0 1 0).Day = 1 := by
  have h := AddDate_month_abs t hw ho
  rw [hd] at h
  have hn : 0 ≤ t.nanoOfDay ∧ t.nanoOfDay < 86400000000000 := by
    unfold Time.nanoOfDay; omega
  obtain ⟨h1, h2⟩ := days_nano_of_abs _ (firstDay (12 * t.Year + t.Month)) t.nanoOfDay
    (by rw [h]; ring) hn
  obtain ⟨y, m, d⟩ := civil_of_firstDay (t.AddDate 0 1 0) (12 * t.Year + t.Month) 0
    (by rw [h1]; ring) (by
      have := daysIn_ge ((12 * t.Year + t.Month) % 12 + 1) (isLeap ((12 * t.Year + t.Month) / 12))
        (by omega)
      omega)
  refine ⟨rfl, h1, h2, ?_, by simpa using d⟩
  rw [y, m]
  omega

theorem Before_iff_abs (t u : Time) (ht : t.abs = t.unixNano + 62135596800000000000)
    (hu : u.abs = u.unixNano + 62135596800000000000) :
    t.Before u = decide (t.abs < u.abs) := by
  rw [ht, hu]
  simp only [Time.Before]
  congr 1
  apply propext
  constructor <;> intro h <;> omega

theorem normalizedStart_fields (t : Time) (h : t.Year ≤ 292277024626) :
    (normalizedStart t).days = t.days ∧ (normalizedStart t).nanoOfDay = 1000000000 ∧
    (normalizedStart t).Year = t.Year ∧ (normalizedStart t).Month = t.Month ∧
    (normalizedStart t).Day = t.Day := by
  obtain ⟨a, _⟩ := normalizedStart_abs t h
  obtain ⟨h1, h2⟩ := days_nano_of_abs _ _ _ a (by omega)
  obtain ⟨y, m, d⟩ := fields_of_days _ _ h1
  exact ⟨h1, h2, y, m, d⟩

theorem normalizedEnd_fields (t : Time) (h : t.Year ≤ 292277024626) :
    (normalizedEnd t).days = t.days ∧ (normalizedEnd t).nanoOfDay = 86399000000000 ∧
    (normalizedEnd t).Year = t.Year ∧ (normalizedEnd t).Month = t.Month ∧
    (normalizedEnd t).Day = t.Day := by
  obtain ⟨a, _⟩ := normalizedEnd_abs t h
  obtain ⟨h1, h2⟩ := days_nano_of_abs _ _ _ a (by omega)
  obtain ⟨y, m, d⟩ := fields_of_days _ _ h1
  exact ⟨h1, h2, y, m, d⟩

/-- Day count of the loop variable. -/
theorem loopState_days (s month : Time) (k : Nat) (hs : s.Year ≤ 292277024626)
    (h : loopState s month k) :
    (k = 0 → month.days = s.days) ∧ (k ≠ 0 → month.days = firstDay (12 * s.Year + s.Month - 1 + k))
    ∧ firstDay (12 * s.Year + s.Month - 1 + k) ≤ month.days
    ∧ month.days < firstDay (12 * s.Year + s.Month - 1 + k + 1)
    ∧ 0 ≤ month.nanoOfDay := by
  obtain ⟨_, h1, h2, h3, h4, h5⟩ := h
  obtain ⟨d1, d2, d3, d4, d5⟩ := days_eq_firstDay month
  have fs := firstDay_succ (12 * month.Year + month.Month - 1)
  have e1 : (12 * month.Year + month.Month - 1) / 12 = month.Year := by omega
  have e2 : (12 * month.Year + month.Month - 1) % 12 + 1 = month.Month := by omega
  rw [e1, e2] at fs
  rw [h2] at d1 fs
  have hn : 0 ≤ month.nanoOfDay := by unfold Time.nanoOfDay; omega
  refine ⟨?_, ?_, by omega, by omega, hn⟩
  · intro hk
    rw [h3 hk]
    exact (normalizedStart_fields s hs).1
  · intro hk
    rw [d1, h4 hk]
    ring

theorem end_days (e : Time) :
    firstDay (12 * e.Year + e.Month - 1) ≤ e.days ∧ e.days < firstDay (12 * e.Year + e.Month) := by
  obtain ⟨d1, d2, d3, d4, d5⟩ := days_eq_firstDay e
  have fs := firstDay_succ (12 * e.Year + e.Month - 1)
  have e1 : (12 * e.Year + e.Month - 1) / 12 = e.Year := by omega
  have e2 : (12 * e.Year + e.Month - 1) % 12 + 1 = e.Month := by omega
  have e3 : 12 * e.Year + e.Month - 1 + 1 = 12 * e.Year + e.Month := by ring
  rw [e1, e2, e3] at fs
  omega

/-- The months from the month of the start to the month after the month of the
end are safe months when the year of the end is at most 292277024626. -/
theorem chunk_safe (s e : Time) (k : Nat) (he : e.Year ≤ 292277024626)
    (hk : (k : Int) ≤ monthCount s e) :
    safeMonth (12 * s.Year + s.Month - 1 + k) := by
  have y := month_ge s
  obtain ⟨_, _, _, s4, _⟩ := days_eq_firstDay s
  obtain ⟨_, _, _, _, e5⟩ := days_eq_firstDay e
  unfold monthCount at hk
  unfold safeMonth
  omega

theorem chunk_safe_succ (s e : Time) (k : Nat) (he : e.Year ≤ 292277024626)
    (hk : (k : Int) < monthCount s e) :
    safeMonth (12 * s.Year + s.Month - 1 + k + 1) := by
  have y := month_ge s
  obtain ⟨_, _, _, s4, _⟩ := days_eq_firstDay s
  obtain ⟨_, _, _, _, e5⟩ := days_eq_firstDay e
  unfold monthCount at hk
  unfold safeMonth
  omega

/-- The loop variable has not wrapped while it is in a safe month. -/
theorem loopState_abs (s month : Time) (k : Nat) (h : loopState s month k)
    (hw : safeMonth (12 * s.Year + s.Month - 1 + k)) :
    month.abs = month.unixNano + 62135596800000000000 :=
  abs_of_safe month h.1 h.2.1 (by rw [h.2.2.1]; exact hw)

/-- The loop condition holds in every month up to the month of the end date. -/
theorem loop_before (s e month : Time) (k : Nat) (hs : s.Year ≤ 292277024626)
    (he : e.Year ≤ 292277024626) (h : loopState s month k)
    (hd : s.days ≤ e.days) (hk : (k : Int) < monthCount s e) :
    month.Before (normalizedEnd e) = true := by
  obtain ⟨a, o, x⟩ := normalizedEnd_abs e he
  have hx := loopState_abs s month k h (chunk_safe s e k he (by omega))
  rw [Before_iff_abs _ _ hx x, decide_eq_true_eq, a, abs_split month]
  obtain ⟨l1, l2, l3, l4, l5⟩ := loopState_days s month k hs h
  obtain ⟨e1, e2⟩ := end_days e
  have hn := h.2.2.2.2.2
  unfold monthCount at hk
  by_cases hk0 : k = 0
  · have := l1 hk0
    omega
  · have := l2 hk0
    have m := firstDay_mono (12 * s.Year + s.Month - 1 + k) (12 * e.Year + e.Month - 1) (by omega)
    omega

/-- The loop condition fails in the month after the month of the end date. -/
theorem loop_not_before (s e month : Time) (k : Nat) (hs : s.Year ≤ 292277024626)
    (he : e.Year ≤ 292277024626) (h : loopState s month k)
    (hk : (k : Int) = monthCount s e) (hk0 : k ≠ 0) :
    month.Before (normalizedEnd e) = false := by
  obtain ⟨a, o, x⟩ := normalizedEnd_abs e he
  have hx := loopState_abs s month k h (chunk_safe s e k he (by omega))
  rw [Before_iff_abs _ _ hx x, decide_eq_false_iff_not, a, abs_split month]
  obtain ⟨l1, l2, l3, l4, l5⟩ := loopState_days s month k hs h
  obtain ⟨e1, e2⟩ := end_days e
  unfold monthCount at hk
  have := l2 hk0
  have e3 : 12 * s.Year + s.Month - 1 + (k : Int) = 12 * e.Year + e.Month := by omega
  rw [e3] at this
  omega

theorem loop_isFirst (s month : Time) (k : Nat) (hs : s.Year ≤ 292277024626)
    (h : loopState s month k) :
    (month.Year == (normalizedStart s).Year && month.Month == (normalizedStart s).Month)
      = decide (k = 0) := by
  obtain ⟨_, _, y, m, _⟩ := normalizedStart_fields s hs
  obtain ⟨_, _, h2, h3, _, _⟩ := h
  obtain ⟨_, _, _, m1, m2⟩ := days_eq_firstDay month
  obtain ⟨_, _, _, s1, s2⟩ := days_eq_firstDay s
  rw [y, m]
  by_cases hk : k = 0
  · subst hk
    have : month.Year = s.Year ∧ month.Month = s.Month := by
      push_cast at h2; omega
    simp [this.1, this.2]
  · have hk' : (k : Int) ≠ 0 := by exact_mod_cast hk
    have : ¬ (month.Year = s.Year ∧ month.Month = s.Month) := by
      intro ⟨a, b⟩; rw [a, b] at h2; omega
    simp only [hk, decide_False, Bool.and_eq_false_imp, beq_iff_eq]
    intro a
    simp only [beq_eq_false_iff_ne, ne_eq]
    intro b
    exact this ⟨a, b⟩

theorem loop_isLast (s e month : Time) (k : Nat) (he : e.Year ≤ 292277024626)
    (h : loopState s month k) :
    (month.Year == (normalizedEnd e).Year && month.Month == (normalizedEnd e).Month)
      = decide ((k : Int) + 1 = monthCount s e) := by
  obtain ⟨_, _, y, m, _⟩ := normalizedEnd_fields e he
  obtain ⟨_, _, h2, _, _, _⟩ := h
  obtain ⟨_, _, _, m1, m2⟩ := days_eq_firstDay month
  obtain ⟨_, _, _, s1, s2⟩ := days_eq_firstDay e
  rw [y, m]
  unfold monthCount
  by_cases hk : (k : Int) + 1 = 12 * (e.Year - s.Year) + (e.Month - s.Month) + 1
  · have : month.Year = e.Year ∧ month.Month = e.Month := by omega
    simp [this.1, this.2, hk]
  · have : ¬ (month.Year = e.Year ∧ month.Month = e.Month) := by
      intro ⟨a, b⟩; rw [a, b] at h2; omega
    simp only [hk, decide_False, Bool.and_eq_false_imp, beq_iff_eq]
    intro a
    simp only [beq_eq_false_iff_ne, ne_eq]
    intro b
    exact this ⟨a, b⟩

theorem loop_monthStart (s month : Time) (k : Nat) (h : loopState s month k) (hk : k ≠ 0) :
    now.BeginningOfMonth month = chunkStart s k := by
  obtain ⟨_, h1, h2, _, _, _⟩ := h
  have h1' : month.offset = UTC := h1
  unfold now.BeginningOfMonth
  rw [chunkStart, if_neg hk, h1']
  exact Date_congr _ _ _ _ _ _ _ _ _ _ (by omega)

theorem loop_monthEnd (s e month : Time) (n k : Nat) (h : loopState s month k)
    (hw : safeMonth (12 * s.Year + s.Month - 1 + k))
    (hk : k + 1 ≠ n) : now.EndOfMonth month = chunkStop s e n k := by
  obtain ⟨_, h1, h2, _, _, _⟩ := h
  have h1' : month.offset = UTC := h1
  have e : Date month.Year (month.Month + 1) 1 0 0 0 0 UTC
      = Date s.Year (s.Month + k + 1) 1 0 0 0 0 UTC :=
    Date_congr _ _ _ _ _ _ _ _ _ _ (by omega)
  rw [EndOfMonth_eq month (by rw [h2]; exact hw) (by rw [h1]; omega), chunkStop, if_neg hk, h1', e]

theorem newTimeRange_ok (lo hi : Time) (h : lo.unixNano < hi.unixNano) :
    newTimeRange lo hi = .ok { start := lo, stop := hi } := by
  have h1 : lo.After hi = false := by
    simp only [Time.After, decide_eq_false_iff_not]; omega
  have h2 : hi.Equal lo = false := by
    simp only [Time.Equal, decide_eq_false_iff_not]; omega
  simp [newTimeRange, h1, h2]

theorem chunkStart_abs (s : Time) (k : Nat) (hs : s.Year ≤ 292277024626)
    (hw : safeMonth (12 * s.Year + s.Month - 1 + k)) :
    (chunkStart s k).offset = 0 ∧
    (k = 0 → (chunkStart s k).abs = s.days * 86400000000000 + 1000000000) ∧
    (k ≠ 0 → (chunkStart s k).abs
      = firstDay (12 * s.Year + s.Month - 1 + k) * 86400000000000) ∧
    (chunkStart s k).abs = (chunkStart s k).unixNano + 62135596800000000000 := by
  have e : 12 * s.Year + (s.Month + (k : Int)) - 1 = 12 * s.Year + s.Month - 1 + k := by ring
  refine ⟨?_, ?_, ?_, ?_⟩
  · unfold chunkStart; split <;> rfl
  · intro hk
    rw [chunkStart, if_pos hk]
    exact (normalizedStart_abs s hs).1
  · intro hk
    rw [chunkStart, if_neg hk, Date_abs_firstDay _ _ _ _ _ _ _ _ (by rw [e]; exact hw)
      (by omega) (by omega) (by omega) (by decide), e]
    ring
  · by_cases hk : k = 0
    · rw [chunkStart, if_pos hk]
      exact (normalizedStart_abs s hs).2.2
    · rw [chunkStart, if_neg hk]
      exact Date_abs_nano _ _ _ _ _ _ _ (by rw [e]; exact hw) (by omega) (by omega) (by omega)

/-- The first instant of a safe month, less a nanosecond. -/
theorem Date_pred (y m : Int) (hw : safeMonth (12 * y + m - 1)) :
    (Date y m 1 0 0 0 0 UTC).Add (-1) =
      { unixNano := (firstDay (12 * y + m - 1) * 86400 - 62135596800) * 1000000000 - 1,
        offset := 0 } := by
  have f := firstDay_safe _ hw
  rw [Date_firstDay y m 1 0 0 0 0 UTC hw (by omega) (by omega) (by omega) (by decide),
    Add_of_range]
  · simp only [UTC, Time.mk.injEq, and_true]
    ring
  · simp only [UTC]
    omega
  · simp only [UTC]
    omega

theorem chunkStop_abs (s e : Time) (n k : Nat) (he : e.Year ≤ 292277024626)
    (hw : safeMonth (12 * s.Year + s.Month - 1 + k + 1)) :
    (chunkStop s e n k).offset = 0 ∧
    (k + 1 = n → (chunkStop s e n k).abs = e.days * 86400000000000 + 86399000000000) ∧
    (k + 1 ≠ n → (chunkStop s e n k).abs
      = firstDay (12 * s.Year + s.Month - 1 + k + 1) * 86400000000000 - 1) ∧
    (chunkStop s e n k).abs = (chunkStop s e n k).unixNano + 62135596800000000000 := by
  have e2 : 12 * s.Year + (s.Month + (k : Int) + 1) - 1 = 12 * s.Year + s.Month - 1 + k + 1 := by
    ring
  have f := firstDay_safe _ hw
  have f1 : -106751990354238 + 28 ≤ firstDay (12 * s.Year + s.Month - 1 + k + 1) := by
    have y := month_ge s
    have m := firstDay_mono (12 * -292277022400 + 2) (12 * s.Year + s.Month - 1 + k + 1)
      (by omega)
    rw [firstDay_ends.1] at m
    omega
  have hp := Date_pred s.Year (s.Month + k + 1) (by rw [e2]; exact hw)
  rw [e2] at hp
  have hx : k + 1 ≠ n → (chunkStop s e n k).abs
      = (chunkStop s e n k).unixNano + 62135596800000000000 := by
    intro hk
    rw [chunkStop, if_neg hk, hp, abs_of_range]
    · simp only
      ring
    · simp only
      omega
    · simp only
      omega
  refine ⟨?_, ?_, ?_, ?_⟩
  · by_cases hk : k + 1 = n
    · rw [chunkStop, if_pos hk]; rfl
    · rw [chunkStop, if_neg hk, hp]
  · intro hk
    rw [chunkStop, if_pos hk]
    exact (normalizedEnd_abs e he).1
  · intro hk
    rw [hx hk, chunkStop, if_neg hk, hp]
    simp only
    ring
  · by_cases hk : k + 1 = n
    · rw [chunkStop, if_pos hk]
      exact (normalizedEnd_abs e he).2.2
    · exact hx hk

theorem unixNano_lt_of_abs (t u : Time) (ht : t.abs = t.unixNano + 62135596800000000000)
    (hu : u.abs = u.unixNano + 62135596800000000000)
    (h : t.abs < u.abs) : t.unixNano < u.unixNano := by
  omega

/-- With the start day not after the end day, the month of the start is not
after the month of the end. -/
theorem monthCount_pos (s e : Time) (hd : s.days ≤ e.days) : 1 ≤ monthCount s e := by
  by_contra hc
  unfold monthCount at hc
  obtain ⟨s1, s2⟩ := end_days s
  obtain ⟨e1, e2⟩ := end_days e
  have m := firstDay_mono (12 * e.Year + e.Month) (12 * s.Year + s.Month - 1) (by omega)
  omega

/-- With the start day not after the end day, the year of the start is not after
the year of the end. -/
theorem Year_le_of_days (s e : Time) (hd : s.days ≤ e.days) : s.Year ≤ e.Year := by
  have h := monthCount_pos s e hd
  obtain ⟨_, _, _, s4, _⟩ := days_eq_firstDay s
  obtain ⟨_, _, _, _, e5⟩ := days_eq_firstDay e
  unfold monthCount at h
  omega

/-- Every range of the closed form has its lower bound before its upper bound. -/
theorem chunk_lt (s e : Time) (k : Nat) (he : e.Year ≤ 292277024626) (hd : s.days ≤ e.days)
    (hk : (k : Int) < monthCount s e) :
    (chunkStart s k).unixNano < (chunkStop s e (monthCount s e).toNat k).unixNano := by
  have hs : s.Year ≤ 292277024626 := le_trans (Year_le_of_days s e hd) he
  obtain ⟨a0, a1, a2, a3⟩ := chunkStart_abs s k hs (chunk_safe s e k he (by omega))
  obtain ⟨b0, b1, b2, b3⟩ := chunkStop_abs s e (monthCount s e).toNat k he
    (chunk_safe_succ s e k he hk)
  apply unixNano_lt_of_abs _ _ a3 b3
  have hn : ((monthCount s e).toNat : Int) = monthCount s e :=
    Int.toNat_of_nonneg (by omega)
  obtain ⟨s1, s2⟩ := end_days s
  obtain ⟨e1, e2⟩ := end_days e
  have fs := firstDay_succ (12 * s.Year + s.Month - 1 + k)
  have g := daysIn_ge ((12 * s.Year + s.Month - 1 + k) % 12 + 1)
    (isLeap ((12 * s.Year + s.Month - 1 + k) / 12)) (by omega)
  by_cases hk0 : k = 0
  · rw [a1 hk0]
    by_cases hl : k + 1 = (monthCount s e).toNat
    · rw [b1 hl]; omega
    · rw [b2 hl]
      subst hk0
      simp only [Nat.cast_zero, add_zero] at fs ⊢
      have e3 : 12 * s.Year + s.Month - 1 + 1 = 12 * s.Year + s.Month := by ring
      rw [e3] at fs ⊢
      omega
  · rw [a2 hk0]
    by_cases hl : k + 1 = (monthCount s e).toNat
    · rw [b1 hl]
      have hl' : (k : Int) + 1 = monthCount s e := by omega
      unfold monthCount at hl'
      have e3 : 12 * s.Year + s.Month - 1 + (k : Int) = 12 * e.Year + e.Month - 1 := by omega
      rw [e3]
      omega
    · rw [b2 hl]
      omega

/-- One iteration of the loop leaves the loop variable in the state of the next
iteration, up to the month after the last safe month. -/
theorem loop_next (s month : Time) (k : Nat) (h : loopState s month k)
    (hw : safeMonth (12 * s.Year + s.Month - 1 + k + 1)) :
    loopState s ((if month.Day != 1 then now.BeginningOfMonth month else month).AddDate 0 1 0)
      (k + 1) := by
  obtain ⟨hv, h1, h2, h3, h4, h5⟩ := h
  have hw0 : safeMonth (12 * month.Year + month.Month - 1) := by
    have y := month_ge month
    unfold safeMonth at hw ⊢
    omega
  obtain ⟨m1, hm⟩ : ∃ m1, m1 = (if month.Day != 1 then now.BeginningOfMonth month else month) :=
    ⟨_, rfl⟩
  rw [← hm]
  have f : m1.offset = 0 ∧ m1.Year = month.Year ∧ m1.Month = month.Month ∧ m1.Day = 1 ∧
      m1.nanoOfDay ≤ 1000000000 := by
    by_cases hd : month.Day = 1
    · have : (month.Day != 1) = false := by simp [hd]
      rw [this] at hm
      simp only [Bool.false_eq_true, if_false] at hm
      rw [hm]
      exact ⟨h1, rfl, rfl, hd, h5⟩
    · have : (month.Day != 1) = true := by simp [hd]
      rw [this, if_pos rfl] at hm
      rw [hm]
      obtain ⟨y, m, d, n⟩ := BeginningOfMonth_fields month hw0 (by rw [h1]; omega)
      exact ⟨h1, y, m, d, by rw [n]; omega⟩
  obtain ⟨f1, f2, f3, f4, f5⟩ := f
  obtain ⟨a1, a2, a3, a4, a5⟩ := AddDate_first m1 f4
    (by rw [f2, f3]; have e : 12 * month.Year + month.Month
          = 12 * s.Year + s.Month - 1 + k + 1 := by omega
        rw [e]; exact hw)
    (by rw [f1]; omega)
  refine ⟨Date_Valid _ _ _ _ _ _ _ _, by rw [a1, f1], ?_, by omega, fun _ => a5,
    by rw [a3]; exact f5⟩
  rw [a4, f2, f3]
  push_cast
  omega

/-- One iteration of the loop of GetTimeRanges. -/
theorem rangesLoop_succ (start stop : Time) (fuel : Nat) (month : Time)
    (ranges : List timeRange) :
    fullMonthTimeRangeProvider.rangesLoop start stop (fuel + 1) month ranges =
      if month.Before stop then
        match newTimeRange
          (if (month.Year == start.Year && month.Month == start.Month) then start
            else now.BeginningOfMonth month)
          (if (month.Year == stop.Year && month.Month == stop.Month) then stop
            else now.EndOfMonth month) with
        | .error newRangeError =>
          some (.error (Wrap newRangeError "Failed to calculate time ranges"))
        | .ok monthRange =>
          fullMonthTimeRangeProvider.rangesLoop start stop fuel
            ((if month.Day != 1 then now.BeginningOfMonth month else month).AddDate 0 1 0)
            (ranges ++ [monthRange])
      else some (.ok ranges) := rfl

/-- Running the loop from the state of iteration `k` with `r` months to go and
more than `r` units of fuel appends the ranges of months `k` to `k + r - 1` of the
closed form and stops. -/
theorem loop_run (s e : Time) (he : e.Year ≤ 292277024626) (hd : s.days ≤ e.days) :
    ∀ (r k fuel : Nat) (month : Time) (acc : List timeRange),
      (k : Int) + r = monthCount s e → r < fuel → loopState s month k →
      fullMonthTimeRangeProvider.rangesLoop (normalizedStart s) (normalizedEnd e) fuel month acc
        = some (.ok (acc ++ (List.range' k r).map fun i =>
            { start := chunkStart s i,
              stop := chunkStop s e (monthCount s e).toNat i })) := by
  have hs : s.Year ≤ 292277024626 := le_trans (Year_le_of_days s e hd) he
  intro r
  induction r with
  | zero =>
    intro k fuel month acc hk hf hst
    obtain ⟨fuel, rfl⟩ : ∃ f, fuel = f + 1 := ⟨fuel - 1, by omega⟩
    have hp := monthCount_pos s e hd
    have hb := loop_not_before s e month k hs he hst (by omega) (by omega)
    rw [rangesLoop_succ, hb]
    simp
  | succ r ih =>
    intro k fuel month acc hk hf hst
    obtain ⟨fuel, rfl⟩ : ∃ f, fuel = f + 1 := ⟨fuel - 1, by omega⟩
    have hb := loop_before s e month k hs he hst hd (by omega)
    have hfirst := loop_isFirst s month k hs hst
    have hlast := loop_isLast s e month k he hst
    have hw := chunk_safe s e k he (by omega)
    have hw1 := chunk_safe_succ s e k he (by omega)
    have hn : ((monthCount s e).toNat : Int) = monthCount s e :=
      Int.toNat_of_nonneg (by omega)
    have hlo : (if (month.Year == (normalizedStart s).Year
        && month.Month == (normalizedStart s).Month) = true
        then normalizedStart s else now.BeginningOfMonth month) = chunkStart s k := by
      rw [hfirst]
      by_cases hk0 : k = 0
      · simp [hk0, chunkStart]
      · simp only [hk0, decide_False, Bool.false_eq_true, if_false]
        exact loop_monthStart s month k hst hk0
    have hhi : (if (month.Year == (normalizedEnd e).Year
        && month.Month == (normalizedEnd e).Month) = true
        then normalizedEnd e else now.EndOfMonth month)
        = chunkStop s e (monthCount s e).toNat k := by
      rw [hlast]
      by_cases hl : (k : Int) + 1 = monthCount s e
      · have : k + 1 = (monthCount s e).toNat := by omega
        simp [hl, chunkStop, this]
      · have : k + 1 ≠ (monthCount s e).toNat := by omega
        simp only [hl, decide_False, Bool.false_eq_true, if_false]
        exact loop_monthEnd s e month _ k hst hw this
    have hr := newTimeRange_ok _ _ (chunk_lt s e k he hd (by omega))
    have hnext := loop_next s month k hst hw1
    rw [rangesLoop_succ]
    simp only [hb, if_true, hlo, hhi, hr]
    rw [ih (k + 1) fuel _ _ (by push_cast; omega) (by omega) hnext]
    simp [List.range'_succ]

/-- The loop of GetTimeRanges starts in the state of iteration 0. -/
theorem loopState_start (s : Time) (hs : s.Year ≤ 292277024626) :
    loopState s (normalizedStart s) 0 := by
  obtain ⟨d, n, y, m, _⟩ := normalizedStart_fields s hs
  refine ⟨Date_Valid _ _ _ _ _ _ _ _, (normalizedStart_abs s hs).2.1, ?_, fun _ => rfl,
    fun c => absurd rfl c, by omega⟩
  rw [y, m]
  simp

/-- The result of GetTimeRanges in closed form: whenever the start is not after
the end, the years of both are at most 292277024626 and the fuel exceeds the
number of months, the call returns the monthly ranges without error. -/
theorem GetTimeRanges_eq (s e : Time) (fuel : Nat) (hs : s.Year ≤ 292277024626)
    (he : e.Year ≤ 292277024626) (h : s.After e = false)
    (hf : (monthCount s e).toNat < fuel) :
    fullMonthTimeRangeProvider.GetTimeRanges fuel s e = some (.ok (monthlyRanges s e)) := by
  have hu : fullMonthTimeRangeProvider.GetTimeRanges fuel s e
      = fullMonthTimeRangeProvider.rangesLoop (normalizedStart s) (normalizedEnd e) fuel
          (normalizedStart s) [] := by
    simp [fullMonthTimeRangeProvider.GetTimeRanges, h, normalizedStart, normalizedEnd]
  rw [hu]
  by_cases hd : s.days ≤ e.days
  · have hp := monthCount_pos s e hd
    have hst := loopState_start s hs
    have hn : ((monthCount s e).toNat : Int) = monthCount s e :=
      Int.toNat_of_nonneg (by omega)
    rw [loop_run s e he hd (monthCount s e).toNat 0 fuel _ [] (by omega) hf hst]
    simp [monthlyRanges, hd, List.range_eq_range']
  · obtain ⟨fuel, rfl⟩ : ∃ f, fuel = f + 1 := ⟨fuel - 1, by omega⟩
    obtain ⟨a, o, x⟩ := normalizedEnd_abs e he
    obtain ⟨a', o', x'⟩ := normalizedStart_abs s hs
    have hb : (normalizedStart s).Before (normalizedEnd e) = false := by
      rw [Before_iff_abs _ _ x' x, decide_eq_false_iff_not, a, a']
      omega
    rw [rangesLoop_succ, hb]
    simp [monthlyRanges, hd]

theorem monthlyRanges_length (s e : Time) (hd : s.days ≤ e.days) :
    ((monthlyRanges s e).length : Int) = monthCount s e := by
  have hp := monthCount_pos s e hd
  simp only [monthlyRanges, hd, if_true, List.length_map, List.length_range]
  exact Int.toNat_of_nonneg (by omega)

theorem monthlyRanges_get (s e : Time) (i : Nat) (hi : i < (monthlyRanges s e).length) :
    (monthlyRanges s e).get ⟨i, hi⟩ =
      { start := chunkStart s i, stop := chunkStop s e (monthlyRanges s e).length i } := by
  by_cases hd : s.days ≤ e.days
  · simp [monthlyRanges, hd]
  · exfalso
    simp [monthlyRanges, hd] at hi

theorem monthlyRanges_nonempty_days (s e : Time) (i : Nat) (hi : i < (monthlyRanges s e).length) :
    s.days ≤ e.days := by
  by_contra hd
  simp [monthlyRanges, hd] at hi

/-- Both bounds of the `k`-th range of the closed form lie in the `k`-th month
counted from the month of the start. -/
theorem chunk_month (s e : Time) (k : Nat) (hs : s.Year ≤ 292277024626)
    (he : e.Year ≤ 292277024626) (hk : (k : Int) < monthCount s e) :
    12 * (chunkStart s k).Year + (chunkStart s k).Month = 12 * s.Year + s.Month + k ∧
    12 * (chunkStop s e (monthCount s e).toNat k).Year
      + (chunkStop s e (monthCount s e).toNat k).Month = 12 * s.Year + s.Month + k := by
  obtain ⟨a0, a1, a2, _⟩ := chunkStart_abs s k hs (chunk_safe s e k he (by omega))
  obtain ⟨b0, b1, b2, _⟩ := chunkStop_abs s e (monthCount s e).toNat k he
    (chunk_safe_succ s e k he hk)
  have hn : ((monthCount s e).toNat : Int) = monthCount s e :=
    Int.toNat_of_nonneg (by omega)
  obtain ⟨_, _, _, s4, s5⟩ := days_eq_firstDay s
  obtain ⟨_, _, _, e4, e5⟩ := days_eq_firstDay e
  constructor
  · by_cases hk0 : k = 0
    · subst hk0
      obtain ⟨h1, _⟩ := days_nano_of_abs _ _ _ (a1 rfl) (by omega)
      obtain ⟨y, m, _⟩ := fields_of_days _ _ h1
      rw [y, m]; simp
    · obtain ⟨h1, _⟩ := days_nano_of_abs _ _ 0 (by rw [a2 hk0]; ring) (by omega)
      have g := daysIn_ge ((12 * s.Year + s.Month - 1 + k) % 12 + 1)
        (isLeap ((12 * s.Year + s.Month - 1 + k) / 12)) (by omega)
      obtain ⟨y, m, _⟩ := civil_of_firstDay _ (12 * s.Year + s.Month - 1 + k) 0
        (by rw [h1]; ring) (by omega)
      rw [y, m]; omega
  · by_cases hl : k + 1 = (monthCount s e).toNat
    · obtain ⟨h1, _⟩ := days_nano_of_abs _ _ _ (b1 hl) (by omega)
      obtain ⟨y, m, _⟩ := fields_of_days _ _ h1
      rw [y, m]
      unfold monthCount at hn hl
      omega
    · have g := daysIn_ge ((12 * s.Year + s.Month - 1 + k) % 12 + 1)
        (isLeap ((12 * s.Year + s.Month - 1 + k) / 12)) (by omega)
      have fs := firstDay_succ (12 * s.Year + s.Month - 1 + k)
      obtain ⟨h1, _⟩ := days_nano_of_abs _
        (firstDay (12 * s.Year + s.Month - 1 + k + 1) - 1) 86399999999999
        (by rw [b2 hl]; ring) (by omega)
      obtain ⟨y, m, _⟩ := civil_of_firstDay _ (12 * s.Year + s.Month - 1 + k)
        (daysIn ((12 * s.Year + s.Month - 1 + k) % 12 + 1)
          (isLeap ((12 * s.Year + s.Month - 1 + k) / 12)) - 1)
        (by rw [h1, fs]; ring) (by omega)
      rw [y, m]; omega

/-- Two values of `time.Time` in UTC that are in order and read years up to
292277024626 have their calendar days in order. -/
theorem days_le_of_utc (s e : Time) (hsv : s.Valid) (hev : e.Valid)
    (hso : s.offset = 0) (heo : e.offset = 0)
    (hs : s.Year ≤ 292277024626) (he : e.Year ≤ 292277024626)
    (h : s.After e = false) : s.days ≤ e.days := by
  simp only [Time.After, decide_eq_false_iff_not] at h
  have a := abs_of_safe s hsv hso (month_safe s hs).1
  have b := abs_of_safe e hev heo (month_safe e he).1
  unfold Time.days
  omega

/-- Every instant from the normalized start to the normalized end lies in the
range of its UTC calendar month. -/
theorem monthlyRanges_cover (s e t : Time) (hs : s.Year ≤ 292277024626)
    (he : e.Year ≤ 292277024626)
    (h1 : t.Before (normalizedStart s) = false) (h2 : t.After (normalizedEnd e) = false) :
    ∃ r ∈ monthlyRanges s e, r.Start.After t = false ∧ t.After r.Stop = false := by
  obtain ⟨tu, htu⟩ : ∃ tu : Time, tu = { unixNano := t.unixNano, offset := 0 } := ⟨_, rfl⟩
  obtain ⟨sa, so, sabs⟩ := normalizedStart_abs s hs
  obtain ⟨ea, eo, eabs⟩ := normalizedEnd_abs e he
  simp only [Time.Before, decide_eq_false_iff_not] at h1
  simp only [Time.After, decide_eq_false_iff_not] at h2
  have sd := firstDay_safe _ (month_safe s hs).1
  have ed := firstDay_safe _ (month_safe e he).2
  obtain ⟨s1, s2⟩ := end_days s
  obtain ⟨e1, e2⟩ := end_days e
  have tabs : tu.abs = t.unixNano + 62135596800000000000 := by
    rw [htu, abs_of_range]
    · simp only
      ring
    · simp only
      omega
    · simp only
      omega
  have tsplit := abs_split tu
  have tn : 0 ≤ tu.nanoOfDay ∧ tu.nanoOfDay < 86400000000000 := by
    unfold Time.nanoOfDay; omega
  have d1 : s.days ≤ tu.days := by omega
  have d2 : tu.days ≤ e.days := by omega
  have hd : s.days ≤ e.days := by omega
  obtain ⟨t1, t2⟩ := end_days tu
  have j1 : 12 * s.Year + s.Month - 1 ≤ 12 * tu.Year + tu.Month - 1 := by
    by_contra hc
    have m := firstDay_mono (12 * tu.Year + tu.Month) (12 * s.Year + s.Month - 1) (by omega)
    omega
  have j2 : 12 * tu.Year + tu.Month - 1 ≤ 12 * e.Year + e.Month - 1 := by
    by_contra hc
    have m := firstDay_mono (12 * e.Year + e.Month) (12 * tu.Year + tu.Month - 1) (by omega)
    omega
  obtain ⟨k, hk⟩ : ∃ k : Nat, (k : Int) = 12 * tu.Year + tu.Month - 1 - (12 * s.Year + s.Month - 1) :=
    ⟨(12 * tu.Year + tu.Month - 1 - (12 * s.Year + s.Month - 1)).toNat,
      Int.toNat_of_nonneg (by omega)⟩
  have hkn : (k : Int) < monthCount s e := by unfold monthCount; omega
  have hn : ((monthCount s e).toNat : Int) = monthCount s e :=
    Int.toNat_of_nonneg (by omega)
  refine ⟨{ start := chunkStart s k, stop := chunkStop s e (monthCount s e).toNat k }, ?_, ?_, ?_⟩
  · simp only [monthlyRanges, hd, if_true, List.mem_map, List.mem_range]
    exact ⟨k, by omega, rfl⟩
  · obtain ⟨a0, a1, a2, a3⟩ := chunkStart_abs s k hs (chunk_safe s e k he (by omega))
    simp only [timeRange.Start, Time.After, decide_eq_false_iff_not]
    by_cases hk0 : k = 0
    · rw [chunkStart, if_pos hk0]; omega
    · have a := a2 hk0
      have e3 : 12 * s.Year + s.Month - 1 + (k : Int) = 12 * tu.Year + tu.Month - 1 := by omega
      rw [e3] at a
      omega
  · obtain ⟨b0, b1, b2, b3⟩ := chunkStop_abs s e (monthCount s e).toNat k he
      (chunk_safe_succ s e k he hkn)
    simp only [timeRange.Stop, Time.After, decide_eq_false_iff_not]
    by_cases hl : k + 1 = (monthCount s e).toNat
    · rw [chunkStop, if_pos hl]; omega
    · have b := b2 hl
      have e3 : 12 * s.Year + s.Month - 1 + (k : Int) + 1 = 12 * tu.Year + tu.Month := by omega
      rw [e3] at b
      omega

/-! ## The time-range chunker: claims -/

/-- The scenarios of `Test_GetTimeRanges_ExpectedRangesAreReturned` and of the
specification: the numbers of ranges for five pairs of dates. -/
theorem GetTimeRanges_scenarios :
    (fullMonthTimeRangeProvider.GetTimeRanges 20 (Date 2016 1 1 0 0 1 0 UTC)
        (Date 2016 8 30 0 0 1 0 UTC)).map (fun r => r.map List.length) = some (.ok 8) ∧
    (fullMonthTimeRangeProvider.GetTimeRanges 20 (Date 2016 1 1 0 0 1 0 UTC)
        (Date 2016 8 1 0 0 1 0 UTC)).map (fun r => r.map List.length) = some (.ok 8) ∧
    (fullMonthTimeRangeProvider.GetTimeRanges 20 (Date 2016 1 31 0 0 1 0 UTC)
        (Date 2016 8 30 0 0 1 0 UTC)).map (fun r => r.map List.length) = some (.ok 8) ∧
    (fullMonthTimeRangeProvider.GetTimeRanges 20 (Date 2016 8 1 0 0 1 0 UTC)
        (Date 2016 8 12 0 0 1 0 UTC)).map (fun r => r.map List.length) = some (.ok 1) ∧
    (fullMonthTimeRangeProvider.GetTimeRanges 20 (Date 2016 7 12 0 0 1 0 UTC)
        (Date 2016 8 12 0 0 1 0 UTC)).map (fun r => r.map List.length) = some (.ok 2) := by
  decide

/-- C1, as amended.  For every start not after end whose calendar day (read in
its own location) is not after the calendar day of end (read in its own
location), with the year of end at most 292277024626, and with fuel for more than
N loop iterations, `GetTimeRanges(start, end)` returns without error exactly
N = 12 * (end.Year - start.Year) + (end.Month - start.Month) + 1 ranges. -/
theorem C1_GetTimeRanges_count (startDate endDate : Time) (fuel : Nat)
    (h : startDate.After endDate = false) (hd : startDate.days ≤ endDate.days)
    (hyear : endDate.Year ≤ 292277024626)
    (hf : (monthCount startDate endDate).toNat < fuel) :
    ∃ ranges, fullMonthTimeRangeProvider.GetTimeRanges fuel startDate endDate = some (.ok ranges)
      ∧ (ranges.length : Int)
        = 12 * (endDate.Year - startDate.Year) + (endDate.Month - startDate.Month) + 1 :=
  ⟨_, GetTimeRanges_eq startDate endDate fuel
      (le_trans (Year_le_of_days startDate endDate hd) hyear) hyear h hf,
    monthlyRanges_length startDate endDate hd⟩

/-- C1, witness: 2016-01-01 to 2016-08-30, both in UTC, gives 8 ranges. -/
theorem C1_GetTimeRanges_count_witness :
    (jan1.After aug30 = false ∧ jan1.days ≤ aug30.days ∧ aug30.Year ≤ 292277024626
      ∧ (monthCount jan1 aug30).toNat < 9)
    ∧ ∃ ranges, fullMonthTimeRangeProvider.GetTimeRanges 9 jan1 aug30 = some (.ok ranges)
        ∧ (ranges.length : Int) = 12 * (aug30.Year - jan1.Year) + (aug30.Month - jan1.Month) + 1 :=
  ⟨⟨by decide, by decide, by decide, by decide⟩,
    C1_GetTimeRanges_count jan1 aug30 9 (by decide) (by decide) (by decide) (by decide)⟩

/-- C1, counterexample.  The start 2016-08-02 00:30 at UTC+2 is the instant
2016-08-01 22:30 UTC and so is not after the end 2016-08-01 23:00 UTC; both lie in
August 2016, so N = 1; yet the normalized start, 2016-08-02 00:00:01 UTC, is after
the normalized end, 2016-08-01 23:59:59 UTC, and GetTimeRanges returns no range,
whatever the fuel.  And with start = end = the largest `time.Time`, on December 6
of the year 292277024627, N = 1 again, but the normalized end, 23:59:59 on that
day, is past the last second of `time.Time` and wraps: no range is returned. -/
theorem C1_GetTimeRanges_count_counterexample :
    (aug2East.After aug1Late = false
      ∧ 12 * (aug1Late.Year - aug2East.Year) + (aug1Late.Month - aug2East.Month) + 1 = 1
      ∧ fullMonthTimeRangeProvider.GetTimeRanges 1 aug2East aug1Late = some (.ok [])
      ∧ fullMonthTimeRangeProvider.GetTimeRanges 100 aug2East aug1Late = some (.ok []))
    ∧ (lastInstant.After lastInstant = false
      ∧ 12 * (lastInstant.Year - lastInstant.Year) + (lastInstant.Month - lastInstant.Month) + 1
        = 1
      ∧ lastInstant.Year = 292277024627
      ∧ fullMonthTimeRangeProvider.GetTimeRanges 1 lastInstant lastInstant = some (.ok [])
      ∧ fullMonthTimeRangeProvider.GetTimeRanges 100 lastInstant lastInstant = some (.ok [])) := by
  decide

/-- C2, as amended.  For every start not after end, the years of both at most
292277024626 (and fuel for more than the number of months), GetTimeRanges returns
ranges - as many as there are months from the month of start to the month of end,
so at least one, when the calendar day of start is not after the calendar day of
end - of which the i-th has both bounds in the i-th calendar month counted from
the month of start; its lower bound is the calendar day of start at 00:00:01 UTC
for the first range and day 1 of its month at 00:00:00 UTC otherwise; its upper
bound is the calendar day of end at 23:59:59 UTC for the last range and one
nanosecond before the first instant of the next month otherwise. -/
theorem C2_GetTimeRanges_bounds (startDate endDate : Time) (fuel : Nat)
    (h : startDate.After endDate = false)
    (hstart : startDate.Year ≤ 292277024626) (hend : endDate.Year ≤ 292277024626)
    (hf : (monthCount startDate endDate).toNat < fuel) :
    ∃ ranges, fullMonthTimeRangeProvider.GetTimeRanges fuel startDate endDate = some (.ok ranges)
      ∧ (startDate.days ≤ endDate.days →
          (ranges.length : Int)
            = 12 * (endDate.Year - startDate.Year) + (endDate.Month - startDate.Month) + 1
          ∧ 1 ≤ ranges.length)
      ∧ ∀ (i : Nat) (hi : i < ranges.length),
        (12 * (ranges.get ⟨i, hi⟩).Start.Year + (ranges.get ⟨i, hi⟩).Start.Month
            = 12 * startDate.Year + startDate.Month + i
          ∧ 12 * (ranges.get ⟨i, hi⟩).Stop.Year + (ranges.get ⟨i, hi⟩).Stop.Month
            = 12 * startDate.Year + startDate.Month + i)
        ∧ (ranges.get ⟨i, hi⟩).Start
            = (if i = 0 then Date startDate.Year startDate.Month startDate.Day 0 0 1 0 UTC
               else Date startDate.Year (startDate.Month + i) 1 0 0 0 0 UTC)
        ∧ (ranges.get ⟨i, hi⟩).Stop
            = (if i + 1 = ranges.length
               then Date endDate.Year endDate.Month endDate.Day 23 59 59 0 UTC
               else (Date startDate.Year (startDate.Month + i + 1) 1 0 0 0 0 UTC).Add (-1)) := by
  refine ⟨_, GetTimeRanges_eq startDate endDate fuel hstart hend h hf, ?_, ?_⟩
  · intro hd
    have hl := monthlyRanges_length startDate endDate hd
    have hp := monthCount_pos startDate endDate hd
    unfold monthCount at hl hp
    exact ⟨hl, by omega⟩
  · intro i hi
    have hd := monthlyRanges_nonempty_days startDate endDate i hi
    have hl := monthlyRanges_length startDate endDate hd
    have hl' : (monthlyRanges startDate endDate).length
        = (monthCount startDate endDate).toNat := by
      omega
    rw [monthlyRanges_get]
    have hm := chunk_month startDate endDate i hstart hend (by omega)
    rw [← hl'] at hm
    exact ⟨hm, rfl, rfl⟩

/-- C2, witness: 2016-07-12 to 2016-08-12 gives the two ranges Jul 12 - Jul 31
and Aug 1 - Aug 12. -/
theorem C2_GetTimeRanges_bounds_witness :
    (jul12.After aug12 = false ∧ jul12.Year ≤ 292277024626 ∧ aug12.Year ≤ 292277024626
      ∧ (monthCount jul12 aug12).toNat < 3 ∧ jul12.days ≤ aug12.days)
    ∧ fullMonthTimeRangeProvider.GetTimeRanges 3 jul12 aug12
      = some (.ok [{ start := Date 2016 7 12 0 0 1 0 UTC,
                     stop := Date 2016 7 31 23 59 59 999999999 UTC },
                   { start := Date 2016 8 1 0 0 0 0 UTC,
                     stop := Date 2016 8 12 23 59 59 0 UTC }])
    ∧ ∃ ranges, fullMonthTimeRangeProvider.GetTimeRanges 3 jul12 aug12 = some (.ok ranges)
      ∧ (jul12.days ≤ aug12.days →
          (ranges.length : Int)
            = 12 * (aug12.Year - jul12.Year) + (aug12.Month - jul12.Month) + 1
          ∧ 1 ≤ ranges.length)
      ∧ ∀ (i : Nat) (hi : i < ranges.length),
        (12 * (ranges.get ⟨i, hi⟩).Start.Year + (ranges.get ⟨i, hi⟩).Start.Month
            = 12 * jul12.Year + jul12.Month + i
          ∧ 12 * (ranges.get ⟨i, hi⟩).Stop.Year + (ranges.get ⟨i, hi⟩).Stop.Month
            = 12 * jul12.Year + jul12.Month + i)
        ∧ (ranges.get ⟨i, hi⟩).Start
            = (if i = 0 then Date jul12.Year jul12.Month jul12.Day 0 0 1 0 UTC
               else Date jul12.Year (jul12.Month + i) 1 0 0 0 0 UTC)
        ∧ (ranges.get ⟨i, hi⟩).Stop
            = (if i + 1 = ranges.length
               then Date aug12.Year aug12.Month aug12.Day 23 59 59 0 UTC
               else (Date jul12.Year (jul12.Month + i + 1) 1 0 0 0 0 UTC).Add (-1)) :=
  ⟨⟨by decide, by decide, by decide, by decide, by decide⟩, by decide,
    C2_GetTimeRanges_bounds jul12 aug12 3 (by decide) (by decide) (by decide) (by decide)⟩

/-- C2, counterexample.  The start is the instant one day before the absolute
epoch of package `time`, the end lies 335 days after the epoch, so the start is
not after the end.  The methods of `time.Time` count the seconds from the absolute
epoch in a `uint64`: they read the start as a day of the year 292277026854, the
loop walks on from that month, its variable passes the epoch, and GetTimeRanges
returns a list in which not every range lies in its month counted from the month
of the start: among the ranges are months of the years -292277022400 and
-292277022399. -/
theorem C2_GetTimeRanges_bounds_counterexample :
    beforeEpoch.After afterEpoch = false
    ∧ beforeEpoch.Valid ∧ afterEpoch.Valid
    ∧ beforeEpoch.Year = 292277026854
    ∧ afterEpoch.Year = -292277022399
    ∧ (fullMonthTimeRangeProvider.GetTimeRanges 40 beforeEpoch afterEpoch).map
        (fun result => result.map
          (inMonths (12 * beforeEpoch.Year + beforeEpoch.Month))) = some (.ok false)
    ∧ (fullMonthTimeRangeProvider.GetTimeRanges 40 beforeEpoch afterEpoch).map
        (fun result => result.map
          (fun ranges => ranges.getLast?.map (fun range => range.Stop.Year)))
        = some (.ok (some (-292277022399))) := by
  decide

/-- C3, as amended.  For every start not after end, the years of both at most
292277024626, every instant t that is neither before 00:00:01 UTC on the calendar
day of start nor after 23:59:59 UTC on the calendar day of end lies inside one of
the ranges returned by GetTimeRanges(start, end). -/
theorem C3_GetTimeRanges_cover (startDate endDate t : Time) (fuel : Nat)
    (h : startDate.After endDate = false)
    (hstart : startDate.Year ≤ 292277024626) (hend : endDate.Year ≤ 292277024626)
    (hf : (monthCount startDate endDate).toNat < fuel)
    (h1 : t.Before (Date startDate.Year startDate.Month startDate.Day 0 0 1 0 UTC) = false)
    (h2 : t.After (Date endDate.Year endDate.Month endDate.Day 23 59 59 0 UTC) = false) :
    ∃ ranges, fullMonthTimeRangeProvider.GetTimeRanges fuel startDate endDate = some (.ok ranges)
      ∧ ∃ r ∈ ranges, r.Start.After t = false ∧ t.After r.Stop = false :=
  ⟨_, GetTimeRanges_eq startDate endDate fuel hstart hend h hf,
    monthlyRanges_cover startDate endDate t hstart hend h1 h2⟩

/-- C3, witness: 2016-08-01 00:00:00 UTC lies in a range of 2016-07-12 to 2016-08-12. -/
theorem C3_GetTimeRanges_cover_witness :
    (jul12.After aug12 = false ∧ jul12.Year ≤ 292277024626 ∧ aug12.Year ≤ 292277024626
      ∧ (monthCount jul12 aug12).toNat < 3
      ∧ aug1.Before (Date jul12.Year jul12.Month jul12.Day 0 0 1 0 UTC) = false
      ∧ aug1.After (Date aug12.Year aug12.Month aug12.Day 23 59 59 0 UTC) = false)
    ∧ ∃ ranges, fullMonthTimeRangeProvider.GetTimeRanges 3 jul12 aug12 = some (.ok ranges)
      ∧ ∃ r ∈ ranges, r.Start.After aug1 = false ∧ aug1.After r.Stop = false :=
  ⟨⟨by decide, by decide, by decide, by decide, by decide, by decide⟩,
    C3_GetTimeRanges_cover jul12 aug12 aug1 3 (by decide) (by decide) (by decide) (by decide)
      (by decide) (by decide)⟩

/-- C3, counterexample.  With start 2016-08-01 00:00:00 UTC and end 2016-08-12
00:00:01 UTC the only range returned begins at 2016-08-01 00:00:01 UTC, so the
instant t = start, which satisfies start <= t <= end, lies in no range.  And with
start = end = t = the largest `time.Time`, on December 6 of the year
292277024627, no range is returned at all: the normalized end, 23:59:59 on that
day, is past the last second of `time.Time` and wraps to an instant before the
normalized start. -/
theorem C3_GetTimeRanges_cover_counterexample :
    (aug1.After aug12 = false
      ∧ aug1.Before aug1 = false ∧ aug1.After aug12 = false
      ∧ fullMonthTimeRangeProvider.GetTimeRanges 2 aug1 aug12
          = some (.ok [{ start := Date 2016 8 1 0 0 1 0 UTC,
                         stop := Date 2016 8 12 23 59 59 0 UTC }])
      ∧ (Date 2016 8 1 0 0 1 0 UTC).After aug1 = true)
    ∧ (lastInstant.After lastInstant = false ∧ lastInstant.Before lastInstant = false
      ∧ fullMonthTimeRangeProvider.GetTimeRanges 2 lastInstant lastInstant = some (.ok [])
      ∧ (Date lastInstant.Year lastInstant.Month lastInstant.Day 23 59 59 0 UTC).Before
          (Date lastInstant.Year lastInstant.Month lastInstant.Day 0 0 1 0 UTC) = true) := by
  decide

/-- The ranges for 2016-07-12 to 2016-08-12: Jul 12 - Jul 31 and Aug 1 - Aug 12. -/
theorem GetTimeRanges_jul12_aug12 :
    fullMonthTimeRangeProvider.GetTimeRanges 3 jul12 aug12
      = some (.ok [{ start := Date 2016 7 12 0 0 1 0 UTC,
                     stop := Date 2016 7 31 23 59 59 999999999 UTC },
                   { start := Date 2016 8 1 0 0 0 0 UTC,
                     stop := Date 2016 8 12 23 59 59 0 UTC }]) := by
  decide

/-- C5.  `newTimeRange(start, stop)` returns an error if stop is before or equal to
start, and otherwise (start strictly before stop) returns the range with
`Start() = start` and `Stop() = stop`. -/
theorem C5_newTimeRange (start stop : Time) :
    ((stop.Before start = true ∨ stop.Equal start = true) →
      ∃ err, newTimeRange start stop = .error err)
    ∧ (start.Before stop = true →
      ∃ r, newTimeRange start stop = .ok r ∧ r.Start = start ∧ r.Stop = stop) := by
  constructor
  · intro h
    unfold newTimeRange
    by_cases ha : start.After stop = true
    · exact ⟨_, by rw [if_pos ha]⟩
    · rw [if_neg ha]
      have he : stop.Equal start = true := by
        rcases h with h | h
        · exfalso
          apply ha
          simp only [Time.Before, decide_eq_true_eq] at h
          simp only [Time.After, decide_eq_true_eq]
          exact h
        · exact h
      exact ⟨_, by rw [if_pos he]⟩
  · intro h
    simp only [Time.Before, decide_eq_true_eq] at h
    exact ⟨_, newTimeRange_ok start stop h, rfl, rfl⟩

/-- C5, witness: the two rejected pairs of `timerange_test.go` and an accepted pair. -/
theorem C5_newTimeRange_witness :
    (∃ err, newTimeRange aug30 jan1 = .error err)
    ∧ (∃ err, newTimeRange aug30 aug30 = .error err)
    ∧ ∃ r, newTimeRange jan1 aug30 = .ok r ∧ r.Start = jan1 ∧ r.Stop = aug30 :=
  ⟨(C5_newTimeRange aug30 jan1).1 (Or.inl (by decide)),
    (C5_newTimeRange aug30 aug30).1 (Or.inr (by decide)),
    (C5_newTimeRange jan1 aug30).2 (by decide)⟩

/-- C6, as amended.  For every instant t whose year is at most 292277024626 (and
fuel for more than one iteration), `GetTimeRanges(t, t)` returns no error but
exactly one range, from 00:00:01 UTC to 23:59:59 UTC on the calendar day of t. -/
theorem C6_GetTimeRanges_same_instant (t : Time) (fuel : Nat)
    (hyear : t.Year ≤ 292277024626) (hf : 1 < fuel) :
    fullMonthTimeRangeProvider.GetTimeRanges fuel t t
      = some (.ok [{ start := Date t.Year t.Month t.Day 0 0 1 0 UTC,
                     stop := Date t.Year t.Month t.Day 23 59 59 0 UTC }]) := by
  have h : t.After t = false := by simp [Time.After]
  have hm : monthCount t t = 1 := by unfold monthCount; ring
  rw [GetTimeRanges_eq t t fuel hyear hyear h (by rw [hm]; exact hf)]
  simp [monthlyRanges, hm, chunkStart, chunkStop, normalizedStart, normalizedEnd, List.range_succ]

/-- C6, witness: fuel 2 at 2016-08-12 00:00:01 UTC. -/
theorem C6_GetTimeRanges_same_instant_witness :
    (aug12.Year ≤ 292277024626 ∧ 1 < 2)
    ∧ fullMonthTimeRangeProvider.GetTimeRanges 2 aug12 aug12
      = some (.ok [{ start := Date aug12.Year aug12.Month aug12.Day 0 0 1 0 UTC,
                     stop := Date aug12.Year aug12.Month aug12.Day 23 59 59 0 UTC }]) :=
  ⟨⟨by decide, by decide⟩, C6_GetTimeRanges_same_instant aug12 2 (by decide) (by decide)⟩

/-- C6, counterexample.  `GetTimeRanges(t, t)` for t = 2016-08-12 00:00:01 UTC
returns no error but one range, 2016-08-12 00:00:01 to 23:59:59 UTC.  For t = the
largest `time.Time`, on December 6 of the year 292277024627, it returns no error
and no range: the normalized end, 23:59:59 on that day, wraps. -/
theorem C6_GetTimeRanges_same_instant_counterexample :
    fullMonthTimeRangeProvider.GetTimeRanges 2 aug12 aug12
      = some (.ok [{ start := Date 2016 8 12 0 0 1 0 UTC,
                     stop := Date 2016 8 12 23 59 59 0 UTC }])
    ∧ lastInstant.Year = 292277024627
    ∧ fullMonthTimeRangeProvider.GetTimeRanges 2 lastInstant lastInstant = some (.ok [])
    ∧ fullMonthTimeRangeProvider.GetTimeRanges 100 lastInstant lastInstant = some (.ok []) := by
  decide

/-! ## Logs of the recording repository -/

theorem fetchCalls_append (a b : List Call) : fetchCalls (a ++ b) = fetchCalls a ++ fetchCalls b := by
  induction a with
  | nil => rfl
  | cons c a ih => cases c <;> simp [fetchCalls, ih]

theorem fetchedEntries_append (a b : List Call) :
    fetchedEntries (a ++ b) = fetchedEntries a ++ fetchedEntries b := by
  induction a with
  | nil => rfl
  | cons c a ih =>
    cases c with
    | GetTimeEntries start stop result => cases result <;> simp [fetchedEntries, ih]
    | _ => simp [fetchedEntries, ih]

theorem convertCalls_append (a b : List Call) :
    convertCalls (a ++ b) = convertCalls a ++ convertCalls b := by
  induction a with
  | nil => rfl
  | cons c a ih => cases c <;> simp [convertCalls, ih]

theorem conversions_append (a b : List Call) :
    conversions (a ++ b) = conversions a ++ conversions b := by
  induction a with
  | nil => rfl
  | cons c a ih =>
    cases c with
    | ConvertTimeEntryToTimeRecord timeEntry result => cases result <;> simp [conversions, ih]
    | _ => simp [conversions, ih]

/-- The log of the loop over the entries of one chunk: only converter calls, on
the entries that are not skipped, in order, up to the first failure. -/
theorem entries_loop_trace {σ : Type} (repository : TimeRecordRepository σ) :
    ∀ (entries : List model.TimeEntry) (records : List TimeRecord) (s : σ) (log : List Call),
    ∃ calls,
      (TimeRecordRepository.getTimeRecords.loop repository.recording entries records (s, log)).2.2
        = log ++ calls
      ∧ fetchCalls calls = [] ∧ fetchedEntries calls = []
      ∧ (∀ e ∈ convertCalls calls, isFinishedProjectEntry e = true)
      ∧ (∀ out, (TimeRecordRepository.getTimeRecords.loop repository.recording entries records
            (s, log)).1 = .ok out →
          (∀ c ∈ calls, c.failed = false)
          ∧ convertCalls calls = entries.filter isFinishedProjectEntry
          ∧ (conversions calls).map Prod.fst = convertCalls calls
          ∧ out = records ++ (conversions calls).map Prod.snd)
      ∧ (∀ err, (TimeRecordRepository.getTimeRecords.loop repository.recording entries records
            (s, log)).1 = .error err →
          ∃ pre c, calls = pre ++ [c] ∧ (∀ c' ∈ pre, c'.failed = false) ∧ c.failed = true) := by
  intro entries
  induction entries with
  | nil =>
    intro records s log
    refine ⟨[], by simp [TimeRecordRepository.getTimeRecords.loop], rfl, rfl, by simp [convertCalls],
      ?_, ?_⟩
    · intro out h
      simp only [TimeRecordRepository.getTimeRecords.loop, Except.ok.injEq] at h
      simp [convertCalls, conversions, h]
    · intro err h
      simp [TimeRecordRepository.getTimeRecords.loop] at h
  | cons e rest ih =>
    intro records s log
    by_cases hp : (e.Pid == 0) = true
    · obtain ⟨calls, h1, h2, h3, h4, h5, h6⟩ := ih records s log
      have hk : isFinishedProjectEntry e = false := by simp [isFinishedProjectEntry, hp]
      have hu : TimeRecordRepository.getTimeRecords.loop repository.recording (e :: rest) records
          (s, log) = TimeRecordRepository.getTimeRecords.loop repository.recording rest records
          (s, log) := by
        rw [TimeRecordRepository.getTimeRecords.loop]; simp [hp]
      rw [hu]
      refine ⟨calls, h1, h2, h3, h4, ?_, h6⟩
      intro out ho
      obtain ⟨a, b, c, d⟩ := h5 out ho
      exact ⟨a, by simp [List.filter, hk, b], c, d⟩
    · by_cases hz : e.Stop.Equal Time.zero = true
      · obtain ⟨calls, h1, h2, h3, h4, h5, h6⟩ := ih records s log
        have hk : isFinishedProjectEntry e = false := by simp [isFinishedProjectEntry, hz]
        have hu : TimeRecordRepository.getTimeRecords.loop repository.recording (e :: rest)
            records (s, log) = TimeRecordRepository.getTimeRecords.loop repository.recording
            rest records (s, log) := by
          rw [TimeRecordRepository.getTimeRecords.loop]; simp [hp, hz]
        rw [hu]
        refine ⟨calls, h1, h2, h3, h4, ?_, h6⟩
        intro out ho
        obtain ⟨a, b, c, d⟩ := h5 out ho
        exact ⟨a, by simp [List.filter, hk, b], c, d⟩
      · have hk : isFinishedProjectEntry e = true := by
          simp only [Bool.not_eq_true] at hp hz
          simp [isFinishedProjectEntry, hp, hz]
        cases hr : repository.modelConverter.ConvertTimeEntryToTimeRecord e s with
        | mk r s1 =>
          cases r with
          | error err0 =>
            have hu : TimeRecordRepository.getTimeRecords.loop repository.recording (e :: rest)
                records (s, log)
                = (.error (Wrap err0 "Failed to convert time entry"),
                    (s1, log ++ [.ConvertTimeEntryToTimeRecord e (.error err0)])) := by
              rw [TimeRecordRepository.getTimeRecords.loop]
              simp [hp, hz, TimeRecordRepository.recording, logged, hr]
            rw [hu]
            refine ⟨[.ConvertTimeEntryToTimeRecord e (.error err0)], rfl, rfl, rfl, ?_, ?_, ?_⟩
            · intro e' he'
              simp only [convertCalls, List.mem_singleton] at he'
              rw [he']; exact hk
            · intro out ho
              simp at ho
            · intro err _
              exact ⟨[], _, rfl, by simp, rfl⟩
          | ok rec =>
            obtain ⟨calls, h1, h2, h3, h4, h5, h6⟩ := ih (records ++ [rec]) s1
              (log ++ [.ConvertTimeEntryToTimeRecord e (.ok rec)])
            have hu : TimeRecordRepository.getTimeRecords.loop repository.recording (e :: rest)
                records (s, log)
                = TimeRecordRepository.getTimeRecords.loop repository.recording rest
                    (records ++ [rec])
                    (s1, log ++ [.ConvertTimeEntryToTimeRecord e (.ok rec)]) := by
              rw [TimeRecordRepository.getTimeRecords.loop]
              simp [hp, hz, TimeRecordRepository.recording, logged, hr]
            rw [hu]
            refine ⟨.ConvertTimeEntryToTimeRecord e (.ok rec) :: calls, by rw [h1]; simp,
              by simp [fetchCalls, h2], by simp [fetchedEntries, h3], ?_, ?_, ?_⟩
            · intro e' he'
              simp only [convertCalls, List.mem_cons] at he'
              rcases he' with he' | he'
              · rw [he']; exact hk
              · exact h4 e' he'
            · intro out ho
              obtain ⟨a, b, c, d⟩ := h5 out ho
              refine ⟨?_, ?_, ?_, ?_⟩
              · intro c' hc'
                simp only [List.mem_cons] at hc'
                rcases hc' with hc' | hc'
                · rw [hc']; rfl
                · exact a c' hc'
              · simp [convertCalls, List.filter, hk, b]
              · simp [conversions, convertCalls, c]
              · simp [conversions, d]
            · intro err ho
              obtain ⟨pre, c, a, b, d⟩ := h6 err ho
              refine ⟨.ConvertTimeEntryToTimeRecord e (.ok rec) :: pre, c, by simp [a], ?_, d⟩
              intro c' hc'
              simp only [List.mem_cons] at hc'
              rcases hc' with hc' | hc'
              · rw [hc']; rfl
              · exact b c' hc'

/-- The log of getTimeRecords for one chunk: one GetTimeEntries call, then the
converter calls of the loop over its entries. -/
theorem chunk_trace {σ : Type} (repository : TimeRecordRepository σ) (start stop : Time)
    (s : σ) (log : List Call) :
    ∃ calls,
      (TimeRecordRepository.getTimeRecords repository.recording start stop (s, log)).2.2
        = log ++ calls
      ∧ fetchCalls calls = [(start, stop)]
      ∧ (∀ e ∈ convertCalls calls, isFinishedProjectEntry e = true)
      ∧ (∀ out, (TimeRecordRepository.getTimeRecords repository.recording start stop
            (s, log)).1 = .ok out →
          (∀ c ∈ calls, c.failed = false)
          ∧ convertCalls calls = (fetchedEntries calls).filter isFinishedProjectEntry
          ∧ (conversions calls).map Prod.fst = convertCalls calls
          ∧ out = (conversions calls).map Prod.snd)
      ∧ (∀ err, (TimeRecordRepository.getTimeRecords repository.recording start stop
            (s, log)).1 = .error err →
          ∃ pre c, calls = pre ++ [c] ∧ (∀ c' ∈ pre, c'.failed = false) ∧ c.failed = true) := by
  cases hr : repository.timeEntryAPI.GetTimeEntries start stop s with
  | mk r s1 =>
    cases r with
    | error err0 =>
      have hu : TimeRecordRepository.getTimeRecords repository.recording start stop (s, log)
          = (.error err0, (s1, log ++ [.GetTimeEntries start stop (.error err0)])) := by
        simp [TimeRecordRepository.getTimeRecords, TimeRecordRepository.recording, logged, hr]
      rw [hu]
      refine ⟨[.GetTimeEntries start stop (.error err0)], rfl, rfl, by simp [convertCalls], ?_, ?_⟩
      · intro out ho
        simp at ho
      · intro err _
        exact ⟨[], _, rfl, by simp, rfl⟩
    | ok entries =>
      obtain ⟨calls, h1, h2, h3, h4, h5, h6⟩ := entries_loop_trace repository entries [] s1
        (log ++ [.GetTimeEntries start stop (.ok entries)])
      have hu : TimeRecordRepository.getTimeRecords repository.recording start stop (s, log)
          = TimeRecordRepository.getTimeRecords.loop repository.recording entries []
              (s1, log ++ [.GetTimeEntries start stop (.ok entries)]) := by
        simp [TimeRecordRepository.getTimeRecords, TimeRecordRepository.recording, logged, hr]
      rw [hu]
      refine ⟨.GetTimeEntries start stop (.ok entries) :: calls, by rw [h1]; simp,
        by simp [fetchCalls, h2], by simpa [convertCalls] using h4, ?_, ?_⟩
      · intro out ho
        obtain ⟨a, b, c, d⟩ := h5 out ho
        refine ⟨?_, by simp [convertCalls, fetchedEntries, h3, b],
          by simp [conversions, convertCalls, c], by simp [conversions, d]⟩
        intro c' hc'
        simp only [List.mem_cons] at hc'
        rcases hc' with hc' | hc'
        · rw [hc']; rfl
        · exact a c' hc'
      · intro err ho
        obtain ⟨pre, c, a, b, d⟩ := h6 err ho
        refine ⟨.GetTimeEntries start stop (.ok entries) :: pre, c, by simp [a], ?_, d⟩
        intro c' hc'
        simp only [List.mem_cons] at hc'
        rcases hc' with hc' | hc'
        · rw [hc']; rfl
        · exact b c' hc'

/-- The log of the loop over the chunks: for each chunk in order one
GetTimeEntries call followed by the converter calls for its entries, up to the
first failure. -/
theorem chunks_loop_trace {σ : Type} (repository : TimeRecordRepository σ) :
    ∀ (chunks : List timeRange) (timeRecords : List TimeRecord) (s : σ) (log : List Call),
    ∃ calls,
      (TimeRecordRepository.GetTimeRecords.loop repository.recording chunks timeRecords
        (s, log)).2.2 = log ++ calls
      ∧ (∃ rest, chunks.map (fun c => (c.Start, c.Stop)) = fetchCalls calls ++ rest)
      ∧ (∀ e ∈ convertCalls calls, isFinishedProjectEntry e = true)
      ∧ (∀ out, (TimeRecordRepository.GetTimeRecords.loop repository.recording chunks timeRecords
            (s, log)).1 = .ok out →
          (∀ c ∈ calls, c.failed = false)
          ∧ fetchCalls calls = chunks.map (fun c => (c.Start, c.Stop))
          ∧ convertCalls calls = (fetchedEntries calls).filter isFinishedProjectEntry
          ∧ (conversions calls).map Prod.fst = convertCalls calls
          ∧ out = timeRecords ++ (conversions calls).map Prod.snd)
      ∧ (∀ err, (TimeRecordRepository.GetTimeRecords.loop repository.recording chunks timeRecords
            (s, log)).1 = .error err →
          ∃ pre c, calls = pre ++ [c] ∧ (∀ c' ∈ pre, c'.failed = false) ∧ c.failed = true) := by
  intro chunks
  induction chunks with
  | nil =>
    intro timeRecords s log
    refine ⟨[], by simp [TimeRecordRepository.GetTimeRecords.loop], ⟨[], rfl⟩,
      by simp [convertCalls], ?_, ?_⟩
    · intro out h
      simp only [TimeRecordRepository.GetTimeRecords.loop, Except.ok.injEq] at h
      simp [convertCalls, conversions, fetchCalls, fetchedEntries, h]
    · intro err h
      simp [TimeRecordRepository.GetTimeRecords.loop] at h
  | cons chunk rest ih =>
    intro timeRecords s log
    obtain ⟨calls1, g1, g2, g3, g4, g5⟩ := chunk_trace repository chunk.Start chunk.Stop s log
    cases hr : TimeRecordRepository.getTimeRecords repository.recording chunk.Start chunk.Stop
        (s, log) with
    | mk r st =>
      rw [hr] at g1 g4 g5
      simp only at g1 g4 g5
      cases r with
      | error err0 =>
        have hu : TimeRecordRepository.GetTimeRecords.loop repository.recording (chunk :: rest)
            timeRecords (s, log) = (.error err0, st) := by
          rw [TimeRecordRepository.GetTimeRecords.loop]; simp [hr]
        rw [hu]
        refine ⟨calls1, g1, ⟨rest.map (fun c => (c.Start, c.Stop)), by simp [g2]⟩, g3, ?_, ?_⟩
        · intro out ho
          simp at ho
        · intro err _
          exact g5 err0 rfl
      | ok records =>
        obtain ⟨a1, a2, a3, a4⟩ := g4 records rfl
        obtain ⟨calls2, h1, h2, h3, h4, h5⟩ := ih (timeRecords ++ records) st.1 st.2
        have hu : TimeRecordRepository.GetTimeRecords.loop repository.recording (chunk :: rest)
            timeRecords (s, log)
            = TimeRecordRepository.GetTimeRecords.loop repository.recording rest
                (timeRecords ++ records) (st.1, st.2) := by
          rw [TimeRecordRepository.GetTimeRecords.loop]; simp [hr]
        rw [hu]
        refine ⟨calls1 ++ calls2, by rw [h1, g1]; simp, ?_, ?_, ?_, ?_⟩
        · obtain ⟨rest', hrest⟩ := h2
          exact ⟨rest', by simp [fetchCalls_append, g2, hrest]⟩
        · intro e he
          rw [convertCalls_append, List.mem_append] at he
          rcases he with he | he
          · exact g3 e he
          · exact h3 e he
        · intro out ho
          obtain ⟨b1, b2, b3, b4, b5⟩ := h4 out ho
          refine ⟨?_, by simp [fetchCalls_append, g2, b2],
            by simp [convertCalls_append, fetchedEntries_append, a2, b3],
            by simp [conversions_append, convertCalls_append, a3, b4],
            by simp [conversions_append, a4, b5]⟩
          intro c hc
          rw [List.mem_append] at hc
          rcases hc with hc | hc
          · exact a1 c hc
          · exact b1 c hc
        · intro err ho
          obtain ⟨pre, c, b1, b2, b3⟩ := h5 err ho
          refine ⟨calls1 ++ pre, c, by simp [b1], ?_, b3⟩
          intro c' hc'
          rw [List.mem_append] at hc'
          rcases hc' with hc' | hc'
          · exact a1 c' hc'
          · exact b2 c' hc'

theorem conversions_mem_convertCalls (log : List Call) (p : model.TimeEntry × TimeRecord)
    (h : p ∈ conversions log) : p.1 ∈ convertCalls log := by
  induction log with
  | nil => simp [conversions] at h
  | cons c log ih =>
    cases c with
    | ConvertTimeEntryToTimeRecord timeEntry result =>
      cases result with
      | error err =>
        simp only [conversions] at h
        simp only [convertCalls, List.mem_cons]
        exact Or.inr (ih h)
      | ok timeRecord =>
        simp only [conversions, List.mem_cons] at h
        simp only [convertCalls, List.mem_cons]
        rcases h with h | h
        · exact Or.inl (by rw [h])
        · exact Or.inr (ih h)
    | _ =>
      simp only [conversions] at h
      simp only [convertCalls]
      exact ih h

/-- The log of GetTimeRecords for a start not after the stop: the call to the
time range provider, then for each chunk in order one GetTimeEntries call and
the converter calls for its entries, up to the first failure. -/
theorem GetTimeRecords_trace {σ : Type} (repository : TimeRecordRepository σ)
    (start stop : Time) (s : σ) (h : start.After stop = false) :
    ∃ rangesResult calls,
      (TimeRecordRepository.GetTimeRecords repository.recording start stop (s, [])).2.2
        = .GetTimeRanges start stop rangesResult :: calls
      ∧ (∀ e ∈ convertCalls calls, isFinishedProjectEntry e = true)
      ∧ (∀ out, (TimeRecordRepository.GetTimeRecords repository.recording start stop
            (s, [])).1 = .ok out →
          ∃ chunks, rangesResult = .ok chunks
          ∧ (∀ c ∈ calls, c.failed = false)
          ∧ fetchCalls calls = chunks.map (fun c => (c.Start, c.Stop))
          ∧ convertCalls calls = (fetchedEntries calls).filter isFinishedProjectEntry
          ∧ (conversions calls).map Prod.fst = convertCalls calls
          ∧ out = (conversions calls).map Prod.snd)
      ∧ (∀ err, (TimeRecordRepository.GetTimeRecords repository.recording start stop
            (s, [])).1 = .error err →
          ∃ pre c, .GetTimeRanges start stop rangesResult :: calls = pre ++ [c]
            ∧ (∀ c' ∈ pre, c'.failed = false) ∧ c.failed = true) := by
  cases hr : repository.timeRangeProvider.GetTimeRanges start stop s with
  | mk r s1 =>
    cases r with
    | error err0 =>
      have hu : TimeRecordRepository.GetTimeRecords repository.recording start stop (s, [])
          = (.error err0, (s1, [.GetTimeRanges start stop (.error err0)])) := by
        simp [TimeRecordRepository.GetTimeRecords, TimeRecordRepository.recording, logged, hr, h]
      rw [hu]
      refine ⟨.error err0, [], rfl, by simp [convertCalls], ?_, ?_⟩
      · intro out ho
        simp at ho
      · intro err _
        exact ⟨[], _, rfl, by simp, rfl⟩
    | ok chunks =>
      obtain ⟨calls, h1, h2, h3, h4, h5⟩ := chunks_loop_trace repository chunks [] s1
        [.GetTimeRanges start stop (.ok chunks)]
      have hu : TimeRecordRepository.GetTimeRecords repository.recording start stop (s, [])
          = TimeRecordRepository.GetTimeRecords.loop repository.recording chunks []
              (s1, [.GetTimeRanges start stop (.ok chunks)]) := by
        simp [TimeRecordRepository.GetTimeRecords, TimeRecordRepository.recording, logged, hr, h]
      rw [hu]
      refine ⟨.ok chunks, calls, by rw [h1]; rfl, h3, ?_, ?_⟩
      · intro out ho
        obtain ⟨a, b, c, d, e⟩ := h4 out ho
        exact ⟨chunks, rfl, a, b, c, d, by simpa using e⟩
      · intro err ho
        obtain ⟨pre, c, a, b, d⟩ := h5 err ho
        refine ⟨.GetTimeRanges start stop (.ok chunks) :: pre, c, by simp [a], ?_, d⟩
        intro c' hc'
        simp only [List.mem_cons] at hc'
        rcases hc' with hc' | hc'
        · rw [hc']; rfl
        · exact b c' hc'

theorem GetTimeRecords_after {σ : Type} (repository : TimeRecordRepository σ)
    (start stop : Time) (s : σ) (h : start.After stop = true) :
    TimeRecordRepository.GetTimeRecords repository start stop s
      = (.error "The start date cannot be before the stop date", s) := by
  simp [TimeRecordRepository.GetTimeRecords, h]

/-! ## The recording repository runs like the repository itself -/

theorem recording_entries_loop {σ : Type} (repository : TimeRecordRepository σ) :
    ∀ (entries : List model.TimeEntry) (records : List TimeRecord) (s : σ) (log : List Call),
      (TimeRecordRepository.getTimeRecords.loop repository.recording entries records (s, log)).1
        = (TimeRecordRepository.getTimeRecords.loop repository entries records s).1
      ∧ (TimeRecordRepository.getTimeRecords.loop repository.recording entries records
          (s, log)).2.1
        = (TimeRecordRepository.getTimeRecords.loop repository entries records s).2 := by
  intro entries
  induction entries with
  | nil => intro records s log; simp [TimeRecordRepository.getTimeRecords.loop]
  | cons e rest ih =>
    intro records s log
    rw [TimeRecordRepository.getTimeRecords.loop, TimeRecordRepository.getTimeRecords.loop]
    by_cases hp : (e.Pid == 0) = true
    · simp only [hp, if_true]; exact ih records s log
    · by_cases hz : e.Stop.Equal Time.zero = true
      · simp only [hp, hz, if_true, Bool.false_eq_true, if_false]; exact ih records s log
      · simp only [hp, hz, Bool.false_eq_true, if_false]
        cases hr : repository.modelConverter.ConvertTimeEntryToTimeRecord e s with
        | mk r s1 =>
          have hrec : repository.recording.modelConverter.ConvertTimeEntryToTimeRecord e (s, log)
              = (r, (s1, log ++ [.ConvertTimeEntryToTimeRecord e r])) := by
            simp [TimeRecordRepository.recording, logged, hr]
          rw [hrec]
          cases r with
          | error err => simp
          | ok rec => simp only; exact ih _ s1 _

theorem recording_getTimeRecords {σ : Type} (repository : TimeRecordRepository σ)
    (start stop : Time) (s : σ) (log : List Call) :
    (TimeRecordRepository.getTimeRecords repository.recording start stop (s, log)).1
      = (TimeRecordRepository.getTimeRecords repository start stop s).1
    ∧ (TimeRecordRepository.getTimeRecords repository.recording start stop (s, log)).2.1
      = (TimeRecordRepository.getTimeRecords repository start stop s).2 := by
  unfold TimeRecordRepository.getTimeRecords
  cases hr : repository.timeEntryAPI.GetTimeEntries start stop s with
  | mk r s1 =>
    have hrec : repository.recording.timeEntryAPI.GetTimeEntries start stop (s, log)
        = (r, (s1, log ++ [.GetTimeEntries start stop r])) := by
      simp [TimeRecordRepository.recording, logged, hr]
    rw [hrec]
    cases r with
    | error err => simp
    | ok entries => simp only; exact recording_entries_loop repository entries [] s1 _

theorem recording_chunks_loop {σ : Type} (repository : TimeRecordRepository σ) :
    ∀ (chunks : List timeRange) (timeRecords : List TimeRecord) (s : σ) (log : List Call),
      (TimeRecordRepository.GetTimeRecords.loop repository.recording chunks timeRecords
        (s, log)).1
        = (TimeRecordRepository.GetTimeRecords.loop repository chunks timeRecords s).1
      ∧ (TimeRecordRepository.GetTimeRecords.loop repository.recording chunks timeRecords
          (s, log)).2.1
        = (TimeRecordRepository.GetTimeRecords.loop repository chunks timeRecords s).2 := by
  intro chunks
  induction chunks with
  | nil => intro timeRecords s log; simp [TimeRecordRepository.GetTimeRecords.loop]
  | cons chunk rest ih =>
    intro timeRecords s log
    rw [TimeRecordRepository.GetTimeRecords.loop, TimeRecordRepository.GetTimeRecords.loop]
    obtain ⟨h1, h2⟩ := recording_getTimeRecords repository chunk.Start chunk.Stop s log
    cases hr : TimeRecordRepository.getTimeRecords repository chunk.Start chunk.Stop s with
    | mk r s1 =>
      cases hq : TimeRecordRepository.getTimeRecords repository.recording chunk.Start chunk.Stop
          (s, log) with
      | mk r' st =>
        rw [hr, hq] at h1 h2
        simp only at h1 h2
        subst h1
        obtain ⟨st1, st2⟩ := st
        simp only at h2
        subst h2
        cases r' with
        | error err => simp
        | ok records => simp only; exact ih (timeRecords ++ records) st1 st2

/-- The recording repository returns the result and the final state of the
repository it wraps: recording the calls changes nothing else. -/
theorem recording_GetTimeRecords {σ : Type} (repository : TimeRecordRepository σ)
    (start stop : Time) (s : σ) (log : List Call) :
    (TimeRecordRepository.GetTimeRecords repository.recording start stop (s, log)).1
      = (TimeRecordRepository.GetTimeRecords repository start stop s).1
    ∧ (TimeRecordRepository.GetTimeRecords repository.recording start stop (s, log)).2.1
      = (TimeRecordRepository.GetTimeRecords repository start stop s).2 := by
  unfold TimeRecordRepository.GetTimeRecords
  by_cases h : start.After stop = true
  · simp [h]
  · simp only [h, Bool.false_eq_true, if_false]
    cases hr : repository.timeRangeProvider.GetTimeRanges start stop s with
    | mk r s1 =>
      have hrec : repository.recording.timeRangeProvider.GetTimeRanges start stop (s, log)
          = (r, (s1, log ++ [.GetTimeRanges start stop r])) := by
        simp [TimeRecordRepository.recording, logged, hr]
      rw [hrec]
      cases r with
      | error err => simp
      | ok chunks => simp only; exact recording_chunks_loop repository chunks [] s1 _

/-! ## The time record repository: claims -/

/-- C4.  For every start after end, GetTimeRecords returns an error and the state
it was given, so that it has called neither the time range provider nor the
time-entry API nor any other collaborator (with recording collaborators the log
stays empty), and GetTimeRanges returns an error, whatever its fuel. -/
theorem C4_start_after_end {σ : Type} (repository : TimeRecordRepository σ)
    (start stop : Time) (s : σ) (fuel : Nat) (h : start.After stop = true) :
    (∃ err, TimeRecordRepository.GetTimeRecords repository start stop s = (.error err, s))
    ∧ (∃ err, TimeRecordRepository.GetTimeRecords repository.recording start stop (s, [])
        = (.error err, (s, [])))
    ∧ (∃ err, fullMonthTimeRangeProvider.GetTimeRanges fuel start stop = some (.error err)) :=
  ⟨⟨_, GetTimeRecords_after repository start stop s h⟩,
    ⟨_, GetTimeRecords_after repository.recording start stop (s, []) h⟩,
    ⟨"The start date cannot be before the end date",
      by simp [fullMonthTimeRangeProvider.GetTimeRanges, h]⟩⟩

/-- C4, witness: start 2016-08-30, end 2016-01-01, as in
`Test_GetTimeRecords_StartDateAfterStopDate_ErrorIsReturned`. -/
theorem C4_start_after_end_witness :
    aug30.After jan1 = true
    ∧ (∃ err, TimeRecordRepository.GetTimeRecords (standIn twoChunks entriesByChunk convertAll)
        aug30 jan1 () = (.error err, ()))
    ∧ (∃ err, TimeRecordRepository.GetTimeRecords
        (standIn twoChunks entriesByChunk convertAll).recording aug30 jan1 ((), [])
        = (.error err, ((), [])))
    ∧ (∃ err, fullMonthTimeRangeProvider.GetTimeRanges 0 aug30 jan1 = some (.error err)) :=
  ⟨by decide, C4_start_after_end (standIn twoChunks entriesByChunk convertAll) aug30 jan1 () 0
    (by decide)⟩

/-- C7.  In every run of GetTimeRecords, every time entry passed to the model
converter has a project (Pid != 0) and a stop other than the zero time, and
when the run succeeds its records are exactly the records the converter returned
for those entries, in order: an entry without project or without stop is never
converted and contributes no record. -/
theorem C7_skipped_entries {σ : Type} (repository : TimeRecordRepository σ)
    (start stop : Time) (s : σ) :
    (∀ e ∈ convertCalls
        (TimeRecordRepository.GetTimeRecords repository.recording start stop (s, [])).2.2,
      e.Pid ≠ 0 ∧ e.Stop.Equal Time.zero = false)
    ∧ (∀ records,
        (TimeRecordRepository.GetTimeRecords repository start stop s).1 = .ok records →
        records = (conversions
          (TimeRecordRepository.GetTimeRecords repository.recording start stop (s, [])).2.2).map
            Prod.snd
        ∧ ∀ p ∈ conversions
            (TimeRecordRepository.GetTimeRecords repository.recording start stop (s, [])).2.2,
          p.1.Pid ≠ 0 ∧ p.1.Stop.Equal Time.zero = false) := by
  have key : ∀ e : model.TimeEntry, isFinishedProjectEntry e = true →
      e.Pid ≠ 0 ∧ e.Stop.Equal Time.zero = false := by
    intro e he
    simp only [isFinishedProjectEntry, Bool.and_eq_true, Bool.not_eq_true', beq_eq_false_iff_ne,
      ne_eq] at he
    exact he
  rw [← (recording_GetTimeRecords repository start stop s []).1]
  by_cases h : start.After stop = true
  · rw [GetTimeRecords_after repository.recording start stop (s, []) h]
    simp [convertCalls]
  · simp only [Bool.not_eq_true] at h
    obtain ⟨rr, calls, h1, h2, h3, _⟩ := GetTimeRecords_trace repository start stop s h
    rw [h1]
    have hc : ∀ e ∈ convertCalls (Call.GetTimeRanges start stop rr :: calls),
        e.Pid ≠ 0 ∧ e.Stop.Equal Time.zero = false := by
      intro e he
      simp only [convertCalls] at he
      exact key e (h2 e he)
    refine ⟨hc, ?_⟩
    intro records ho
    obtain ⟨chunks, _, _, _, _, _, e⟩ := h3 records ho
    refine ⟨by simp [conversions, e], ?_⟩
    intro p hp
    exact hc p.1 (conversions_mem_convertCalls _ p hp)

/-- C8.  When the start is not after the stop and every call GetTimeRecords makes
succeeds, the time range provider is called first and returns some chunks, the
time-entry API is then called exactly once per chunk, in order, with the bounds
of the chunk, the converter is called on exactly the returned entries that have
a project and a stop, in the order returned, and the result is the list of the
records it returned, in that order. -/
theorem C8_concatenation {σ : Type} (repository : TimeRecordRepository σ)
    (start stop : Time) (s : σ) (h : start.After stop = false)
    (hok : ∀ c ∈ (TimeRecordRepository.GetTimeRecords repository.recording start stop
      (s, [])).2.2, c.failed = false) :
    ∃ chunks,
      (TimeRecordRepository.GetTimeRecords repository.recording start stop (s, [])).2.2.head?
        = some (.GetTimeRanges start stop (.ok chunks))
      ∧ fetchCalls (TimeRecordRepository.GetTimeRecords repository.recording start stop
          (s, [])).2.2 = chunks.map (fun c => (c.Start, c.Stop))
      ∧ convertCalls (TimeRecordRepository.GetTimeRecords repository.recording start stop
          (s, [])).2.2
        = (fetchedEntries (TimeRecordRepository.GetTimeRecords repository.recording start stop
            (s, [])).2.2).filter isFinishedProjectEntry
      ∧ (conversions (TimeRecordRepository.GetTimeRecords repository.recording start stop
          (s, [])).2.2).map Prod.fst
        = convertCalls (TimeRecordRepository.GetTimeRecords repository.recording start stop
            (s, [])).2.2
      ∧ (TimeRecordRepository.GetTimeRecords repository start stop s).1
        = .ok ((conversions (TimeRecordRepository.GetTimeRecords repository.recording start stop
            (s, [])).2.2).map Prod.snd) := by
  rw [← (recording_GetTimeRecords repository start stop s []).1]
  obtain ⟨rr, calls, h1, h2, h3, h4⟩ := GetTimeRecords_trace repository start stop s h
  rw [h1] at hok ⊢
  cases hres : (TimeRecordRepository.GetTimeRecords repository.recording start stop (s, [])).1 with
  | error err =>
    exfalso
    obtain ⟨pre, c, a, b, d⟩ := h4 err hres
    have := hok c (by rw [a]; simp)
    rw [this] at d
    exact Bool.noConfusion d
  | ok out =>
    obtain ⟨chunks, a, b, c, d, e, f⟩ := h3 out hres
    subst a
    exact ⟨chunks, rfl, by simpa [fetchCalls] using c, by simpa [convertCalls, fetchedEntries] using d,
      by simpa [convertCalls, conversions] using e, by simp [conversions, f]⟩

/-- The run of GetTimeRecords over the stand-ins with two chunks: the entries
"a" of the first chunk and "b", "c" of the second are converted; the entry
without project and the running entry of the first chunk are skipped. -/
theorem GetTimeRecords_two_chunks :
    TimeRecordRepository.GetTimeRecords (standIn twoChunks entriesByChunk convertAll).recording
        jan1 aug30 ((), [])
      = (.ok [{ WorkspaceName := "Workspace", ProjectName := "Project", ClientName := "",
                Start := aug1, Stop := aug12, Description := "a", Tags := [] },
              { WorkspaceName := "Workspace", ProjectName := "Project", ClientName := "",
                Start := aug1, Stop := aug12, Description := "b", Tags := [] },
              { WorkspaceName := "Workspace", ProjectName := "Project", ClientName := "",
                Start := aug1, Stop := aug12, Description := "c", Tags := [] }],
         ((), [.GetTimeRanges jan1 aug30 (twoChunks jan1 aug30),
               .GetTimeEntries jul12 aug1 (entriesByChunk jul12 aug1),
               .ConvertTimeEntryToTimeRecord (finishedEntry "a") (convertAll (finishedEntry "a")),
               .GetTimeEntries aug1 aug12 (entriesByChunk aug1 aug12),
               .ConvertTimeEntryToTimeRecord (finishedEntry "b") (convertAll (finishedEntry "b")),
               .ConvertTimeEntryToTimeRecord (finishedEntry "c")
                 (convertAll (finishedEntry "c"))])) := by
  decide

/-- C8, witness: the run over the stand-ins with two chunks, in which every call
succeeds (see `GetTimeRecords_two_chunks` for its result and log). -/
theorem C8_concatenation_witness :
    (jan1.After aug30 = false ∧ ∀ c ∈ twoChunkRun.2.2, c.failed = false)
    ∧ ∃ chunks,
      twoChunkRun.2.2.head? = some (.GetTimeRanges jan1 aug30 (.ok chunks))
      ∧ fetchCalls twoChunkRun.2.2 = chunks.map (fun c => (c.Start, c.Stop))
      ∧ convertCalls twoChunkRun.2.2
        = (fetchedEntries twoChunkRun.2.2).filter isFinishedProjectEntry
      ∧ (conversions twoChunkRun.2.2).map Prod.fst = convertCalls twoChunkRun.2.2
      ∧ (TimeRecordRepository.GetTimeRecords (standIn twoChunks entriesByChunk convertAll)
          jan1 aug30 ()).1 = .ok ((conversions twoChunkRun.2.2).map Prod.snd) :=
  ⟨⟨by decide, by decide⟩,
    C8_concatenation (standIn twoChunks entriesByChunk convertAll) jan1 aug30 ()
      (by decide) (by decide)⟩

/-- C9.  If any call made during GetTimeRecords fails - the time range provider,
GetTimeEntries for some chunk, or the conversion of some entry - then
GetTimeRecords returns an error (and so no records), and the failed call is the
last call it made: no later chunk is fetched and no later entry converted,
whatever was fetched and converted before. -/
theorem C9_failure_aborts {σ : Type} (repository : TimeRecordRepository σ)
    (start stop : Time) (s : σ) (c : Call)
    (hc : c ∈ (TimeRecordRepository.GetTimeRecords repository.recording start stop (s, [])).2.2)
    (hf : c.failed = true) :
    (∃ err, (TimeRecordRepository.GetTimeRecords repository start stop s).1 = .error err)
    ∧ (TimeRecordRepository.GetTimeRecords repository.recording start stop (s, [])).2.2.getLast?
      = some c := by
  rw [← (recording_GetTimeRecords repository start stop s []).1]
  by_cases h : start.After stop = true
  · rw [GetTimeRecords_after repository.recording start stop (s, []) h] at hc
    simp at hc
  · simp only [Bool.not_eq_true] at h
    obtain ⟨rr, calls, h1, h2, h3, h4⟩ := GetTimeRecords_trace repository start stop s h
    rw [h1] at hc ⊢
    cases hres : (TimeRecordRepository.GetTimeRecords repository.recording start stop
        (s, [])).1 with
    | ok out =>
      exfalso
      obtain ⟨chunks, a, b, _⟩ := h3 out hres
      simp only [List.mem_cons] at hc
      rcases hc with hc | hc
      · rw [hc, a] at hf
        exact Bool.noConfusion hf
      · rw [b c hc] at hf
        exact Bool.noConfusion hf
    | error err =>
      refine ⟨⟨err, rfl⟩, ?_⟩
      obtain ⟨pre, c0, a, b, d⟩ := h4 err hres
      rw [a] at hc ⊢
      simp only [List.mem_append, List.mem_singleton] at hc
      rcases hc with hc | hc
      · rw [b c hc] at hf
        exact Bool.noConfusion hf
      · rw [hc]; simp

/-- C9, witness: over the stand-ins with two chunks and a converter that fails
on entry "b", the first chunk is fetched and converted, the second is fetched,
the conversion of "b" fails, entry "c" is never converted and the run returns an
error. -/
theorem C9_failure_aborts_witness :
    (Call.ConvertTimeEntryToTimeRecord (finishedEntry "b") (.error "Conversion failed")
        ∈ failingRun.2.2
      ∧ (Call.ConvertTimeEntryToTimeRecord (finishedEntry "b")
          (.error "Conversion failed")).failed = true)
    ∧ (∃ err, (TimeRecordRepository.GetTimeRecords
        (standIn twoChunks entriesByChunk convertAllButB) jan1 aug30 ()).1 = .error err)
    ∧ failingRun.2.2.getLast?
      = some (.ConvertTimeEntryToTimeRecord (finishedEntry "b") (.error "Conversion failed")) :=
  ⟨⟨by decide, by decide⟩,
    C9_failure_aborts (standIn twoChunks entriesByChunk convertAllButB) jan1 aug30 ()
      (.ConvertTimeEntryToTimeRecord (finishedEntry "b") (.error "Conversion failed"))
      (by decide) (by decide)⟩

/-- The run of GetTimeRecords over stand-ins whose API fails, as in
`Test_GetTimeRecords_OneTimeRangeReturned_APIReturnsError_ErrorIsReturned`: the
error of the API is returned after the first GetTimeEntries call. -/
theorem GetTimeRecords_failing_API :
    TimeRecordRepository.GetTimeRecords (standIn twoChunks failingAPI convertAll).recording
        jan1 aug30 ((), [])
      = (.error "API error",
         ((), [.GetTimeRanges jan1 aug30 (twoChunks jan1 aug30),
               .GetTimeEntries jul12 aug1 (.error "API error")])) := by
  decide

/-- The run of GetTimeRecords over the stand-ins with a converter that fails on
entry "b": its result and its log. -/
theorem GetTimeRecords_failing_conversion :
    failingRun
      = (.error (Wrap "Conversion failed" "Failed to convert time entry"),
         ((), [.GetTimeRanges jan1 aug30 (twoChunks jan1 aug30),
               .GetTimeEntries jul12 aug1 (entriesByChunk jul12 aug1),
               .ConvertTimeEntryToTimeRecord (finishedEntry "a") (convertAll (finishedEntry "a")),
               .GetTimeEntries aug1 aug12 (entriesByChunk aug1 aug12),
               .ConvertTimeEntryToTimeRecord (finishedEntry "b")
                 (.error "Conversion failed")])) := by
  decide

/-! ## The entity repositories: what a read changes -/

/-- A populated workspace cache answers GetWorkspaces without any call. -/
theorem GetWorkspaces_cached {σ : Type} (api : model.TogglAPI σ) (s : Repositories σ)
    (h : s.workspacesCache ≠ []) :
    WorkspaceRepository.GetWorkspaces api s = (.ok s.workspacesCache, s) := by
  have : s.workspacesCache.isEmpty = false := by
    cases hc : s.workspacesCache with
    | nil => exact absurd hc h
    | cons a l => rfl
  simp [WorkspaceRepository.GetWorkspaces, this]

/-- GetWorkspaces leaves the client and project caches alone, and a non-empty
list it returns is the workspace cache afterwards. -/
theorem GetWorkspaces_frame {σ : Type} (api : model.TogglAPI σ) (s : Repositories σ) :
    (WorkspaceRepository.GetWorkspaces api s).2.clientsCache = s.clientsCache
    ∧ (WorkspaceRepository.GetWorkspaces api s).2.projectsCache = s.projectsCache
    ∧ (∀ l, (WorkspaceRepository.GetWorkspaces api s).1 = .ok l → l ≠ [] →
        (WorkspaceRepository.GetWorkspaces api s).2.workspacesCache = l) := by
  by_cases hc : s.workspacesCache = []
  · have he : s.workspacesCache.isEmpty = true := by rw [hc]; rfl
    cases hr : api.GetWorkspaces s.remote with
    | mk r remote =>
      cases r with
      | error err => simp [WorkspaceRepository.GetWorkspaces, he, hr]
      | ok workspaces =>
        simp only [WorkspaceRepository.GetWorkspaces, he, hr, Bool.not_true, Bool.false_eq_true,
          if_false, true_and]
        intro l hl _
        simp only [Except.ok.injEq] at hl
        exact hl
  · rw [GetWorkspaces_cached api s hc]
    refine ⟨rfl, rfl, ?_⟩
    intro l hl _
    simp only [Except.ok.injEq] at hl
    exact hl

theorem GetWorkspaceByID_frame {σ : Type} (api : model.TogglAPI σ) (workspaceID : Int)
    (s : Repositories σ) :
    (WorkspaceRepository.GetWorkspaceByID api workspaceID s).2.clientsCache = s.clientsCache
    ∧ (WorkspaceRepository.GetWorkspaceByID api workspaceID s).2.projectsCache = s.projectsCache
    ∧ (s.workspacesCache ≠ [] →
        (WorkspaceRepository.GetWorkspaceByID api workspaceID s).2 = s) := by
  obtain ⟨f1, f2, _⟩ := GetWorkspaces_frame api s
  refine ⟨?_, ?_, ?_⟩
  · unfold WorkspaceRepository.GetWorkspaceByID
    cases hr : WorkspaceRepository.GetWorkspaces api s with
    | mk r s1 =>
      rw [hr] at f1
      cases r with
      | error err => exact f1
      | ok l => simp only; split <;> exact f1
  · unfold WorkspaceRepository.GetWorkspaceByID
    cases hr : WorkspaceRepository.GetWorkspaces api s with
    | mk r s1 =>
      rw [hr] at f2
      cases r with
      | error err => exact f2
      | ok l => simp only; split <;> exact f2
  · intro hc
    unfold WorkspaceRepository.GetWorkspaceByID
    rw [GetWorkspaces_cached api s hc]
    simp only
    split <;> rfl

/-- A successful lookup by name returns a workspace of the cache with that name. -/
theorem GetWorkspaceByName_ok {σ : Type} (api : model.TogglAPI σ) (name : String)
    (s s1 : Repositories σ) (w : Workspace)
    (h : WorkspaceRepository.GetWorkspaceByName api name s = (.ok w, s1)) :
    w ∈ s1.workspacesCache ∧ w.Name = name ∧ s1.clientsCache = s.clientsCache
    ∧ s1.projectsCache = s.projectsCache := by
  obtain ⟨f1, f2, f3⟩ := GetWorkspaces_frame api s
  unfold WorkspaceRepository.GetWorkspaceByName at h
  cases hr : WorkspaceRepository.GetWorkspaces api s with
  | mk r s' =>
    rw [hr] at h f1 f2 f3
    cases r with
    | error err => simp at h
    | ok l =>
      simp only at h
      cases hf : l.find? (fun workspace => workspace.Name == name) with
      | none => rw [hf] at h; simp at h
      | some w' =>
        rw [hf] at h
        simp only [Prod.mk.injEq, Except.ok.injEq] at h
        obtain ⟨h1, h2⟩ := h
        subst h1; subst h2
        have hm := List.mem_of_find?_eq_some hf
        have hp := List.find?_some hf
        have hl : l ≠ [] := List.ne_nil_of_mem hm
        rw [f3 l rfl hl]
        exact ⟨hm, by simpa using hp, f1, f2⟩

/-- In a list without repeated IDs, the lookup by the ID of a member finds it. -/
theorem find_workspace_by_ID (l : List Workspace) (w : Workspace)
    (hd : l.Pairwise (fun a b => a.ID ≠ b.ID)) (hm : w ∈ l) :
    l.find? (fun workspace => workspace.ID == w.ID) = some w := by
  induction l with
  | nil => simp at hm
  | cons a l ih =>
    rw [List.pairwise_cons] at hd
    by_cases ha : a.ID = w.ID
    · have : a = w := by
        rcases List.mem_cons.mp hm with h | h
        · exact h.symm
        · exact absurd ha (hd.1 w h)
      simp [List.find?, this]
    · have hm' : w ∈ l := by
        rcases List.mem_cons.mp hm with h | h
        · rw [h] at ha; exact absurd rfl ha
        · exact h
      have hb : (a.ID == w.ID) = false := by simp [ha]
      rw [List.find?_cons, hb]
      exact ih hd.2 hm'

theorem find_project_by_ID (l : List Project) (p : Project)
    (hd : l.Pairwise (fun a b => a.ID ≠ b.ID)) (hm : p ∈ l) :
    l.find? (fun project => project.ID == p.ID) = some p := by
  induction l with
  | nil => simp at hm
  | cons a l ih =>
    rw [List.pairwise_cons] at hd
    by_cases ha : a.ID = p.ID
    · have : a = p := by
        rcases List.mem_cons.mp hm with h | h
        · exact h.symm
        · exact absurd ha (hd.1 p h)
      simp [List.find?, this]
    · have hm' : p ∈ l := by
        rcases List.mem_cons.mp hm with h | h
        · rw [h] at ha; exact absurd rfl ha
        · exact h
      have hb : (a.ID == p.ID) = false := by simp [ha]
      rw [List.find?_cons, hb]
      exact ih hd.2 hm'

theorem GetClients_loop_frame {σ : Type} (api : model.TogglAPI σ) :
    ∀ (clients : List model.Client) (clientModels : List Client) (s : Repositories σ),
      (ClientRepository.GetClients.loop api clients clientModels s).2.clientsCache = s.clientsCache
      ∧ (ClientRepository.GetClients.loop api clients clientModels s).2.projectsCache
          = s.projectsCache
      ∧ (s.workspacesCache ≠ [] →
          (ClientRepository.GetClients.loop api clients clientModels s).2.workspacesCache
            = s.workspacesCache) := by
  intro clients
  induction clients with
  | nil => intro clientModels s; simp [ClientRepository.GetClients.loop]
  | cons client rest ih =>
    intro clientModels s
    obtain ⟨f1, f2, f3⟩ := GetWorkspaceByID_frame api client.WorkspaceID s
    rw [ClientRepository.GetClients.loop]
    cases hr : WorkspaceRepository.GetWorkspaceByID api client.WorkspaceID s with
    | mk r s1 =>
      rw [hr] at f1 f2 f3
      simp only at f1 f2 f3
      cases r with
      | error err =>
        exact ⟨f1, f2, fun hc => by rw [f3 hc]⟩
      | ok workspace =>
        simp only
        obtain ⟨g1, g2, g3⟩ := ih
          (clientModels ++ [{ ID := client.ID, Name := client.Name, Workspace := workspace }]) s1
        refine ⟨by rw [g1, f1], by rw [g2, f2], ?_⟩
        intro hc
        have := f3 hc
        subst this
        exact g3 hc

/-- What GetClients changes: never the project cache, not the workspace cache once
that is populated, and the client cache only when it was not populated. -/
theorem GetClients_frame {σ : Type} (api : model.TogglAPI σ) (s : Repositories σ) :
    (ClientRepository.GetClients api s).2.projectsCache = s.projectsCache
    ∧ (s.workspacesCache ≠ [] →
        (ClientRepository.GetClients api s).2.workspacesCache = s.workspacesCache)
    ∧ (s.clientsCache ≠ [] → ClientRepository.GetClients api s = (.ok s.clientsCache, s))
    ∧ (∀ l, (ClientRepository.GetClients api s).1 = .ok l → l ≠ [] →
        (ClientRepository.GetClients api s).2.clientsCache = l) := by
  by_cases hc : s.clientsCache = []
  · have he : s.clientsCache.isEmpty = true := by rw [hc]; rfl
    cases hr : api.GetClients s.remote with
    | mk r remote =>
      cases r with
      | error err =>
        simp [ClientRepository.GetClients, he, hr, hc]
      | ok clients =>
        obtain ⟨g1, g2, g3⟩ := GetClients_loop_frame api clients [] { s with remote := remote }
        cases hl : ClientRepository.GetClients.loop api clients [] { s with remote := remote } with
        | mk r2 s2 =>
          rw [hl] at g1 g2 g3
          simp only at g1 g2 g3
          cases r2 with
          | error err =>
            simp only [ClientRepository.GetClients, he, hr, hl, Bool.not_true, Bool.false_eq_true,
              if_false]
            exact ⟨g2, g3, fun h => absurd hc h, fun l h => by simp at h⟩
          | ok clientModels =>
            simp only [ClientRepository.GetClients, he, hr, hl, Bool.not_true, Bool.false_eq_true,
              if_false]
            refine ⟨g2, g3, fun h => absurd hc h, ?_⟩
            intro l h _
            simp only [Except.ok.injEq] at h
            exact h
  · have he : s.clientsCache.isEmpty = false := by
      cases hcc : s.clientsCache with
      | nil => exact absurd hcc hc
      | cons a l => rfl
    have hu : ClientRepository.GetClients api s = (.ok s.clientsCache, s) := by
      simp [ClientRepository.GetClients, he]
    rw [hu]
    refine ⟨rfl, fun _ => rfl, fun _ => rfl, ?_⟩
    intro l h _
    simp only [Except.ok.injEq] at h
    exact h

/-- A successful lookup of a client by ID returns the client that the client
cache holds under that ID afterwards. -/
theorem GetClientByID_ok {σ : Type} (api : model.TogglAPI σ) (clientID : Int)
    (s s1 : Repositories σ) (c : Client)
    (h : ClientRepository.GetClientByID api clientID s = (.ok c, s1)) :
    s1.clientsCache.find? (fun client => client.ID == clientID) = some c
    ∧ c.ID = clientID
    ∧ s1.projectsCache = s.projectsCache
    ∧ (s.workspacesCache ≠ [] → s1.workspacesCache = s.workspacesCache)
    ∧ (s.clientsCache ≠ [] → s1 = s) := by
  obtain ⟨f1, f2, f3, f4⟩ := GetClients_frame api s
  unfold ClientRepository.GetClientByID at h
  cases hr : ClientRepository.GetClients api s with
  | mk r s' =>
    rw [hr] at h f1 f2 f3 f4
    cases r with
    | error err => simp at h
    | ok l =>
      simp only at h
      cases hf : l.find? (fun client => client.ID == clientID) with
      | none => rw [hf] at h; simp at h
      | some c' =>
        rw [hf] at h
        simp only [Prod.mk.injEq, Except.ok.injEq] at h
        obtain ⟨h1, h2⟩ := h
        subst h1; subst h2
        have hm := List.mem_of_find?_eq_some hf
        have hp := List.find?_some hf
        have hl : l ≠ [] := List.ne_nil_of_mem hm
        have hcache := f4 l rfl hl
        simp only at hcache
        refine ⟨by rw [hcache]; exact hf, by simpa using hp, f1, f2, ?_⟩
        intro hc
        have := f3 hc
        simp only [Prod.mk.injEq] at this
        exact this.2

theorem clientsResolved_transport {σ : Type} (projects : List Project) (s s1 : Repositories σ)
    (h : clientsResolved projects s) (hc : s.clientsCache ≠ [] → s1.clientsCache = s.clientsCache) :
    clientsResolved projects s1 := by
  intro p hp
  refine ⟨?_, (h p hp).2⟩
  intro hid
  have := (h p hp).1 hid
  have hne : s.clientsCache ≠ [] := by
    intro he
    rw [he] at this
    simp at this
  rw [hc hne]
  exact this

/-- The loop over the projects of one workspace keeps the projects built so far
resolved against the client cache. -/
theorem GetProjects_inner_ok {σ : Type} (api : model.TogglAPI σ) (workspace : Workspace) :
    ∀ (models : List model.Project) (projects out : List Project) (s s1 : Repositories σ),
      ProjectRepository.GetProjects.inner api workspace models projects s = (.ok out, s1) →
      clientsResolved projects s →
      clientsResolved out s1 ∧ s1.projectsCache = s.projectsCache
      ∧ (s.workspacesCache ≠ [] → s1.workspacesCache = s.workspacesCache) := by
  intro models
  induction models with
  | nil =>
    intro projects out s s1 h hi
    simp only [ProjectRepository.GetProjects.inner, Prod.mk.injEq, Except.ok.injEq] at h
    obtain ⟨h1, h2⟩ := h
    subst h1; subst h2
    exact ⟨hi, rfl, fun _ => rfl⟩
  | cons projectModel rest ih =>
    intro projects out s s1 h hi
    rw [ProjectRepository.GetProjects.inner] at h
    by_cases hc : (projectModel.ClientID != 0) = true
    · simp only [hc, if_true] at h
      cases hr : ClientRepository.GetClientByID api projectModel.ClientID s with
      | mk r s2 =>
        rw [hr] at h
        cases r with
        | error err => simp at h
        | ok client =>
          simp only at h
          obtain ⟨c1, c2, c3, c4, c5⟩ := GetClientByID_ok api _ s s2 client hr
          have hi2 : clientsResolved
              (projects ++ [{ ID := projectModel.ID, Name := projectModel.Name,
                              Workspace := workspace, Client := client }]) s2 := by
            intro p hp
            rw [List.mem_append, List.mem_singleton] at hp
            rcases hp with hp | hp
            · exact clientsResolved_transport projects s s2 hi (fun hne => by rw [c5 hne]) p hp
            · subst hp
              simp only
              refine ⟨fun _ => by rw [c2]; exact c1, ?_⟩
              intro hz
              rw [c2] at hz
              simp [hz] at hc
          obtain ⟨g1, g2, g3⟩ := ih _ out s2 s1 h hi2
          refine ⟨g1, by rw [g2, c3], ?_⟩
          intro hne
          have := c4 hne
          rw [g3 (by rw [this]; exact hne), this]
    · simp only [hc, Bool.false_eq_true, if_false] at h
      have hi2 : clientsResolved
          (projects ++ [{ ID := projectModel.ID, Name := projectModel.Name,
                          Workspace := workspace, Client := Client.zero }]) s := by
        intro p hp
        rw [List.mem_append, List.mem_singleton] at hp
        rcases hp with hp | hp
        · exact hi p hp
        · subst hp
          exact ⟨fun hid => absurd rfl hid, fun _ => rfl⟩
      exact ih _ out s s1 h hi2

theorem GetProjects_outer_ok {σ : Type} (api : model.TogglAPI σ) :
    ∀ (workspaces : List Workspace) (projects out : List Project) (s s1 : Repositories σ),
      ProjectRepository.GetProjects.outer api workspaces projects s = (.ok out, s1) →
      clientsResolved projects s →
      clientsResolved out s1 ∧ s1.projectsCache = s.projectsCache
      ∧ (s.workspacesCache ≠ [] → s1.workspacesCache = s.workspacesCache) := by
  intro workspaces
  induction workspaces with
  | nil =>
    intro projects out s s1 h hi
    simp only [ProjectRepository.GetProjects.outer, Prod.mk.injEq, Except.ok.injEq] at h
    obtain ⟨h1, h2⟩ := h
    subst h1; subst h2
    exact ⟨hi, rfl, fun _ => rfl⟩
  | cons workspace rest ih =>
    intro projects out s s1 h hi
    rw [ProjectRepository.GetProjects.outer] at h
    cases hr : api.GetProjects workspace.ID s.remote with
    | mk r remote =>
      rw [hr] at h
      cases r with
      | error err => simp at h
      | ok projectsByWorkspace =>
        simp only at h
        cases hin : ProjectRepository.GetProjects.inner api workspace projectsByWorkspace projects
            { s with remote := remote } with
        | mk r2 s2 =>
          rw [hin] at h
          cases r2 with
          | error err => simp at h
          | ok projects1 =>
            simp only at h
            have hi0 : clientsResolved projects { s with remote := remote } := hi
            obtain ⟨a1, a2, a3⟩ := GetProjects_inner_ok api workspace _ _ _ _ _ hin hi0
            obtain ⟨g1, g2, g3⟩ := ih _ out s2 s1 h a1
            refine ⟨g1, by rw [g2, a2], ?_⟩
            intro hne
            have := a3 hne
            simp only at this
            rw [g3 (by rw [this]; exact hne), this]

/-- A successful GetProjects keeps the caches consistent; a non-empty list it
returns is the project cache afterwards, and a populated workspace cache stays
as it is. -/
theorem GetProjects_ok {σ : Type} (api : model.TogglAPI σ) (s s1 : Repositories σ)
    (l : List Project) (h : ProjectRepository.GetProjects api s = (.ok l, s1))
    (hc : cachesConsistent s) :
    cachesConsistent s1 ∧ (l ≠ [] → s1.projectsCache = l)
    ∧ (s.workspacesCache ≠ [] → s1.workspacesCache = s.workspacesCache) := by
  by_cases hp : s.projectsCache = []
  · have he : s.projectsCache.isEmpty = true := by rw [hp]; rfl
    obtain ⟨f1, f2, f3⟩ := GetWorkspaces_frame api s
    simp only [ProjectRepository.GetProjects, he, Bool.not_true, Bool.false_eq_true, if_false] at h
    cases hw : WorkspaceRepository.GetWorkspaces api s with
    | mk r s2 =>
      rw [hw] at h f1 f2 f3
      simp only at f1 f2 f3
      cases r with
      | error err => simp at h
      | ok workspaces =>
        simp only at h
        cases ho : ProjectRepository.GetProjects.outer api workspaces [] s2 with
        | mk r3 s3 =>
          rw [ho] at h
          cases r3 with
          | error err => simp at h
          | ok projects =>
            simp only [Prod.mk.injEq, Except.ok.injEq] at h
            obtain ⟨h1, h2⟩ := h
            subst h1; subst h2
            have hi0 : clientsResolved ([] : List Project) s2 := by
              intro p hp; simp at hp
            obtain ⟨a1, a2, a3⟩ := GetProjects_outer_ok api _ _ _ _ _ ho hi0
            refine ⟨a1, fun _ => rfl, ?_⟩
            intro hne
            have hs2 : s2.workspacesCache = s.workspacesCache := by
              have := GetWorkspaces_cached api s hne
              rw [hw] at this
              simp only [Prod.mk.injEq] at this
              rw [this.2]
            simp only
            rw [a3 (by rw [hs2]; exact hne), hs2]
  · have he : s.projectsCache.isEmpty = false := by
      cases hcc : s.projectsCache with
      | nil => exact absurd hcc hp
      | cons a l => rfl
    simp only [ProjectRepository.GetProjects, he, Bool.not_false, if_true, Prod.mk.injEq,
      Except.ok.injEq] at h
    obtain ⟨h1, h2⟩ := h
    subst h1; subst h2
    exact ⟨hc, fun _ => rfl, fun _ => rfl⟩

/-- A successful lookup of a project by name returns a project of the cache with
those names. -/
theorem GetProjectByName_ok {σ : Type} (api : model.TogglAPI σ)
    (projectName workspaceName clientName : String) (s s1 : Repositories σ) (p : Project)
    (h : ProjectRepository.GetProjectByName api projectName workspaceName clientName s
      = (.ok p, s1))
    (hc : cachesConsistent s) :
    p ∈ s1.projectsCache ∧ p.Name = projectName ∧ p.Workspace.Name = workspaceName
    ∧ p.Client.Name = clientName ∧ cachesConsistent s1
    ∧ (s.workspacesCache ≠ [] → s1.workspacesCache = s.workspacesCache) := by
  unfold ProjectRepository.GetProjectByName at h
  cases hr : ProjectRepository.GetProjects api s with
  | mk r s' =>
    rw [hr] at h
    cases r with
    | error err => simp at h
    | ok l =>
      simp only at h
      obtain ⟨f1, f2, f3⟩ := GetProjects_ok api s s' l hr hc
      cases hf : l.find? (fun project => project.Name == projectName
          && project.Workspace.Name == workspaceName && project.Client.Name == clientName) with
      | none => rw [hf] at h; simp at h
      | some p' =>
        rw [hf] at h
        simp only [Prod.mk.injEq, Except.ok.injEq] at h
        obtain ⟨h1, h2⟩ := h
        subst h1; subst h2
        have hm := List.mem_of_find?_eq_some hf
        have hp := List.find?_some hf
        have hl : l ≠ [] := List.ne_nil_of_mem hm
        simp only [Bool.and_eq_true, beq_iff_eq] at hp
        rw [f2 hl]
        exact ⟨hm, hp.1.1, hp.1.2, hp.2, f1, f3⟩

/-- A populated project cache answers GetProjects without any call. -/
theorem GetProjects_cached {σ : Type} (api : model.TogglAPI σ) (s : Repositories σ)
    (h : s.projectsCache ≠ []) :
    ProjectRepository.GetProjects api s = (.ok s.projectsCache, s) := by
  have : s.projectsCache.isEmpty = false := by
    cases hc : s.projectsCache with
    | nil => exact absurd hc h
    | cons a l => rfl
  simp [ProjectRepository.GetProjects, this]

/-! ## The model converter: claims -/

/-- C10, as amended.  Let the project cache agree with the client cache before
the conversion (as it does when the project cache is not populated).  If
ConvertTimeRecordToTimeEntry(r) succeeds with entry e, the project it resolved
has a non-zero ID, and no two workspaces and no two projects held by the
repositories share an ID, then ConvertTimeEntryToTimeRecord(e) on the same
repositories succeeds with a record that has the WorkspaceName, ProjectName,
ClientName, Start, Stop, Tags and Description of r. -/
theorem C10_round_trip {σ : Type} (api : model.TogglAPI σ) (r : TimeRecord)
    (e : model.TimeEntry) (s s1 : Repositories σ)
    (h : togglModelConverter.ConvertTimeRecordToTimeEntry api r s = (.ok e, s1))
    (hc : cachesConsistent s)
    (hpid : e.Pid ≠ 0)
    (hw : s1.workspacesCache.Pairwise (fun a b => a.ID ≠ b.ID))
    (hp : s1.projectsCache.Pairwise (fun a b => a.ID ≠ b.ID)) :
    ∃ r' s2, togglModelConverter.ConvertTimeEntryToTimeRecord api e s1 = (.ok r', s2)
      ∧ r'.WorkspaceName = r.WorkspaceName ∧ r'.ProjectName = r.ProjectName
      ∧ r'.ClientName = r.ClientName ∧ r'.Start = r.Start ∧ r'.Stop = r.Stop
      ∧ r'.Tags = r.Tags ∧ r'.Description = r.Description := by
  unfold togglModelConverter.ConvertTimeRecordToTimeEntry at h
  cases hwn : WorkspaceRepository.GetWorkspaceByName api r.WorkspaceName s with
  | mk rw sA =>
    rw [hwn] at h
    cases rw with
    | error err => simp at h
    | ok w =>
      simp only at h
      cases hpn : ProjectRepository.GetProjectByName api r.ProjectName r.WorkspaceName
          r.ClientName sA with
      | mk rp sB =>
        rw [hpn] at h
        cases rp with
        | error err => simp at h
        | ok p =>
          simp only [Prod.mk.injEq, Except.ok.injEq] at h
          obtain ⟨he, hs⟩ := h
          subst hs
          obtain ⟨w1, w2, w3, w4⟩ := GetWorkspaceByName_ok api _ s sA w hwn
          have hcA : cachesConsistent sA := by
            unfold cachesConsistent clientsResolved at hc ⊢
            rw [w3, w4]
            exact hc
          obtain ⟨p1, p2, p3, p4, p5, p6⟩ := GetProjectByName_ok api _ _ _ sA sB p hpn hcA
          have hwsA : sA.workspacesCache ≠ [] := List.ne_nil_of_mem w1
          have hwsB : sB.workspacesCache = sA.workspacesCache := p6 hwsA
          have hwB : w ∈ sB.workspacesCache := by rw [hwsB]; exact w1
          have hpB : sB.projectsCache ≠ [] := List.ne_nil_of_mem p1
          have e1 : e.Wid = w.ID := by rw [← he]
          have e2 : e.Pid = p.ID := by rw [← he]
          have hwid : WorkspaceRepository.GetWorkspaceByID api e.Wid sB = (.ok w, sB) := by
            unfold WorkspaceRepository.GetWorkspaceByID
            rw [GetWorkspaces_cached api sB (List.ne_nil_of_mem hwB), e1]
            simp only
            rw [find_workspace_by_ID _ w hw hwB]
          have hpidl : ProjectRepository.GetProjectByID api e.Pid sB = (.ok p, sB) := by
            unfold ProjectRepository.GetProjectByID
            rw [GetProjects_cached api sB hpB, e2]
            simp only
            rw [find_project_by_ID _ p hp p1]
          have hpb : (e.Pid != 0) = true := by simp [hpid]
          unfold togglModelConverter.ConvertTimeEntryToTimeRecord
          rw [hwid]
          simp only [hpb, if_true]
          rw [hpidl]
          simp only
          by_cases hcid : p.Client.ID = 0
          · have hz : (p.Client.ID != 0) = false := by simp [hcid]
            simp only [hz, Bool.false_eq_true, if_false]
            have hcz := (p5 p p1).2 hcid
            refine ⟨_, _, rfl, w2, p2, ?_, by rw [← he], by rw [← he], by rw [← he],
              by rw [← he]⟩
            simp only
            rw [← p4, hcz]
          · have hz : (p.Client.ID != 0) = true := by simp [hcid]
            simp only [hz, if_true]
            have hfind := (p5 p p1).1 hcid
            have hcl : sB.clientsCache ≠ [] := by
              intro hnil
              rw [hnil] at hfind
              simp at hfind
            have hcb : ClientRepository.GetClientByID api p.Client.ID sB = (.ok p.Client, sB) := by
              unfold ClientRepository.GetClientByID
              rw [(GetClients_frame api sB).2.2.1 hcl]
              simp only
              rw [hfind]
            rw [hcb]
            exact ⟨_, _, rfl, w2, p2, p4, by rw [← he], by rw [← he], by rw [← he],
              by rw [← he]⟩

/-- C10, witness: the record of project "Project" of client "Client" goes to an
entry with Wid 1 and Pid 7 and back, starting from repositories that have
fetched nothing. -/
theorem C10_round_trip_witness :
    (togglModelConverter.ConvertTimeRecordToTimeEntry accountAPI (projectRecord "Client")
        freshRepositories
      = (.ok { ID := 0, Wid := 1, Pid := 7, Start := aug1, Stop := aug12, Billable := false,
               Description := "work", Tags := ["tag"], CreatedWith := "" }, accountRepositories))
    ∧ ∃ r' s2, togglModelConverter.ConvertTimeEntryToTimeRecord accountAPI
          { ID := 0, Wid := 1, Pid := 7, Start := aug1, Stop := aug12, Billable := false,
            Description := "work", Tags := ["tag"], CreatedWith := "" } accountRepositories
        = (.ok r', s2)
      ∧ r'.WorkspaceName = (projectRecord "Client").WorkspaceName
      ∧ r'.ProjectName = (projectRecord "Client").ProjectName
      ∧ r'.ClientName = (projectRecord "Client").ClientName
      ∧ r'.Start = (projectRecord "Client").Start ∧ r'.Stop = (projectRecord "Client").Stop
      ∧ r'.Tags = (projectRecord "Client").Tags
      ∧ r'.Description = (projectRecord "Client").Description :=
  ⟨by decide,
    C10_round_trip accountAPI (projectRecord "Client") _ freshRepositories accountRepositories
      (by decide) (by intro p hp; simp [freshRepositories] at hp) (by decide)
      (by simp [accountRepositories]) (by simp [accountRepositories])⟩

/-- C10, counterexample.  In an account whose project "Project" has the ID 0, the
record of that project resolves and is converted to an entry with Pid 0;
converting that entry back on the same repositories succeeds with a record
whose ProjectName is empty, not "Project". -/
theorem C10_round_trip_counterexample :
    togglModelConverter.ConvertTimeRecordToTimeEntry zeroProjectAPI (projectRecord "")
        freshRepositories
      = (.ok { ID := 0, Wid := 1, Pid := 0, Start := aug1, Stop := aug12, Billable := false,
               Description := "work", Tags := ["tag"], CreatedWith := "" },
         { remote := (), workspacesCache := [{ ID := 1, Name := "Workspace" }], clientsCache := [],
           projectsCache := [{ ID := 0, Name := "Project", Client := Client.zero,
                               Workspace := { ID := 1, Name := "Workspace" } }] })
    ∧ togglModelConverter.ConvertTimeEntryToTimeRecord zeroProjectAPI
        { ID := 0, Wid := 1, Pid := 0, Start := aug1, Stop := aug12, Billable := false,
          Description := "work", Tags := ["tag"], CreatedWith := "" }
        { remote := (), workspacesCache := [{ ID := 1, Name := "Workspace" }], clientsCache := [],
          projectsCache := [{ ID := 0, Name := "Project", Client := Client.zero,
                              Workspace := { ID := 1, Name := "Workspace" } }] }
      = (.ok { WorkspaceName := "Workspace", ProjectName := "", ClientName := "",
               Start := aug1, Stop := aug12, Description := "work", Tags := ["tag"] },
         { remote := (), workspacesCache := [{ ID := 1, Name := "Workspace" }], clientsCache := [],
           projectsCache := [{ ID := 0, Name := "Project", Client := Client.zero,
                               Workspace := { ID := 1, Name := "Workspace" } }] })
    ∧ (projectRecord "").ProjectName = "Project" := by
  decide

/-! ## The model converter (`modelconverter.go`) -/

/-- The function `togglModelConverter.ConvertTimeRecordToTimeEntry` is the
method of the converter whose collaborators are the three repositories of the API. -/
theorem ConvertTimeRecordToTimeEntry_wired {σ : Type} (api : model.TogglAPI σ)
    (timeRecord : TimeRecord) (s : Repositories σ) :
    togglModelConverter.ConvertTimeRecordToTimeEntry api timeRecord s
      = TogglModelConverter.ConvertTimeRecordToTimeEntry
          { workspaces := NewWorkspaceRepository api, projects := NewProjectRepository api,
            clients := NewClientRepository api } timeRecord s := by
  simp only [togglModelConverter.ConvertTimeRecordToTimeEntry,
    TogglModelConverter.ConvertTimeRecordToTimeEntry, NewWorkspaceRepository,
    NewProjectRepository]
  rcases WorkspaceRepository.GetWorkspaceByName api timeRecord.WorkspaceName s with ⟨r1, s1⟩
  cases r1 with
  | error e => rfl
  | ok w =>
    simp only
    rcases ProjectRepository.GetProjectByName api timeRecord.ProjectName
      timeRecord.WorkspaceName timeRecord.ClientName s1 with ⟨r2, s2⟩
    cases r2 <;> rfl

/-- The function `togglModelConverter.ConvertTimeEntryToTimeRecord` is the
method of the converter whose collaborators are the three repositories of the API. -/
theorem ConvertTimeEntryToTimeRecord_wired {σ : Type} (api : model.TogglAPI σ)
    (timeEntry : model.TimeEntry) (s : Repositories σ) :
    togglModelConverter.ConvertTimeEntryToTimeRecord api timeEntry s
      = TogglModelConverter.ConvertTimeEntryToTimeRecord
          { workspaces := NewWorkspaceRepository api, projects := NewProjectRepository api,
            clients := NewClientRepository api } timeEntry s := by
  simp only [togglModelConverter.ConvertTimeEntryToTimeRecord,
    TogglModelConverter.ConvertTimeEntryToTimeRecord, NewWorkspaceRepository,
    NewProjectRepository, NewClientRepository]
  rcases WorkspaceRepository.GetWorkspaceByID api timeEntry.Wid s with ⟨r1, s1⟩
  cases r1 with
  | error e => rfl
  | ok w =>
    simp only
    split_ifs
    · rcases ProjectRepository.GetProjectByID api timeEntry.Pid s1 with ⟨r2, s2⟩
      cases r2 with
      | error e => rfl
      | ok p =>
        simp only
        split_ifs
        · rcases ClientRepository.GetClientByID api p.Client.ID s2 with ⟨r3, s3⟩
          cases r3 <;> rfl
        · rfl
    · rfl

/-- Recording the calls changes neither the result nor the state of
ConvertTimeRecordToTimeEntry. -/
theorem recording_ConvertTimeRecordToTimeEntry {σ : Type} (converter : TogglModelConverter σ)
    (timeRecord : TimeRecord) (s : σ) (log : List RepositoryCall) :
    (converter.recording.ConvertTimeRecordToTimeEntry timeRecord (s, log)).1
        = (converter.ConvertTimeRecordToTimeEntry timeRecord s).1
    ∧ (converter.recording.ConvertTimeRecordToTimeEntry timeRecord (s, log)).2.1
        = (converter.ConvertTimeRecordToTimeEntry timeRecord s).2 := by
  simp only [TogglModelConverter.ConvertTimeRecordToTimeEntry, TogglModelConverter.recording,
    noted]
  rcases h1 : converter.workspaces.GetWorkspaceByName timeRecord.WorkspaceName s with ⟨r1, s1⟩
  cases r1 with
  | error e => simp
  | ok w =>
    rcases h2 : converter.projects.GetProjectByName timeRecord.ProjectName
      timeRecord.WorkspaceName timeRecord.ClientName s1 with ⟨r2, s2⟩
    cases r2 <;> simp [h2]

/-- Recording the calls changes neither the result nor the state of
ConvertTimeEntryToTimeRecord. -/
theorem recording_ConvertTimeEntryToTimeRecord {σ : Type} (converter : TogglModelConverter σ)
    (timeEntry : model.TimeEntry) (s : σ) (log : List RepositoryCall) :
    (converter.recording.ConvertTimeEntryToTimeRecord timeEntry (s, log)).1
        = (converter.ConvertTimeEntryToTimeRecord timeEntry s).1
    ∧ (converter.recording.ConvertTimeEntryToTimeRecord timeEntry (s, log)).2.1
        = (converter.ConvertTimeEntryToTimeRecord timeEntry s).2 := by
  simp only [TogglModelConverter.ConvertTimeEntryToTimeRecord, TogglModelConverter.recording,
    noted]
  rcases h1 : converter.workspaces.GetWorkspaceByID timeEntry.Wid s with ⟨r1, s1⟩
  cases r1 with
  | error e => simp
  | ok w =>
    by_cases hp : timeEntry.Pid = 0
    · simp [hp]
    · rcases h2 : converter.projects.GetProjectByID timeEntry.Pid s1 with ⟨r2, s2⟩
      cases r2 with
      | error e => simp [hp, h2]
      | ok p =>
        by_cases hc : p.Client.ID = 0
        · simp [hp, h2, hc]
        · rcases h3 : converter.clients.GetClientByID p.Client.ID s2 with ⟨r3, s3⟩
          cases r3 <;> simp [hp, h2, hc, h3]

/-- C11: ConvertTimeRecordToTimeEntry, for any three repositories, any record
and any state: it returns an error when GetWorkspaceByName(record.WorkspaceName)
fails and when GetProjectByName(record.ProjectName, record.WorkspaceName,
record.ClientName), asked after the workspace lookup, fails; when both succeed it
returns the entry with Wid = the workspace's ID, Pid = the project's ID and Start,
Stop, Description and Tags of the record.  The calls it makes to the repositories
are GetWorkspaceByName alone or GetWorkspaceByName followed by GetProjectByName,
so no Create operation of any repository is called. -/
theorem C11_ConvertTimeRecordToTimeEntry {σ : Type} (converter : TogglModelConverter σ)
    (timeRecord : TimeRecord) (s : σ) (log : List RepositoryCall) :
    ((∃ e, (converter.workspaces.GetWorkspaceByName timeRecord.WorkspaceName s).1 = .error e) →
      ∃ e, (converter.ConvertTimeRecordToTimeEntry timeRecord s).1 = .error e)
    ∧ ((∃ e, (converter.projects.GetProjectByName timeRecord.ProjectName
          timeRecord.WorkspaceName timeRecord.ClientName
          (converter.workspaces.GetWorkspaceByName timeRecord.WorkspaceName s).2).1 = .error e) →
      ∃ e, (converter.ConvertTimeRecordToTimeEntry timeRecord s).1 = .error e)
    ∧ (∀ workspace project,
        (converter.workspaces.GetWorkspaceByName timeRecord.WorkspaceName s).1 = .ok workspace →
        (converter.projects.GetProjectByName timeRecord.ProjectName
          timeRecord.WorkspaceName timeRecord.ClientName
          (converter.workspaces.GetWorkspaceByName timeRecord.WorkspaceName s).2).1
            = .ok project →
        (converter.ConvertTimeRecordToTimeEntry timeRecord s).1
          = .ok { ID := 0, Wid := workspace.ID, Pid := project.ID,
                  Start := timeRecord.Start, Stop := timeRecord.Stop, Billable := false,
                  Description := timeRecord.Description, Tags := timeRecord.Tags,
                  CreatedWith := "" })
    ∧ ((converter.recording.ConvertTimeRecordToTimeEntry timeRecord (s, log)).2.2
          = log ++ [.GetWorkspaceByName timeRecord.WorkspaceName]
        ∨ (converter.recording.ConvertTimeRecordToTimeEntry timeRecord (s, log)).2.2
          = log ++ [.GetWorkspaceByName timeRecord.WorkspaceName,
              .GetProjectByName timeRecord.ProjectName timeRecord.WorkspaceName
                timeRecord.ClientName])
    ∧ (∀ call ∈ ((converter.recording.ConvertTimeRecordToTimeEntry timeRecord (s, log)).2.2).drop
          log.length, call.isCreate = false) := by
  have hlog : (converter.recording.ConvertTimeRecordToTimeEntry timeRecord (s, log)).2.2
          = log ++ [.GetWorkspaceByName timeRecord.WorkspaceName]
        ∨ (converter.recording.ConvertTimeRecordToTimeEntry timeRecord (s, log)).2.2
          = log ++ [.GetWorkspaceByName timeRecord.WorkspaceName,
              .GetProjectByName timeRecord.ProjectName timeRecord.WorkspaceName
                timeRecord.ClientName] := by
    simp only [TogglModelConverter.ConvertTimeRecordToTimeEntry, TogglModelConverter.recording,
      noted]
    rcases h1 : converter.workspaces.GetWorkspaceByName timeRecord.WorkspaceName s with ⟨r1, s1⟩
    cases r1 with
    | error e => left; simp
    | ok w =>
      right
      rcases h2 : converter.projects.GetProjectByName timeRecord.ProjectName
        timeRecord.WorkspaceName timeRecord.ClientName s1 with ⟨r2, s2⟩
      cases r2 <;> simp [h2]
  refine ⟨?_, ?_, ?_, hlog, ?_⟩
  · rintro ⟨e, he⟩
    simp only [TogglModelConverter.ConvertTimeRecordToTimeEntry]
    rcases h1 : converter.workspaces.GetWorkspaceByName timeRecord.WorkspaceName s with ⟨r1, s1⟩
    rw [h1] at he
    simp only at he
    subst he
    exact ⟨_, rfl⟩
  · rintro ⟨e, he⟩
    simp only [TogglModelConverter.ConvertTimeRecordToTimeEntry]
    rcases h1 : converter.workspaces.GetWorkspaceByName timeRecord.WorkspaceName s with ⟨r1, s1⟩
    rw [h1] at he
    simp only at he
    cases r1 with
    | error e1 => exact ⟨_, rfl⟩
    | ok w =>
      rcases h2 : converter.projects.GetProjectByName timeRecord.ProjectName
        timeRecord.WorkspaceName timeRecord.ClientName s1 with ⟨r2, s2⟩
      rw [h2] at he
      simp only at he
      subst he
      simp only [h2]
      exact ⟨_, rfl⟩
  · intro w p hw hp
    simp only [TogglModelConverter.ConvertTimeRecordToTimeEntry]
    rcases h1 : converter.workspaces.GetWorkspaceByName timeRecord.WorkspaceName s with ⟨r1, s1⟩
    rw [h1] at hw hp
    simp only at hw hp
    subst hw
    rcases h2 : converter.projects.GetProjectByName timeRecord.ProjectName
      timeRecord.WorkspaceName timeRecord.ClientName s1 with ⟨r2, s2⟩
    rw [h2] at hp
    simp only at hp
    subst hp
    simp only [h2]
  · intro call hcall
    rcases hlog with h | h <;> rw [h] at hcall <;> simp at hcall
    · subst hcall; rfl
    · rcases hcall with rfl | rfl <;> rfl

/-- C12: ConvertTimeEntryToTimeRecord, for any three repositories, any entry and
any state, returns an error exactly when the workspace lookup by entry.Wid
fails, or entry.Pid != 0 and the project lookup by ID (asked after the workspace
lookup) fails, or that lookup resolves a project with a non-zero client ID whose
lookup by ID fails.  When entry.Pid == 0 and the workspace resolves, it succeeds
with the workspace's name, empty project and client names and the entry's Start,
Stop, Tags and Description, and the only repository call is
GetWorkspaceByID(entry.Wid): neither the project nor the client repository is
consulted. -/
theorem C12_ConvertTimeEntryToTimeRecord {σ : Type} (converter : TogglModelConverter σ)
    (timeEntry : model.TimeEntry) (s : σ) (log : List RepositoryCall) :
    ((∃ e, (converter.ConvertTimeEntryToTimeRecord timeEntry s).1 = .error e) ↔
      ((∃ e, (converter.workspaces.GetWorkspaceByID timeEntry.Wid s).1 = .error e)
      ∨ (timeEntry.Pid ≠ 0 ∧
          ∃ e, (converter.projects.GetProjectByID timeEntry.Pid
            (converter.workspaces.GetWorkspaceByID timeEntry.Wid s).2).1 = .error e)
      ∨ (timeEntry.Pid ≠ 0 ∧
          ∃ project s2, converter.projects.GetProjectByID timeEntry.Pid
              (converter.workspaces.GetWorkspaceByID timeEntry.Wid s).2 = (.ok project, s2)
            ∧ project.Client.ID ≠ 0
            ∧ ∃ e, (converter.clients.GetClientByID project.Client.ID s2).1 = .error e)))
    ∧ (timeEntry.Pid = 0 →
        ∀ workspace s1, converter.workspaces.GetWorkspaceByID timeEntry.Wid s = (.ok workspace, s1) →
          converter.recording.ConvertTimeEntryToTimeRecord timeEntry (s, log)
            = (.ok { WorkspaceName := workspace.Name, ProjectName := "", ClientName := "",
                     Start := timeEntry.Start, Stop := timeEntry.Stop,
                     Tags := timeEntry.Tags, Description := timeEntry.Description },
                (s1, log ++ [.GetWorkspaceByID timeEntry.Wid]))) := by
  constructor
  · simp only [TogglModelConverter.ConvertTimeEntryToTimeRecord]
    rcases h1 : converter.workspaces.GetWorkspaceByID timeEntry.Wid s with ⟨r1, s1⟩
    cases r1 with
    | error e => simp
    | ok w =>
      by_cases hp : timeEntry.Pid = 0
      · simp [hp]
      · rcases h2 : converter.projects.GetProjectByID timeEntry.Pid s1 with ⟨r2, s2⟩
        cases r2 with
        | error e => simp [hp, h2]
        | ok p =>
          by_cases hc : p.Client.ID = 0
          · simp [hp, h2, hc]
          · rcases h3 : converter.clients.GetClientByID p.Client.ID s2 with ⟨r3, s3⟩
            cases r3 with
            | error e =>
              simp only [hp, h2, hc, h3, bne_iff_ne, ne_eq, not_false_eq_true, if_true,
                exists_false, false_or, true_and, Except.error.injEq, exists_eq',
                true_iff, reduceCtorEq]
              exact ⟨p, s2, rfl, hc, e, by rw [h3]⟩
            | ok c =>
              simp only [hp, h2, hc, h3, bne_iff_ne, ne_eq, not_false_eq_true, if_true,
                exists_false, false_or, true_and, reduceCtorEq, false_iff, not_exists,
                Prod.mk.injEq, Except.ok.injEq, not_and]
              rintro q t ⟨rfl, rfl⟩ _ e
              rw [h3]
              simp
  · intro hp w s1 h1
    simp [TogglModelConverter.ConvertTimeEntryToTimeRecord, TogglModelConverter.recording,
      noted, h1, hp, Project.zero, Client.zero]

/-! ## Lookups (`GetXByID`, `GetXByName`) -/

/-- A lookup written as the code writes it (fail when GetAll fails, else scan the
list for the first match, else fail) answers as `LookupIn` says. -/
theorem lookup_spec {α σ : Type} (p : α → Prop) (q : α → Bool) (hq : ∀ x, q x = true ↔ p x)
    (all : Except Error (List α) × σ) (result : Except Error α × σ) (notFound : Error)
    (h : result = match all with
      | (.error e, s1) => (.error e, s1)
      | (.ok list, s1) =>
        match list.find? q with
        | some x => (.ok x, s1)
        | none => (.error notFound, s1)) :
    LookupIn p all result := by
  obtain ⟨r, s1⟩ := all
  cases r with
  | error e => subst h; exact ⟨rfl, _, rfl⟩
  | ok list =>
    simp only at h
    cases hf : list.find? q with
    | none =>
      rw [hf] at h
      subst h
      refine ⟨rfl, ?_, ?_⟩
      · intro x
        simp only [reduceCtorEq, false_iff, not_exists, not_and, not_forall, Classical.not_imp,
          not_not]
        rintro before after rfl hx
        have := List.find?_eq_none.1 hf x (by simp)
        exact absurd ((hq x).2 hx) this
      · simp only [Except.error.injEq, exists_eq', true_iff]
        intro y hy hp
        exact List.find?_eq_none.1 hf y hy ((hq y).2 hp)
    | some x =>
      rw [hf] at h
      subst h
      obtain ⟨hx, before, after, hl, hb⟩ := List.find?_eq_some.1 hf
      refine ⟨rfl, ?_, ?_⟩
      · intro y
        simp only [Except.ok.injEq]
        constructor
        · rintro rfl
          refine ⟨before, after, hl, (hq _).1 hx, ?_⟩
          intro z hz hpz
          have := hb z hz
          rw [(hq z).2 hpz] at this
          simp at this
        · rintro ⟨before2, after2, hl2, hy, hb2⟩
          have hf2 : list.find? q = some y := by
            refine List.find?_eq_some.2 ⟨(hq y).2 hy, before2, after2, hl2, ?_⟩
            intro z hz
            have := hb2 z hz
            rw [← hq z] at this
            simpa using this
          rw [hf] at hf2
          exact Option.some.inj hf2
      · simp only [reduceCtorEq, exists_false, false_iff, not_forall, Classical.not_imp, not_not]
        exact ⟨x, by rw [hl]; simp, (hq x).1 hx⟩

/-- C16: in any state of the repositories of any API, GetWorkspaceByID,
GetClientByID and GetProjectByID (key: the ID), GetWorkspaceByName (key: the
name) and GetClientByName (key: workspace name and client name together) answer
from the list of the repository's GetAll call (GetWorkspaces, GetClients,
GetProjects) in that state, as `LookupIn` says: they leave the state GetAll
leaves, fail if GetAll fails, return an entity exactly if it is the first of the
list that matches the key, and return an error exactly if no entity of the list
matches (so also when the list is empty).  A successful result is therefore
always an entity of the list with the key asked for, never a zero value standing
for "not found". -/
theorem C16_lookups {σ : Type} (api : model.TogglAPI σ) (s : Repositories σ) :
    (∀ workspaceID, LookupIn (fun workspace : Workspace => workspace.ID = workspaceID)
        (WorkspaceRepository.GetWorkspaces api s)
        (WorkspaceRepository.GetWorkspaceByID api workspaceID s))
    ∧ (∀ workspaceName, LookupIn (fun workspace : Workspace => workspace.Name = workspaceName)
        (WorkspaceRepository.GetWorkspaces api s)
        (WorkspaceRepository.GetWorkspaceByName api workspaceName s))
    ∧ (∀ clientID, LookupIn (fun client : Client => client.ID = clientID)
        (ClientRepository.GetClients api s) (ClientRepository.GetClientByID api clientID s))
    ∧ (∀ workspaceName clientName,
        LookupIn (fun client : Client =>
            client.Workspace.Name = workspaceName ∧ client.Name = clientName)
          (ClientRepository.GetClients api s)
          (ClientRepository.GetClientByName api workspaceName clientName s))
    ∧ (∀ projectID, LookupIn (fun project : Project => project.ID = projectID)
        (ProjectRepository.GetProjects api s)
        (ProjectRepository.GetProjectByID api projectID s)) := by
  refine ⟨?_, ?_, ?_, ?_, ?_⟩
  · intro workspaceID
    refine lookup_spec _ (fun workspace => workspace.ID == workspaceID) (by simp) _ _
      "unknown workspace" ?_
    simp only [WorkspaceRepository.GetWorkspaceByID]
    rcases WorkspaceRepository.GetWorkspaces api s with ⟨r, s1⟩
    cases r with
    | error e => rfl
    | ok list =>
      simp only
      cases List.find? _ list <;> rfl
  · intro workspaceName
    refine lookup_spec _ (fun workspace => workspace.Name == workspaceName) (by simp) _ _
      "Workspace was not found" ?_
    simp only [WorkspaceRepository.GetWorkspaceByName]
    rcases WorkspaceRepository.GetWorkspaces api s with ⟨r, s1⟩
    cases r with
    | error e => rfl
    | ok list =>
      simp only
      cases List.find? _ list <;> rfl
  · intro clientID
    refine lookup_spec _ (fun client => client.ID == clientID) (by simp) _ _
      "No client found with id" ?_
    simp only [ClientRepository.GetClientByID]
    rcases ClientRepository.GetClients api s with ⟨r, s1⟩
    cases r with
    | error e => rfl
    | ok list =>
      simp only
      cases List.find? _ list <;> rfl
  · intro workspaceName clientName
    refine lookup_spec _
      (fun client => client.Workspace.Name == workspaceName && client.Name == clientName)
      (by simp) _ _ "Client was not found" ?_
    simp only [ClientRepository.GetClientByName]
    rcases ClientRepository.GetClients api s with ⟨r, s1⟩
    cases r with
    | error e => rfl
    | ok list =>
      simp only
      cases List.find? _ list <;> rfl
  · intro projectID
    refine lookup_spec _ (fun project => project.ID == projectID) (by simp) _ _
      "No project found with id" ?_
    simp only [ProjectRepository.GetProjectByID]
    rcases ProjectRepository.GetProjects api s with ⟨r, s1⟩
    cases r with
    | error e => rfl
    | ok list =>
      simp only
      cases List.find? _ list <;> rfl

/-- C17: GetProjectByName(projectName, workspaceName, clientName) answers from
the list of GetProjects as `LookupIn` says, with the key "p.Name = projectName
and p.Workspace.Name = workspaceName and p.Client.Name = clientName" (equality of
strings, all three at once): the first project matching, a not-found error
exactly if there is none.  With clientName = "": the project returned never has a
client with a non-empty name; a project fetched with client ID 0 is stored with
the zero Client, whose name is empty, and a project of the list with that Client
and the names asked for makes the lookup succeed.  In the account of
`twoProjectsAPI` the lookup with client name "" returns project 8 (fetched with
client ID 0) and not project 7 of client "Client", the lookup with client name
"Client" returns project 7, and "project" in lower case is not found. -/
theorem C17_GetProjectByName {σ : Type} (api : model.TogglAPI σ)
    (projectName workspaceName clientName : String) (s : Repositories σ) :
    LookupIn (fun project : Project => project.Name = projectName
        ∧ project.Workspace.Name = workspaceName ∧ project.Client.Name = clientName)
      (ProjectRepository.GetProjects api s)
      (ProjectRepository.GetProjectByName api projectName workspaceName clientName s)
    ∧ (∀ project,
        (ProjectRepository.GetProjectByName api projectName workspaceName "" s).1 = .ok project →
        project.Client.Name = "")
    ∧ (∀ workspace projectModel rest projects,
        projectModel.ClientID = 0 →
        ProjectRepository.GetProjects.inner api workspace (projectModel :: rest) projects s
          = ProjectRepository.GetProjects.inner api workspace rest
              (projects ++ [{ ID := projectModel.ID, Name := projectModel.Name,
                              Workspace := workspace, Client := Client.zero }]) s)
    ∧ Client.zero.Name = ""
    ∧ (∀ list s1, ProjectRepository.GetProjects api s = (.ok list, s1) →
        ∀ project ∈ list, project.Name = projectName →
          project.Workspace.Name = workspaceName → project.Client = Client.zero →
          ∃ found, ProjectRepository.GetProjectByName api projectName workspaceName "" s
              = (.ok found, s1)
            ∧ found.Name = projectName ∧ found.Workspace.Name = workspaceName
            ∧ found.Client.Name = "")
    ∧ (ProjectRepository.GetProjectByName twoProjectsAPI "Project" "Workspace" ""
          freshRepositories).1
        = .ok { ID := 8, Name := "Project", Client := Client.zero,
                Workspace := { ID := 1, Name := "Workspace" } }
    ∧ (ProjectRepository.GetProjectByName twoProjectsAPI "Project" "Workspace" "Client"
          freshRepositories).1
        = .ok { ID := 7, Name := "Project",
                Client := { ID := 5, Name := "Client",
                            Workspace := { ID := 1, Name := "Workspace" } },
                Workspace := { ID := 1, Name := "Workspace" } }
    ∧ (ProjectRepository.GetProjectByName twoProjectsAPI "project" "Workspace" ""
          freshRepositories).1
        = .error "Project was not found" := by
  have key : ∀ clientName, LookupIn (fun project : Project => project.Name = projectName
        ∧ project.Workspace.Name = workspaceName ∧ project.Client.Name = clientName)
      (ProjectRepository.GetProjects api s)
      (ProjectRepository.GetProjectByName api projectName workspaceName clientName s) := by
    intro clientName
    refine lookup_spec _ (fun project => project.Name == projectName
      && project.Workspace.Name == workspaceName && project.Client.Name == clientName)
      (by simp [and_assoc]) _ _ "Project was not found" ?_
    simp only [ProjectRepository.GetProjectByName]
    rcases ProjectRepository.GetProjects api s with ⟨r, s1⟩
    cases r with
    | error e => rfl
    | ok list =>
      simp only
      cases List.find? _ list <;> rfl
  refine ⟨key clientName, ?_, ?_, rfl, ?_, by decide, by decide, by decide⟩
  · intro project h
    have hk := key ""
    unfold LookupIn at hk
    rcases hall : ProjectRepository.GetProjects api s with ⟨r, s1⟩
    rw [hall] at hk
    cases r with
    | error e =>
      obtain ⟨-, e1, he1⟩ := hk
      rw [h] at he1
      cases he1
    | ok list =>
      obtain ⟨-, hk1, -⟩ := hk
      obtain ⟨_, _, _, hp, _⟩ := (hk1 project).1 h
      exact hp.2.2
  · intro workspace projectModel rest projects h0
    simp [ProjectRepository.GetProjects.inner, h0]
  · intro list s1 hall project hmem hn hw hc
    have hk := key ""
    unfold LookupIn at hk
    rw [hall] at hk
    obtain ⟨hs, hk1, hk2⟩ := hk
    rcases hres : ProjectRepository.GetProjectByName api projectName workspaceName "" s
      with ⟨r, s2⟩
    rw [hres] at hs hk1 hk2
    simp only at hs hk1 hk2
    subst hs
    cases r with
    | error e =>
      have := hk2.1 ⟨e, rfl⟩ project hmem
      exact absurd ⟨hn, hw, by rw [hc]; rfl⟩ this
    | ok found =>
      obtain ⟨_, _, _, hp, _⟩ := (hk1 found).1 rfl
      exact ⟨found, rfl, hp.1, hp.2.1, hp.2.2⟩

/-! ## CreateTimeRecord (`timerecord.go`) -/

/-- C20: CreateTimeRecord, for any collaborators, any record and any state, makes
one of four runs (the calls are recorded by the collaborators; `projectCalls` is
the project lookup followed, when it failed, by the project creation).
(1) The needed project creation fails: the result is an error and nothing is
called after it.  (2) The project is found or created and the conversion fails:
the result is an error and nothing is called after the conversion.  (3) The
conversion succeeds and the submission of its time entry fails: the result is an
error.  (4) Every step succeeds: the result is nil.  So nil is returned only when
every step succeeded, no time entry is submitted when project creation or
conversion fails, and no call follows a failure: what was created before stays.
Against the remote service that rejects time entries (`rejectingAPI`, account
`emptyAccount`), the record of project "Project" of client "Client" gives an
error and leaves client 10 and project 11 on the remote, with no time entry. -/
theorem C20_CreateTimeRecord_errors {σ : Type} (repository : TimeRecordRepository σ)
    (timeRecord : TimeRecord) (s : σ) (log : List Call) :
    (∃ lookup creation,
      (projectReady lookup creation = false
        ∧ (∃ e, creation = .error e
          ∧ (repository.recording.CreateTimeRecord timeRecord (s, log)).1
            = .error (Wrap e "Failed to create project for time record"))
        ∧ (repository.recording.CreateTimeRecord timeRecord (s, log)).2.2
            = log ++ projectCalls timeRecord lookup creation)
      ∨ (projectReady lookup creation = true
        ∧ ∃ e, (repository.recording.CreateTimeRecord timeRecord (s, log)).1
            = .error (Wrap e "Failed to convert the given time record")
          ∧ (repository.recording.CreateTimeRecord timeRecord (s, log)).2.2
            = log ++ projectCalls timeRecord lookup creation
                ++ [.ConvertTimeRecordToTimeEntry timeRecord (.error e)])
      ∨ (projectReady lookup creation = true
        ∧ ∃ timeEntry e, (repository.recording.CreateTimeRecord timeRecord (s, log)).1
            = .error (Wrap e "Failed to create time record")
          ∧ (repository.recording.CreateTimeRecord timeRecord (s, log)).2.2
            = log ++ projectCalls timeRecord lookup creation
                ++ [.ConvertTimeRecordToTimeEntry timeRecord (.ok timeEntry),
                    .CreateTimeEntry timeEntry (.error e)])
      ∨ (projectReady lookup creation = true
        ∧ ∃ timeEntry created, (repository.recording.CreateTimeRecord timeRecord (s, log)).1
            = .ok ()
          ∧ (repository.recording.CreateTimeRecord timeRecord (s, log)).2.2
            = log ++ projectCalls timeRecord lookup creation
                ++ [.ConvertTimeRecordToTimeEntry timeRecord (.ok timeEntry),
                    .CreateTimeEntry timeEntry (.ok created)]))
    ∧ ((NewTimeRecordRepository rejectingAPI).CreateTimeRecord (projectRecord "Client")
          (Repositories.fresh emptyAccount)).1
        = .error (Wrap "rejected" "Failed to create time record")
    ∧ ((NewTimeRecordRepository rejectingAPI).CreateTimeRecord (projectRecord "Client")
          (Repositories.fresh emptyAccount)).2.remote
        = { workspaces := [{ ID := 1, Name := "Workspace" }],
            clients := [{ ID := 10, WorkspaceID := 1, Name := "Client", Notes := "" }],
            projects := [{ ID := 11, WorkspaceID := 1, ClientID := 10, Name := "Project" }],
            timeEntries := [], nextID := 12 } := by
  refine ⟨?_, by decide, by decide⟩
  simp only [TimeRecordRepository.CreateTimeRecord, TimeRecordRepository.CreateTimeRecord.submit,
    TimeRecordRepository.recording, logged]
  rcases h1 : repository.projects.GetProjectByName timeRecord.ProjectName
    timeRecord.WorkspaceName timeRecord.ClientName s with ⟨lookup, s1⟩
  cases lookup with
  | ok p =>
    refine ⟨.ok p, .ok p, Or.inr ?_⟩
    simp only [h1]
    rcases h3 : repository.modelConverter.ConvertTimeRecordToTimeEntry timeRecord s1
      with ⟨conv, s3⟩
    cases conv with
    | error e => exact Or.inl ⟨rfl, e, rfl, by simp [projectCalls]⟩
    | ok timeEntry =>
      simp only
      rcases h4 : repository.timeEntryAPI.CreateTimeEntry timeEntry s3 with ⟨sub, s4⟩
      cases sub with
      | error e => exact Or.inr (Or.inl ⟨rfl, timeEntry, e, rfl, by simp [projectCalls]⟩)
      | ok created =>
        exact Or.inr (Or.inr ⟨rfl, timeEntry, created, rfl, by simp [projectCalls]⟩)
  | error e0 =>
    simp only [h1]
    rcases h2 : repository.projects.CreateProject timeRecord.ProjectName
      timeRecord.WorkspaceName timeRecord.ClientName s1 with ⟨creation, s2⟩
    cases creation with
    | error e =>
      exact ⟨.error e0, .error e, Or.inl ⟨rfl, ⟨e, rfl, rfl⟩, by simp [projectCalls]⟩⟩
    | ok p =>
      refine ⟨.error e0, .ok p, Or.inr ?_⟩
      simp only
      rcases h3 : repository.modelConverter.ConvertTimeRecordToTimeEntry timeRecord s2
        with ⟨conv, s3⟩
      cases conv with
      | error e => exact Or.inl ⟨rfl, e, rfl, by simp [projectCalls]⟩
      | ok timeEntry =>
        simp only
        rcases h4 : repository.timeEntryAPI.CreateTimeEntry timeEntry s3 with ⟨sub, s4⟩
        cases sub with
        | error e => exact Or.inr (Or.inl ⟨rfl, timeEntry, e, rfl, by simp [projectCalls]⟩)
        | ok created =>
          exact Or.inr (Or.inr ⟨rfl, timeEntry, created, rfl, by simp [projectCalls]⟩)

/-! ## The requests behind the reads of the repositories -/

theorem Quiet.quiet_refl {σ : Type} (s : Repositories (σ × List RemoteCall)) : Quiet s s :=
  ⟨[], by simp, rfl⟩

theorem Quiet.quiet_trans {σ : Type} {s s1 s2 : Repositories (σ × List RemoteCall)}
    (h1 : Quiet s s1) (h2 : Quiet s1 s2) : Quiet s s2 := by
  obtain ⟨c1, e1, q1⟩ := h1
  obtain ⟨c2, e2, q2⟩ := h2
  refine ⟨c1 ++ c2, by rw [e2, e1, List.append_assoc], ?_⟩
  simp only [creations, List.filter_append] at *
  rw [q1, q2]
  rfl

theorem Quiet.creations_eq {σ : Type} {s s1 : Repositories (σ × List RemoteCall)}
    (h : Quiet s s1) : creations s1.remote.2 = creations s.remote.2 := by
  obtain ⟨c, e, q⟩ := h
  rw [e]
  simp only [Toggl.creations, List.filter_append] at *
  rw [q, List.append_nil]

/-- A lookup by ID leaves the state that GetWorkspaces leaves. -/
theorem GetWorkspaceByID_state {σ : Type} (api : model.TogglAPI σ) (workspaceID : Int)
    (s : Repositories σ) :
    (WorkspaceRepository.GetWorkspaceByID api workspaceID s).2
      = (WorkspaceRepository.GetWorkspaces api s).2 := by
  unfold WorkspaceRepository.GetWorkspaceByID
  rcases WorkspaceRepository.GetWorkspaces api s with ⟨r, s1⟩
  cases r with
  | error e => rfl
  | ok list =>
    simp only
    cases List.find? _ list <;> rfl

/-- A lookup by name leaves the state that GetWorkspaces leaves. -/
theorem GetWorkspaceByName_state {σ : Type} (api : model.TogglAPI σ) (workspaceName : String)
    (s : Repositories σ) :
    (WorkspaceRepository.GetWorkspaceByName api workspaceName s).2
      = (WorkspaceRepository.GetWorkspaces api s).2 := by
  unfold WorkspaceRepository.GetWorkspaceByName
  rcases WorkspaceRepository.GetWorkspaces api s with ⟨r, s1⟩
  cases r with
  | error e => rfl
  | ok list =>
    simp only
    cases List.find? _ list <;> rfl

/-- A lookup by ID leaves the state that GetClients leaves. -/
theorem GetClientByID_state {σ : Type} (api : model.TogglAPI σ) (clientID : Int)
    (s : Repositories σ) :
    (ClientRepository.GetClientByID api clientID s).2 = (ClientRepository.GetClients api s).2 := by
  unfold ClientRepository.GetClientByID
  rcases ClientRepository.GetClients api s with ⟨r, s1⟩
  cases r with
  | error e => rfl
  | ok list =>
    simp only
    cases List.find? _ list <;> rfl

/-- A lookup by name leaves the state that GetClients leaves. -/
theorem GetClientByName_state {σ : Type} (api : model.TogglAPI σ)
    (workspaceName clientName : String) (s : Repositories σ) :
    (ClientRepository.GetClientByName api workspaceName clientName s).2
      = (ClientRepository.GetClients api s).2 := by
  unfold ClientRepository.GetClientByName
  rcases ClientRepository.GetClients api s with ⟨r, s1⟩
  cases r with
  | error e => rfl
  | ok list =>
    simp only
    cases List.find? _ list <;> rfl

/-- A lookup by ID leaves the state that GetProjects leaves. -/
theorem GetProjectByID_state {σ : Type} (api : model.TogglAPI σ) (projectID : Int)
    (s : Repositories σ) :
    (ProjectRepository.GetProjectByID api projectID s).2
      = (ProjectRepository.GetProjects api s).2 := by
  unfold ProjectRepository.GetProjectByID
  rcases ProjectRepository.GetProjects api s with ⟨r, s1⟩
  cases r with
  | error e => rfl
  | ok list =>
    simp only
    cases List.find? _ list <;> rfl

/-- A lookup by name leaves the state that GetProjects leaves. -/
theorem GetProjectByName_state {σ : Type} (api : model.TogglAPI σ)
    (projectName workspaceName clientName : String) (s : Repositories σ) :
    (ProjectRepository.GetProjectByName api projectName workspaceName clientName s).2
      = (ProjectRepository.GetProjects api s).2 := by
  unfold ProjectRepository.GetProjectByName
  rcases ProjectRepository.GetProjects api s with ⟨r, s1⟩
  cases r with
  | error e => rfl
  | ok list =>
    simp only
    cases List.find? _ list <;> rfl

/-- GetWorkspaces sends no create request. -/
theorem GetWorkspaces_quiet {σ : Type} (api : model.TogglAPI σ)
    (s : Repositories (σ × List RemoteCall)) :
    Quiet s (WorkspaceRepository.GetWorkspaces api.recording s).2 := by
  unfold WorkspaceRepository.GetWorkspaces
  split_ifs
  · exact Quiet.quiet_refl s
  · simp only [model.TogglAPI.recording, traced]
    rcases h : api.GetWorkspaces s.remote.1 with ⟨r, remote⟩
    cases r <;> exact ⟨[_], rfl, rfl⟩

/-- GetWorkspaceByID sends no create request. -/
theorem GetWorkspaceByID_quiet {σ : Type} (api : model.TogglAPI σ) (workspaceID : Int)
    (s : Repositories (σ × List RemoteCall)) :
    Quiet s (WorkspaceRepository.GetWorkspaceByID api.recording workspaceID s).2 := by
  rw [GetWorkspaceByID_state]
  exact GetWorkspaces_quiet api s

/-- GetWorkspaceByName sends no create request. -/
theorem GetWorkspaceByName_quiet {σ : Type} (api : model.TogglAPI σ) (workspaceName : String)
    (s : Repositories (σ × List RemoteCall)) :
    Quiet s (WorkspaceRepository.GetWorkspaceByName api.recording workspaceName s).2 := by
  rw [GetWorkspaceByName_state]
  exact GetWorkspaces_quiet api s

/-- The loop of GetClients sends no create request. -/
theorem GetClients_loop_quiet {σ : Type} (api : model.TogglAPI σ) :
    ∀ (clients : List model.Client) (clientModels : List Client)
      (s : Repositories (σ × List RemoteCall)),
      Quiet s (ClientRepository.GetClients.loop api.recording clients clientModels s).2 := by
  intro clients
  induction clients with
  | nil => intro _ s; exact Quiet.quiet_refl s
  | cons client rest ih =>
    intro clientModels s
    have h := GetWorkspaceByID_quiet api client.WorkspaceID s
    unfold ClientRepository.GetClients.loop
    rcases hg : WorkspaceRepository.GetWorkspaceByID api.recording client.WorkspaceID s
      with ⟨r, s1⟩
    rw [hg] at h
    cases r with
    | error e => exact h
    | ok workspace => exact h.quiet_trans (ih _ s1)

/-- GetClients sends no create request. -/
theorem GetClients_quiet {σ : Type} (api : model.TogglAPI σ)
    (s : Repositories (σ × List RemoteCall)) :
    Quiet s (ClientRepository.GetClients api.recording s).2 := by
  unfold ClientRepository.GetClients
  split_ifs
  · exact Quiet.quiet_refl s
  · simp only [model.TogglAPI.recording, traced]
    rcases h : api.GetClients s.remote.1 with ⟨r, remote⟩
    cases r with
    | error e => exact ⟨[_], rfl, rfl⟩
    | ok clients =>
      simp only
      have hq : Quiet s { s with remote := (remote, s.remote.2 ++ [.GetClients (.ok clients)]) } :=
        ⟨[_], rfl, rfl⟩
      have hl := GetClients_loop_quiet api clients []
        { s with remote := (remote, s.remote.2 ++ [.GetClients (.ok clients)]) }
      rcases hg : ClientRepository.GetClients.loop api.recording clients []
        { s with remote := (remote, s.remote.2 ++ [.GetClients (.ok clients)]) } with ⟨r1, s1⟩
      rw [hg] at hl
      simp only [model.TogglAPI.recording, traced] at hg
      rw [hg]
      cases r1 with
      | error e => exact hq.quiet_trans hl
      | ok clientModels => exact hq.quiet_trans hl

/-- GetClientByID sends no create request. -/
theorem GetClientByID_quiet {σ : Type} (api : model.TogglAPI σ) (clientID : Int)
    (s : Repositories (σ × List RemoteCall)) :
    Quiet s (ClientRepository.GetClientByID api.recording clientID s).2 := by
  rw [GetClientByID_state]
  exact GetClients_quiet api s

/-- GetClientByName sends no create request. -/
theorem GetClientByName_quiet {σ : Type} (api : model.TogglAPI σ)
    (workspaceName clientName : String) (s : Repositories (σ × List RemoteCall)) :
    Quiet s (ClientRepository.GetClientByName api.recording workspaceName clientName s).2 := by
  rw [GetClientByName_state]
  exact GetClients_quiet api s

/-- The inner loop of GetProjects sends no create request. -/
theorem GetProjects_inner_quiet {σ : Type} (api : model.TogglAPI σ) (workspace : Workspace) :
    ∀ (models : List model.Project) (projects : List Project)
      (s : Repositories (σ × List RemoteCall)),
      Quiet s (ProjectRepository.GetProjects.inner api.recording workspace models projects s).2 := by
  intro models
  induction models with
  | nil => intro _ s; exact Quiet.quiet_refl s
  | cons projectModel rest ih =>
    intro projects s
    unfold ProjectRepository.GetProjects.inner
    simp only
    split_ifs
    · have h := GetClientByID_quiet api projectModel.ClientID s
      rcases hg : ClientRepository.GetClientByID api.recording projectModel.ClientID s
        with ⟨r, s1⟩
      rw [hg] at h
      cases r with
      | error e => exact h
      | ok client => exact h.quiet_trans (ih _ s1)
    · exact ih _ s

/-- The outer loop of GetProjects sends no create request. -/
theorem GetProjects_outer_quiet {σ : Type} (api : model.TogglAPI σ) :
    ∀ (workspaces : List Workspace) (projects : List Project)
      (s : Repositories (σ × List RemoteCall)),
      Quiet s (ProjectRepository.GetProjects.outer api.recording workspaces projects s).2 := by
  intro workspaces
  induction workspaces with
  | nil => intro _ s; exact Quiet.quiet_refl s
  | cons workspace rest ih =>
    intro projects s
    unfold ProjectRepository.GetProjects.outer
    rcases hg : api.recording.GetProjects workspace.ID s.remote with ⟨r, remote⟩
    have hq : Quiet s { s with remote := remote } := by
      simp only [model.TogglAPI.recording, traced, Prod.mk.injEq] at hg
      refine ⟨[.GetProjects workspace.ID (api.GetProjects workspace.ID s.remote.1).1], ?_, rfl⟩
      rw [← hg.2]
    cases r with
    | error e => exact hq
    | ok models =>
      simp only
      have hi := GetProjects_inner_quiet api workspace models projects { s with remote := remote }
      rcases hg2 : ProjectRepository.GetProjects.inner api.recording workspace models projects
        { s with remote := remote } with ⟨r1, s1⟩
      rw [hg2] at hi
      cases r1 with
      | error e => exact hq.quiet_trans hi
      | ok projects1 => exact (hq.quiet_trans hi).quiet_trans (ih _ s1)

/-- GetProjects sends no create request. -/
theorem GetProjects_quiet {σ : Type} (api : model.TogglAPI σ)
    (s : Repositories (σ × List RemoteCall)) :
    Quiet s (ProjectRepository.GetProjects api.recording s).2 := by
  unfold ProjectRepository.GetProjects
  split_ifs
  · exact Quiet.quiet_refl s
  · have h := GetWorkspaces_quiet api s
    rcases hg : WorkspaceRepository.GetWorkspaces api.recording s with ⟨r, s1⟩
    rw [hg] at h
    cases r with
    | error e => exact h
    | ok workspaces =>
      simp only
      have ho := GetProjects_outer_quiet api workspaces [] s1
      rcases hg2 : ProjectRepository.GetProjects.outer api.recording workspaces [] s1
        with ⟨r1, s2⟩
      rw [hg2] at ho
      cases r1 with
      | error e => exact h.quiet_trans ho
      | ok projects => exact h.quiet_trans ho

/-- GetProjectByID sends no create request. -/
theorem GetProjectByID_quiet {σ : Type} (api : model.TogglAPI σ) (projectID : Int)
    (s : Repositories (σ × List RemoteCall)) :
    Quiet s (ProjectRepository.GetProjectByID api.recording projectID s).2 := by
  rw [GetProjectByID_state]
  exact GetProjects_quiet api s

/-- GetProjectByName sends no create request. -/
theorem GetProjectByName_quiet {σ : Type} (api : model.TogglAPI σ)
    (projectName workspaceName clientName : String) (s : Repositories (σ × List RemoteCall)) :
    Quiet s (ProjectRepository.GetProjectByName api.recording projectName workspaceName
      clientName s).2 := by
  rw [GetProjectByName_state]
  exact GetProjects_quiet api s

/-- Over the repositories of an API, neither conversion sends a create request to
the remote. -/
theorem conversions_quiet {σ : Type} (api : model.TogglAPI σ)
    (s : Repositories (σ × List RemoteCall)) :
    (∀ timeRecord,
      Quiet s (togglModelConverter.ConvertTimeRecordToTimeEntry api.recording timeRecord s).2)
    ∧ (∀ timeEntry,
      Quiet s (togglModelConverter.ConvertTimeEntryToTimeRecord api.recording timeEntry s).2) := by
  constructor
  · intro timeRecord
    unfold togglModelConverter.ConvertTimeRecordToTimeEntry
    have h := GetWorkspaceByName_quiet api timeRecord.WorkspaceName s
    rcases hg : WorkspaceRepository.GetWorkspaceByName api.recording timeRecord.WorkspaceName s
      with ⟨r, s1⟩
    rw [hg] at h
    cases r with
    | error e => exact h
    | ok workspace =>
      simp only
      have h2 := GetProjectByName_quiet api timeRecord.ProjectName timeRecord.WorkspaceName
        timeRecord.ClientName s1
      rcases hg2 : ProjectRepository.GetProjectByName api.recording timeRecord.ProjectName
        timeRecord.WorkspaceName timeRecord.ClientName s1 with ⟨r2, s2⟩
      rw [hg2] at h2
      cases r2 with
      | error e => exact h.quiet_trans h2
      | ok project => exact h.quiet_trans h2
  · intro timeEntry
    unfold togglModelConverter.ConvertTimeEntryToTimeRecord
    have h := GetWorkspaceByID_quiet api timeEntry.Wid s
    rcases hg : WorkspaceRepository.GetWorkspaceByID api.recording timeEntry.Wid s with ⟨r, s1⟩
    rw [hg] at h
    cases r with
    | error e => exact h
    | ok workspace =>
      simp only
      split_ifs
      · have h2 := GetProjectByID_quiet api timeEntry.Pid s1
        rcases hg2 : ProjectRepository.GetProjectByID api.recording timeEntry.Pid s1
          with ⟨r2, s2⟩
        rw [hg2] at h2
        cases r2 with
        | error e => exact h.quiet_trans h2
        | ok project =>
          simp only
          split_ifs
          · have h3 := GetClientByID_quiet api project.Client.ID s2
            rcases hg3 : ClientRepository.GetClientByID api.recording project.Client.ID s2
              with ⟨r3, s3⟩
            rw [hg3] at h3
            cases r3 with
            | error e => exact (h.quiet_trans h2).quiet_trans h3
            | ok client => exact (h.quiet_trans h2).quiet_trans h3
          · exact h.quiet_trans h2
      · exact h

/-! ## CreateClient and CreateProject (`client.go`, `project.go`) -/

/-- The end of CreateProject sends exactly one request, the creation of the
project with the IDs of the workspace and of the client given; on success it
returns the project with the ID and name of the answer, that workspace and that
client, and clears the projects cache; the other caches are left as they are. -/
theorem CreateProject_submit_spec {σ : Type} (api : model.TogglAPI σ) (projectName : String)
    (workspace : Workspace) (client : Client) (s : Repositories (σ × List RemoteCall)) :
    (ProjectRepository.CreateProject.submit api.recording projectName workspace client s).2.remote.2
        = s.remote.2 ++ [.CreateProject
            { ID := 0, WorkspaceID := workspace.ID, ClientID := client.ID, Name := projectName }
            (api.CreateProject
              { ID := 0, WorkspaceID := workspace.ID, ClientID := client.ID,
                Name := projectName } s.remote.1).1]
    ∧ (ProjectRepository.CreateProject.submit api.recording projectName workspace client
        s).2.workspacesCache = s.workspacesCache
    ∧ (ProjectRepository.CreateProject.submit api.recording projectName workspace client
        s).2.clientsCache = s.clientsCache
    ∧ (∀ project,
        (ProjectRepository.CreateProject.submit api.recording projectName workspace client s).1
          = .ok project →
        (ProjectRepository.CreateProject.submit api.recording projectName workspace client
          s).2.projectsCache = []
        ∧ ∃ created, (api.CreateProject
              { ID := 0, WorkspaceID := workspace.ID, ClientID := client.ID,
                Name := projectName } s.remote.1).1 = .ok created
          ∧ project = { ID := created.ID, Name := created.Name, Workspace := workspace,
                        Client := client }) := by
  simp only [ProjectRepository.CreateProject.submit, model.TogglAPI.recording, traced]
  rcases h : api.CreateProject
    { ID := 0, WorkspaceID := workspace.ID, ClientID := client.ID, Name := projectName }
    s.remote.1 with ⟨r, remote⟩
  cases r with
  | error e => simp
  | ok created => simp

/-- CreateClient, once its workspace lookup has answered: if the lookup failed,
an error and nothing more; if it found a workspace, exactly one more request,
the creation of the client with that workspace's ID and the name given; on
success the client returned has the ID and name of the answer and that workspace,
and the clients cache is cleared; the other caches are as the lookup left them. -/
theorem CreateClient_spec {σ : Type} (api : model.TogglAPI σ) (workspaceID : Int)
    (name : String) (s : Repositories (σ × List RemoteCall)) :
    (∀ e s1, WorkspaceRepository.GetWorkspaceByID api.recording workspaceID s = (.error e, s1) →
      ClientRepository.CreateClient api.recording workspaceID name s
        = (.error (Wrap e "Failed to get workspace with id"), s1))
    ∧ (∀ workspace s1,
        WorkspaceRepository.GetWorkspaceByID api.recording workspaceID s = (.ok workspace, s1) →
        (ClientRepository.CreateClient api.recording workspaceID name s).2.remote.2
          = s1.remote.2 ++ [.CreateClient
              { ID := 0, WorkspaceID := workspace.ID, Name := name, Notes := "" }
              (api.CreateClient
                { ID := 0, WorkspaceID := workspace.ID, Name := name, Notes := "" }
                s1.remote.1).1]
        ∧ (ClientRepository.CreateClient api.recording workspaceID name s).2.workspacesCache
            = s1.workspacesCache
        ∧ (ClientRepository.CreateClient api.recording workspaceID name s).2.projectsCache
            = s1.projectsCache
        ∧ (∀ client,
            (ClientRepository.CreateClient api.recording workspaceID name s).1 = .ok client →
            (ClientRepository.CreateClient api.recording workspaceID name s).2.clientsCache = []
            ∧ ∃ created, (api.CreateClient
                  { ID := 0, WorkspaceID := workspace.ID, Name := name, Notes := "" }
                  s1.remote.1).1 = .ok created
              ∧ client = { ID := created.ID, Name := created.Name, Workspace := workspace })) := by
  constructor
  · intro e s1 h
    simp only [ClientRepository.CreateClient, h]
  · intro workspace s1 h
    simp only [ClientRepository.CreateClient, h]
    simp only [model.TogglAPI.recording, traced]
    rcases h2 : api.CreateClient
      { ID := 0, WorkspaceID := workspace.ID, Name := name, Notes := "" } s1.remote.1
      with ⟨r, remote⟩
    cases r with
    | error e => simp
    | ok created => simp

/-- A workspace found by name is found by its ID without a request, once the
workspaces cache holds it. -/
theorem GetWorkspaceByID_of_cached {σ : Type} (api : model.TogglAPI σ) (s : Repositories σ)
    (workspace : Workspace) (h : workspace ∈ s.workspacesCache) :
    ∃ found, WorkspaceRepository.GetWorkspaceByID api workspace.ID s = (.ok found, s)
      ∧ found.ID = workspace.ID := by
  have hne : s.workspacesCache ≠ [] := List.ne_nil_of_mem h
  unfold WorkspaceRepository.GetWorkspaceByID
  rw [GetWorkspaces_cached api s hne]
  simp only
  cases hf : s.workspacesCache.find? (fun w => w.ID == workspace.ID) with
  | none =>
    have := List.find?_eq_none.1 hf workspace h
    simp at this
  | some found =>
    refine ⟨found, rfl, ?_⟩
    have := List.find?_some hf
    simpa using this

/-- C18: CreateProject(projectName, workspaceName, clientName) over the
repositories of any API that records its requests, from any state.
(1) If the workspace name does not resolve, it returns an error in the state the
lookup left, and the remote has received no create request.
(2) If the workspace resolves and clientName is empty, the only request after the
workspace lookup is the creation of the project with the workspace's ID and
client ID 0: no client is looked up or created.
(3) If clientName is non-empty and GetClientByName finds a client, no create
request was sent up to then, the only request after the lookup is the creation of
the project with that client's ID, and a project returned carries that client.
(4) If clientName is non-empty and GetClientByName fails, no create request was
sent up to then; the next request is the creation of the client with the
workspace's ID and clientName; if it fails nothing follows, and if it succeeds
the creation of the project follows, with the ID of the created client; a
project returned carries the created client (its ID and name).
On the account `emptyAccount` the create requests of
CreateProject("Project", "Workspace", "Client") are the client, then the project. -/
theorem C18_CreateProject {σ : Type} (api : model.TogglAPI σ)
    (projectName workspaceName clientName : String) (s : Repositories (σ × List RemoteCall)) :
    (∀ e s1,
      WorkspaceRepository.GetWorkspaceByName api.recording workspaceName s = (.error e, s1) →
      ProjectRepository.CreateProject api.recording projectName workspaceName clientName s
          = (.error (Wrap e "Failed to get workspace"), s1)
      ∧ creations s1.remote.2 = creations s.remote.2)
    ∧ (∀ workspace s1,
      WorkspaceRepository.GetWorkspaceByName api.recording workspaceName s = (.ok workspace, s1) →
      (clientName = "" →
        (ProjectRepository.CreateProject api.recording projectName workspaceName clientName
            s).2.remote.2
          = s1.remote.2 ++ [.CreateProject
              { ID := 0, WorkspaceID := workspace.ID, ClientID := 0, Name := projectName }
              (api.CreateProject
                { ID := 0, WorkspaceID := workspace.ID, ClientID := 0, Name := projectName }
                s1.remote.1).1])
      ∧ (clientName ≠ "" →
        (∀ existingClient s2,
          ClientRepository.GetClientByName api.recording workspaceName clientName s1
            = (.ok existingClient, s2) →
          creations s2.remote.2 = creations s.remote.2
          ∧ (ProjectRepository.CreateProject api.recording projectName workspaceName clientName
                s).2.remote.2
              = s2.remote.2 ++ [.CreateProject
                  { ID := 0, WorkspaceID := workspace.ID, ClientID := existingClient.ID,
                    Name := projectName }
                  (api.CreateProject
                    { ID := 0, WorkspaceID := workspace.ID, ClientID := existingClient.ID,
                      Name := projectName } s2.remote.1).1]
          ∧ ∀ project,
              (ProjectRepository.CreateProject api.recording projectName workspaceName clientName
                s).1 = .ok project → project.Client = existingClient)
        ∧ (∀ e s2,
          ClientRepository.GetClientByName api.recording workspaceName clientName s1
            = (.error e, s2) →
          creations s2.remote.2 = creations s.remote.2
          ∧ (ProjectRepository.CreateProject api.recording projectName workspaceName clientName
                s).2.remote.2
              = s2.remote.2 ++ .CreateClient
                  { ID := 0, WorkspaceID := workspace.ID, Name := clientName, Notes := "" }
                  (api.CreateClient
                    { ID := 0, WorkspaceID := workspace.ID, Name := clientName, Notes := "" }
                    s2.remote.1).1 ::
                (match api.CreateClient
                    { ID := 0, WorkspaceID := workspace.ID, Name := clientName, Notes := "" }
                    s2.remote.1 with
                  | (.error _, _) => []
                  | (.ok createdClient, remote) =>
                    [.CreateProject
                      { ID := 0, WorkspaceID := workspace.ID, ClientID := createdClient.ID,
                        Name := projectName }
                      (api.CreateProject
                        { ID := 0, WorkspaceID := workspace.ID, ClientID := createdClient.ID,
                          Name := projectName } remote).1])
          ∧ ∀ project,
              (ProjectRepository.CreateProject api.recording projectName workspaceName clientName
                s).1 = .ok project →
              ∃ createdClient, (api.CreateClient
                  { ID := 0, WorkspaceID := workspace.ID, Name := clientName, Notes := "" }
                  s2.remote.1).1 = .ok createdClient
                ∧ project.Client.ID = createdClient.ID
                ∧ project.Client.Name = createdClient.Name)))
    ∧ creations (ProjectRepository.CreateProject idealAPI.recording "Project" "Workspace" "Client"
        (Repositories.fresh (emptyAccount, []))).2.remote.2
      = [.CreateClient { ID := 0, WorkspaceID := 1, Name := "Client", Notes := "" }
          (.ok { ID := 10, WorkspaceID := 1, Name := "Client", Notes := "" }),
         .CreateProject { ID := 0, WorkspaceID := 1, ClientID := 10, Name := "Project" }
          (.ok { ID := 11, WorkspaceID := 1, ClientID := 10, Name := "Project" })] := by
  refine ⟨?_, ?_, by decide⟩
  · intro e s1 h
    have hq := GetWorkspaceByName_quiet api workspaceName s
    rw [h] at hq
    exact ⟨by simp only [ProjectRepository.CreateProject, h], hq.creations_eq⟩
  · intro workspace s1 h
    have hq := GetWorkspaceByName_quiet api workspaceName s
    rw [h] at hq
    obtain ⟨hmem, -, -, -⟩ := GetWorkspaceByName_ok api.recording workspaceName s s1 workspace h
    constructor
    · intro hc
      subst hc
      simp only [ProjectRepository.CreateProject, h]
      exact (CreateProject_submit_spec api projectName workspace Client.zero s1).1
    · intro hc
      have hb : (clientName != "") = true := by simpa using hc
      constructor
      · intro existingClient s2 h2
        have hq2 := GetClientByName_quiet api workspaceName clientName s1
        rw [h2] at hq2
        have hsub := CreateProject_submit_spec api projectName workspace existingClient s2
        simp only [ProjectRepository.CreateProject, h, hb, if_true, h2]
        refine ⟨(hq.quiet_trans hq2).creations_eq, hsub.1, ?_⟩
        intro project hp
        obtain ⟨-, created, -, rfl⟩ := hsub.2.2.2 project hp
        rfl
      · intro e s2 h2
        have hq2 := GetClientByName_quiet api workspaceName clientName s1
        rw [h2] at hq2
        have hws : s2.workspacesCache = s1.workspacesCache := by
          have := (GetClients_frame api.recording s1).2.1 (List.ne_nil_of_mem hmem)
          rw [← GetClientByName_state api.recording workspaceName clientName, h2] at this
          exact this
        obtain ⟨found, hfound, hid⟩ :=
          GetWorkspaceByID_of_cached api.recording s2 workspace (by rw [hws]; exact hmem)
        have hcc := (CreateClient_spec api workspace.ID clientName s2).2 found s2 hfound
        rw [hid] at hcc
        refine ⟨(hq.quiet_trans hq2).creations_eq, ?_, ?_⟩
        · simp only [ProjectRepository.CreateProject, h, hb, if_true, h2]
          rcases hc1 : ClientRepository.CreateClient api.recording workspace.ID clientName s2
            with ⟨rc, s3⟩
          rw [hc1] at hcc
          obtain ⟨hlog, -, -, hok⟩ := hcc
          cases rc with
          | error e1 =>
            simp only at hlog ⊢
            rw [hlog]
            rcases hapi : api.CreateClient
              { ID := 0, WorkspaceID := workspace.ID, Name := clientName, Notes := "" }
              s2.remote.1 with ⟨ra, remote⟩
            cases ra with
            | error e2 => simp
            | ok created =>
              exfalso
              simp only [ClientRepository.CreateClient, hfound] at hc1
              simp only [hid, model.TogglAPI.recording, traced, hapi] at hc1
              simp at hc1
          | ok createdClient =>
            simp only at hlog hok ⊢
            obtain ⟨-, created, hcr, rfl⟩ := hok _ rfl
            have hsub := CreateProject_submit_spec api projectName workspace
              { ID := created.ID, Name := created.Name, Workspace := found } s3
            rw [hsub.1, hlog]
            rcases hapi : api.CreateClient
              { ID := 0, WorkspaceID := workspace.ID, Name := clientName, Notes := "" }
              s2.remote.1 with ⟨ra, remote⟩
            rw [hapi] at hcr
            simp only at hcr
            subst hcr
            have hrem : s3.remote.1 = remote := by
              simp only [ClientRepository.CreateClient, hfound] at hc1
              simp only [hid, model.TogglAPI.recording, traced, hapi] at hc1
              simp only [Prod.mk.injEq] at hc1
              rw [← hc1.2]
            simp [hrem]
        · intro project hp
          simp only [ProjectRepository.CreateProject, h, hb, if_true, h2] at hp
          rcases hc1 : ClientRepository.CreateClient api.recording workspace.ID clientName s2
            with ⟨rc, s3⟩
          rw [hc1] at hcc hp
          obtain ⟨-, -, -, hok⟩ := hcc
          cases rc with
          | error e1 => simp at hp
          | ok createdClient =>
            simp only at hp hok
            obtain ⟨-, created, hcr, rfl⟩ := hok _ rfl
            obtain ⟨-, createdProject, -, rfl⟩ :=
              (CreateProject_submit_spec api projectName workspace _ s3).2.2.2 project hp
            exact ⟨created, hcr, rfl, rfl⟩

/-! ## The caches (`workspacesCache`, `clientsCache`, `projectsCache`) -/

/-- With an empty clients cache GetClients starts with a request to the client
listing of the remote. -/
theorem GetClients_first_request {σ : Type} (api : model.TogglAPI σ)
    (s : Repositories (σ × List RemoteCall)) (h : s.clientsCache = []) :
    ∃ rest, (ClientRepository.GetClients api.recording s).2.remote.2
      = s.remote.2 ++ .GetClients (api.GetClients s.remote.1).1 :: rest := by
  unfold ClientRepository.GetClients
  simp only [h, List.isEmpty_nil, Bool.not_true, Bool.false_eq_true, if_false]
  rcases hg : api.recording.GetClients s.remote with ⟨r, remote⟩
  have hrem : remote.2 = s.remote.2 ++ [.GetClients (api.GetClients s.remote.1).1] := by
    simp only [model.TogglAPI.recording, traced, Prod.mk.injEq] at hg
    rw [← hg.2]
  cases r with
  | error e => exact ⟨[], by simp [hrem]⟩
  | ok clients =>
    simp only
    obtain ⟨calls, hc, -⟩ := GetClients_loop_quiet api clients []
      { s with remote := remote, clientsCache := [] }
    rcases hl : ClientRepository.GetClients.loop api.recording clients []
      { s with remote := remote, clientsCache := [] } with ⟨r1, s1⟩
    rw [hl] at hc
    simp only at hc
    cases r1 with
    | error e => exact ⟨calls, by simp [hc, hrem]⟩
    | ok clientModels => exact ⟨calls, by simp [hc, hrem]⟩

/-- With an empty projects cache and a populated workspaces cache GetProjects
starts with a request to the project listing of the remote, for the first
workspace. -/
theorem GetProjects_first_request {σ : Type} (api : model.TogglAPI σ)
    (s : Repositories (σ × List RemoteCall)) (h : s.projectsCache = [])
    (workspace : Workspace) (others : List Workspace)
    (hw : s.workspacesCache = workspace :: others) :
    ∃ rest, (ProjectRepository.GetProjects api.recording s).2.remote.2
      = s.remote.2
        ++ .GetProjects workspace.ID (api.GetProjects workspace.ID s.remote.1).1 :: rest := by
  unfold ProjectRepository.GetProjects
  simp only [h, List.isEmpty_nil, Bool.not_true, Bool.false_eq_true, if_false]
  rw [GetWorkspaces_cached api.recording s (by rw [hw]; simp), hw]
  simp only [ProjectRepository.GetProjects.outer]
  rcases hg : api.recording.GetProjects workspace.ID s.remote with ⟨r, remote⟩
  have hrem : remote.2
      = s.remote.2 ++ [.GetProjects workspace.ID (api.GetProjects workspace.ID s.remote.1).1] := by
    simp only [model.TogglAPI.recording, traced, Prod.mk.injEq] at hg
    rw [← hg.2]
  cases r with
  | error e => exact ⟨[], by simp [hrem]⟩
  | ok models =>
    simp only
    obtain ⟨calls, hc, -⟩ := GetProjects_inner_quiet api workspace models []
      { s with remote := remote }
    rcases hl : ProjectRepository.GetProjects.inner api.recording workspace models []
      { s with remote := remote } with ⟨r1, s1⟩
    rw [hl] at hc
    simp only at hc
    cases r1 with
    | error e => exact ⟨calls, by simp [hc, hrem]⟩
    | ok projects1 =>
      simp only
      obtain ⟨calls2, hc2, -⟩ := GetProjects_outer_quiet api others projects1 s1
      rcases ho : ProjectRepository.GetProjects.outer api.recording others projects1 s1
        with ⟨r2, s2⟩
      rw [ho] at hc2
      simp only at hc2
      cases r2 with
      | error e => exact ⟨calls ++ calls2, by simp [hc2, hc, hrem]⟩
      | ok projects2 => exact ⟨calls ++ calls2, by simp [hc2, hc, hrem]⟩

/-- A successful CreateProject: the workspace was found by name, the last
request is the creation of the project and was answered with the created
project; the project returned has the ID and name of that answer and the
workspace found; the projects cache is empty and the workspaces cache is the one
the workspace lookup left. -/
theorem CreateProject_ok_spec {σ : Type} (api : model.TogglAPI σ)
    (projectName workspaceName clientName : String) (s s1 : Repositories (σ × List RemoteCall))
    (project : Project)
    (h : ProjectRepository.CreateProject api.recording projectName workspaceName clientName s
      = (.ok project, s1)) :
    ∃ workspace s0,
      WorkspaceRepository.GetWorkspaceByName api.recording workspaceName s = (.ok workspace, s0)
      ∧ s1.projectsCache = [] ∧ s1.workspacesCache = s0.workspacesCache
      ∧ project.Workspace = workspace
      ∧ ∃ created, s1.remote.2.getLast? = some (.CreateProject
            { ID := 0, WorkspaceID := workspace.ID, ClientID := project.Client.ID,
              Name := projectName } (.ok created))
          ∧ project.ID = created.ID ∧ project.Name = created.Name := by
  have tail : ∀ (workspace : Workspace) (client : Client) (s2 : Repositories (σ × List RemoteCall)),
      ProjectRepository.CreateProject.submit api.recording projectName workspace client s2
        = (.ok project, s1) →
      s1.projectsCache = [] ∧ s1.workspacesCache = s2.workspacesCache
      ∧ project.Workspace = workspace
      ∧ ∃ created, s1.remote.2.getLast? = some (.CreateProject
            { ID := 0, WorkspaceID := workspace.ID, ClientID := project.Client.ID,
              Name := projectName } (.ok created))
          ∧ project.ID = created.ID ∧ project.Name = created.Name := by
    intro workspace client s2 hs
    obtain ⟨hlog, hws, -, hok⟩ := CreateProject_submit_spec api projectName workspace client s2
    rw [hs] at hlog hws hok
    obtain ⟨hpc, created, hcr, rfl⟩ := hok project rfl
    refine ⟨hpc, hws, rfl, created, ?_, rfl, rfl⟩
    simp only at hlog
    rw [hlog, hcr]
    simp
  unfold ProjectRepository.CreateProject at h
  rcases hw : WorkspaceRepository.GetWorkspaceByName api.recording workspaceName s with ⟨r, s0⟩
  rw [hw] at h
  cases r with
  | error e => simp at h
  | ok workspace =>
    simp only at h
    obtain ⟨hmem, -, -, -⟩ := GetWorkspaceByName_ok api.recording workspaceName s s0 workspace hw
    refine ⟨workspace, s0, rfl, ?_⟩
    split_ifs at h
    · rcases hc : ClientRepository.GetClientByName api.recording workspaceName clientName s0
        with ⟨rc, s2⟩
      have hws : s2.workspacesCache = s0.workspacesCache := by
        have := (GetClients_frame api.recording s0).2.1 (List.ne_nil_of_mem hmem)
        rw [← GetClientByName_state api.recording workspaceName clientName, hc] at this
        exact this
      rw [hc] at h
      cases rc with
      | error e =>
        simp only at h
        obtain ⟨found, hfound, hid⟩ :=
          GetWorkspaceByID_of_cached api.recording s2 workspace (by rw [hws]; exact hmem)
        obtain ⟨-, hws3, -, -⟩ := (CreateClient_spec api workspace.ID clientName s2).2 found s2 hfound
        rcases hcc : ClientRepository.CreateClient api.recording workspace.ID clientName s2
          with ⟨rcc, s3⟩
        rw [hcc] at h hws3
        cases rcc with
        | error e1 => simp at h
        | ok createdClient =>
          simp only at h hws3
          obtain ⟨h1, h2, h3⟩ := tail workspace createdClient s3 h
          exact ⟨h1, by rw [h2, hws3, hws], h3⟩
      | ok existingClient =>
        simp only at h
        obtain ⟨h1, h2, h3⟩ := tail workspace existingClient s2 h
        exact ⟨h1, by rw [h2, hws], h3⟩
    · exact tail workspace Client.zero s0 h

/-- C14: over the repositories of any API that records its requests, from any
state.  After a successful CreateClient the clients cache is empty and the next
GetClients starts with a request to the client listing of the remote; the client
returned has the ID and the name of the API's answer to the create request and
the workspace that GetWorkspaceByID resolved.  After a successful CreateProject
the projects cache is empty and the next GetProjects starts with a request to the
project listing of the remote; the project returned has the ID and the name of
the API's answer to the create request (the last request sent) and the workspace
that GetWorkspaceByName resolved.  On the account `smallAccount`: GetClients
caches the one client, CreateClient empties the cache, and the next GetClients
returns both clients; likewise GetProjects, CreateProject, GetProjects. -/
theorem C14_create_clears_cache {σ : Type} (api : model.TogglAPI σ)
    (s : Repositories (σ × List RemoteCall)) :
    (∀ workspaceID name client s1,
      ClientRepository.CreateClient api.recording workspaceID name s = (.ok client, s1) →
      s1.clientsCache = []
      ∧ (∃ rest, (ClientRepository.GetClients api.recording s1).2.remote.2
          = s1.remote.2 ++ .GetClients (api.GetClients s1.remote.1).1 :: rest)
      ∧ ∃ workspace s0 created,
          WorkspaceRepository.GetWorkspaceByID api.recording workspaceID s = (.ok workspace, s0)
          ∧ (api.CreateClient { ID := 0, WorkspaceID := workspace.ID, Name := name, Notes := "" }
              s0.remote.1).1 = .ok created
          ∧ client = { ID := created.ID, Name := created.Name, Workspace := workspace })
    ∧ (∀ projectName workspaceName clientName project s1,
      ProjectRepository.CreateProject api.recording projectName workspaceName clientName s
        = (.ok project, s1) →
      s1.projectsCache = []
      ∧ (∃ workspaceID rest, (ProjectRepository.GetProjects api.recording s1).2.remote.2
          = s1.remote.2
            ++ .GetProjects workspaceID (api.GetProjects workspaceID s1.remote.1).1 :: rest)
      ∧ ∃ workspace s0 created,
          WorkspaceRepository.GetWorkspaceByName api.recording workspaceName s
            = (.ok workspace, s0)
          ∧ s1.remote.2.getLast? = some (.CreateProject
              { ID := 0, WorkspaceID := workspace.ID, ClientID := project.Client.ID,
                Name := projectName } (.ok created))
          ∧ project.ID = created.ID ∧ project.Name = created.Name
          ∧ project.Workspace = workspace)
    ∧ (ClientRepository.GetClients idealAPI (Repositories.fresh smallAccount)).2.clientsCache
        = [{ ID := 5, Name := "Client", Workspace := { ID := 1, Name := "Workspace" } }]
    ∧ (ClientRepository.CreateClient idealAPI 1 "New"
        (ClientRepository.GetClients idealAPI (Repositories.fresh smallAccount)).2)
        = (.ok { ID := 10, Name := "New", Workspace := { ID := 1, Name := "Workspace" } },
            { remote := { smallAccount with
                clients := [{ ID := 5, WorkspaceID := 1, Name := "Client", Notes := "" },
                            { ID := 10, WorkspaceID := 1, Name := "New", Notes := "" }],
                nextID := 11 },
              workspacesCache := [{ ID := 1, Name := "Workspace" }],
              clientsCache := [], projectsCache := [] })
    ∧ (ClientRepository.GetClients idealAPI
        (ClientRepository.CreateClient idealAPI 1 "New"
          (ClientRepository.GetClients idealAPI (Repositories.fresh smallAccount)).2).2).1
        = .ok [{ ID := 5, Name := "Client", Workspace := { ID := 1, Name := "Workspace" } },
               { ID := 10, Name := "New", Workspace := { ID := 1, Name := "Workspace" } }]
    ∧ ((ProjectRepository.GetProjects idealAPI (Repositories.fresh smallAccount)).2.projectsCache
          ).map (fun project => project.ID) = [7]
    ∧ (ProjectRepository.CreateProject idealAPI "New" "Workspace" ""
        (ProjectRepository.GetProjects idealAPI (Repositories.fresh smallAccount)).2
          ).2.projectsCache = []
    ∧ ((ProjectRepository.GetProjects idealAPI
        (ProjectRepository.CreateProject idealAPI "New" "Workspace" ""
          (ProjectRepository.GetProjects idealAPI (Repositories.fresh smallAccount)).2).2).1.map
          fun projects => projects.map fun project => (project.ID, project.Name))
        = .ok [(7, "Project"), (10, "New")] := by
  refine ⟨?_, ?_, by decide, by decide, by decide, by decide, by decide, by decide⟩
  · intro workspaceID name client s1 h
    rcases hw : WorkspaceRepository.GetWorkspaceByID api.recording workspaceID s with ⟨r, s0⟩
    cases r with
    | error e =>
      rw [(CreateClient_spec api workspaceID name s).1 e s0 hw] at h
      simp at h
    | ok workspace =>
      obtain ⟨-, -, -, hok⟩ := (CreateClient_spec api workspaceID name s).2 workspace s0 hw
      rw [h] at hok
      obtain ⟨hcache, created, hcr, hcl⟩ := hok client rfl
      exact ⟨hcache, GetClients_first_request api s1 hcache, workspace, s0, created, rfl, hcr, hcl⟩
  · intro projectName workspaceName clientName project s1 h
    obtain ⟨workspace, s0, hw, hpc, hws, hpw, created, hlast, hid, hname⟩ :=
      CreateProject_ok_spec api projectName workspaceName clientName s s1 project h
    obtain ⟨hmem, -, -, -⟩ := GetWorkspaceByName_ok api.recording workspaceName s s0 workspace hw
    refine ⟨hpc, ?_, workspace, s0, created, hw, hlast, hid, hname, hpw⟩
    rw [← hws] at hmem
    cases hl : s1.workspacesCache with
    | nil => rw [hl] at hmem; simp at hmem
    | cons first others =>
      obtain ⟨rest, hrest⟩ := GetProjects_first_request api s1 hpc first others hl
      exact ⟨first.ID, rest, hrest⟩

theorem Kept.kept_refl {σ : Type} (s : Repositories (σ × List RemoteCall)) : Kept s s :=
  ⟨fun _ => ⟨rfl, rfl⟩, fun _ => ⟨rfl, rfl⟩, fun _ => ⟨rfl, rfl⟩⟩

theorem Kept.kept_trans {σ : Type} {s s1 s2 : Repositories (σ × List RemoteCall)}
    (h1 : Kept s s1) (h2 : Kept s1 s2) : Kept s s2 := by
  obtain ⟨a1, b1, c1⟩ := h1
  obtain ⟨a2, b2, c2⟩ := h2
  refine ⟨fun h => ?_, fun h => ?_, fun h => ?_⟩
  · obtain ⟨e1, l1⟩ := a1 h
    obtain ⟨e2, l2⟩ := a2 (by rw [e1]; exact h)
    exact ⟨e2.trans e1, l2.trans l1⟩
  · obtain ⟨e1, l1⟩ := b1 h
    obtain ⟨e2, l2⟩ := b2 (by rw [e1]; exact h)
    exact ⟨e2.trans e1, l2.trans l1⟩
  · obtain ⟨e1, l1⟩ := c1 h
    obtain ⟨e2, l2⟩ := c2 (by rw [e1]; exact h)
    exact ⟨e2.trans e1, l2.trans l1⟩

theorem workspaceListings_append (a b : List RemoteCall) :
    workspaceListings (a ++ b) = workspaceListings a + workspaceListings b := by
  simp [workspaceListings]

theorem clientListings_append (a b : List RemoteCall) :
    clientListings (a ++ b) = clientListings a + clientListings b := by
  simp [clientListings]

theorem projectListings_append (a b : List RemoteCall) :
    projectListings (a ++ b) = projectListings a + projectListings b := by
  simp [projectListings]

/-- A request that is not the listing behind a populated cache, followed by an
update of caches that were empty, keeps what `Kept` asks for. -/
theorem Kept.of_request {σ : Type} (s s1 : Repositories (σ × List RemoteCall))
    (call : RemoteCall) (hr : s1.remote.2 = s.remote.2 ++ [call])
    (hw : s.workspacesCache ≠ [] →
      s1.workspacesCache = s.workspacesCache ∧ workspaceListings [call] = 0)
    (hc : s.clientsCache ≠ [] →
      s1.clientsCache = s.clientsCache ∧ clientListings [call] = 0)
    (hp : s.projectsCache ≠ [] →
      s1.projectsCache = s.projectsCache ∧ projectListings [call] = 0) :
    Kept s s1 := by
  refine ⟨fun h => ?_, fun h => ?_, fun h => ?_⟩
  · exact ⟨(hw h).1, by rw [hr, workspaceListings_append, (hw h).2]; rfl⟩
  · exact ⟨(hc h).1, by rw [hr, clientListings_append, (hc h).2]; rfl⟩
  · exact ⟨(hp h).1, by rw [hr, projectListings_append, (hp h).2]; rfl⟩

/-- GetWorkspaces keeps the populated caches and sends no request behind them. -/
theorem GetWorkspaces_kept {σ : Type} (api : model.TogglAPI σ)
    (s : Repositories (σ × List RemoteCall)) :
    Kept s (WorkspaceRepository.GetWorkspaces api.recording s).2 := by
  unfold WorkspaceRepository.GetWorkspaces
  split_ifs with hc
  · exact Kept.kept_refl s
  · have hcache : s.workspacesCache = [] := by simpa using hc
    simp only [model.TogglAPI.recording, traced]
    rcases h : api.GetWorkspaces s.remote.1 with ⟨r, remote⟩
    cases r with
    | error e =>
      exact Kept.of_request _ _ (.GetWorkspaces (.error e)) rfl (fun h => absurd hcache h)
        (fun _ => ⟨rfl, rfl⟩) (fun _ => ⟨rfl, rfl⟩)
    | ok list =>
      exact Kept.of_request _ _ (.GetWorkspaces (.ok list)) rfl (fun h => absurd hcache h)
        (fun _ => ⟨rfl, rfl⟩) (fun _ => ⟨rfl, rfl⟩)

/-- The loop of GetClients keeps the populated caches and sends no request
behind them. -/
theorem GetClients_loop_kept {σ : Type} (api : model.TogglAPI σ) :
    ∀ (clients : List model.Client) (clientModels : List Client)
      (s : Repositories (σ × List RemoteCall)),
      Kept s (ClientRepository.GetClients.loop api.recording clients clientModels s).2 := by
  intro clients
  induction clients with
  | nil => intro _ s; exact Kept.kept_refl s
  | cons client rest ih =>
    intro clientModels s
    have h := GetWorkspaces_kept api s
    rw [← GetWorkspaceByID_state api.recording client.WorkspaceID] at h
    unfold ClientRepository.GetClients.loop
    rcases hg : WorkspaceRepository.GetWorkspaceByID api.recording client.WorkspaceID s
      with ⟨r, s1⟩
    rw [hg] at h
    cases r with
    | error e => exact h
    | ok workspace => exact h.kept_trans (ih _ s1)

/-- GetClients keeps the populated caches and sends no request behind them. -/
theorem GetClients_kept {σ : Type} (api : model.TogglAPI σ)
    (s : Repositories (σ × List RemoteCall)) :
    Kept s (ClientRepository.GetClients api.recording s).2 := by
  unfold ClientRepository.GetClients
  split_ifs with hc
  · exact Kept.kept_refl s
  · have hcache : s.clientsCache = [] := by simpa using hc
    rcases hg : api.recording.GetClients s.remote with ⟨r, remote⟩
    have hrem : remote.2 = s.remote.2 ++ [.GetClients (api.GetClients s.remote.1).1] := by
      simp only [model.TogglAPI.recording, traced, Prod.mk.injEq] at hg
      rw [← hg.2]
    have hq : Kept s { s with remote := remote } :=
      Kept.of_request _ _ _ hrem (fun _ => ⟨rfl, rfl⟩) (fun h => absurd hcache h)
        (fun _ => ⟨rfl, rfl⟩)
    cases r with
    | error e => exact hq
    | ok clients =>
      simp only
      have hl := GetClients_loop_kept api clients [] { s with remote := remote }
      rcases hg2 : ClientRepository.GetClients.loop api.recording clients []
        { s with remote := remote } with ⟨r1, s1⟩
      rw [hg2] at hl
      cases r1 with
      | error e => exact hq.kept_trans hl
      | ok clientModels =>
        refine hq.kept_trans (hl.kept_trans ?_)
        have hs1 : s1.clientsCache = [] := by
          have := (GetClients_loop_frame api.recording clients [] { s with remote := remote }).1
          rw [hg2] at this
          exact this.trans hcache
        exact ⟨fun _ => ⟨rfl, rfl⟩, fun h => absurd hs1 h, fun _ => ⟨rfl, rfl⟩⟩

/-- The inner loop of GetProjects leaves the projects cache as it is. -/
theorem GetProjects_inner_frame {σ : Type} (api : model.TogglAPI σ) (workspace : Workspace) :
    ∀ (models : List model.Project) (projects : List Project) (s : Repositories σ),
      (ProjectRepository.GetProjects.inner api workspace models projects s).2.projectsCache
        = s.projectsCache := by
  intro models
  induction models with
  | nil => intro _ s; rfl
  | cons projectModel rest ih =>
    intro projects s
    unfold ProjectRepository.GetProjects.inner
    simp only
    split_ifs
    · have h := (GetClients_frame api s).1
      rw [← GetClientByID_state api projectModel.ClientID] at h
      rcases hg : ClientRepository.GetClientByID api projectModel.ClientID s with ⟨r, s1⟩
      rw [hg] at h
      cases r with
      | error e => exact h
      | ok client => exact (ih _ s1).trans h
    · exact ih _ s

/-- The outer loop of GetProjects leaves the projects cache as it is. -/
theorem GetProjects_outer_frame {σ : Type} (api : model.TogglAPI σ) :
    ∀ (workspaces : List Workspace) (projects : List Project) (s : Repositories σ),
      (ProjectRepository.GetProjects.outer api workspaces projects s).2.projectsCache
        = s.projectsCache := by
  intro workspaces
  induction workspaces with
  | nil => intro _ s; rfl
  | cons workspace rest ih =>
    intro projects s
    unfold ProjectRepository.GetProjects.outer
    rcases hg : api.GetProjects workspace.ID s.remote with ⟨r, remote⟩
    cases r with
    | error e => rfl
    | ok models =>
      simp only
      have hi := GetProjects_inner_frame api workspace models projects { s with remote := remote }
      rcases hg2 : ProjectRepository.GetProjects.inner api workspace models projects
        { s with remote := remote } with ⟨r1, s1⟩
      rw [hg2] at hi
      cases r1 with
      | error e => exact hi
      | ok projects1 => exact (ih _ s1).trans hi

/-- The inner loop of GetProjects keeps the populated caches and sends no request
behind them. -/
theorem GetProjects_inner_kept {σ : Type} (api : model.TogglAPI σ) (workspace : Workspace) :
    ∀ (models : List model.Project) (projects : List Project)
      (s : Repositories (σ × List RemoteCall)),
      Kept s (ProjectRepository.GetProjects.inner api.recording workspace models projects s).2 := by
  intro models
  induction models with
  | nil => intro _ s; exact Kept.kept_refl s
  | cons projectModel rest ih =>
    intro projects s
    unfold ProjectRepository.GetProjects.inner
    simp only
    split_ifs
    · have h := GetClients_kept api s
      rw [← GetClientByID_state api.recording projectModel.ClientID] at h
      rcases hg : ClientRepository.GetClientByID api.recording projectModel.ClientID s
        with ⟨r, s1⟩
      rw [hg] at h
      cases r with
      | error e => exact h
      | ok client => exact h.kept_trans (ih _ s1)
    · exact ih _ s

/-- The outer loop of GetProjects, run with an empty projects cache, keeps the
populated caches and sends no request behind them. -/
theorem GetProjects_outer_kept {σ : Type} (api : model.TogglAPI σ) :
    ∀ (workspaces : List Workspace) (projects : List Project)
      (s : Repositories (σ × List RemoteCall)), s.projectsCache = [] →
      Kept s (ProjectRepository.GetProjects.outer api.recording workspaces projects s).2 := by
  intro workspaces
  induction workspaces with
  | nil => intro _ s _; exact Kept.kept_refl s
  | cons workspace rest ih =>
    intro projects s hcache
    unfold ProjectRepository.GetProjects.outer
    rcases hg : api.recording.GetProjects workspace.ID s.remote with ⟨r, remote⟩
    have hrem : remote.2
        = s.remote.2 ++ [.GetProjects workspace.ID (api.GetProjects workspace.ID s.remote.1).1] := by
      simp only [model.TogglAPI.recording, traced, Prod.mk.injEq] at hg
      rw [← hg.2]
    have hq : Kept s { s with remote := remote } :=
      Kept.of_request _ _ _ hrem (fun _ => ⟨rfl, rfl⟩) (fun _ => ⟨rfl, rfl⟩)
        (fun h => absurd hcache h)
    cases r with
    | error e => exact hq
    | ok models =>
      simp only
      have hi := GetProjects_inner_kept api workspace models projects { s with remote := remote }
      rcases hg2 : ProjectRepository.GetProjects.inner api.recording workspace models projects
        { s with remote := remote } with ⟨r1, s1⟩
      rw [hg2] at hi
      cases r1 with
      | error e => exact hq.kept_trans hi
      | ok projects1 =>
        simp only
        have hs1 : s1.projectsCache = [] := by
          have := GetProjects_inner_frame api.recording workspace models projects
            { s with remote := remote }
          rw [hg2] at this
          exact this.trans hcache
        exact (hq.kept_trans hi).kept_trans (ih _ s1 hs1)


/-- GetProjects keeps the populated caches and sends no request behind them. -/
theorem GetProjects_kept {σ : Type} (api : model.TogglAPI σ)
    (s : Repositories (σ × List RemoteCall)) :
    Kept s (ProjectRepository.GetProjects api.recording s).2 := by
  unfold ProjectRepository.GetProjects
  split_ifs with hc
  · exact Kept.kept_refl s
  · have hcache : s.projectsCache = [] := by simpa using hc
    have h := GetWorkspaces_kept api s
    have hf := (GetWorkspaces_frame api.recording s).2.1
    rcases hg : WorkspaceRepository.GetWorkspaces api.recording s with ⟨r, s1⟩
    rw [hg] at h hf
    simp only at hf
    cases r with
    | error e => exact h
    | ok workspaces =>
      simp only
      have ho := GetProjects_outer_kept api workspaces [] s1 (hf.trans hcache)
      have hof := GetProjects_outer_frame api.recording workspaces [] s1
      rcases hg2 : ProjectRepository.GetProjects.outer api.recording workspaces [] s1
        with ⟨r1, s2⟩
      rw [hg2] at ho hof
      simp only at hof
      cases r1 with
      | error e => exact h.kept_trans ho
      | ok projects =>
        refine h.kept_trans (ho.kept_trans ?_)
        have hs2 : s2.projectsCache = [] := hof.trans (hf.trans hcache)
        exact ⟨fun _ => ⟨rfl, rfl⟩, fun _ => ⟨rfl, rfl⟩, fun h => absurd hs2 h⟩

/-- An operation that is not a Create call of a repository keeps the populated
caches and sends no request to the listing behind a populated cache. -/
theorem Operation_run_kept {σ : Type} (api : model.TogglAPI σ) (operation : Operation)
    (h : operation.isCreate = false) (s : Repositories (σ × List RemoteCall)) :
    Kept s (operation.run api.recording s) := by
  cases operation with
  | repository call =>
    cases call with
    | CreateWorkspace name => exact Kept.kept_refl s
    | GetWorkspaces => exact GetWorkspaces_kept api s
    | GetWorkspaceByID workspaceID =>
      simp only [Operation.run, RepositoryCall.run, GetWorkspaceByID_state]
      exact GetWorkspaces_kept api s
    | GetWorkspaceByName workspaceName =>
      simp only [Operation.run, RepositoryCall.run, GetWorkspaceByName_state]
      exact GetWorkspaces_kept api s
    | CreateProject projectName workspaceName clientName => simp [Operation.isCreate, RepositoryCall.isCreate] at h
    | GetProjects => exact GetProjects_kept api s
    | GetProjectByID projectID =>
      simp only [Operation.run, RepositoryCall.run, GetProjectByID_state]
      exact GetProjects_kept api s
    | GetProjectByName projectName workspaceName clientName =>
      simp only [Operation.run, RepositoryCall.run, GetProjectByName_state]
      exact GetProjects_kept api s
    | CreateClient workspaceID name => simp [Operation.isCreate, RepositoryCall.isCreate] at h
    | GetClients => exact GetClients_kept api s
    | GetClientByID clientID =>
      simp only [Operation.run, RepositoryCall.run, GetClientByID_state]
      exact GetClients_kept api s
    | GetClientByName workspaceName clientName =>
      simp only [Operation.run, RepositoryCall.run, GetClientByName_state]
      exact GetClients_kept api s
  | CreateTimeEntry timeEntry =>
    exact Kept.of_request _ _ (.CreateTimeEntry timeEntry (api.CreateTimeEntry timeEntry s.remote.1).1)
      rfl (fun _ => ⟨rfl, rfl⟩) (fun _ => ⟨rfl, rfl⟩) (fun _ => ⟨rfl, rfl⟩)
  | GetTimeEntries start stop =>
    exact Kept.of_request _ _ (.GetTimeEntries start stop (api.GetTimeEntries start stop s.remote.1).1)
      rfl (fun _ => ⟨rfl, rfl⟩) (fun _ => ⟨rfl, rfl⟩) (fun _ => ⟨rfl, rfl⟩)

/-- Operations that are not Create calls keep the populated caches and send no
request to the listing behind a populated cache. -/
theorem runAll_kept {σ : Type} (api : model.TogglAPI σ) :
    ∀ (operations : List Operation), (∀ operation ∈ operations, operation.isCreate = false) →
      ∀ s : Repositories (σ × List RemoteCall), Kept s (runAll api.recording operations s) := by
  intro operations
  induction operations with
  | nil => intro _ s; exact Kept.kept_refl s
  | cons operation rest ih =>
    intro h s
    simp only [runAll, List.foldl_cons]
    exact (Operation_run_kept api operation (h operation (by simp)) s).kept_trans
      (ih (fun o ho => h o (by simp [ho])) _)

theorem Sent.sent_refl {σ : Type} (s : Repositories (σ × List RemoteCall)) : Sent s s [] := by
  simp [Sent]

theorem Sent.sent_trans {σ : Type} {s s1 s2 : Repositories (σ × List RemoteCall)}
    {a b : List RemoteCall} (h1 : Sent s s1 a) (h2 : Sent s1 s2 b) : Sent s s2 (a ++ b) := by
  unfold Sent at *
  rw [h2, h1, List.append_assoc]

/-- GetWorkspaces sends at most one request, to the workspace listing. -/
theorem GetWorkspaces_sent {σ : Type} (api : model.TogglAPI σ)
    (s : Repositories (σ × List RemoteCall)) :
    ∃ calls, Sent s (WorkspaceRepository.GetWorkspaces api.recording s).2 calls
      ∧ workspaceListings calls ≤ 1 ∧ clientListings calls = 0 ∧ projectListings calls = 0 := by
  unfold WorkspaceRepository.GetWorkspaces
  split_ifs
  · exact ⟨[], Sent.sent_refl s, by decide, rfl, rfl⟩
  · simp only [model.TogglAPI.recording, traced]
    rcases h : api.GetWorkspaces s.remote.1 with ⟨r, remote⟩
    cases r <;> exact ⟨[_], rfl, le_refl _, rfl, rfl⟩

/-- The loop of GetClients sends requests to the workspace listing only. -/
theorem GetClients_loop_sent {σ : Type} (api : model.TogglAPI σ) :
    ∀ (clients : List model.Client) (clientModels : List Client)
      (s : Repositories (σ × List RemoteCall)),
      ∃ calls, Sent s (ClientRepository.GetClients.loop api.recording clients clientModels s).2
          calls
        ∧ clientListings calls = 0 ∧ projectListings calls = 0 := by
  intro clients
  induction clients with
  | nil => intro _ s; exact ⟨[], Sent.sent_refl s, rfl, rfl⟩
  | cons client rest ih =>
    intro clientModels s
    obtain ⟨c1, h1, -, hc1, hp1⟩ := GetWorkspaces_sent api s
    rw [← GetWorkspaceByID_state api.recording client.WorkspaceID] at h1
    unfold ClientRepository.GetClients.loop
    rcases hg : WorkspaceRepository.GetWorkspaceByID api.recording client.WorkspaceID s
      with ⟨r, s1⟩
    rw [hg] at h1
    cases r with
    | error e => exact ⟨c1, h1, hc1, hp1⟩
    | ok workspace =>
      obtain ⟨c2, h2, hc2, hp2⟩ := ih _ s1
      exact ⟨c1 ++ c2, h1.sent_trans h2, by rw [clientListings_append, hc1, hc2],
        by rw [projectListings_append, hp1, hp2]⟩

/-- GetClients sends at most one request to the client listing, and none to the
project listing. -/
theorem GetClients_sent {σ : Type} (api : model.TogglAPI σ)
    (s : Repositories (σ × List RemoteCall)) :
    ∃ calls, Sent s (ClientRepository.GetClients api.recording s).2 calls
      ∧ clientListings calls ≤ 1 ∧ projectListings calls = 0 := by
  unfold ClientRepository.GetClients
  split_ifs
  · exact ⟨[], Sent.sent_refl s, by decide, rfl⟩
  · rcases hg : api.recording.GetClients s.remote with ⟨r, remote⟩
    have hrem : Sent s { s with remote := remote }
        [.GetClients (api.GetClients s.remote.1).1] := by
      simp only [model.TogglAPI.recording, traced, Prod.mk.injEq] at hg
      unfold Sent
      rw [← hg.2]
    cases r with
    | error e => exact ⟨_, hrem, le_refl _, rfl⟩
    | ok clients =>
      simp only
      obtain ⟨c2, h2, hc2, hp2⟩ := GetClients_loop_sent api clients [] { s with remote := remote }
      rcases hg2 : ClientRepository.GetClients.loop api.recording clients []
        { s with remote := remote } with ⟨r1, s1⟩
      rw [hg2] at h2
      have hcount : clientListings ([.GetClients (api.GetClients s.remote.1).1] ++ c2) ≤ 1 := by
        rw [clientListings_append, hc2]
        exact le_refl _
      have hcount2 : projectListings ([.GetClients (api.GetClients s.remote.1).1] ++ c2) = 0 := by
        rw [projectListings_append, hp2]
        rfl
      cases r1 with
      | error e => exact ⟨_, hrem.sent_trans h2, hcount, hcount2⟩
      | ok clientModels => exact ⟨_, hrem.sent_trans h2, hcount, hcount2⟩

/-- The inner loop of GetProjects sends no request to the project listing. -/
theorem GetProjects_inner_sent {σ : Type} (api : model.TogglAPI σ) (workspace : Workspace) :
    ∀ (models : List model.Project) (projects : List Project)
      (s : Repositories (σ × List RemoteCall)),
      ∃ calls, Sent s
          (ProjectRepository.GetProjects.inner api.recording workspace models projects s).2 calls
        ∧ projectListings calls = 0 := by
  intro models
  induction models with
  | nil => intro _ s; exact ⟨[], Sent.sent_refl s, rfl⟩
  | cons projectModel rest ih =>
    intro projects s
    unfold ProjectRepository.GetProjects.inner
    simp only
    split_ifs
    · obtain ⟨c1, h1, -, hp1⟩ := GetClients_sent api s
      rw [← GetClientByID_state api.recording projectModel.ClientID] at h1
      rcases hg : ClientRepository.GetClientByID api.recording projectModel.ClientID s
        with ⟨r, s1⟩
      rw [hg] at h1
      cases r with
      | error e => exact ⟨c1, h1, hp1⟩
      | ok client =>
        obtain ⟨c2, h2, hp2⟩ := ih _ s1
        exact ⟨c1 ++ c2, h1.sent_trans h2, by rw [projectListings_append, hp1, hp2]⟩
    · exact ih _ s

/-- The outer loop of GetProjects sends at most one request to the project
listing for each workspace. -/
theorem GetProjects_outer_sent {σ : Type} (api : model.TogglAPI σ) :
    ∀ (workspaces : List Workspace) (projects : List Project)
      (s : Repositories (σ × List RemoteCall)),
      ∃ calls, Sent s (ProjectRepository.GetProjects.outer api.recording workspaces projects s).2
          calls
        ∧ projectListings calls ≤ workspaces.length := by
  intro workspaces
  induction workspaces with
  | nil => intro _ s; exact ⟨[], Sent.sent_refl s, le_refl _⟩
  | cons workspace rest ih =>
    intro projects s
    unfold ProjectRepository.GetProjects.outer
    rcases hg : api.recording.GetProjects workspace.ID s.remote with ⟨r, remote⟩
    have hrem : Sent s { s with remote := remote }
        [.GetProjects workspace.ID (api.GetProjects workspace.ID s.remote.1).1] := by
      simp only [model.TogglAPI.recording, traced, Prod.mk.injEq] at hg
      unfold Sent
      rw [← hg.2]
    have one : projectListings
        [.GetProjects workspace.ID (api.GetProjects workspace.ID s.remote.1).1] = 1 := rfl
    cases r with
    | error e =>
      refine ⟨_, hrem, ?_⟩
      rw [one, List.length_cons]
      omega
    | ok models =>
      simp only
      obtain ⟨c2, h2, hp2⟩ := GetProjects_inner_sent api workspace models projects
        { s with remote := remote }
      rcases hg2 : ProjectRepository.GetProjects.inner api.recording workspace models projects
        { s with remote := remote } with ⟨r1, s1⟩
      rw [hg2] at h2
      cases r1 with
      | error e =>
        refine ⟨_, hrem.sent_trans h2, ?_⟩
        rw [projectListings_append, one, hp2, List.length_cons]
        omega
      | ok projects1 =>
        obtain ⟨c3, h3, hp3⟩ := ih projects1 s1
        refine ⟨_, (hrem.sent_trans h2).sent_trans h3, ?_⟩
        rw [projectListings_append, projectListings_append, one, hp2, List.length_cons]
        omega

/-- GetProjects sends at most one request to the project listing for each
workspace that GetWorkspaces returns. -/
theorem GetProjects_sent {σ : Type} (api : model.TogglAPI σ)
    (s : Repositories (σ × List RemoteCall)) :
    ∃ calls, Sent s (ProjectRepository.GetProjects api.recording s).2 calls
      ∧ ∀ workspaces, (WorkspaceRepository.GetWorkspaces api.recording s).1 = .ok workspaces →
          projectListings calls ≤ workspaces.length := by
  unfold ProjectRepository.GetProjects
  split_ifs
  · exact ⟨[], Sent.sent_refl s, fun _ _ => Nat.zero_le _⟩
  · obtain ⟨c1, h1, -, -, hp1⟩ := GetWorkspaces_sent api s
    rcases hg : WorkspaceRepository.GetWorkspaces api.recording s with ⟨r, s1⟩
    rw [hg] at h1
    cases r with
    | error e => exact ⟨c1, h1, fun _ hw => by simp at hw⟩
    | ok workspaces =>
      simp only
      obtain ⟨c2, h2, hp2⟩ := GetProjects_outer_sent api workspaces [] s1
      rcases hg2 : ProjectRepository.GetProjects.outer api.recording workspaces [] s1
        with ⟨r1, s2⟩
      rw [hg2] at h2
      have hcount : ∀ ws, (Except.ok workspaces : Except Error (List Workspace)) = .ok ws →
          projectListings (c1 ++ c2) ≤ ws.length := by
        intro ws hws
        cases hws
        rw [projectListings_append, hp1]
        omega
      cases r1 with
      | error e => exact ⟨_, h1.sent_trans h2, hcount⟩
      | ok projects => exact ⟨_, h1.sent_trans h2, hcount⟩

/-- C13 (counterexample): an API that returns the empty list is asked again by
every GetAll call.  On the account `emptyAccount` (no client, no project) two
GetClients calls in a row both succeed with the empty list and both request the
client listing; two GetProjects calls in a row both request the project listing
of the workspace; on the account `noWorkspaces` two GetWorkspaces calls in a row
both request the workspace listing. -/
theorem C13_GetAll_cache_counterexample :
    (ClientRepository.GetClients idealAPI.recording (Repositories.fresh (emptyAccount, []))).1
        = .ok []
    ∧ ClientRepository.GetClients idealAPI.recording
          (ClientRepository.GetClients idealAPI.recording
            (Repositories.fresh (emptyAccount, []))).2
        = (.ok [],
            Repositories.fresh (emptyAccount, [.GetClients (.ok []), .GetClients (.ok [])]))
    ∧ (ProjectRepository.GetProjects idealAPI.recording
          (Repositories.fresh (emptyAccount, []))).1 = .ok []
    ∧ ProjectRepository.GetProjects idealAPI.recording
          (ProjectRepository.GetProjects idealAPI.recording
            (Repositories.fresh (emptyAccount, []))).2
        = (.ok [],
            { remote := (emptyAccount,
                [.GetWorkspaces (.ok [{ ID := 1, Name := "Workspace" }]),
                 .GetProjects 1 (.ok []), .GetProjects 1 (.ok [])]),
              workspacesCache := [{ ID := 1, Name := "Workspace" }],
              clientsCache := [], projectsCache := [] })
    ∧ (WorkspaceRepository.GetWorkspaces idealAPI.recording
          (Repositories.fresh (noWorkspaces, []))).1 = .ok []
    ∧ WorkspaceRepository.GetWorkspaces idealAPI.recording
          (WorkspaceRepository.GetWorkspaces idealAPI.recording
            (Repositories.fresh (noWorkspaces, []))).2
        = (.ok [],
            Repositories.fresh (noWorkspaces,
              [.GetWorkspaces (.ok []), .GetWorkspaces (.ok [])])) := by
  decide

/-- C13 (amended): over the repositories of any API that records its requests,
from any state, for each of GetWorkspaces, GetClients and GetProjects: once the
call has succeeded with a list that is not empty, then after any operations that
are not Create calls of a repository (reads of the three repositories, requests
to the time entry API), the same call returns the same list and leaves the state
as it is, so it sends no request; and none of those operations sent a request to
the listing endpoint of that repository.  The successful call itself sent at
most one request to the workspace listing (GetWorkspaces), at most one to the
client listing (GetClients), at most one per workspace to the project listing
(GetProjects).  On the account `smallAccount` two GetClients calls send one
request to the client listing. -/
theorem C13_GetAll_cached {σ : Type} (api : model.TogglAPI σ)
    (s : Repositories (σ × List RemoteCall)) :
    (∀ list s1, WorkspaceRepository.GetWorkspaces api.recording s = (.ok list, s1) → list ≠ [] →
      workspaceListings s1.remote.2 ≤ workspaceListings s.remote.2 + 1
      ∧ ∀ operations, (∀ operation ∈ operations, Operation.isCreate operation = false) →
        WorkspaceRepository.GetWorkspaces api.recording (runAll api.recording operations s1)
          = (.ok list, runAll api.recording operations s1)
        ∧ workspaceListings (runAll api.recording operations s1).remote.2
          = workspaceListings s1.remote.2)
    ∧ (∀ list s1, ClientRepository.GetClients api.recording s = (.ok list, s1) → list ≠ [] →
      clientListings s1.remote.2 ≤ clientListings s.remote.2 + 1
      ∧ ∀ operations, (∀ operation ∈ operations, Operation.isCreate operation = false) →
        ClientRepository.GetClients api.recording (runAll api.recording operations s1)
          = (.ok list, runAll api.recording operations s1)
        ∧ clientListings (runAll api.recording operations s1).remote.2
          = clientListings s1.remote.2)
    ∧ (∀ list s1, ProjectRepository.GetProjects api.recording s = (.ok list, s1) → list ≠ [] →
      (∀ workspaces, (WorkspaceRepository.GetWorkspaces api.recording s).1 = .ok workspaces →
        projectListings s1.remote.2 ≤ projectListings s.remote.2 + workspaces.length)
      ∧ ∀ operations, (∀ operation ∈ operations, Operation.isCreate operation = false) →
        ProjectRepository.GetProjects api.recording (runAll api.recording operations s1)
          = (.ok list, runAll api.recording operations s1)
        ∧ projectListings (runAll api.recording operations s1).remote.2
          = projectListings s1.remote.2)
    ∧ clientListings (ClientRepository.GetClients idealAPI.recording
        (ClientRepository.GetClients idealAPI.recording
          (Repositories.fresh (smallAccount, []))).2).2.remote.2 = 1 := by
  refine ⟨?_, ?_, ?_, by decide⟩
  · intro list s1 h hne
    have hcache : s1.workspacesCache = list := by
      have := (GetWorkspaces_frame api.recording s).2.2 list (by rw [h]) hne
      rw [h] at this
      exact this
    constructor
    · obtain ⟨calls, hs, hc, -, -⟩ := GetWorkspaces_sent api s
      rw [h] at hs
      unfold Sent at hs
      simp only at hs
      rw [hs, workspaceListings_append]
      omega
    · intro operations hops
      obtain ⟨hk, -, -⟩ := runAll_kept api operations hops s1
      obtain ⟨hc2, hl2⟩ := hk (by rw [hcache]; exact hne)
      refine ⟨?_, hl2⟩
      rw [GetWorkspaces_cached api.recording _ (by rw [hc2, hcache]; exact hne), hc2, hcache]
  · intro list s1 h hne
    have hcache : s1.clientsCache = list := by
      have := (GetClients_frame api.recording s).2.2.2 list (by rw [h]) hne
      rw [h] at this
      exact this
    constructor
    · obtain ⟨calls, hs, hc, -⟩ := GetClients_sent api s
      rw [h] at hs
      unfold Sent at hs
      simp only at hs
      rw [hs, clientListings_append]
      omega
    · intro operations hops
      obtain ⟨-, hk, -⟩ := runAll_kept api operations hops s1
      obtain ⟨hc2, hl2⟩ := hk (by rw [hcache]; exact hne)
      refine ⟨?_, hl2⟩
      rw [(GetClients_frame api.recording _).2.2.1 (by rw [hc2, hcache]; exact hne), hc2, hcache]
  · intro list s1 h hne
    have hcache : s1.projectsCache = list := by
      by_cases hc : s.projectsCache = []
      · unfold ProjectRepository.GetProjects at h
        simp only [hc, List.isEmpty_nil, Bool.not_true, Bool.false_eq_true, if_false] at h
        rcases hg : WorkspaceRepository.GetWorkspaces api.recording s with ⟨r, s0⟩
        rw [hg] at h
        cases r with
        | error e => simp at h
        | ok workspaces =>
          simp only at h
          rcases hg2 : ProjectRepository.GetProjects.outer api.recording workspaces [] s0
            with ⟨r1, s2⟩
          rw [hg2] at h
          cases r1 with
          | error e => simp at h
          | ok projects =>
            simp only [Prod.mk.injEq, Except.ok.injEq] at h
            rw [← h.2, ← h.1]
      · rw [GetProjects_cached api.recording s hc] at h
        simp only [Prod.mk.injEq, Except.ok.injEq] at h
        rw [← h.2, h.1]
    constructor
    · intro workspaces hw
      obtain ⟨calls, hs, hc⟩ := GetProjects_sent api s
      rw [h] at hs
      unfold Sent at hs
      simp only at hs
      have := hc workspaces hw
      rw [hs, projectListings_append]
      omega
    · intro operations hops
      obtain ⟨-, -, hk⟩ := runAll_kept api operations hops s1
      obtain ⟨hc2, hl2⟩ := hk (by rw [hcache]; exact hne)
      refine ⟨?_, hl2⟩
      rw [GetProjects_cached api.recording _ (by rw [hc2, hcache]; exact hne), hc2, hcache]

/-! ## What the caches hold -/

theorem CacheStep.step_refl {σ : Type} (api : model.TogglAPI σ) (s : Repositories σ) :
    CacheStep api s s :=
  ⟨Or.inl rfl, Or.inl rfl⟩

theorem CacheStep.step_trans {σ : Type} {api : model.TogglAPI σ} {s s1 s2 : Repositories σ}
    (h1 : CacheStep api s s1) (h2 : CacheStep api s1 s2) : CacheStep api s s2 := by
  obtain ⟨a1, b1⟩ := h1
  obtain ⟨a2, b2⟩ := h2
  constructor
  · rcases a2 with e | f
    · rcases a1 with e1 | f1
      · exact Or.inl (e.trans e1)
      · exact Or.inr (by rw [e]; exact f1)
    · exact Or.inr f
  · rcases b2 with e | f
    · rcases b1 with e1 | f1
      · exact Or.inl (e.trans e1)
      · exact Or.inr (by rw [e]; exact f1)
    · exact Or.inr f

/-- A step that leaves both caches as they are. -/
theorem CacheStep.of_frame {σ : Type} (api : model.TogglAPI σ) {s s1 : Repositories σ}
    (hc : s1.clientsCache = s.clientsCache) (hp : s1.projectsCache = s.projectsCache) :
    CacheStep api s s1 :=
  ⟨Or.inl hc, Or.inl hp⟩

/-- GetWorkspaces leaves the clients and projects caches as they are. -/
theorem GetWorkspaces_step {σ : Type} (api : model.TogglAPI σ) (s : Repositories σ) :
    CacheStep api s (WorkspaceRepository.GetWorkspaces api s).2 :=
  CacheStep.of_frame api (GetWorkspaces_frame api s).1 (GetWorkspaces_frame api s).2.1

/-- GetClients leaves the clients cache as it is or stores the complete list it
returns; it leaves the projects cache as it is. -/
theorem GetClients_step {σ : Type} (api : model.TogglAPI σ) (s : Repositories σ) :
    CacheStep api s (ClientRepository.GetClients api s).2 := by
  refine ⟨?_, Or.inl (GetClients_frame api s).1⟩
  by_cases hc : s.clientsCache = []
  · rcases hg : ClientRepository.GetClients api s with ⟨r, s1⟩
    cases r with
    | error e =>
      left
      unfold ClientRepository.GetClients at hg
      simp only [hc, List.isEmpty_nil, Bool.not_true, Bool.false_eq_true, if_false] at hg
      rcases ha : api.GetClients s.remote with ⟨ra, remote⟩
      rw [ha] at hg
      cases ra with
      | error e1 =>
        simp only [Prod.mk.injEq] at hg
        rw [← hg.2, hc]
      | ok clients =>
        simp only at hg
        have hf := (GetClients_loop_frame api clients []
          { s with remote := remote, clientsCache := [] }).1
        rcases hl : ClientRepository.GetClients.loop api clients []
          { s with remote := remote, clientsCache := [] } with ⟨rl, sl⟩
        rw [hl] at hg hf
        cases rl with
        | error e2 =>
          simp only [Prod.mk.injEq] at hg
          rw [← hg.2, hc]
          exact hf
        | ok clientModels => simp at hg
    | ok list =>
      right
      by_cases hl : list = []
      · left
        have hs1 : s1.clientsCache = s.clientsCache ∨ s1.clientsCache = list := by
          unfold ClientRepository.GetClients at hg
          simp only [hc, List.isEmpty_nil, Bool.not_true, Bool.false_eq_true, if_false] at hg
          rcases ha : api.GetClients s.remote with ⟨ra, remote⟩
          rw [ha] at hg
          cases ra with
          | error e1 => simp at hg
          | ok clients =>
            simp only at hg
            rcases hl2 : ClientRepository.GetClients.loop api clients []
              { s with remote := remote, clientsCache := [] } with ⟨rl, sl⟩
            rw [hl2] at hg
            cases rl with
            | error e2 => simp at hg
            | ok clientModels =>
              simp only [Prod.mk.injEq, Except.ok.injEq] at hg
              right
              rw [← hg.2, ← hg.1]
        rcases hs1 with h | h
        · exact h.trans hc
        · exact h.trans hl
      · have := (GetClients_frame api s).2.2.2 list (by rw [hg]) hl
        rw [hg] at this
        simp only at this
        rw [this]
        exact Or.inr ⟨s, s1, hc, hg⟩
  · left
    rw [(GetClients_frame api s).2.2.1 hc]

/-- GetProjects with an empty projects cache: the fetch. -/
theorem GetProjects_fetch {σ : Type} (api : model.TogglAPI σ) (s : Repositories σ)
    (h : s.projectsCache = []) :
    ProjectRepository.GetProjects api s
      = match WorkspaceRepository.GetWorkspaces api s with
        | (.error workspacesError, s1) =>
          (.error (Wrap workspacesError "Failed to retrieve workspaces"), s1)
        | (.ok workspaces, s1) =>
          match ProjectRepository.GetProjects.outer api workspaces [] s1 with
          | (.error err, s2) => (.error err, s2)
          | (.ok projects, s2) => (.ok projects, { s2 with projectsCache := projects }) := by
  unfold ProjectRepository.GetProjects
  simp only [h, List.isEmpty_nil, Bool.not_true, Bool.false_eq_true, if_false]

/-- GetClients with an empty clients cache: the fetch. -/
theorem GetClients_fetch {σ : Type} (api : model.TogglAPI σ) (s : Repositories σ)
    (h : s.clientsCache = []) :
    ClientRepository.GetClients api s
      = match api.GetClients s.remote with
        | (.error clientsError, remote) =>
          (.error (Wrap clientsError "Failed to get clients from Toggl"),
            { s with remote := remote })
        | (.ok clients, remote) =>
          match ClientRepository.GetClients.loop api clients [] { s with remote := remote } with
          | (.error err, s1) => (.error err, s1)
          | (.ok clientModels, s1) =>
            (.ok clientModels, { s1 with clientsCache := clientModels }) := by
  unfold ClientRepository.GetClients
  simp only [h, List.isEmpty_nil, Bool.not_true, Bool.false_eq_true, if_false]

/-- A GetClients call that fails leaves the clients cache as it is. -/
theorem GetClients_error_frame {σ : Type} (api : model.TogglAPI σ) (s s1 : Repositories σ)
    (e : Error) (h : ClientRepository.GetClients api s = (.error e, s1)) :
    s1.clientsCache = s.clientsCache := by
  by_cases hc : s.clientsCache = []
  · rw [GetClients_fetch api s hc] at h
    rcases ha : api.GetClients s.remote with ⟨ra, remote⟩
    rw [ha] at h
    cases ra with
    | error e1 =>
      simp only [Prod.mk.injEq] at h
      rw [← h.2]
    | ok clients =>
      simp only at h
      have hf := (GetClients_loop_frame api clients [] { s with remote := remote }).1
      rcases hl : ClientRepository.GetClients.loop api clients [] { s with remote := remote }
        with ⟨rl, sl⟩
      rw [hl] at h hf
      cases rl with
      | error e2 =>
        simp only [Prod.mk.injEq] at h
        rw [← h.2]
        exact hf
      | ok clientModels => simp at h
  · rw [(GetClients_frame api s).2.2.1 hc] at h
    simp at h

/-- A GetProjects call that fails leaves the projects cache as it is. -/
theorem GetProjects_error_frame {σ : Type} (api : model.TogglAPI σ) (s s1 : Repositories σ)
    (e : Error) (h : ProjectRepository.GetProjects api s = (.error e, s1)) :
    s1.projectsCache = s.projectsCache := by
  by_cases hc : s.projectsCache = []
  · rw [GetProjects_fetch api s hc] at h
    have hf := (GetWorkspaces_frame api s).2.1
    rcases ha : WorkspaceRepository.GetWorkspaces api s with ⟨ra, s0⟩
    rw [ha] at h hf
    cases ra with
    | error e1 =>
      simp only [Prod.mk.injEq] at h
      rw [← h.2]
      exact hf
    | ok workspaces =>
      simp only at h
      have ho := GetProjects_outer_frame api workspaces [] s0
      rcases hl : ProjectRepository.GetProjects.outer api workspaces [] s0 with ⟨rl, sl⟩
      rw [hl] at h ho
      cases rl with
      | error e2 =>
        simp only [Prod.mk.injEq] at h
        rw [← h.2]
        exact ho.trans hf
      | ok projects => simp at h
  · rw [GetProjects_cached api s hc] at h
    simp at h

/-- A successful GetProjects call leaves the projects cache as it is or stores
the list it returns. -/
theorem GetProjects_ok_cache {σ : Type} (api : model.TogglAPI σ) (s s1 : Repositories σ)
    (list : List Project) (h : ProjectRepository.GetProjects api s = (.ok list, s1)) :
    s1.projectsCache = list := by
  by_cases hc : s.projectsCache = []
  · rw [GetProjects_fetch api s hc] at h
    rcases ha : WorkspaceRepository.GetWorkspaces api s with ⟨ra, s0⟩
    rw [ha] at h
    cases ra with
    | error e1 => simp at h
    | ok workspaces =>
      simp only at h
      rcases hl : ProjectRepository.GetProjects.outer api workspaces [] s0 with ⟨rl, sl⟩
      rw [hl] at h
      cases rl with
      | error e2 => simp at h
      | ok projects =>
        simp only [Prod.mk.injEq, Except.ok.injEq] at h
        rw [← h.2, ← h.1]
  · rw [GetProjects_cached api s hc] at h
    simp only [Prod.mk.injEq, Except.ok.injEq] at h
    rw [← h.2, h.1]

/-- A successful GetClients call leaves the list it returns in the clients cache. -/
theorem GetClients_ok_cache {σ : Type} (api : model.TogglAPI σ) (s s1 : Repositories σ)
    (list : List Client) (h : ClientRepository.GetClients api s = (.ok list, s1)) :
    s1.clientsCache = list := by
  by_cases hc : s.clientsCache = []
  · rw [GetClients_fetch api s hc] at h
    rcases ha : api.GetClients s.remote with ⟨ra, remote⟩
    rw [ha] at h
    cases ra with
    | error e1 => simp at h
    | ok clients =>
      simp only at h
      rcases hl : ClientRepository.GetClients.loop api clients [] { s with remote := remote }
        with ⟨rl, sl⟩
      rw [hl] at h
      cases rl with
      | error e2 => simp at h
      | ok clientModels =>
        simp only [Prod.mk.injEq, Except.ok.injEq] at h
        rw [← h.2, ← h.1]
  · rw [(GetClients_frame api s).2.2.1 hc] at h
    simp only [Prod.mk.injEq, Except.ok.injEq] at h
    rw [← h.2, h.1]

/-- The inner loop of GetProjects leaves the clients cache as it is or stores a
complete list of clients; it leaves the projects cache as it is. -/
theorem GetProjects_inner_step {σ : Type} (api : model.TogglAPI σ) (workspace : Workspace) :
    ∀ (models : List model.Project) (projects : List Project) (s : Repositories σ),
      CacheStep api s (ProjectRepository.GetProjects.inner api workspace models projects s).2 := by
  intro models
  induction models with
  | nil => intro _ s; exact CacheStep.step_refl api s
  | cons projectModel rest ih =>
    intro projects s
    unfold ProjectRepository.GetProjects.inner
    simp only
    split_ifs
    · have h := GetClients_step api s
      rw [← GetClientByID_state api projectModel.ClientID] at h
      rcases hg : ClientRepository.GetClientByID api projectModel.ClientID s with ⟨r, s1⟩
      rw [hg] at h
      cases r with
      | error e => exact h
      | ok client => exact h.step_trans (ih _ s1)
    · exact ih _ s

/-- The outer loop of GetProjects leaves the clients cache as it is or stores a
complete list of clients; it leaves the projects cache as it is. -/
theorem GetProjects_outer_step {σ : Type} (api : model.TogglAPI σ) :
    ∀ (workspaces : List Workspace) (projects : List Project) (s : Repositories σ),
      CacheStep api s (ProjectRepository.GetProjects.outer api workspaces projects s).2 := by
  intro workspaces
  induction workspaces with
  | nil => intro _ s; exact CacheStep.step_refl api s
  | cons workspace rest ih =>
    intro projects s
    unfold ProjectRepository.GetProjects.outer
    rcases hg : api.GetProjects workspace.ID s.remote with ⟨r, remote⟩
    have hq : CacheStep api s { s with remote := remote } := CacheStep.of_frame api rfl rfl
    cases r with
    | error e => exact hq
    | ok models =>
      simp only
      have hi := GetProjects_inner_step api workspace models projects { s with remote := remote }
      rcases hg2 : ProjectRepository.GetProjects.inner api workspace models projects
        { s with remote := remote } with ⟨r1, s1⟩
      rw [hg2] at hi
      cases r1 with
      | error e => exact hq.step_trans hi
      | ok projects1 => exact (hq.step_trans hi).step_trans (ih _ s1)

/-- GetProjects leaves each cache as it is or stores a complete list in it. -/
theorem GetProjects_step {σ : Type} (api : model.TogglAPI σ) (s : Repositories σ) :
    CacheStep api s (ProjectRepository.GetProjects api s).2 := by
  by_cases hc : s.projectsCache = []
  · have hclients : (ProjectRepository.GetProjects api s).2.clientsCache = s.clientsCache
        ∨ FetchedClients api (ProjectRepository.GetProjects api s).2.clientsCache := by
      rw [GetProjects_fetch api s hc]
      have h := GetWorkspaces_step api s
      rcases hg : WorkspaceRepository.GetWorkspaces api s with ⟨r, s0⟩
      rw [hg] at h
      cases r with
      | error e => exact h.1
      | ok workspaces =>
        simp only
        have ho := GetProjects_outer_step api workspaces [] s0
        rcases hg2 : ProjectRepository.GetProjects.outer api workspaces [] s0 with ⟨r1, s2⟩
        rw [hg2] at ho
        cases r1 with
        | error e => exact (h.step_trans ho).1
        | ok projects => exact (h.step_trans ho).1
    refine ⟨hclients, ?_⟩
    rcases hg : ProjectRepository.GetProjects api s with ⟨r, s1⟩
    cases r with
    | error e => exact Or.inl (GetProjects_error_frame api s s1 e hg)
    | ok list =>
      right
      rw [GetProjects_ok_cache api s s1 list hg]
      exact Or.inr ⟨s, s1, hc, hg⟩
  · rw [GetProjects_cached api s hc]
    exact CacheStep.step_refl api s

/-- CreateClient leaves the clients cache as it is or empties it, and leaves the
projects cache as it is. -/
theorem CreateClient_step {σ : Type} (api : model.TogglAPI σ) (workspaceID : Int)
    (name : String) (s : Repositories σ) :
    CacheStep api s (ClientRepository.CreateClient api workspaceID name s).2 := by
  have h := GetWorkspaces_step api s
  rw [← GetWorkspaceByID_state api workspaceID] at h
  unfold ClientRepository.CreateClient
  rcases hg : WorkspaceRepository.GetWorkspaceByID api workspaceID s with ⟨r, s1⟩
  rw [hg] at h
  cases r with
  | error e => exact h
  | ok workspace =>
    simp only
    rcases ha : api.CreateClient
      { ID := 0, WorkspaceID := workspace.ID, Name := name, Notes := "" } s1.remote
      with ⟨ra, remote⟩
    cases ra with
    | error e => exact h.step_trans (CacheStep.of_frame api rfl rfl)
    | ok created => exact h.step_trans ⟨Or.inr (Or.inl rfl), Or.inl rfl⟩

/-- The end of CreateProject leaves the projects cache as it is or empties it,
and leaves the clients cache as it is. -/
theorem CreateProject_submit_step {σ : Type} (api : model.TogglAPI σ) (projectName : String)
    (workspace : Workspace) (client : Client) (s : Repositories σ) :
    CacheStep api s
      (ProjectRepository.CreateProject.submit api projectName workspace client s).2 := by
  unfold ProjectRepository.CreateProject.submit
  rcases ha : api.CreateProject
    { ID := 0, WorkspaceID := workspace.ID, ClientID := client.ID, Name := projectName }
    s.remote with ⟨ra, remote⟩
  cases ra with
  | error e => exact CacheStep.of_frame api rfl rfl
  | ok created => exact ⟨Or.inl rfl, Or.inr (Or.inl rfl)⟩

/-- CreateProject leaves each cache as it is, empties it, or stores a complete
list in it. -/
theorem CreateProject_step {σ : Type} (api : model.TogglAPI σ)
    (projectName workspaceName clientName : String) (s : Repositories σ) :
    CacheStep api s
      (ProjectRepository.CreateProject api projectName workspaceName clientName s).2 := by
  have h := GetWorkspaces_step api s
  rw [← GetWorkspaceByName_state api workspaceName] at h
  unfold ProjectRepository.CreateProject
  rcases hg : WorkspaceRepository.GetWorkspaceByName api workspaceName s with ⟨r, s1⟩
  rw [hg] at h
  cases r with
  | error e => exact h
  | ok workspace =>
    simp only
    split_ifs
    · have h2 := GetClients_step api s1
      rw [← GetClientByName_state api workspaceName clientName] at h2
      rcases hg2 : ClientRepository.GetClientByName api workspaceName clientName s1
        with ⟨r2, s2⟩
      rw [hg2] at h2
      cases r2 with
      | error e =>
        simp only
        have h3 := CreateClient_step api workspace.ID clientName s2
        rcases hg3 : ClientRepository.CreateClient api workspace.ID clientName s2 with ⟨r3, s3⟩
        rw [hg3] at h3
        cases r3 with
        | error e3 => exact (h.step_trans h2).step_trans h3
        | ok createdClient =>
          exact ((h.step_trans h2).step_trans h3).step_trans
            (CreateProject_submit_step api projectName workspace createdClient s3)
      | ok existingClient =>
        exact (h.step_trans h2).step_trans
          (CreateProject_submit_step api projectName workspace existingClient s2)
    · exact h.step_trans (CreateProject_submit_step api projectName workspace Client.zero s1)

/-- Every operation leaves each of the clients cache and the projects cache as
it is, empties it, or stores a complete list in it. -/
theorem Operation_run_step {σ : Type} (api : model.TogglAPI σ) (operation : Operation)
    (s : Repositories σ) : CacheStep api s (operation.run api s) := by
  cases operation with
  | repository call =>
    cases call with
    | CreateWorkspace name => exact CacheStep.step_refl api s
    | GetWorkspaces => exact GetWorkspaces_step api s
    | GetWorkspaceByID workspaceID =>
      simp only [Operation.run, RepositoryCall.run, GetWorkspaceByID_state]
      exact GetWorkspaces_step api s
    | GetWorkspaceByName workspaceName =>
      simp only [Operation.run, RepositoryCall.run, GetWorkspaceByName_state]
      exact GetWorkspaces_step api s
    | CreateProject projectName workspaceName clientName =>
      exact CreateProject_step api projectName workspaceName clientName s
    | GetProjects => exact GetProjects_step api s
    | GetProjectByID projectID =>
      simp only [Operation.run, RepositoryCall.run, GetProjectByID_state]
      exact GetProjects_step api s
    | GetProjectByName projectName workspaceName clientName =>
      simp only [Operation.run, RepositoryCall.run, GetProjectByName_state]
      exact GetProjects_step api s
    | CreateClient workspaceID name => exact CreateClient_step api workspaceID name s
    | GetClients => exact GetClients_step api s
    | GetClientByID clientID =>
      simp only [Operation.run, RepositoryCall.run, GetClientByID_state]
      exact GetClients_step api s
    | GetClientByName workspaceName clientName =>
      simp only [Operation.run, RepositoryCall.run, GetClientByName_state]
      exact GetClients_step api s
  | CreateTimeEntry timeEntry => exact CacheStep.of_frame api rfl rfl
  | GetTimeEntries start stop => exact CacheStep.of_frame api rfl rfl

/-- In every state reached from repositories that have fetched nothing, the
clients cache and the projects cache each hold nothing or the complete list of
one successful fetch. -/
theorem runAll_fetched {σ : Type} (api : model.TogglAPI σ) :
    ∀ (operations : List Operation) (s : Repositories σ),
      FetchedClients api s.clientsCache → FetchedProjects api s.projectsCache →
      FetchedClients api (runAll api operations s).clientsCache
      ∧ FetchedProjects api (runAll api operations s).projectsCache := by
  intro operations
  induction operations with
  | nil => intro s hc hp; exact ⟨hc, hp⟩
  | cons operation rest ih =>
    intro s hc hp
    simp only [runAll, List.foldl_cons]
    obtain ⟨h1, h2⟩ := Operation_run_step api operation s
    refine ih _ ?_ ?_
    · rcases h1 with e | f
      · rw [e]; exact hc
      · exact f
    · rcases h2 with e | f
      · rw [e]; exact hp
      · exact f

/-- A workspace found by ID is in the workspaces cache and has the ID asked for. -/
theorem GetWorkspaceByID_ok {σ : Type} (api : model.TogglAPI σ) (workspaceID : Int)
    (s s1 : Repositories σ) (w : Workspace)
    (h : WorkspaceRepository.GetWorkspaceByID api workspaceID s = (.ok w, s1)) :
    w ∈ s1.workspacesCache ∧ w.ID = workspaceID := by
  unfold WorkspaceRepository.GetWorkspaceByID at h
  have hf := (GetWorkspaces_frame api s).2.2
  rcases hg : WorkspaceRepository.GetWorkspaces api s with ⟨r, s0⟩
  rw [hg] at h hf
  cases r with
  | error e => simp at h
  | ok list =>
    simp only at h hf
    cases hfind : list.find? (fun workspace => workspace.ID == workspaceID) with
    | none => rw [hfind] at h; simp at h
    | some found =>
      rw [hfind] at h
      simp only [Prod.mk.injEq, Except.ok.injEq] at h
      obtain ⟨rfl, rfl⟩ := h
      have hmem := List.mem_of_find?_eq_some hfind
      have hid := List.find?_some hfind
      rw [hf list rfl (List.ne_nil_of_mem hmem)]
      exact ⟨hmem, by simpa using hid⟩

/-- The loop of GetClients, when it succeeds, appends one client for each client
of the API's list, in order, with its ID, its name and a workspace of the
workspaces cache that has the workspace ID of the client. -/
theorem GetClients_loop_complete {σ : Type} (api : model.TogglAPI σ) :
    ∀ (models : List model.Client) (clientModels out : List Client) (s s1 : Repositories σ),
      ClientRepository.GetClients.loop api models clientModels s = (.ok out, s1) →
      ∃ new, out = clientModels ++ new
        ∧ List.Forall₂ (fun (client : Client) (model : model.Client) =>
            client.ID = model.ID ∧ client.Name = model.Name
            ∧ client.Workspace.ID = model.WorkspaceID
            ∧ client.Workspace ∈ s1.workspacesCache) new models := by
  intro models
  induction models with
  | nil =>
    intro clientModels out s s1 h
    simp only [ClientRepository.GetClients.loop, Prod.mk.injEq, Except.ok.injEq] at h
    exact ⟨[], by simp [h.1], List.Forall₂.nil⟩
  | cons model rest ih =>
    intro clientModels out s s1 h
    unfold ClientRepository.GetClients.loop at h
    rcases hg : WorkspaceRepository.GetWorkspaceByID api model.WorkspaceID s with ⟨r, s0⟩
    rw [hg] at h
    cases r with
    | error e => simp at h
    | ok workspace =>
      simp only at h
      obtain ⟨hmem, hid⟩ := GetWorkspaceByID_ok api model.WorkspaceID s s0 workspace hg
      obtain ⟨new, hout, hall⟩ := ih _ out s0 s1 h
      have hws : s1.workspacesCache = s0.workspacesCache := by
        have := (GetClients_loop_frame api rest
          (clientModels ++ [{ ID := model.ID, Name := model.Name, Workspace := workspace }])
          s0).2.2 (List.ne_nil_of_mem hmem)
        rw [h] at this
        exact this
      refine ⟨{ ID := model.ID, Name := model.Name, Workspace := workspace } :: new,
        by rw [hout]; simp, List.Forall₂.cons ⟨rfl, rfl, hid, ?_⟩ hall⟩
      rw [hws]
      exact hmem

/-- A successful fetch of the clients returns, and stores in the cache, one
client for each client of the API's list, in order, with its ID, its name and a
workspace of the workspaces cache that has the workspace ID of the client. -/
theorem GetClients_complete {σ : Type} (api : model.TogglAPI σ) (s s1 : Repositories σ)
    (list : List Client) (hc : s.clientsCache = [])
    (h : ClientRepository.GetClients api s = (.ok list, s1)) :
    s1.clientsCache = list
    ∧ ∃ models remote, api.GetClients s.remote = (.ok models, remote)
      ∧ List.Forall₂ (fun (client : Client) (model : model.Client) =>
          client.ID = model.ID ∧ client.Name = model.Name
          ∧ client.Workspace.ID = model.WorkspaceID
          ∧ client.Workspace ∈ s1.workspacesCache) list models := by
  refine ⟨GetClients_ok_cache api s s1 list h, ?_⟩
  rw [GetClients_fetch api s hc] at h
  rcases ha : api.GetClients s.remote with ⟨ra, remote⟩
  rw [ha] at h
  cases ra with
  | error e => simp at h
  | ok models =>
    simp only at h
    rcases hl : ClientRepository.GetClients.loop api models [] { s with remote := remote }
      with ⟨rl, sl⟩
    rw [hl] at h
    cases rl with
    | error e => simp at h
    | ok clientModels =>
      simp only [Prod.mk.injEq, Except.ok.injEq] at h
      obtain ⟨new, hout, hall⟩ := GetClients_loop_complete api models [] clientModels _ sl hl
      simp only [List.nil_append] at hout
      refine ⟨models, remote, rfl, ?_⟩
      rw [← h.1, ← h.2, hout]
      exact hall

theorem Sent.unique {σ : Type} {s s1 : Repositories (σ × List RemoteCall)}
    {a b : List RemoteCall} (h1 : Sent s s1 a) (h2 : Sent s s1 b) : a = b := by
  unfold Sent at *
  rw [h1] at h2
  exact List.append_cancel_left h2

theorem listedProjects_append (a b : List RemoteCall) :
    listedProjects (a ++ b) = listedProjects a ++ listedProjects b := by
  induction a with
  | nil => rfl
  | cons call rest ih =>
    cases call with
    | GetProjects workspaceID result =>
      cases result with
      | error e => simpa [listedProjects] using ih
      | ok projects => simp [listedProjects, ih]
    | _ => simpa [listedProjects] using ih

theorem listedProjects_of_no_listing (calls : List RemoteCall) (h : projectListings calls = 0) :
    listedProjects calls = [] := by
  induction calls with
  | nil => rfl
  | cons call rest ih =>
    have happ := projectListings_append [call] rest
    simp only [List.singleton_append] at happ
    cases call with
    | GetProjects workspaceID result =>
      have one : projectListings [RemoteCall.GetProjects workspaceID result] = 1 := rfl
      omega
    | _ =>
      simp only [listedProjects]
      apply ih
      omega

/-- The inner loop of GetProjects, when it succeeds, appends one project for
each project of the API's list, in order, with its ID, its name and a client that
has the client ID of the project. -/
theorem GetProjects_inner_complete {σ : Type} (api : model.TogglAPI σ) (workspace : Workspace) :
    ∀ (models : List model.Project) (projects out : List Project) (s s1 : Repositories σ),
      ProjectRepository.GetProjects.inner api workspace models projects s = (.ok out, s1) →
      ∃ new, out = projects ++ new
        ∧ List.Forall₂ (fun (project : Project) (model : model.Project) =>
            project.ID = model.ID ∧ project.Name = model.Name
            ∧ project.Client.ID = model.ClientID) new models := by
  intro models
  induction models with
  | nil =>
    intro projects out s s1 h
    simp only [ProjectRepository.GetProjects.inner, Prod.mk.injEq, Except.ok.injEq] at h
    exact ⟨[], by simp [h.1], List.Forall₂.nil⟩
  | cons model rest ih =>
    intro projects out s s1 h
    unfold ProjectRepository.GetProjects.inner at h
    simp only at h
    split_ifs at h with hc
    · rcases hg : ClientRepository.GetClientByID api model.ClientID s with ⟨r, s0⟩
      rw [hg] at h
      cases r with
      | error e => simp at h
      | ok client =>
        simp only at h
        obtain ⟨-, hid, -⟩ := GetClientByID_ok api model.ClientID s s0 client hg
        obtain ⟨new, hout, hall⟩ := ih _ out s0 s1 h
        refine ⟨{ ID := model.ID, Name := model.Name, Workspace := workspace,
                  Client := client } :: new, by rw [hout]; simp, ?_⟩
        exact List.Forall₂.cons ⟨rfl, rfl, hid⟩ hall
    · obtain ⟨new, hout, hall⟩ := ih _ out s s1 h
      have h0 : model.ClientID = 0 := by simpa using hc
      refine ⟨{ ID := model.ID, Name := model.Name, Workspace := workspace,
                Client := Client.zero } :: new, by rw [hout]; simp, ?_⟩
      exact List.Forall₂.cons ⟨rfl, rfl, h0.symm⟩ hall

/-- The outer loop of GetProjects, when it succeeds, appends one project for each
project that the project listing of the remote returned during the loop, in
order. -/
theorem GetProjects_outer_complete {σ : Type} (api : model.TogglAPI σ) :
    ∀ (workspaces : List Workspace) (projects out : List Project)
      (s s1 : Repositories (σ × List RemoteCall)),
      ProjectRepository.GetProjects.outer api.recording workspaces projects s = (.ok out, s1) →
      ∃ calls new, Sent s s1 calls ∧ out = projects ++ new
        ∧ List.Forall₂ (fun (project : Project) (model : model.Project) =>
            project.ID = model.ID ∧ project.Name = model.Name
            ∧ project.Client.ID = model.ClientID) new (listedProjects calls) := by
  intro workspaces
  induction workspaces with
  | nil =>
    intro projects out s s1 h
    simp only [ProjectRepository.GetProjects.outer, Prod.mk.injEq, Except.ok.injEq] at h
    exact ⟨[], [], by rw [← h.2]; exact Sent.sent_refl s, by simp [h.1], List.Forall₂.nil⟩
  | cons workspace rest ih =>
    intro projects out s s1 h
    unfold ProjectRepository.GetProjects.outer at h
    rcases hg : api.recording.GetProjects workspace.ID s.remote with ⟨r, remote⟩
    rw [hg] at h
    cases r with
    | error e => simp at h
    | ok models =>
      simp only at h
      have hrem : Sent s { s with remote := remote } [.GetProjects workspace.ID (.ok models)] := by
        simp only [model.TogglAPI.recording, traced, Prod.mk.injEq] at hg
        unfold Sent
        rw [← hg.2, hg.1]
      obtain ⟨ci, hsi, hpi⟩ := GetProjects_inner_sent api workspace models projects
        { s with remote := remote }
      rcases hg2 : ProjectRepository.GetProjects.inner api.recording workspace models projects
        { s with remote := remote } with ⟨r1, s0⟩
      rw [hg2] at h hsi
      cases r1 with
      | error e => simp at h
      | ok projects1 =>
        simp only at h hsi
        obtain ⟨new1, hout1, hall1⟩ :=
          GetProjects_inner_complete api.recording workspace models projects projects1 _ s0 hg2
        obtain ⟨cr, new2, hsr, hout2, hall2⟩ := ih projects1 out s0 s1 h
        refine ⟨_, new1 ++ new2, (hrem.sent_trans hsi).sent_trans hsr, by rw [hout2, hout1]; simp, ?_⟩
        rw [listedProjects_append, listedProjects_append,
          listedProjects_of_no_listing ci hpi]
        simp only [listedProjects, List.append_nil]
        exact List.rel_append hall1 hall2

/-- A successful fetch of the projects returns, and stores in the cache, one
project for each project that the project listing of the remote returned during
the call, in order, with its ID, its name and a client that has the client ID of
the project. -/
theorem GetProjects_complete {σ : Type} (api : model.TogglAPI σ)
    (s s1 : Repositories (σ × List RemoteCall)) (list : List Project)
    (hc : s.projectsCache = [])
    (h : ProjectRepository.GetProjects api.recording s = (.ok list, s1)) :
    s1.projectsCache = list
    ∧ ∃ calls, Sent s s1 calls
      ∧ List.Forall₂ (fun (project : Project) (model : model.Project) =>
          project.ID = model.ID ∧ project.Name = model.Name
          ∧ project.Client.ID = model.ClientID) list (listedProjects calls) := by
  refine ⟨GetProjects_ok_cache api.recording s s1 list h, ?_⟩
  rw [GetProjects_fetch api.recording s hc] at h
  obtain ⟨c1, hs1, -, -, hp1⟩ := GetWorkspaces_sent api s
  rcases ha : WorkspaceRepository.GetWorkspaces api.recording s with ⟨ra, s0⟩
  rw [ha] at h hs1
  cases ra with
  | error e => simp at h
  | ok workspaces =>
    simp only at h hs1
    rcases hl : ProjectRepository.GetProjects.outer api.recording workspaces [] s0
      with ⟨rl, sl⟩
    rw [hl] at h
    cases rl with
    | error e => simp at h
    | ok projects =>
      simp only [Prod.mk.injEq, Except.ok.injEq] at h
      obtain ⟨c2, new, hs2, hout, hall⟩ :=
        GetProjects_outer_complete api workspaces [] projects s0 sl hl
      simp only [List.nil_append] at hout
      refine ⟨c1 ++ c2, ?_, ?_⟩
      · have := hs1.sent_trans hs2
        unfold Sent at this ⊢
        rw [← h.2]
        exact this
      · rw [listedProjects_append, listedProjects_of_no_listing c1 hp1, List.nil_append,
          ← h.1, hout]
        exact hall

/-- A client found by ID comes from a successful GetClients call. -/
theorem GetClientByID_ok_all {σ : Type} (api : model.TogglAPI σ) (clientID : Int)
    (s s1 : Repositories σ) (client : Client)
    (h : ClientRepository.GetClientByID api clientID s = (.ok client, s1)) :
    ∃ list, ClientRepository.GetClients api s = (.ok list, s1) := by
  have hst := GetClientByID_state api clientID s
  rw [h] at hst
  simp only at hst
  unfold ClientRepository.GetClientByID at h
  rcases hgc : ClientRepository.GetClients api s with ⟨rc, sc⟩
  rw [hgc] at h hst
  simp only at hst
  cases rc with
  | error e => simp at h
  | ok list => exact ⟨list, by rw [hst]⟩

/-- A successful GetWorkspaces call met no failing listing request. -/
theorem GetWorkspaces_ok_sent {σ : Type} (api : model.TogglAPI σ)
    (s s1 : Repositories (σ × List RemoteCall)) (list : List Workspace)
    (h : WorkspaceRepository.GetWorkspaces api.recording s = (.ok list, s1)) :
    ∃ calls, Sent s s1 calls ∧ ∀ call ∈ calls, RemoteCall.failedListing call = false := by
  unfold WorkspaceRepository.GetWorkspaces at h
  split_ifs at h
  · simp only [Prod.mk.injEq] at h
    exact ⟨[], by rw [← h.2]; exact Sent.sent_refl s, by simp⟩
  · simp only [model.TogglAPI.recording, traced] at h
    rcases ha : api.GetWorkspaces s.remote.1 with ⟨r, remote⟩
    rw [ha] at h
    cases r with
    | error e => simp at h
    | ok workspaces =>
      simp only [Prod.mk.injEq] at h
      refine ⟨[.GetWorkspaces (.ok workspaces)], by rw [← h.2]; rfl, ?_⟩
      intro call hcall
      simp only [List.mem_singleton] at hcall
      subst hcall
      rfl

/-- A successful GetWorkspaceByID call met no failing listing request. -/
theorem GetWorkspaceByID_ok_sent {σ : Type} (api : model.TogglAPI σ) (workspaceID : Int)
    (s s1 : Repositories (σ × List RemoteCall)) (workspace : Workspace)
    (h : WorkspaceRepository.GetWorkspaceByID api.recording workspaceID s = (.ok workspace, s1)) :
    ∃ calls, Sent s s1 calls ∧ ∀ call ∈ calls, RemoteCall.failedListing call = false := by
  unfold WorkspaceRepository.GetWorkspaceByID at h
  rcases hg : WorkspaceRepository.GetWorkspaces api.recording s with ⟨r, s0⟩
  rw [hg] at h
  cases r with
  | error e => simp at h
  | ok list =>
    simp only at h
    have hs : s1 = s0 := by
      cases hf : list.find? (fun workspace => workspace.ID == workspaceID) with
      | none => rw [hf] at h; simp at h
      | some found =>
        rw [hf] at h
        simp only [Prod.mk.injEq] at h
        exact h.2.symm
    rw [hs]
    exact GetWorkspaces_ok_sent api s s0 list hg

/-- A successful run of the loop of GetClients met no failing listing request. -/
theorem GetClients_loop_ok_sent {σ : Type} (api : model.TogglAPI σ) :
    ∀ (clients : List model.Client) (clientModels out : List Client)
      (s s1 : Repositories (σ × List RemoteCall)),
      ClientRepository.GetClients.loop api.recording clients clientModels s = (.ok out, s1) →
      ∃ calls, Sent s s1 calls ∧ ∀ call ∈ calls, RemoteCall.failedListing call = false := by
  intro clients
  induction clients with
  | nil =>
    intro clientModels out s s1 h
    simp only [ClientRepository.GetClients.loop, Prod.mk.injEq] at h
    exact ⟨[], by rw [← h.2]; exact Sent.sent_refl s, by simp⟩
  | cons client rest ih =>
    intro clientModels out s s1 h
    unfold ClientRepository.GetClients.loop at h
    rcases hg : WorkspaceRepository.GetWorkspaceByID api.recording client.WorkspaceID s
      with ⟨r, s0⟩
    rw [hg] at h
    cases r with
    | error e => simp at h
    | ok workspace =>
      simp only at h
      obtain ⟨c1, h1, f1⟩ := GetWorkspaceByID_ok_sent api client.WorkspaceID s s0 workspace hg
      obtain ⟨c2, h2, f2⟩ := ih _ out s0 s1 h
      refine ⟨c1 ++ c2, h1.sent_trans h2, ?_⟩
      intro call hcall
      rcases List.mem_append.1 hcall with hm | hm
      · exact f1 call hm
      · exact f2 call hm

/-- A successful GetClients call met no failing listing request. -/
theorem GetClients_ok_sent {σ : Type} (api : model.TogglAPI σ)
    (s s1 : Repositories (σ × List RemoteCall)) (list : List Client)
    (h : ClientRepository.GetClients api.recording s = (.ok list, s1)) :
    ∃ calls, Sent s s1 calls ∧ ∀ call ∈ calls, RemoteCall.failedListing call = false := by
  by_cases hc : s.clientsCache = []
  · rw [GetClients_fetch api.recording s hc] at h
    rcases ha : api.recording.GetClients s.remote with ⟨ra, remote⟩
    rw [ha] at h
    cases ra with
    | error e => simp at h
    | ok models =>
      simp only at h
      have hrem : Sent s { s with remote := remote } [.GetClients (.ok models)] := by
        simp only [model.TogglAPI.recording, traced, Prod.mk.injEq] at ha
        unfold Sent
        rw [← ha.2, ha.1]
      rcases hl : ClientRepository.GetClients.loop api.recording models []
        { s with remote := remote } with ⟨rl, sl⟩
      rw [hl] at h
      cases rl with
      | error e => simp at h
      | ok clientModels =>
        simp only [Prod.mk.injEq] at h
        obtain ⟨c2, h2, f2⟩ := GetClients_loop_ok_sent api models [] clientModels _ sl hl
        refine ⟨[.GetClients (.ok models)] ++ c2, ?_, ?_⟩
        · have := hrem.sent_trans h2
          unfold Sent at this ⊢
          rw [← h.2]
          exact this
        · intro call hcall
          rcases List.mem_append.1 hcall with hm | hm
          · simp only [List.mem_singleton] at hm
            subst hm
            rfl
          · exact f2 call hm
  · rw [(GetClients_frame api.recording s).2.2.1 hc] at h
    simp only [Prod.mk.injEq] at h
    exact ⟨[], by rw [← h.2]; exact Sent.sent_refl s, by simp⟩

/-- A successful run of the inner loop of GetProjects met no failing listing
request. -/
theorem GetProjects_inner_ok_sent {σ : Type} (api : model.TogglAPI σ) (workspace : Workspace) :
    ∀ (models : List model.Project) (projects out : List Project)
      (s s1 : Repositories (σ × List RemoteCall)),
      ProjectRepository.GetProjects.inner api.recording workspace models projects s
        = (.ok out, s1) →
      ∃ calls, Sent s s1 calls ∧ ∀ call ∈ calls, RemoteCall.failedListing call = false := by
  intro models
  induction models with
  | nil =>
    intro projects out s s1 h
    simp only [ProjectRepository.GetProjects.inner, Prod.mk.injEq] at h
    exact ⟨[], by rw [← h.2]; exact Sent.sent_refl s, by simp⟩
  | cons model rest ih =>
    intro projects out s s1 h
    unfold ProjectRepository.GetProjects.inner at h
    simp only at h
    split_ifs at h
    · rcases hg : ClientRepository.GetClientByID api.recording model.ClientID s with ⟨r, s0⟩
      rw [hg] at h
      cases r with
      | error e => simp at h
      | ok client =>
        simp only at h
        have hall := GetClientByID_ok_all api.recording model.ClientID s s0 client hg
        obtain ⟨list, hlist⟩ := hall
        obtain ⟨c1, h1, f1⟩ := GetClients_ok_sent api s s0 list hlist
        obtain ⟨c2, h2, f2⟩ := ih _ out s0 s1 h
        refine ⟨c1 ++ c2, h1.sent_trans h2, ?_⟩
        intro call hcall
        rcases List.mem_append.1 hcall with hm | hm
        · exact f1 call hm
        · exact f2 call hm
    · exact ih _ out s s1 h

/-- A successful run of the outer loop of GetProjects met no failing listing
request. -/
theorem GetProjects_outer_ok_sent {σ : Type} (api : model.TogglAPI σ) :
    ∀ (workspaces : List Workspace) (projects out : List Project)
      (s s1 : Repositories (σ × List RemoteCall)),
      ProjectRepository.GetProjects.outer api.recording workspaces projects s = (.ok out, s1) →
      ∃ calls, Sent s s1 calls ∧ ∀ call ∈ calls, RemoteCall.failedListing call = false := by
  intro workspaces
  induction workspaces with
  | nil =>
    intro projects out s s1 h
    simp only [ProjectRepository.GetProjects.outer, Prod.mk.injEq] at h
    exact ⟨[], by rw [← h.2]; exact Sent.sent_refl s, by simp⟩
  | cons workspace rest ih =>
    intro projects out s s1 h
    unfold ProjectRepository.GetProjects.outer at h
    rcases hg : api.recording.GetProjects workspace.ID s.remote with ⟨r, remote⟩
    rw [hg] at h
    cases r with
    | error e => simp at h
    | ok models =>
      simp only at h
      have hrem : Sent s { s with remote := remote } [.GetProjects workspace.ID (.ok models)] := by
        simp only [model.TogglAPI.recording, traced, Prod.mk.injEq] at hg
        unfold Sent
        rw [← hg.2, hg.1]
      rcases hg2 : ProjectRepository.GetProjects.inner api.recording workspace models projects
        { s with remote := remote } with ⟨r1, s0⟩
      rw [hg2] at h
      cases r1 with
      | error e => simp at h
      | ok projects1 =>
        simp only at h
        obtain ⟨c1, h1, f1⟩ :=
          GetProjects_inner_ok_sent api workspace models projects projects1 _ s0 hg2
        obtain ⟨c2, h2, f2⟩ := ih projects1 out s0 s1 h
        refine ⟨[.GetProjects workspace.ID (.ok models)] ++ c1 ++ c2,
          (hrem.sent_trans h1).sent_trans h2, ?_⟩
        intro call hcall
        rcases List.mem_append.1 hcall with hm | hm
        · rcases List.mem_append.1 hm with hm1 | hm1
          · simp only [List.mem_singleton] at hm1
            subst hm1
            rfl
          · exact f1 call hm1
        · exact f2 call hm

/-- A successful GetProjects call met no failing listing request. -/
theorem GetProjects_ok_sent {σ : Type} (api : model.TogglAPI σ)
    (s s1 : Repositories (σ × List RemoteCall)) (list : List Project)
    (h : ProjectRepository.GetProjects api.recording s = (.ok list, s1)) :
    ∃ calls, Sent s s1 calls ∧ ∀ call ∈ calls, RemoteCall.failedListing call = false := by
  by_cases hc : s.projectsCache = []
  · rw [GetProjects_fetch api.recording s hc] at h
    rcases ha : WorkspaceRepository.GetWorkspaces api.recording s with ⟨ra, s0⟩
    rw [ha] at h
    cases ra with
    | error e => simp at h
    | ok workspaces =>
      simp only at h
      obtain ⟨c1, h1, f1⟩ := GetWorkspaces_ok_sent api s s0 workspaces ha
      rcases hl : ProjectRepository.GetProjects.outer api.recording workspaces [] s0
        with ⟨rl, sl⟩
      rw [hl] at h
      cases rl with
      | error e => simp at h
      | ok projects =>
        simp only [Prod.mk.injEq] at h
        obtain ⟨c2, h2, f2⟩ := GetProjects_outer_ok_sent api workspaces [] projects s0 sl hl
        refine ⟨c1 ++ c2, ?_, ?_⟩
        · have := h1.sent_trans h2
          unfold Sent at this ⊢
          rw [← h.2]
          exact this
        · intro call hcall
          rcases List.mem_append.1 hcall with hm | hm
          · exact f1 call hm
          · exact f2 call hm
  · rw [GetProjects_cached api.recording s hc] at h
    simp only [Prod.mk.injEq] at h
    exact ⟨[], by rw [← h.2]; exact Sent.sent_refl s, by simp⟩

theorem Forall₂_exists_left {α β : Type} {R : α → β → Prop} {l1 : List α} {l2 : List β}
    (h : List.Forall₂ R l1 l2) : ∀ b ∈ l2, ∃ a ∈ l1, R a b := by
  induction h with
  | nil => intro b hb; simp at hb
  | cons hr _ ih =>
    intro b hb
    rcases List.mem_cons.1 hb with rfl | hm
    · exact ⟨_, by simp, hr⟩
    · obtain ⟨a, ha, hab⟩ := ih b hm
      exact ⟨a, by simp [ha], hab⟩

/-- C15: for the repositories of any API.
(1) In every state reached from repositories that have fetched nothing, by any
operations (calls of the methods of the three repositories, Create calls
included, and requests to the time entry API), the clients cache holds nothing or
the complete list that one successful GetClients fetch returned, and the projects
cache holds nothing or the complete list that one successful GetProjects fetch
returned.
(2) A GetClients call with the cache not populated, the API recording its
requests: if the client listing fails the call returns an error; if the call
returns an error the cache stays empty; if it succeeds, the list returned is
stored, it has one client for each client of the API's answer, in order, with its
ID, its name and a workspace of the workspaces cache with the client's workspace
ID, and no listing request failed during the call; so if a client of the API's
answer has a workspace ID that no workspace of the workspaces cache has, the call
returns an error.
(3) A GetProjects call with the cache not populated: if the call returns an error
the cache stays empty; if it succeeds, the list returned is stored, it has one
project for each project that the project listing returned during the call, in
order, with its ID, its name and the client ID, each project with a client ID
other than 0 carries the client that the clients cache holds under that ID, and
no listing request failed during the call; so if a listing request fails, or a
listed project has a client ID other than 0 that no client of the clients cache
has, the call returns an error. -/
theorem C15_caches_complete {σ : Type} (api : model.TogglAPI σ) :
    (∀ remote operations,
      FetchedClients api (runAll api operations (Repositories.fresh remote)).clientsCache
      ∧ FetchedProjects api (runAll api operations (Repositories.fresh remote)).projectsCache)
    ∧ (∀ s : Repositories (σ × List RemoteCall), s.clientsCache = [] →
      (∀ e remote, api.GetClients s.remote.1 = (.error e, remote) →
        ∃ e1, (ClientRepository.GetClients api.recording s).1 = .error e1)
      ∧ (∀ e s1, ClientRepository.GetClients api.recording s = (.error e, s1) →
        s1.clientsCache = [])
      ∧ (∀ list s1, ClientRepository.GetClients api.recording s = (.ok list, s1) →
        s1.clientsCache = list
        ∧ (∃ models remote, api.GetClients s.remote.1 = (.ok models, remote)
          ∧ List.Forall₂ (fun (client : Client) (model : model.Client) =>
              client.ID = model.ID ∧ client.Name = model.Name
              ∧ client.Workspace.ID = model.WorkspaceID
              ∧ client.Workspace ∈ s1.workspacesCache) list models)
        ∧ ∃ calls, Sent s s1 calls ∧ ∀ call ∈ calls, RemoteCall.failedListing call = false)
      ∧ (∀ models remote, api.GetClients s.remote.1 = (.ok models, remote) →
        (∃ model ∈ models,
          ∀ workspace ∈ (ClientRepository.GetClients api.recording s).2.workspacesCache,
            workspace.ID ≠ model.WorkspaceID) →
        ∃ e1, (ClientRepository.GetClients api.recording s).1 = .error e1))
    ∧ (∀ s : Repositories (σ × List RemoteCall), s.projectsCache = [] →
      (∀ e s1, ProjectRepository.GetProjects api.recording s = (.error e, s1) →
        s1.projectsCache = [])
      ∧ (∀ list s1, ProjectRepository.GetProjects api.recording s = (.ok list, s1) →
        s1.projectsCache = list
        ∧ clientsResolved list s1
        ∧ ∃ calls, Sent s s1 calls
          ∧ (∀ call ∈ calls, RemoteCall.failedListing call = false)
          ∧ List.Forall₂ (fun (project : Project) (model : model.Project) =>
              project.ID = model.ID ∧ project.Name = model.Name
              ∧ project.Client.ID = model.ClientID) list (listedProjects calls))
      ∧ (∀ calls, Sent s (ProjectRepository.GetProjects api.recording s).2 calls →
        ((∃ call ∈ calls, RemoteCall.failedListing call = true)
          ∨ ∃ model ∈ listedProjects calls, model.ClientID ≠ 0
            ∧ ∀ client ∈ (ProjectRepository.GetProjects api.recording s).2.clientsCache,
                client.ID ≠ model.ClientID) →
        ∃ e1, (ProjectRepository.GetProjects api.recording s).1 = .error e1)) := by
  refine ⟨?_, ?_, ?_⟩
  · intro remote operations
    exact runAll_fetched api operations (Repositories.fresh remote) (Or.inl rfl) (Or.inl rfl)
  · intro s hc
    have hok : ∀ list s1, ClientRepository.GetClients api.recording s = (.ok list, s1) →
        s1.clientsCache = list
        ∧ (∃ models remote, api.GetClients s.remote.1 = (.ok models, remote)
          ∧ List.Forall₂ (fun (client : Client) (model : model.Client) =>
              client.ID = model.ID ∧ client.Name = model.Name
              ∧ client.Workspace.ID = model.WorkspaceID
              ∧ client.Workspace ∈ s1.workspacesCache) list models)
        ∧ ∃ calls, Sent s s1 calls ∧ ∀ call ∈ calls, RemoteCall.failedListing call = false := by
      intro list s1 h
      obtain ⟨h1, models, remote, hapi, hall⟩ := GetClients_complete api.recording s s1 list hc h
      refine ⟨h1, ⟨models, (api.GetClients s.remote.1).2, ?_, hall⟩,
        GetClients_ok_sent api s s1 list h⟩
      simp only [model.TogglAPI.recording, traced, Prod.mk.injEq] at hapi
      rw [← hapi.1]
    refine ⟨?_, ?_, hok, ?_⟩
    · intro e remote hapi
      rw [GetClients_fetch api.recording s hc]
      simp only [model.TogglAPI.recording, traced, hapi]
      exact ⟨_, rfl⟩
    · intro e s1 h
      rw [GetClients_error_frame api.recording s s1 e h, hc]
    · rintro models remote hapi ⟨model, hmem, hno⟩
      rcases hg : ClientRepository.GetClients api.recording s with ⟨r, s1⟩
      rw [hg] at hno
      cases r with
      | error e => exact ⟨e, rfl⟩
      | ok list =>
        exfalso
        obtain ⟨-, ⟨models1, remote1, hapi1, hall⟩, -⟩ := hok list s1 hg
        rw [hapi] at hapi1
        simp only [Prod.mk.injEq, Except.ok.injEq] at hapi1
        rw [← hapi1.1] at hall
        obtain ⟨client, -, -, -, hid, hw⟩ := Forall₂_exists_left hall model hmem
        exact hno client.Workspace hw hid
  · intro s hc
    have hok : ∀ list s1, ProjectRepository.GetProjects api.recording s = (.ok list, s1) →
        s1.projectsCache = list
        ∧ clientsResolved list s1
        ∧ ∃ calls, Sent s s1 calls
          ∧ (∀ call ∈ calls, RemoteCall.failedListing call = false)
          ∧ List.Forall₂ (fun (project : Project) (model : model.Project) =>
              project.ID = model.ID ∧ project.Name = model.Name
              ∧ project.Client.ID = model.ClientID) list (listedProjects calls) := by
      intro list s1 h
      obtain ⟨h1, calls, hs, hall⟩ := GetProjects_complete api s s1 list hc h
      obtain ⟨calls2, hs2, hf⟩ := GetProjects_ok_sent api s s1 list h
      have hcons : cachesConsistent s := by
        unfold cachesConsistent clientsResolved
        rw [hc]
        simp
      obtain ⟨hres, -, -⟩ := GetProjects_ok api.recording s s1 list h hcons
      unfold cachesConsistent at hres
      rw [h1] at hres
      refine ⟨h1, hres, calls, hs, ?_, hall⟩
      rw [hs.unique hs2]
      exact hf
    refine ⟨?_, hok, ?_⟩
    · intro e s1 h
      rw [GetProjects_error_frame api.recording s s1 e h, hc]
    · intro calls hs hbad
      rcases hg : ProjectRepository.GetProjects api.recording s with ⟨r, s1⟩
      rw [hg] at hs hbad
      cases r with
      | error e => exact ⟨e, rfl⟩
      | ok list =>
        exfalso
        obtain ⟨-, hres, calls1, hs1, hf, hall⟩ := hok list s1 hg
        have hcalls : calls1 = calls := hs1.unique hs
        subst hcalls
        rcases hbad with ⟨call, hmem, hfail⟩ | ⟨model, hmem, hne, hno⟩
        · rw [hf call hmem] at hfail
          cases hfail
        · obtain ⟨project, hp, -, -, hid⟩ := Forall₂_exists_left hall model hmem
          have hfind := (hres project hp).1 (by rw [hid]; exact hne)
          have hin := List.mem_of_find?_eq_some hfind
          exact hno project.Client hin hid

/-! ## The repositories over the remote service that accepts every request -/

/-- GetWorkspaces over the ideal remote returns the workspaces of the account. -/
theorem GetWorkspaces_ideal (s : Repositories (Remote × List RemoteCall)) (hs : Synced s) :
    (WorkspaceRepository.GetWorkspaces idealAPI.recording s).1 = .ok s.remote.1.workspaceList
    ∧ Settled s (WorkspaceRepository.GetWorkspaces idealAPI.recording s).2 := by
  obtain ⟨hw, hc, hp⟩ := hs
  by_cases hcache : s.workspacesCache = []
  · unfold WorkspaceRepository.GetWorkspaces
    simp only [hcache, List.isEmpty_nil, Bool.not_true, Bool.false_eq_true, if_false,
      model.TogglAPI.recording, traced, idealAPI]
    exact ⟨rfl, rfl, Or.inr rfl, hc, hp⟩
  · rw [GetWorkspaces_cached idealAPI.recording s hcache]
    rcases hw with h | h
    · exact absurd h hcache
    · exact ⟨by rw [h], rfl, Or.inr h, hc, hp⟩

/-- GetWorkspaceByID over the ideal remote finds the first workspace of the
account with the ID. -/
theorem GetWorkspaceByID_ideal (workspaceID : Int) (s : Repositories (Remote × List RemoteCall))
    (hs : Synced s) :
    (WorkspaceRepository.GetWorkspaceByID idealAPI.recording workspaceID s).1
      = (match s.remote.1.findWorkspace workspaceID with
        | some workspace => .ok workspace
        | none => .error "unknown workspace")
    ∧ Settled s (WorkspaceRepository.GetWorkspaceByID idealAPI.recording workspaceID s).2 := by
  obtain ⟨h1, h2⟩ := GetWorkspaces_ideal s hs
  rw [GetWorkspaceByID_state]
  refine ⟨?_, h2⟩
  unfold WorkspaceRepository.GetWorkspaceByID
  rcases hg : WorkspaceRepository.GetWorkspaces idealAPI.recording s with ⟨r, s1⟩
  rw [hg] at h1
  simp only at h1
  subst h1
  simp only [Remote.findWorkspace]
  cases List.find? _ s.remote.1.workspaceList <;> rfl

/-- GetWorkspaceByName over the ideal remote finds the first workspace of the
account with the name. -/
theorem GetWorkspaceByName_ideal (workspaceName : String)
    (s : Repositories (Remote × List RemoteCall)) (hs : Synced s) :
    (WorkspaceRepository.GetWorkspaceByName idealAPI.recording workspaceName s).1
      = (match s.remote.1.workspaceList.find?
          (fun workspace => workspace.Name == workspaceName) with
        | some workspace => .ok workspace
        | none => .error "Workspace was not found")
    ∧ Settled s (WorkspaceRepository.GetWorkspaceByName idealAPI.recording workspaceName s).2 := by
  obtain ⟨h1, h2⟩ := GetWorkspaces_ideal s hs
  rw [GetWorkspaceByName_state]
  refine ⟨?_, h2⟩
  unfold WorkspaceRepository.GetWorkspaceByName
  rcases hg : WorkspaceRepository.GetWorkspaces idealAPI.recording s with ⟨r, s1⟩
  rw [hg] at h1
  simp only at h1
  subst h1
  simp only
  cases List.find? _ s.remote.1.workspaceList <;> rfl

theorem Settled.settled_trans {s s1 s2 : Repositories (Remote × List RemoteCall)}
    (h1 : Settled s s1) (h2 : Settled s1 s2) : Settled s s2 :=
  ⟨h2.1.trans h1.1, h2.2⟩

/-- A workspace ID of the account is found. -/
theorem findWorkspace_isSome (remote : Remote) (workspaceID : Int)
    (h : ∃ workspace ∈ remote.workspaces, workspace.ID = workspaceID) :
    ∃ found, remote.findWorkspace workspaceID = some found ∧ found.ID = workspaceID
      ∧ found ∈ remote.workspaceList := by
  obtain ⟨workspace, hmem, hid⟩ := h
  cases hf : remote.findWorkspace workspaceID with
  | none =>
    unfold Remote.findWorkspace at hf
    have := List.find?_eq_none.1 hf { ID := workspace.ID, Name := workspace.Name }
      (by unfold Remote.workspaceList; exact List.mem_map.2 ⟨workspace, hmem, rfl⟩)
    simp [hid] at this
  | some found =>
    unfold Remote.findWorkspace at hf
    exact ⟨found, rfl, by simpa using List.find?_some hf, List.mem_of_find?_eq_some hf⟩

/-- The loop of GetClients over the ideal remote maps every client whose
workspace is in the account. -/
theorem GetClients_loop_ideal :
    ∀ (clients : List model.Client) (clientModels : List Client)
      (s : Repositories (Remote × List RemoteCall)), Synced s →
      (∀ client ∈ clients,
        ∃ workspace ∈ s.remote.1.workspaces, workspace.ID = client.WorkspaceID) →
      (ClientRepository.GetClients.loop idealAPI.recording clients clientModels s).1
        = .ok (clientModels ++ clients.map s.remote.1.toClient)
      ∧ Settled s (ClientRepository.GetClients.loop idealAPI.recording clients clientModels s).2
      ∧ (ClientRepository.GetClients.loop idealAPI.recording clients clientModels s).2.clientsCache
        = s.clientsCache := by
  intro clients
  induction clients with
  | nil =>
    intro clientModels s hs _
    unfold ClientRepository.GetClients.loop
    exact ⟨by simp, ⟨rfl, hs⟩, rfl⟩
  | cons client rest ih =>
    intro clientModels s hs href
    obtain ⟨h1, h2⟩ := GetWorkspaceByID_ideal client.WorkspaceID s hs
    obtain ⟨found, hfound, -, -⟩ := findWorkspace_isSome s.remote.1 client.WorkspaceID
      (href client (by simp))
    have hcc := (GetWorkspaceByID_frame idealAPI.recording client.WorkspaceID s).1
    unfold ClientRepository.GetClients.loop
    rcases hg : WorkspaceRepository.GetWorkspaceByID idealAPI.recording client.WorkspaceID s
      with ⟨r, s1⟩
    rw [hg] at h1 h2 hcc
    rw [hfound] at h1
    simp only at h1 hcc
    subst h1
    simp only
    obtain ⟨i1, i2, i3⟩ := ih (clientModels ++
      [{ ID := client.ID, Name := client.Name, Workspace := found }]) s1 h2.2
      (by rw [h2.1]; exact fun c hc => href c (by simp [hc]))
    refine ⟨?_, h2.settled_trans i2, i3.trans hcc⟩
    rw [i1, h2.1]
    simp [Remote.toClient, hfound]

/-- GetClients over the ideal remote returns the clients of the account. -/
theorem GetClients_ideal (s : Repositories (Remote × List RemoteCall)) (hs : Synced s)
    (hwf : s.remote.1.WellFormed) :
    (ClientRepository.GetClients idealAPI.recording s).1 = .ok s.remote.1.clientList
    ∧ Settled s (ClientRepository.GetClients idealAPI.recording s).2 := by
  by_cases hcache : s.clientsCache = []
  · rw [GetClients_fetch idealAPI.recording s hcache]
    have hapi : idealAPI.recording.GetClients s.remote
        = (.ok s.remote.1.clients,
            (s.remote.1, s.remote.2 ++ [.GetClients (.ok s.remote.1.clients)])) := rfl
    rw [hapi]
    simp only
    have hs0 : Synced { s with
        remote := (s.remote.1, s.remote.2 ++ [.GetClients (.ok s.remote.1.clients)]) } := hs
    obtain ⟨l1, l2, -⟩ := GetClients_loop_ideal s.remote.1.clients [] _ hs0 hwf.1
    rcases hl : ClientRepository.GetClients.loop idealAPI.recording s.remote.1.clients []
      { s with remote := (s.remote.1, s.remote.2 ++ [.GetClients (.ok s.remote.1.clients)]) }
      with ⟨r, s1⟩
    rw [hl] at l1 l2
    simp only [List.nil_append] at l1
    subst l1
    obtain ⟨hrem, hw, -, hp⟩ := l2
    simp only at hrem
    refine ⟨rfl, hrem, hw, Or.inr ?_, hp⟩
    simp only [hrem]
    rfl
  · rw [(GetClients_frame idealAPI.recording s).2.2.1 hcache]
    rcases hs.2.1 with h | h
    · exact absurd h hcache
    · exact ⟨by rw [h], rfl, hs⟩

/-- GetClientByID over the ideal remote finds the first client of the account
with the ID. -/
theorem GetClientByID_ideal (clientID : Int) (s : Repositories (Remote × List RemoteCall))
    (hs : Synced s) (hwf : s.remote.1.WellFormed) :
    (ClientRepository.GetClientByID idealAPI.recording clientID s).1
      = (match s.remote.1.findClient clientID with
        | some client => .ok client
        | none => .error "No client found with id")
    ∧ Settled s (ClientRepository.GetClientByID idealAPI.recording clientID s).2 := by
  obtain ⟨h1, h2⟩ := GetClients_ideal s hs hwf
  rw [GetClientByID_state]
  refine ⟨?_, h2⟩
  unfold ClientRepository.GetClientByID
  rcases hg : ClientRepository.GetClients idealAPI.recording s with ⟨r, s1⟩
  rw [hg] at h1
  simp only at h1
  subst h1
  simp only [Remote.findClient]
  cases List.find? _ s.remote.1.clientList <;> rfl

/-- GetClientByName over the ideal remote finds the first client of the account
with the workspace name and the name. -/
theorem GetClientByName_ideal (workspaceName clientName : String)
    (s : Repositories (Remote × List RemoteCall)) (hs : Synced s)
    (hwf : s.remote.1.WellFormed) :
    (ClientRepository.GetClientByName idealAPI.recording workspaceName clientName s).1
      = (match s.remote.1.clientList.find? (fun client =>
          client.Workspace.Name == workspaceName && client.Name == clientName) with
        | some client => .ok client
        | none => .error "Client was not found")
    ∧ Settled s
        (ClientRepository.GetClientByName idealAPI.recording workspaceName clientName s).2 := by
  obtain ⟨h1, h2⟩ := GetClients_ideal s hs hwf
  rw [GetClientByName_state]
  refine ⟨?_, h2⟩
  unfold ClientRepository.GetClientByName
  rcases hg : ClientRepository.GetClients idealAPI.recording s with ⟨r, s1⟩
  rw [hg] at h1
  simp only at h1
  subst h1
  simp only
  cases List.find? _ s.remote.1.clientList <;> rfl

/-- A client ID of the account is found. -/
theorem findClient_isSome (remote : Remote) (clientID : Int)
    (h : ∃ client ∈ remote.clients, client.ID = clientID) :
    ∃ found, remote.findClient clientID = some found := by
  obtain ⟨client, hmem, hid⟩ := h
  cases hf : remote.findClient clientID with
  | none =>
    unfold Remote.findClient at hf
    have := List.find?_eq_none.1 hf (remote.toClient client)
      (by unfold Remote.clientList; exact List.mem_map.2 ⟨client, hmem, rfl⟩)
    simp [Remote.toClient, hid] at this
  | some found => exact ⟨found, rfl⟩

/-- The inner loop of GetProjects over the ideal remote maps every project whose
client, if it has one, is in the account. -/
theorem GetProjects_inner_ideal (workspace : Workspace) :
    ∀ (models : List model.Project) (projects : List Project)
      (s : Repositories (Remote × List RemoteCall)), Synced s → s.remote.1.WellFormed →
      s.projectsCache = [] →
      (∀ project ∈ models,
        project.ClientID = 0 ∨ ∃ client ∈ s.remote.1.clients, client.ID = project.ClientID) →
      (ProjectRepository.GetProjects.inner idealAPI.recording workspace models projects s).1
        = .ok (projects ++ models.map (s.remote.1.toProject workspace))
      ∧ Settled s
          (ProjectRepository.GetProjects.inner idealAPI.recording workspace models projects s).2
      ∧ (ProjectRepository.GetProjects.inner idealAPI.recording workspace models projects
          s).2.projectsCache = [] := by
  intro models
  induction models with
  | nil =>
    intro projects s hs _ hpc _
    unfold ProjectRepository.GetProjects.inner
    exact ⟨by simp, ⟨rfl, hs⟩, hpc⟩
  | cons model rest ih =>
    intro projects s hs hwf hpc href
    unfold ProjectRepository.GetProjects.inner
    simp only
    by_cases hc : model.ClientID = 0
    · simp only [hc, bne_self_eq_false, Bool.false_eq_true, if_false]
      obtain ⟨i1, i2, i3⟩ := ih _ s hs hwf hpc (fun p hp => href p (by simp [hp]))
      refine ⟨?_, i2, i3⟩
      rw [i1]
      simp [Remote.toProject, hc]
    · have hb : (model.ClientID != 0) = true := by simpa using hc
      simp only [hb, if_true]
      obtain ⟨h1, h2⟩ := GetClientByID_ideal model.ClientID s hs hwf
      obtain ⟨found, hfound⟩ := findClient_isSome s.remote.1 model.ClientID
        ((href model (by simp)).resolve_left hc)
      have hpp : (ClientRepository.GetClientByID idealAPI.recording model.ClientID
          s).2.projectsCache = s.projectsCache := by
        rw [GetClientByID_state]
        exact (GetClients_frame idealAPI.recording s).1
      rcases hg : ClientRepository.GetClientByID idealAPI.recording model.ClientID s
        with ⟨r, s1⟩
      rw [hg] at h1 h2 hpp
      rw [hfound] at h1
      simp only at h1 hpp
      subst h1
      simp only
      obtain ⟨i1, i2, i3⟩ := ih _ s1 h2.2 (by rw [h2.1]; exact hwf)
        (hpp.trans hpc) (by rw [h2.1]; exact fun p hp => href p (by simp [hp]))
      refine ⟨?_, h2.settled_trans i2, i3⟩
      rw [i1, h2.1]
      simp [Remote.toProject, hb, hfound]

/-- The outer loop of GetProjects over the ideal remote maps the projects of
every workspace. -/
theorem GetProjects_outer_ideal :
    ∀ (workspaces : List Workspace) (projects : List Project)
      (s : Repositories (Remote × List RemoteCall)), Synced s → s.remote.1.WellFormed →
      s.projectsCache = [] →
      (ProjectRepository.GetProjects.outer idealAPI.recording workspaces projects s).1
        = .ok (projects ++ workspaces.flatMap s.remote.1.projectsOf)
      ∧ Settled s (ProjectRepository.GetProjects.outer idealAPI.recording workspaces projects s).2
      ∧ (ProjectRepository.GetProjects.outer idealAPI.recording workspaces projects
          s).2.projectsCache = [] := by
  intro workspaces
  induction workspaces with
  | nil =>
    intro projects s hs _ hpc
    unfold ProjectRepository.GetProjects.outer
    exact ⟨by simp, ⟨rfl, hs⟩, hpc⟩
  | cons workspace rest ih =>
    intro projects s hs hwf hpc
    unfold ProjectRepository.GetProjects.outer
    have hapi : idealAPI.recording.GetProjects workspace.ID s.remote
        = (.ok (s.remote.1.projects.filter fun project => project.WorkspaceID == workspace.ID),
            (s.remote.1, s.remote.2 ++ [.GetProjects workspace.ID
              (.ok (s.remote.1.projects.filter
                fun project => project.WorkspaceID == workspace.ID))])) := rfl
    rw [hapi]
    simp only
    have hs0 : Synced { s with remote := (s.remote.1, s.remote.2 ++ [.GetProjects workspace.ID
        (.ok (s.remote.1.projects.filter
          fun project => project.WorkspaceID == workspace.ID))]) } := hs
    obtain ⟨l1, l2, l3⟩ := GetProjects_inner_ideal workspace
      (s.remote.1.projects.filter fun project => project.WorkspaceID == workspace.ID)
      projects _ hs0 hwf hpc (fun p hp => hwf.2.1 p (List.mem_of_mem_filter hp))
    rcases hl : ProjectRepository.GetProjects.inner idealAPI.recording workspace
      (s.remote.1.projects.filter fun project => project.WorkspaceID == workspace.ID) projects
      { s with remote := (s.remote.1, s.remote.2 ++ [.GetProjects workspace.ID
        (.ok (s.remote.1.projects.filter
          fun project => project.WorkspaceID == workspace.ID))]) } with ⟨r, s1⟩
    rw [hl] at l1 l2 l3
    simp only at l1 l3
    subst l1
    simp only
    have hrem : s1.remote.1 = s.remote.1 := l2.1
    obtain ⟨i1, i2, i3⟩ := ih _ s1 l2.2 (by rw [hrem]; exact hwf) l3
    refine ⟨?_, ⟨i2.1.trans hrem, i2.2⟩, i3⟩
    rw [i1, hrem]
    simp [Remote.projectsOf]

/-- GetProjects over the ideal remote returns the projects of the account. -/
theorem GetProjects_ideal (s : Repositories (Remote × List RemoteCall)) (hs : Synced s)
    (hwf : s.remote.1.WellFormed) :
    (ProjectRepository.GetProjects idealAPI.recording s).1 = .ok s.remote.1.projectList
    ∧ Settled s (ProjectRepository.GetProjects idealAPI.recording s).2 := by
  by_cases hcache : s.projectsCache = []
  · rw [GetProjects_fetch idealAPI.recording s hcache]
    obtain ⟨w1, w2⟩ := GetWorkspaces_ideal s hs
    have wf := (GetWorkspaces_frame idealAPI.recording s).2.1
    rcases hg : WorkspaceRepository.GetWorkspaces idealAPI.recording s with ⟨r, s0⟩
    rw [hg] at w1 w2 wf
    simp only at w1 wf
    subst w1
    simp only
    have hrem : s0.remote.1 = s.remote.1 := w2.1
    obtain ⟨o1, o2, o3⟩ := GetProjects_outer_ideal s.remote.1.workspaceList [] s0 w2.2
      (by rw [hrem]; exact hwf) (wf.trans hcache)
    rcases hl : ProjectRepository.GetProjects.outer idealAPI.recording
      s.remote.1.workspaceList [] s0 with ⟨r1, s1⟩
    rw [hl] at o1 o2 o3
    simp only [List.nil_append] at o1 o3
    subst o1
    obtain ⟨hrem1, hw1, hc1, -⟩ := o2
    simp only at hrem1
    refine ⟨by simp only [hrem]; rfl, hrem1.trans hrem, hw1, hc1, Or.inr ?_⟩
    simp only [hrem1, hrem]
    rfl
  · rw [GetProjects_cached idealAPI.recording s hcache]
    rcases hs.2.2 with h | h
    · exact absurd h hcache
    · exact ⟨by rw [h], rfl, hs⟩

/-- GetProjectByName over the ideal remote finds the first project of the
account with the three names. -/
theorem GetProjectByName_ideal (projectName workspaceName clientName : String)
    (s : Repositories (Remote × List RemoteCall)) (hs : Synced s)
    (hwf : s.remote.1.WellFormed) :
    (ProjectRepository.GetProjectByName idealAPI.recording projectName workspaceName
        clientName s).1
      = (match s.remote.1.projectList.find? (fun project =>
          project.Name == projectName && project.Workspace.Name == workspaceName
            && project.Client.Name == clientName) with
        | some project => .ok project
        | none => .error "Project was not found")
    ∧ Settled s (ProjectRepository.GetProjectByName idealAPI.recording projectName
        workspaceName clientName s).2 := by
  obtain ⟨h1, h2⟩ := GetProjects_ideal s hs hwf
  rw [GetProjectByName_state]
  refine ⟨?_, h2⟩
  unfold ProjectRepository.GetProjectByName
  rcases hg : ProjectRepository.GetProjects idealAPI.recording s with ⟨r, s1⟩
  rw [hg] at h1
  simp only at h1
  subst h1
  simp only
  cases List.find? _ s.remote.1.projectList <;> rfl

/-- No client of the account as GetClients maps it has a name that no client of
the account has. -/
theorem clientList_name (remote : Remote) (clientName : String)
    (hc : ∀ client ∈ remote.clients, client.Name ≠ clientName) :
    ∀ client ∈ remote.clientList, client.Name ≠ clientName := by
  intro client hmem
  unfold Remote.clientList at hmem
  obtain ⟨model, hm, rfl⟩ := List.mem_map.1 hmem
  exact hc model hm

/-- A project of the account as GetProjects maps it comes from a project of the
account, listed for a workspace of the account. -/
theorem mem_projectList (remote : Remote) (project : Project)
    (h : project ∈ remote.projectList) :
    ∃ workspace ∈ remote.workspaceList, ∃ model ∈ remote.projects,
      model.WorkspaceID = workspace.ID ∧ project = remote.toProject workspace model := by
  unfold Remote.projectList at h
  obtain ⟨workspace, hw, hp⟩ := List.mem_flatMap.1 h
  unfold Remote.projectsOf at hp
  obtain ⟨model, hm, rfl⟩ := List.mem_map.1 hp
  obtain ⟨hm1, hm2⟩ := List.mem_filter.1 hm
  exact ⟨workspace, hw, model, hm1, by simpa using hm2, rfl⟩

/-- The client of a mapped project is the zero client or a client of the account. -/
theorem toProject_client (remote : Remote) (workspace : Workspace) (model : model.Project) :
    (remote.toProject workspace model).Client = Client.zero
    ∨ (model.ClientID ≠ 0
      ∧ remote.findClient model.ClientID = some (remote.toProject workspace model).Client) := by
  unfold Remote.toProject
  by_cases hc : model.ClientID = 0
  · left
    simp [hc]
  · have hb : (model.ClientID != 0) = true := by simpa using hc
    simp only [hb, if_true]
    cases hf : remote.findClient model.ClientID with
    | none => left; rfl
    | some client => right; exact ⟨hc, rfl⟩

/-- With a non-empty client name that no client of the account has, no project
of the account has a client of that name. -/
theorem projectList_client_name (remote : Remote) (clientName : String)
    (hn : clientName ≠ "") (hc : ∀ client ∈ remote.clients, client.Name ≠ clientName) :
    ∀ project ∈ remote.projectList, project.Client.Name ≠ clientName := by
  intro project hmem
  obtain ⟨workspace, -, model, -, -, rfl⟩ := mem_projectList remote project hmem
  rcases toProject_client remote workspace model with h | ⟨-, h⟩
  · rw [h]
    exact fun h0 => hn h0.symm
  · unfold Remote.findClient at h
    exact clientList_name remote clientName hc _ (List.mem_of_find?_eq_some h)

theorem afterCreation_workspaceList (remote : Remote) (workspaceID : Int)
    (clientName projectName : String) :
    (remote.afterCreation workspaceID clientName projectName).workspaceList
      = remote.workspaceList := rfl

theorem afterCreation_findWorkspace (remote : Remote) (workspaceID : Int)
    (clientName projectName : String) (id : Int) :
    (remote.afterCreation workspaceID clientName projectName).findWorkspace id
      = remote.findWorkspace id := rfl

/-- The account after the creation of a client and a project in one of its
workspaces is well-formed. -/
theorem afterCreation_WellFormed (remote : Remote) (workspaceID : Int)
    (clientName projectName : String) (hwf : remote.WellFormed)
    (hw : ∃ workspace ∈ remote.workspaces, workspace.ID = workspaceID) :
    (remote.afterCreation workspaceID clientName projectName).WellFormed := by
  obtain ⟨h1, h2, h3, h4⟩ := hwf
  refine ⟨?_, ?_, ?_, ?_⟩
  · intro client hmem
    simp only [Remote.afterCreation, List.mem_append, List.mem_singleton] at hmem
    rcases hmem with hm | rfl
    · exact h1 client hm
    · exact hw
  · intro project hmem
    simp only [Remote.afterCreation, List.mem_append, List.mem_singleton] at hmem ⊢
    rcases hmem with hm | rfl
    · rcases h2 project hm with h | ⟨client, hc, hid⟩
      · exact Or.inl h
      · exact Or.inr ⟨client, Or.inl hc, hid⟩
    · exact Or.inr ⟨_, Or.inr rfl, rfl⟩
  · simp only [Remote.afterCreation]
    omega
  · intro client hmem
    simp only [Remote.afterCreation, List.mem_append, List.mem_singleton] at hmem ⊢
    rcases hmem with hm | rfl
    · have := h4 client hm
      omega
    · simp only
      omega

/-- In the account after the creation, the ID given to the new client finds the
new client. -/
theorem afterCreation_findClient (remote : Remote) (workspaceID : Int)
    (clientName projectName : String) (hwf : remote.WellFormed) :
    ∃ found, (remote.afterCreation workspaceID clientName projectName).findClient remote.nextID
        = some found
      ∧ found.ID = remote.nextID ∧ found.Name = clientName := by
  refine ⟨(remote.afterCreation workspaceID clientName projectName).toClient
    { ID := remote.nextID, WorkspaceID := workspaceID, Name := clientName, Notes := "" },
    ?_, rfl, rfl⟩
  unfold Remote.findClient Remote.clientList
  have hold : List.find? (fun client : Client => client.ID == remote.nextID)
      (List.map (remote.afterCreation workspaceID clientName projectName).toClient
        remote.clients) = none := by
    rw [List.find?_eq_none]
    intro client hmem
    obtain ⟨model, hm, rfl⟩ := List.mem_map.1 hmem
    have := hwf.2.2.2 model hm
    simp only [Remote.toClient, beq_iff_eq]
    omega
  simp only [Remote.afterCreation, List.map_append, List.find?_append, List.map_cons,
    List.map_nil] at hold ⊢
  rw [hold]
  simp [Remote.toClient]

/-- In the account after the creation, the new project is listed for the
workspace it was created in, with the new client. -/
theorem afterCreation_mem_projectList (remote : Remote) (workspace : Workspace)
    (clientName projectName : String) (hwf : remote.WellFormed)
    (hw : workspace ∈ remote.workspaceList) :
    ∃ project ∈ (remote.afterCreation workspace.ID clientName projectName).projectList,
      project.Name = projectName ∧ project.Workspace = workspace
      ∧ project.Client.Name = clientName := by
  obtain ⟨found, hfound, -, hname⟩ :=
    afterCreation_findClient remote workspace.ID clientName projectName hwf
  refine ⟨(remote.afterCreation workspace.ID clientName projectName).toProject workspace
    { ID := remote.nextID + 1, WorkspaceID := workspace.ID, ClientID := remote.nextID,
      Name := projectName }, ?_, rfl, rfl, ?_⟩
  · unfold Remote.projectList
    rw [afterCreation_workspaceList]
    refine List.mem_flatMap.2 ⟨workspace, hw, ?_⟩
    unfold Remote.projectsOf
    refine List.mem_map.2 ⟨_, ?_, rfl⟩
    simp [Remote.afterCreation]
  · have hne : (remote.nextID != 0) = true := by
      have := hwf.2.2.1
      simp only [bne_iff_ne, ne_eq]
      omega
    simp only [Remote.toProject, hne, if_true, hfound, Option.getD_some]
    exact hname

/-- In the account after the creation, with a non-empty client name that no
client had before, every project with a client of that name has the ID given to
the new project. -/
theorem afterCreation_project_ID (remote : Remote) (workspaceID : Int)
    (clientName projectName : String) (hwf : remote.WellFormed) (hn : clientName ≠ "")
    (hc : ∀ client ∈ remote.clients, client.Name ≠ clientName) :
    ∀ project ∈ (remote.afterCreation workspaceID clientName projectName).projectList,
      project.Client.Name = clientName → project.ID = remote.nextID + 1 := by
  intro project hmem hname
  obtain ⟨workspace, -, model, hm, -, rfl⟩ := mem_projectList _ project hmem
  rcases toProject_client (remote.afterCreation workspaceID clientName projectName)
    workspace model with h | ⟨hne, h⟩
  · rw [h] at hname
    exact absurd hname.symm hn
  · have hid : ((remote.afterCreation workspaceID clientName projectName).toProject
        workspace model).Client.ID = model.ClientID := by
      unfold Remote.findClient at h
      simpa using List.find?_some h
    have hin := List.mem_of_find?_eq_some h
    unfold Remote.clientList at hin
    obtain ⟨clientModel, hcm, hceq⟩ := List.mem_map.1 hin
    have hcname : clientModel.Name = clientName := by
      rw [← hname, ← hceq]
      rfl
    have hcid : clientModel.ID = model.ClientID := by
      rw [← hid, ← hceq]
      rfl
    simp only [Remote.afterCreation, List.mem_append, List.mem_singleton] at hcm hm
    rcases hcm with hold | rfl
    · exact absurd hcname (hc clientModel hold)
    · rcases hm with hmold | rfl
      · exfalso
        rcases hwf.2.1 model hmold with h0 | ⟨oldClient, hoc, hoid⟩
        · exact hne h0
        · have := hwf.2.2.2 oldClient hoc
          simp only at hcid
          omega
      · rfl

/-- The first workspace of the account with the name, when there is one. -/
theorem workspaceList_find_name (remote : Remote) (workspaceName : String)
    (hw : ∃ workspace ∈ remote.workspaces, workspace.Name = workspaceName) :
    ∃ found, remote.workspaceList.find? (fun workspace => workspace.Name == workspaceName)
        = some found
      ∧ found ∈ remote.workspaceList ∧ found.Name = workspaceName
      ∧ ∃ workspace ∈ remote.workspaces, workspace.ID = found.ID := by
  obtain ⟨workspace, hmem, hname⟩ := hw
  cases hf : remote.workspaceList.find? (fun workspace => workspace.Name == workspaceName) with
  | none =>
    have := List.find?_eq_none.1 hf { ID := workspace.ID, Name := workspace.Name }
      (by unfold Remote.workspaceList; exact List.mem_map.2 ⟨workspace, hmem, rfl⟩)
    simp [hname] at this
  | some found =>
    have hin := List.mem_of_find?_eq_some hf
    refine ⟨found, rfl, hin, by simpa using List.find?_some hf, ?_⟩
    unfold Remote.workspaceList at hin
    obtain ⟨model, hm, rfl⟩ := List.mem_map.1 hin
    exact ⟨model, hm, rfl⟩

/-- CreateProject over the ideal remote, for a workspace of the account and a
non-empty client name that no client of the account has: it succeeds, the
account afterwards has the new client and the new project, the caches agree with
it, and the create requests sent are the client, then the project. -/
theorem CreateProject_ideal (projectName workspaceName clientName : String)
    (s : Repositories (Remote × List RemoteCall)) (hs : Synced s)
    (hwf : s.remote.1.WellFormed)
    (hw : ∃ workspace ∈ s.remote.1.workspaces, workspace.Name = workspaceName)
    (hn : clientName ≠ "")
    (hc : ∀ client ∈ s.remote.1.clients, client.Name ≠ clientName) :
    ∃ workspace,
      s.remote.1.workspaceList.find? (fun workspace => workspace.Name == workspaceName)
        = some workspace
      ∧ (∃ project, (ProjectRepository.CreateProject idealAPI.recording projectName
          workspaceName clientName s).1 = .ok project)
      ∧ (ProjectRepository.CreateProject idealAPI.recording projectName workspaceName
          clientName s).2.remote.1
        = s.remote.1.afterCreation workspace.ID clientName projectName
      ∧ Synced (ProjectRepository.CreateProject idealAPI.recording projectName workspaceName
          clientName s).2
      ∧ creations (ProjectRepository.CreateProject idealAPI.recording projectName workspaceName
          clientName s).2.remote.2
        = creations s.remote.2 ++
          [.CreateClient
            { ID := 0, WorkspaceID := workspace.ID, Name := clientName, Notes := "" }
            (.ok { ID := s.remote.1.nextID, WorkspaceID := workspace.ID, Name := clientName,
                   Notes := "" }),
           .CreateProject
            { ID := 0, WorkspaceID := workspace.ID, ClientID := s.remote.1.nextID,
              Name := projectName }
            (.ok { ID := s.remote.1.nextID + 1, WorkspaceID := workspace.ID,
                   ClientID := s.remote.1.nextID, Name := projectName })] := by
  obtain ⟨workspace, hfind, hmem, -, hwid⟩ := workspaceList_find_name s.remote.1 workspaceName hw
  refine ⟨workspace, hfind, ?_⟩
  have hb : (clientName != "") = true := by simpa using hn
  -- the workspace lookup
  obtain ⟨w1, w2⟩ := GetWorkspaceByName_ideal workspaceName s hs
  have wq := GetWorkspaceByName_quiet idealAPI workspaceName s
  unfold ProjectRepository.CreateProject
  rcases hg1 : WorkspaceRepository.GetWorkspaceByName idealAPI.recording workspaceName s
    with ⟨r1, s1⟩
  rw [hg1] at w1 w2 wq
  rw [hfind] at w1
  simp only at w1
  subst w1
  simp only [hb, if_true]
  have hrem1 : s1.remote.1 = s.remote.1 := w2.1
  -- the client lookup
  obtain ⟨c1, c2⟩ := GetClientByName_ideal workspaceName clientName s1 w2.2
    (by rw [hrem1]; exact hwf)
  have cq := GetClientByName_quiet idealAPI workspaceName clientName s1
  have hnone : s1.remote.1.clientList.find? (fun client =>
      client.Workspace.Name == workspaceName && client.Name == clientName) = none := by
    rw [List.find?_eq_none, hrem1]
    intro client hcl
    have := clientList_name s.remote.1 clientName hc client hcl
    simp [this]
  rcases hg2 : ClientRepository.GetClientByName idealAPI.recording workspaceName clientName s1
    with ⟨r2, s2⟩
  rw [hg2] at c1 c2 cq
  rw [hnone] at c1
  simp only at c1
  subst c1
  simp only
  have hrem2 : s2.remote.1 = s.remote.1 := c2.1.trans hrem1
  -- the creation of the client
  obtain ⟨found, hfound, hfid, -⟩ := findWorkspace_isSome s.remote.1 workspace.ID hwid
  obtain ⟨i1, i2⟩ := GetWorkspaceByID_ideal workspace.ID s2 c2.2
  have iq := GetWorkspaceByID_quiet idealAPI workspace.ID s2
  unfold ClientRepository.CreateClient
  rcases hg3 : WorkspaceRepository.GetWorkspaceByID idealAPI.recording workspace.ID s2
    with ⟨r3, s3⟩
  rw [hg3] at i1 i2 iq
  rw [hrem2, hfound] at i1
  simp only at i1
  subst i1
  have hrem3 : s3.remote.1 = s.remote.1 := i2.1.trans hrem2
  have hq3 : creations s3.remote.2 = creations s.remote.2 := ((wq.quiet_trans cq).quiet_trans iq).creations_eq
  obtain ⟨hsw, -, -⟩ := i2.2
  simp only [ProjectRepository.CreateProject.submit, model.TogglAPI.recording, traced,
    idealAPI, hrem3, hfid]
  refine ⟨⟨_, rfl⟩, rfl, ⟨?_, Or.inl rfl, Or.inl rfl⟩, ?_⟩
  · rcases hsw with h | h
    · exact Or.inl h
    · right
      rw [h, hrem3]
      rfl
  · simp only [creations, List.filter_append, List.append_assoc] at hq3 ⊢
    rw [hq3]
    rfl

/-- CreateTimeRecord over the real repositories (`NewTimeRecordRepository`) and
the ideal remote, from a state whose account is well-formed and whose caches
agree with the account, for a record whose workspace is in the account and whose
client name is not empty and names no client of the account: the project lookup
fails, CreateTimeRecord returns nil, and the create requests it sends are the
client, then the project, then the time entry. -/
theorem CreateTimeRecord_ideal (timeRecord : TimeRecord)
    (s : Repositories (Remote × List RemoteCall))
    (hwf : s.remote.1.WellFormed) (hs : Synced s)
    (hw : ∃ workspace ∈ s.remote.1.workspaces, workspace.Name = timeRecord.WorkspaceName)
    (hn : timeRecord.ClientName ≠ "")
    (hc : ∀ client ∈ s.remote.1.clients, client.Name ≠ timeRecord.ClientName) :
    ∃ workspace,
      s.remote.1.workspaceList.find?
          (fun workspace => workspace.Name == timeRecord.WorkspaceName) = some workspace
      ∧ (ProjectRepository.GetProjectByName idealAPI.recording timeRecord.ProjectName
          timeRecord.WorkspaceName timeRecord.ClientName s).1 = .error "Project was not found"
      ∧ ((NewTimeRecordRepository idealAPI.recording).CreateTimeRecord timeRecord s).1 = .ok ()
      ∧ creations ((NewTimeRecordRepository idealAPI.recording).CreateTimeRecord timeRecord
          s).2.remote.2
        = creations s.remote.2 ++
          [.CreateClient
            { ID := 0, WorkspaceID := workspace.ID, Name := timeRecord.ClientName, Notes := "" }
            (.ok { ID := s.remote.1.nextID, WorkspaceID := workspace.ID,
                   Name := timeRecord.ClientName, Notes := "" }),
           .CreateProject
            { ID := 0, WorkspaceID := workspace.ID, ClientID := s.remote.1.nextID,
              Name := timeRecord.ProjectName }
            (.ok { ID := s.remote.1.nextID + 1, WorkspaceID := workspace.ID,
                   ClientID := s.remote.1.nextID, Name := timeRecord.ProjectName }),
           .CreateTimeEntry
            { ID := 0, Wid := workspace.ID, Pid := s.remote.1.nextID + 1,
              Start := timeRecord.Start, Stop := timeRecord.Stop, Billable := false,
              Description := timeRecord.Description, Tags := timeRecord.Tags,
              CreatedWith := "" }
            (.ok { ID := s.remote.1.nextID + 1 + 1, Wid := workspace.ID,
                   Pid := s.remote.1.nextID + 1,
                   Start := timeRecord.Start, Stop := timeRecord.Stop, Billable := false,
                   Description := timeRecord.Description, Tags := timeRecord.Tags,
                   CreatedWith := "" })] := by
  -- the project lookup fails
  obtain ⟨g1, g2⟩ := GetProjectByName_ideal timeRecord.ProjectName timeRecord.WorkspaceName
    timeRecord.ClientName s hs hwf
  have gq := GetProjectByName_quiet idealAPI timeRecord.ProjectName timeRecord.WorkspaceName
    timeRecord.ClientName s
  have hnone : s.remote.1.projectList.find? (fun project =>
      project.Name == timeRecord.ProjectName
        && project.Workspace.Name == timeRecord.WorkspaceName
        && project.Client.Name == timeRecord.ClientName) = none := by
    rw [List.find?_eq_none]
    intro project hp
    have := projectList_client_name s.remote.1 timeRecord.ClientName hn hc project hp
    simp [this]
  rw [hnone] at g1
  simp only at g1
  rcases hg0 : ProjectRepository.GetProjectByName idealAPI.recording timeRecord.ProjectName
    timeRecord.WorkspaceName timeRecord.ClientName s with ⟨r0, s1⟩
  rw [hg0] at g1 g2 gq
  simp only at g1
  subst g1
  have hrem1 : s1.remote.1 = s.remote.1 := g2.1
  -- the project and its client are created
  obtain ⟨workspace, hfind, ⟨project, hproject⟩, hrem2, hs2, hcre2⟩ :=
    CreateProject_ideal timeRecord.ProjectName timeRecord.WorkspaceName timeRecord.ClientName
      s1 g2.2 (by rw [hrem1]; exact hwf) (by rw [hrem1]; exact hw) hn
      (by rw [hrem1]; exact hc)
  rw [hrem1] at hfind hrem2 hcre2
  rw [gq.creations_eq] at hcre2
  refine ⟨workspace, hfind, rfl, ?_⟩
  have hmem : workspace ∈ s.remote.1.workspaceList := List.mem_of_find?_eq_some hfind
  have hwid2 : ∃ w ∈ s.remote.1.workspaces, w.ID = workspace.ID := by
    unfold Remote.workspaceList at hmem
    obtain ⟨model, hm, rfl⟩ := List.mem_map.1 hmem
    exact ⟨model, hm, rfl⟩
  have hwf2 := afterCreation_WellFormed s.remote.1 workspace.ID timeRecord.ClientName
    timeRecord.ProjectName hwf hwid2
  simp only [TimeRecordRepository.CreateTimeRecord, NewTimeRecordRepository,
    NewProjectRepository, hg0]
  rcases hg1 : ProjectRepository.CreateProject idealAPI.recording timeRecord.ProjectName
    timeRecord.WorkspaceName timeRecord.ClientName s1 with ⟨r1, s2⟩
  rw [hg1] at hproject hrem2 hs2 hcre2
  simp only at hproject hrem2 hs2 hcre2
  subst hproject
  simp only [TimeRecordRepository.CreateTimeRecord.submit,
    TogglModelConverter.asModelConverter, TogglModelConverter.ConvertTimeRecordToTimeEntry,
    NewWorkspaceRepository]
  -- the conversion finds the workspace and the new project
  obtain ⟨w1, w2⟩ := GetWorkspaceByName_ideal timeRecord.WorkspaceName s2 hs2
  have wq := GetWorkspaceByName_quiet idealAPI timeRecord.WorkspaceName s2
  rw [hrem2, afterCreation_workspaceList, hfind] at w1
  rcases hg2 : WorkspaceRepository.GetWorkspaceByName idealAPI.recording
    timeRecord.WorkspaceName s2 with ⟨r2, s3⟩
  rw [hg2] at w1 w2 wq
  simp only at w1
  subst w1
  simp only
  have hrem3 : s3.remote.1
      = s.remote.1.afterCreation workspace.ID timeRecord.ClientName timeRecord.ProjectName :=
    w2.1.trans hrem2
  obtain ⟨p1, p2⟩ := GetProjectByName_ideal timeRecord.ProjectName timeRecord.WorkspaceName
    timeRecord.ClientName s3 w2.2 (by rw [hrem3]; exact hwf2)
  have pq := GetProjectByName_quiet idealAPI timeRecord.ProjectName timeRecord.WorkspaceName
    timeRecord.ClientName s3
  obtain ⟨found, hfp, hfid⟩ : ∃ found, s3.remote.1.projectList.find? (fun project =>
      project.Name == timeRecord.ProjectName
        && project.Workspace.Name == timeRecord.WorkspaceName
        && project.Client.Name == timeRecord.ClientName) = some found
      ∧ found.ID = s.remote.1.nextID + 1 := by
    rw [hrem3]
    obtain ⟨candidate, hcm, hcn, hcw, hcc⟩ := afterCreation_mem_projectList s.remote.1 workspace
      timeRecord.ClientName timeRecord.ProjectName hwf hmem
    have hwname : workspace.Name = timeRecord.WorkspaceName := by
      simpa using List.find?_some hfind
    cases hf : (s.remote.1.afterCreation workspace.ID timeRecord.ClientName
        timeRecord.ProjectName).projectList.find? (fun project =>
          project.Name == timeRecord.ProjectName
            && project.Workspace.Name == timeRecord.WorkspaceName
            && project.Client.Name == timeRecord.ClientName) with
    | none =>
      have := List.find?_eq_none.1 hf candidate hcm
      simp [hcn, hcw, hcc, hwname] at this
    | some found =>
      refine ⟨found, rfl, ?_⟩
      have hprop := List.find?_some hf
      simp only [Bool.and_eq_true, beq_iff_eq] at hprop
      exact afterCreation_project_ID s.remote.1 workspace.ID timeRecord.ClientName
        timeRecord.ProjectName hwf hn hc found (List.mem_of_find?_eq_some hf) hprop.2
  rw [hfp] at p1
  rcases hg3 : ProjectRepository.GetProjectByName idealAPI.recording timeRecord.ProjectName
    timeRecord.WorkspaceName timeRecord.ClientName s3 with ⟨r3, s4⟩
  rw [hg3] at p1 p2 pq
  simp only at p1
  subst p1
  have hrem4 : s4.remote.1
      = s.remote.1.afterCreation workspace.ID timeRecord.ClientName timeRecord.ProjectName :=
    p2.1.trans hrem3
  have hq4 : creations s4.remote.2 = creations s2.remote.2 := (wq.quiet_trans pq).creations_eq
  -- the time entry is submitted
  simp only [model.TogglAPI.recording, traced, idealAPI, hrem4, hfid, Remote.afterCreation]
  simp only [creations, List.filter_append] at hq4 hcre2 ⊢
  rw [hq4, hcre2]
  simp [RemoteCall.isCreate]


/-! ## The states reached over the ideal remote -/

/-- A client added to the account leaves the projects as GetProjects maps them,
when the references of the account resolve. -/
theorem projectList_add_client (remote : Remote) (client : model.Client) (nextID : Int)
    (hwf : remote.WellFormed) :
    ({ remote with clients := remote.clients ++ [client], nextID := nextID } : Remote).projectList
      = remote.projectList := by
  unfold Remote.projectList
  have hws : ({ remote with clients := remote.clients ++ [client], nextID := nextID }
      : Remote).workspaceList = remote.workspaceList := rfl
  rw [hws]
  congr 1
  funext workspace
  unfold Remote.projectsOf
  apply List.map_congr_left
  intro model hm
  have hmem : model ∈ remote.projects := List.mem_of_mem_filter hm
  unfold Remote.toProject
  by_cases hc : model.ClientID = 0
  · simp [hc]
  · have hb : (model.ClientID != 0) = true := by simpa using hc
    simp only [hb, if_true]
    obtain ⟨found, hfound⟩ := findClient_isSome remote model.ClientID
      ((hwf.2.1 model hmem).resolve_left hc)
    have hnew : ({ remote with clients := remote.clients ++ [client], nextID := nextID }
        : Remote).findClient model.ClientID = some found := by
      unfold Remote.findClient Remote.clientList at hfound ⊢
      simp only [List.map_append, List.find?_append]
      have : List.find? (fun c : Client => c.ID == model.ClientID)
          (List.map ({ remote with clients := remote.clients ++ [client], nextID := nextID }
            : Remote).toClient remote.clients) = some found := hfound
      rw [this]
      rfl
    rw [hnew, hfound]

/-- The account after the ideal remote has created a client in one of its
workspaces is well-formed. -/
theorem WellFormed_add_client (remote : Remote) (workspaceID : Int) (name : String)
    (hwf : remote.WellFormed)
    (hw : ∃ workspace ∈ remote.workspaces, workspace.ID = workspaceID) :
    ({ remote with
        clients := remote.clients
          ++ [{ ID := remote.nextID, WorkspaceID := workspaceID, Name := name, Notes := "" }],
        nextID := remote.nextID + 1 } : Remote).WellFormed := by
  obtain ⟨h1, h2, h3, h4⟩ := hwf
  refine ⟨?_, ?_, ?_, ?_⟩
  · intro client hmem
    simp only [List.mem_append, List.mem_singleton] at hmem
    rcases hmem with hm | rfl
    · exact h1 client hm
    · exact hw
  · intro project hmem
    simp only [List.mem_append, List.mem_singleton]
    rcases h2 project hmem with h | ⟨client, hc, hid⟩
    · exact Or.inl h
    · exact Or.inr ⟨client, Or.inl hc, hid⟩
  · simp only
    omega
  · intro client hmem
    simp only [List.mem_append, List.mem_singleton] at hmem ⊢
    rcases hmem with hm | rfl
    · have := h4 client hm
      omega
    · simp only
      omega

/-- The account after the ideal remote has created a project without client, or
of one of its clients, is well-formed. -/
theorem WellFormed_add_project (remote : Remote) (project : model.Project)
    (hwf : remote.WellFormed)
    (hp : project.ClientID = 0 ∨ ∃ client ∈ remote.clients, client.ID = project.ClientID) :
    ({ remote with
        projects := remote.projects ++ [{ project with ID := remote.nextID }],
        nextID := remote.nextID + 1 } : Remote).WellFormed := by
  obtain ⟨h1, h2, h3, h4⟩ := hwf
  refine ⟨h1, ?_, ?_, ?_⟩
  · intro model hmem
    simp only [List.mem_append, List.mem_singleton] at hmem
    rcases hmem with hm | rfl
    · exact h2 model hm
    · exact hp
  · simp only
    omega
  · intro client hmem
    have := h4 client hmem
    simp only
    omega

/-- A client of the account as GetClients maps it has the ID of a client of the
account. -/
theorem clientList_ID (remote : Remote) (client : Client) (h : client ∈ remote.clientList) :
    ∃ model ∈ remote.clients, model.ID = client.ID := by
  unfold Remote.clientList at h
  obtain ⟨model, hm, rfl⟩ := List.mem_map.1 h
  exact ⟨model, hm, rfl⟩

/-- CreateClient over the ideal remote keeps the account well-formed and the
caches in agreement with it. -/
theorem CreateClient_invariant (workspaceID : Int) (name : String)
    (s : Repositories (Remote × List RemoteCall)) (hwf : s.remote.1.WellFormed)
    (hs : Synced s) :
    (ClientRepository.CreateClient idealAPI.recording workspaceID name s).2.remote.1.WellFormed
    ∧ Synced (ClientRepository.CreateClient idealAPI.recording workspaceID name s).2 := by
  obtain ⟨i1, i2⟩ := GetWorkspaceByID_ideal workspaceID s hs
  unfold ClientRepository.CreateClient
  rcases hg : WorkspaceRepository.GetWorkspaceByID idealAPI.recording workspaceID s with ⟨r, s1⟩
  rw [hg] at i1 i2
  simp only at i1
  have hrem : s1.remote.1 = s.remote.1 := i2.1
  cases hf : s.remote.1.findWorkspace workspaceID with
  | none =>
    rw [hf] at i1
    subst i1
    exact ⟨by rw [hrem]; exact hwf, i2.2⟩
  | some found =>
    rw [hf] at i1
    subst i1
    have hin : found ∈ s.remote.1.workspaceList := by
      unfold Remote.findWorkspace at hf
      exact List.mem_of_find?_eq_some hf
    have hwid : ∃ workspace ∈ s1.remote.1.workspaces, workspace.ID = found.ID := by
      rw [hrem]
      unfold Remote.workspaceList at hin
      obtain ⟨model, hm, rfl⟩ := List.mem_map.1 hin
      exact ⟨model, hm, rfl⟩
    have hwf1 : s1.remote.1.WellFormed := by rw [hrem]; exact hwf
    simp only [model.TogglAPI.recording, traced, idealAPI]
    refine ⟨WellFormed_add_client s1.remote.1 found.ID name hwf1 hwid, ?_, Or.inl rfl, ?_⟩
    · exact i2.2.1
    · rcases i2.2.2.2 with h | h
      · exact Or.inl h
      · right
        simp only
        rw [h]
        exact (projectList_add_client s1.remote.1 _ _ hwf1).symm

/-- The end of CreateProject over the ideal remote keeps the account well-formed
and the caches in agreement with it, for no client or a client of the account. -/
theorem CreateProject_submit_invariant (projectName : String) (workspace : Workspace)
    (client : Client) (s : Repositories (Remote × List RemoteCall))
    (hwf : s.remote.1.WellFormed) (hs : Synced s)
    (hc : client.ID = 0 ∨ ∃ model ∈ s.remote.1.clients, model.ID = client.ID) :
    (ProjectRepository.CreateProject.submit idealAPI.recording projectName workspace client
        s).2.remote.1.WellFormed
    ∧ Synced (ProjectRepository.CreateProject.submit idealAPI.recording projectName workspace
        client s).2 := by
  simp only [ProjectRepository.CreateProject.submit, model.TogglAPI.recording, traced, idealAPI]
  refine ⟨WellFormed_add_project s.remote.1
    { ID := 0, WorkspaceID := workspace.ID, ClientID := client.ID, Name := projectName }
    hwf hc, ?_, ?_, Or.inl rfl⟩
  · exact hs.1
  · exact hs.2.1

/-- A client created over the ideal remote is a client of the account afterwards. -/
theorem CreateClient_ideal_member (workspaceID : Int) (name : String)
    (s s1 : Repositories (Remote × List RemoteCall)) (client : Client)
    (h : ClientRepository.CreateClient idealAPI.recording workspaceID name s = (.ok client, s1)) :
    ∃ model ∈ s1.remote.1.clients, model.ID = client.ID := by
  unfold ClientRepository.CreateClient at h
  rcases hw : WorkspaceRepository.GetWorkspaceByID idealAPI.recording workspaceID s with ⟨r, s0⟩
  rw [hw] at h
  cases r with
  | error e => simp at h
  | ok found =>
    simp only [model.TogglAPI.recording, traced, idealAPI, Prod.mk.injEq, Except.ok.injEq] at h
    obtain ⟨rfl, rfl⟩ := h
    exact ⟨{ ID := s0.remote.1.nextID, WorkspaceID := found.ID, Name := name, Notes := "" },
      by simp, rfl⟩

/-- CreateProject over the ideal remote keeps the account well-formed and the
caches in agreement with it. -/
theorem CreateProject_invariant (projectName workspaceName clientName : String)
    (s : Repositories (Remote × List RemoteCall)) (hwf : s.remote.1.WellFormed)
    (hs : Synced s) :
    (ProjectRepository.CreateProject idealAPI.recording projectName workspaceName clientName
        s).2.remote.1.WellFormed
    ∧ Synced (ProjectRepository.CreateProject idealAPI.recording projectName workspaceName
        clientName s).2 := by
  obtain ⟨w1, w2⟩ := GetWorkspaceByName_ideal workspaceName s hs
  unfold ProjectRepository.CreateProject
  rcases hg1 : WorkspaceRepository.GetWorkspaceByName idealAPI.recording workspaceName s
    with ⟨r1, s1⟩
  rw [hg1] at w1 w2
  have hrem1 : s1.remote.1 = s.remote.1 := w2.1
  have hwf1 : s1.remote.1.WellFormed := by rw [hrem1]; exact hwf
  cases r1 with
  | error e => exact ⟨hwf1, w2.2⟩
  | ok workspace =>
    simp only
    split_ifs
    · obtain ⟨c1, c2⟩ := GetClientByName_ideal workspaceName clientName s1 w2.2 hwf1
      rcases hg2 : ClientRepository.GetClientByName idealAPI.recording workspaceName clientName
        s1 with ⟨r2, s2⟩
      rw [hg2] at c1 c2
      have hrem2 : s2.remote.1 = s1.remote.1 := c2.1
      have hwf2 : s2.remote.1.WellFormed := by rw [hrem2]; exact hwf1
      cases r2 with
      | error e =>
        simp only
        obtain ⟨k1, k2⟩ := CreateClient_invariant workspace.ID clientName s2 hwf2 c2.2
        rcases hg3 : ClientRepository.CreateClient idealAPI.recording workspace.ID clientName s2
          with ⟨r3, s3⟩
        rw [hg3] at k1 k2
        cases r3 with
        | error e3 => exact ⟨k1, k2⟩
        | ok createdClient =>
          simp only
          refine CreateProject_submit_invariant projectName workspace createdClient s3 k1 k2
            (Or.inr ?_)
          exact CreateClient_ideal_member workspace.ID clientName s2 s3 createdClient hg3
      | ok existingClient =>
        simp only
        refine CreateProject_submit_invariant projectName workspace existingClient s2 hwf2 c2.2
          (Or.inr ?_)
        rw [hrem2]
        cases hf : s1.remote.1.clientList.find? (fun client =>
            client.Workspace.Name == workspaceName && client.Name == clientName) with
        | none => rw [hf] at c1; simp at c1
        | some found =>
          rw [hf] at c1
          simp only [Except.ok.injEq] at c1
          subst c1
          exact clientList_ID s1.remote.1 existingClient (List.mem_of_find?_eq_some hf)
    · exact CreateProject_submit_invariant projectName workspace Client.zero s1 hwf1 w2.2
        (Or.inl rfl)

/-- Every operation over the ideal remote keeps the account well-formed and the
caches in agreement with it. -/
theorem Operation_run_invariant (operation : Operation)
    (s : Repositories (Remote × List RemoteCall)) (hwf : s.remote.1.WellFormed)
    (hs : Synced s) :
    (operation.run idealAPI.recording s).remote.1.WellFormed
    ∧ Synced (operation.run idealAPI.recording s) := by
  have settled : ∀ s1, Settled s s1 → s1.remote.1.WellFormed ∧ Synced s1 :=
    fun s1 h => ⟨by rw [h.1]; exact hwf, h.2⟩
  cases operation with
  | repository call =>
    cases call with
    | CreateWorkspace name => exact ⟨hwf, hs⟩
    | GetWorkspaces => exact settled _ (GetWorkspaces_ideal s hs).2
    | GetWorkspaceByID workspaceID => exact settled _ (GetWorkspaceByID_ideal workspaceID s hs).2
    | GetWorkspaceByName workspaceName =>
      exact settled _ (GetWorkspaceByName_ideal workspaceName s hs).2
    | CreateProject projectName workspaceName clientName =>
      exact CreateProject_invariant projectName workspaceName clientName s hwf hs
    | GetProjects => exact settled _ (GetProjects_ideal s hs hwf).2
    | GetProjectByID projectID =>
      simp only [Operation.run, RepositoryCall.run, GetProjectByID_state]
      exact settled _ (GetProjects_ideal s hs hwf).2
    | GetProjectByName projectName workspaceName clientName =>
      exact settled _ (GetProjectByName_ideal projectName workspaceName clientName s hs hwf).2
    | CreateClient workspaceID name => exact CreateClient_invariant workspaceID name s hwf hs
    | GetClients => exact settled _ (GetClients_ideal s hs hwf).2
    | GetClientByID clientID => exact settled _ (GetClientByID_ideal clientID s hs hwf).2
    | GetClientByName workspaceName clientName =>
      exact settled _ (GetClientByName_ideal workspaceName clientName s hs hwf).2
  | CreateTimeEntry timeEntry =>
    simp only [Operation.run, model.TogglAPI.recording, traced, idealAPI]
    obtain ⟨h1, h2, h3, h4⟩ := hwf
    refine ⟨⟨h1, h2, ?_, ?_⟩, hs⟩
    · simp only
      omega
    · intro client hmem
      have := h4 client hmem
      simp only
      omega
  | GetTimeEntries start stop => exact ⟨hwf, hs⟩

/-- Every state reached over the ideal remote from repositories that have
fetched nothing, on a well-formed account, has a well-formed account and caches
in agreement with it. -/
theorem runAll_invariant :
    ∀ (operations : List Operation) (s : Repositories (Remote × List RemoteCall)),
      s.remote.1.WellFormed → Synced s →
      (runAll idealAPI.recording operations s).remote.1.WellFormed
      ∧ Synced (runAll idealAPI.recording operations s) := by
  intro operations
  induction operations with
  | nil => intro s hwf hs; exact ⟨hwf, hs⟩
  | cons operation rest ih =>
    intro s hwf hs
    simp only [runAll, List.foldl_cons]
    obtain ⟨h1, h2⟩ := Operation_run_invariant operation s hwf hs
    exact ih _ h1 h2

/-- C19, counterexample.  Four accounts of the remote service whose calls succeed
and whose listings reflect earlier creations, each with the workspace
"Workspace" of the record, without its project "New" and without a client named
"Newcomer", on repositories that have fetched nothing: an account with a client
of a workspace that the account does not list, an account with a project of a
client that the account does not list, an account whose remote gives a created
entity the ID of a client that is there, and an account whose remote gives a
created entity the ID 0.  On each, CreateTimeRecord creates the client and the
project, then returns an error and submits no time entry: the project it has
just created is not found again when the record is converted. -/
theorem C19_creation_order_counterexample :
    (((∃ workspace ∈ strayClientAccount.workspaces,
          workspace.Name = newProjectRecord.WorkspaceName)
        ∧ newProjectRecord.ClientName ≠ ""
        ∧ (∀ client ∈ strayClientAccount.clients, client.Name ≠ newProjectRecord.ClientName)
        ∧ (∀ project ∈ strayClientAccount.projects,
            project.Name ≠ newProjectRecord.ProjectName))
      ∧ ((NewTimeRecordRepository idealAPI.recording).CreateTimeRecord newProjectRecord
          (Repositories.fresh (strayClientAccount, []))).1
        = .error (Wrap (Wrap (Wrap (Wrap "unknown workspace" "Failed to get workspace for client")
            "Failed to get client") "Cannot convert time record to time entry.")
            "Failed to convert the given time record")
      ∧ (creations ((NewTimeRecordRepository idealAPI.recording).CreateTimeRecord
          newProjectRecord (Repositories.fresh (strayClientAccount, []))).2.remote.2).map
            RemoteCall.name
        = ["CreateClient Newcomer", "CreateProject New"])
    ∧ (((∃ workspace ∈ strayProjectAccount.workspaces,
          workspace.Name = newProjectRecord.WorkspaceName)
        ∧ (∀ client ∈ strayProjectAccount.clients, client.Name ≠ newProjectRecord.ClientName)
        ∧ (∀ project ∈ strayProjectAccount.projects,
            project.Name ≠ newProjectRecord.ProjectName))
      ∧ (∃ err, ((NewTimeRecordRepository idealAPI.recording).CreateTimeRecord newProjectRecord
          (Repositories.fresh (strayProjectAccount, []))).1 = .error err)
      ∧ (creations ((NewTimeRecordRepository idealAPI.recording).CreateTimeRecord
          newProjectRecord (Repositories.fresh (strayProjectAccount, []))).2.remote.2).map
            RemoteCall.name
        = ["CreateClient Newcomer", "CreateProject New"])
    ∧ (((∃ workspace ∈ takenIDAccount.workspaces,
          workspace.Name = newProjectRecord.WorkspaceName)
        ∧ (∀ client ∈ takenIDAccount.clients, client.Name ≠ newProjectRecord.ClientName)
        ∧ (∀ project ∈ takenIDAccount.projects, project.Name ≠ newProjectRecord.ProjectName))
      ∧ (∃ err, ((NewTimeRecordRepository idealAPI.recording).CreateTimeRecord newProjectRecord
          (Repositories.fresh (takenIDAccount, []))).1 = .error err)
      ∧ (creations ((NewTimeRecordRepository idealAPI.recording).CreateTimeRecord
          newProjectRecord (Repositories.fresh (takenIDAccount, []))).2.remote.2).map
            RemoteCall.name
        = ["CreateClient Newcomer", "CreateProject New"])
    ∧ (((∃ workspace ∈ zeroIDAccount.workspaces,
          workspace.Name = newProjectRecord.WorkspaceName)
        ∧ (∀ client ∈ zeroIDAccount.clients, client.Name ≠ newProjectRecord.ClientName)
        ∧ (∀ project ∈ zeroIDAccount.projects, project.Name ≠ newProjectRecord.ProjectName))
      ∧ (∃ err, ((NewTimeRecordRepository idealAPI.recording).CreateTimeRecord newProjectRecord
          (Repositories.fresh (zeroIDAccount, []))).1 = .error err)
      ∧ (creations ((NewTimeRecordRepository idealAPI.recording).CreateTimeRecord
          newProjectRecord (Repositories.fresh (zeroIDAccount, []))).2.remote.2).map
            RemoteCall.name
        = ["CreateClient Newcomer", "CreateProject New"]) :=
  ⟨⟨by decide, by decide, by decide⟩, ⟨by decide, ⟨_, rfl⟩, by decide⟩,
    ⟨by decide, ⟨_, rfl⟩, by decide⟩, by decide, ⟨_, rfl⟩, by decide⟩

/-- C19, amended.  CreateTimeRecord over the real repositories
(`NewTimeRecordRepository`, the wiring of main.go) and the remote service whose
calls succeed and whose listings reflect earlier creations (`idealAPI`,
recording its requests).  The account is well-formed at the start (every client
belongs to a workspace of the account, every project has no client or a client
of the account, the next ID that the remote gives is positive and above the
client IDs), the repositories start with nothing fetched, and `s` is the state
after any operations (calls of the repositories, time entry requests).  For every record whose workspace name is the name of a workspace of
the account in `s` and whose client name is not empty and is the name of no
client of the account in `s`: the project does not exist (the lookup by name
fails), CreateTimeRecord returns nil, and the create requests it sends are, in
this order, the client (named as the record says, in the workspace found by
name), the project (named as the record says, with the ID the remote gave to the
client), and the time entry (with the ID the remote gave to the project).  So the
time entry is submitted after the project it depends on has been created. -/
theorem C19_creation_order (account : Remote) (operations : List Operation)
    (timeRecord : TimeRecord) (s : Repositories (Remote × List RemoteCall))
    (hreached : s = runAll idealAPI.recording operations (Repositories.fresh (account, [])))
    (hwf : account.WellFormed)
    (hw : ∃ workspace ∈ s.remote.1.workspaces, workspace.Name = timeRecord.WorkspaceName)
    (hn : timeRecord.ClientName ≠ "")
    (hc : ∀ client ∈ s.remote.1.clients, client.Name ≠ timeRecord.ClientName) :
    ∃ workspace,
      s.remote.1.workspaceList.find?
          (fun workspace => workspace.Name == timeRecord.WorkspaceName) = some workspace
      ∧ (ProjectRepository.GetProjectByName idealAPI.recording timeRecord.ProjectName
          timeRecord.WorkspaceName timeRecord.ClientName s).1 = .error "Project was not found"
      ∧ ((NewTimeRecordRepository idealAPI.recording).CreateTimeRecord timeRecord s).1 = .ok ()
      ∧ creations ((NewTimeRecordRepository idealAPI.recording).CreateTimeRecord timeRecord
          s).2.remote.2
        = creations s.remote.2 ++
          [.CreateClient
            { ID := 0, WorkspaceID := workspace.ID, Name := timeRecord.ClientName, Notes := "" }
            (.ok { ID := s.remote.1.nextID, WorkspaceID := workspace.ID,
                   Name := timeRecord.ClientName, Notes := "" }),
           .CreateProject
            { ID := 0, WorkspaceID := workspace.ID, ClientID := s.remote.1.nextID,
              Name := timeRecord.ProjectName }
            (.ok { ID := s.remote.1.nextID + 1, WorkspaceID := workspace.ID,
                   ClientID := s.remote.1.nextID, Name := timeRecord.ProjectName }),
           .CreateTimeEntry
            { ID := 0, Wid := workspace.ID, Pid := s.remote.1.nextID + 1,
              Start := timeRecord.Start, Stop := timeRecord.Stop, Billable := false,
              Description := timeRecord.Description, Tags := timeRecord.Tags,
              CreatedWith := "" }
            (.ok { ID := s.remote.1.nextID + 1 + 1, Wid := workspace.ID,
                   Pid := s.remote.1.nextID + 1,
                   Start := timeRecord.Start, Stop := timeRecord.Stop, Billable := false,
                   Description := timeRecord.Description, Tags := timeRecord.Tags,
                   CreatedWith := "" })] := by
  have hinv := runAll_invariant operations (Repositories.fresh (account, [])) hwf
    ⟨Or.inl rfl, Or.inl rfl, Or.inl rfl⟩
  rw [← hreached] at hinv
  exact CreateTimeRecord_ideal timeRecord s hinv.1 hinv.2 hw hn hc

/-- C19, witness: on the account `smallAccount` (workspace 1 "Workspace", client
5, project 7, next ID 10), after GetProjects has populated the caches and a
client "Other" has been created (ID 10), the record of project "New" of client
"Newcomer" creates client 11, then project 12 of client 11, then the time entry
13 of project 12, and returns nil. -/
theorem C19_creation_order_witness :
    smallAccount.WellFormed
    ∧ (∃ workspace ∈ (runAll idealAPI.recording
          [.repository .GetProjects, .repository (.CreateClient 1 "Other")]
          (Repositories.fresh (smallAccount, []))).remote.1.workspaces,
        workspace.Name = newProjectRecord.WorkspaceName)
    ∧ newProjectRecord.ClientName ≠ ""
    ∧ (∀ client ∈ (runAll idealAPI.recording
          [.repository .GetProjects, .repository (.CreateClient 1 "Other")]
          (Repositories.fresh (smallAccount, []))).remote.1.clients,
        client.Name ≠ newProjectRecord.ClientName)
    ∧ ((NewTimeRecordRepository idealAPI.recording).CreateTimeRecord newProjectRecord
        (runAll idealAPI.recording
          [.repository .GetProjects, .repository (.CreateClient 1 "Other")]
          (Repositories.fresh (smallAccount, [])))).1 = .ok ()
    ∧ creations ((NewTimeRecordRepository idealAPI.recording).CreateTimeRecord newProjectRecord
        (runAll idealAPI.recording
          [.repository .GetProjects, .repository (.CreateClient 1 "Other")]
          (Repositories.fresh (smallAccount, [])))).2.remote.2
      = [.CreateClient { ID := 0, WorkspaceID := 1, Name := "Other", Notes := "" }
          (.ok { ID := 10, WorkspaceID := 1, Name := "Other", Notes := "" }),
         .CreateClient { ID := 0, WorkspaceID := 1, Name := "Newcomer", Notes := "" }
          (.ok { ID := 11, WorkspaceID := 1, Name := "Newcomer", Notes := "" }),
         .CreateProject { ID := 0, WorkspaceID := 1, ClientID := 11, Name := "New" }
          (.ok { ID := 12, WorkspaceID := 1, ClientID := 11, Name := "New" }),
         .CreateTimeEntry
          { ID := 0, Wid := 1, Pid := 12, Start := aug1, Stop := aug12, Billable := false,
            Description := "work", Tags := ["tag"], CreatedWith := "" }
          (.ok { ID := 13, Wid := 1, Pid := 12, Start := aug1, Stop := aug12,
                 Billable := false, Description := "work", Tags := ["tag"],
                 CreatedWith := "" })] := by
  have h1 : smallAccount.WellFormed := by unfold Remote.WellFormed; decide
  have h2 : ∃ workspace ∈ (runAll idealAPI.recording
      [.repository .GetProjects, .repository (.CreateClient 1 "Other")]
      (Repositories.fresh (smallAccount, []))).remote.1.workspaces,
      workspace.Name = newProjectRecord.WorkspaceName := by decide
  have h3 : newProjectRecord.ClientName ≠ "" := by decide
  have h4 : ∀ client ∈ (runAll idealAPI.recording
      [.repository .GetProjects, .repository (.CreateClient 1 "Other")]
      (Repositories.fresh (smallAccount, []))).remote.1.clients,
      client.Name ≠ newProjectRecord.ClientName := by decide
  obtain ⟨workspace, hfind, -, hok, hcre⟩ := C19_creation_order smallAccount
    [.repository .GetProjects, .repository (.CreateClient 1 "Other")] newProjectRecord _ rfl
    h1 h2 h3 h4
  have hworkspace : workspace = { ID := 1, Name := "Workspace" } := by
    have h : (runAll idealAPI.recording
        [.repository .GetProjects, .repository (.CreateClient 1 "Other")]
        (Repositories.fresh (smallAccount, []))).remote.1.workspaceList.find?
        (fun workspace => workspace.Name == newProjectRecord.WorkspaceName)
        = some { ID := 1, Name := "Workspace" } := by decide
    rw [h] at hfind
    exact (Option.some.inj hfind).symm
  subst hworkspace
  refine ⟨h1, h2, h3, h4, hok, ?_⟩
  rw [hcre]
  decide

/-! ## CreateWorkspace (`workspace.go`) -/

/-- C21.  For every name and every state of the repositories, CreateWorkspace
returns an error and leaves the state as it is: the remote service receives no
request (its log is unchanged) and the workspace cache, like the other caches, is
unchanged. -/
theorem C21_CreateWorkspace {σ : Type} (api : model.TogglAPI σ) (name : String)
    (s : Repositories (σ × List RemoteCall)) :
    (∃ err, (WorkspaceRepository.CreateWorkspace api.recording name s).1 = .error err)
    ∧ (WorkspaceRepository.CreateWorkspace api.recording name s).2.remote.2 = s.remote.2
    ∧ (WorkspaceRepository.CreateWorkspace api.recording name s).2.workspacesCache
      = s.workspacesCache
    ∧ (WorkspaceRepository.CreateWorkspace api.recording name s).2 = s :=
  ⟨⟨_, rfl⟩, rfl, rfl, rfl⟩

/-! ## The CSV mapper (`csvmapper.go`) -/

/-- A row of seven cells passes the column check of the mapper of
NewCSVTimeRecordMapper, and every cell is there to be read: GetTimeRecord is the
sequence of the two date checks and the description check. -/
theorem GetTimeRecord_seven (dateFormatter : date.Formatter)
    (start stop workspace project client tags description : String) :
    (NewCSVTimeRecordMapper dateFormatter).GetTimeRecord
        [start, stop, workspace, project, client, tags, description]
      = match dateFormatter.GetDate start with
        | .error startDateError =>
          some (.error ("Cannot parse the start date: " ++ startDateError))
        | .ok startDate =>
          match dateFormatter.GetDate stop with
          | .error stopDateError =>
            some (.error ("Cannot parse the stop date: " ++ stopDateError))
          | .ok stopDate =>
            if (strings.TrimSpace description).utf8ByteSize ≥ 3000 then
              some (.error "The description text of the time entry is too long")
            else
              some (.ok
                { Start := startDate
                  Stop := stopDate
                  WorkspaceName := strings.TrimSpace workspace
                  ProjectName := strings.TrimSpace project
                  ClientName := strings.TrimSpace client
                  Description := strings.TrimSpace description
                  Tags := (strings.Split tags ",").map strings.TrimSpace }) := by
  simp only [CSVTimeRecordMapper.GetTimeRecord, CSVTimeRecordMapper.GetColumnNames,
    NewCSVTimeRecordMapper, List.length_cons, List.length_nil, bne_self_eq_false,
    Bool.false_eq_true, if_false, List.getElem?_cons_zero, List.getElem?_cons_succ,
    Option.some_bind, Option.bind_eq_bind]

/-- A row whose number of cells differs from the number of column names is
rejected by the column check, before any cell is read. -/
theorem GetTimeRecord_wrong_count (mapper : CSVTimeRecordMapper) (row : List String)
    (hcells : row.length ≠ mapper.GetColumnNames.length) :
    mapper.GetTimeRecord row = some (.error "Wrong number of values in the given row") := by
  simp [CSVTimeRecordMapper.GetTimeRecord, hcells]

/-- C26.  For every mapper and every row whose number of cells differs from the
number of column names, GetTimeRecord returns an error; the mapper that
NewCSVTimeRecordMapper makes has seven column names. -/
theorem C26_wrong_column_count (mapper : CSVTimeRecordMapper) (row : List String)
    (hcells : row.length ≠ mapper.GetColumnNames.length) :
    (∃ err, mapper.GetTimeRecord row = some (.error err))
    ∧ ∀ dateFormatter, (NewCSVTimeRecordMapper dateFormatter).GetColumnNames.length = 7 :=
  ⟨⟨_, GetTimeRecord_wrong_count mapper row hcells⟩, fun _ => rfl⟩

/-- C26, witness: the row of four cells of
`Test_GetTimeRecord_InvalidNumberOfColumns_ErrorIsReturned` is rejected by the
mapper of NewCSVTimeRecordMapper. -/
theorem C26_wrong_column_count_witness :
    ["Project XY", "Client X", "", "Some stuff"].length
        ≠ (NewCSVTimeRecordMapper date.NewISO8601Formatter).GetColumnNames.length
    ∧ ((∃ err, (NewCSVTimeRecordMapper date.NewISO8601Formatter).GetTimeRecord
          ["Project XY", "Client X", "", "Some stuff"] = some (.error err))
      ∧ ∀ dateFormatter, (NewCSVTimeRecordMapper dateFormatter).GetColumnNames.length = 7) :=
  ⟨by decide,
    C26_wrong_column_count (NewCSVTimeRecordMapper date.NewISO8601Formatter)
      ["Project XY", "Client X", "", "Some stuff"] (by decide)⟩

/-- A string has at least as many bytes as characters. -/
theorem length_le_utf8ByteSize (s : String) : s.length ≤ s.utf8ByteSize := by
  rcases s with ⟨l⟩
  show l.length ≤ String.utf8ByteSize.go l
  induction l with
  | nil => exact Nat.le_refl _
  | cons c cs ih =>
    have hc : 1 ≤ c.utf8Size := Char.utf8Size_pos c
    simp only [List.length_cons, String.utf8ByteSize.go]
    omega

/-- A string of `n` letters `x` has `n` bytes. -/
theorem utf8ByteSize_replicate (n : Nat) :
    (String.mk (List.replicate n 'x')).utf8ByteSize = n := by
  show String.utf8ByteSize.go (List.replicate n 'x') = n
  induction n with
  | zero => rfl
  | succ k ih =>
    have hx : 'x'.utf8Size = 1 := by decide
    simp only [List.replicate_succ, String.utf8ByteSize.go, ih, hx]

/-- TrimSpace removes the two blanks after a run of letters. -/
theorem TrimSpace_padded (n : Nat) :
    strings.TrimSpace (String.mk (List.replicate (n + 1) 'x' ++ [' ', ' ']))
      = String.mk (List.replicate (n + 1) 'x') := by
  have hx : strings.IsSpace 'x' = false := by decide
  have hb : strings.IsSpace ' ' = true := by decide
  have hrev : (List.replicate (n + 1) 'x' ++ [' ', ' ']).reverse
      = ' ' :: ' ' :: List.replicate (n + 1) 'x' := by
    simp [List.reverse_append, List.reverse_replicate]
  unfold strings.TrimSpace
  show String.mk ((List.dropWhile strings.IsSpace
    (List.replicate (n + 1) 'x' ++ [' ', ' '])).reverse.dropWhile strings.IsSpace).reverse = _
  have h1 : List.dropWhile strings.IsSpace (List.replicate (n + 1) 'x' ++ [' ', ' '])
      = List.replicate (n + 1) 'x' ++ [' ', ' '] := by
    simp [List.replicate_succ, List.dropWhile_cons, hx]
  have h2 : List.dropWhile strings.IsSpace (' ' :: ' ' :: List.replicate (n + 1) 'x')
      = List.replicate (n + 1) 'x' := by
    simp [List.dropWhile_cons, hb, hx, List.replicate_succ]
  rw [h1, hrev, h2, List.reverse_replicate]

/-- C27, counterexample: a row whose description cell has 3001 characters, 2999
letters followed by two blanks, is accepted: the record holds the 2999 letters. -/
theorem C27_long_description_counterexample :
    paddedDescription.length = 3001
    ∧ csvTimeRecordMapper.GetTimeRecord
        ["2015-03-26T08:00:00+01:00", "2015-03-26T11:30:00+01:00", "Workspace", "Project XY",
          "Client X", "", paddedDescription]
      = some (.ok (morning 26 (String.mk (List.replicate 2999 'x')))) := by
  have hstart : date.NewISO8601Formatter.GetDate "2015-03-26T08:00:00+01:00"
      = .ok (Date 2015 3 26 8 0 0 0 3600) := by decide
  have hstop : date.NewISO8601Formatter.GetDate "2015-03-26T11:30:00+01:00"
      = .ok (Date 2015 3 26 11 30 0 0 3600) := by decide
  have htrim : strings.TrimSpace paddedDescription = String.mk (List.replicate 2999 'x') :=
    TrimSpace_padded 2998
  have hnames : strings.TrimSpace "Workspace" = "Workspace"
      ∧ strings.TrimSpace "Project XY" = "Project XY"
      ∧ strings.TrimSpace "Client X" = "Client X"
      ∧ (strings.Split "" ",").map strings.TrimSpace = [""] := by decide
  refine ⟨?_, ?_⟩
  · show (List.replicate 2999 'x' ++ [' ', ' ']).length = 3001
    rw [List.length_append, List.length_replicate]
    rfl
  · unfold csvTimeRecordMapper
    rw [GetTimeRecord_seven, hstart, hstop, htrim, utf8ByteSize_replicate, hnames.1,
      hnames.2.1, hnames.2.2.1, hnames.2.2.2]
    rfl

/-- A row of seven cells is rejected by the mapper of NewCSVTimeRecordMapper
exactly when one of its two dates does not parse or its description cell, with
the white space around it removed, has 3000 bytes or more; in particular it is
rejected when the description without the white space around it has 3000
characters or more. -/
theorem GetTimeRecord_rejects_iff (dateFormatter : date.Formatter)
    (start stop workspace project client tags description : String) :
    ((∃ err, (NewCSVTimeRecordMapper dateFormatter).GetTimeRecord
          [start, stop, workspace, project, client, tags, description] = some (.error err))
      ↔ ((∃ err, dateFormatter.GetDate start = .error err)
          ∨ (∃ err, dateFormatter.GetDate stop = .error err)
          ∨ 3000 ≤ (strings.TrimSpace description).utf8ByteSize))
    ∧ (3000 ≤ (strings.TrimSpace description).length →
        ∃ err, (NewCSVTimeRecordMapper dateFormatter).GetTimeRecord
          [start, stop, workspace, project, client, tags, description] = some (.error err)) := by
  have key : (∃ err, (NewCSVTimeRecordMapper dateFormatter).GetTimeRecord
          [start, stop, workspace, project, client, tags, description] = some (.error err))
      ↔ ((∃ err, dateFormatter.GetDate start = .error err)
          ∨ (∃ err, dateFormatter.GetDate stop = .error err)
          ∨ 3000 ≤ (strings.TrimSpace description).utf8ByteSize) := by
    rw [GetTimeRecord_seven]
    cases dateFormatter.GetDate start with
    | error e => simp
    | ok startDate =>
      cases dateFormatter.GetDate stop with
      | error e => simp
      | ok stopDate =>
        by_cases hlong : 3000 ≤ (strings.TrimSpace description).utf8ByteSize
        · simp [hlong]
        · simp [hlong]
  refine ⟨key, fun hlong => key.mpr (Or.inr (Or.inr ?_))⟩
  exact Nat.le_trans hlong (length_le_utf8ByteSize _)

/-- TrimSpace leaves a run of letters as it is. -/
theorem TrimSpace_letters (n : Nat) :
    strings.TrimSpace (String.mk (List.replicate n 'x')) = String.mk (List.replicate n 'x') := by
  have hx : strings.IsSpace 'x' = false := by decide
  cases n with
  | zero => rfl
  | succ k =>
    have h1 : List.dropWhile strings.IsSpace (List.replicate (k + 1) 'x')
        = List.replicate (k + 1) 'x' := by
      simp [List.replicate_succ, List.dropWhile_cons, hx]
    unfold strings.TrimSpace
    show String.mk ((List.dropWhile strings.IsSpace
      (List.replicate (k + 1) 'x')).reverse.dropWhile strings.IsSpace).reverse = _
    rw [h1, List.reverse_replicate, h1, List.reverse_replicate]

/-- C27, amended.  For every row whose description cell, with the leading and
trailing white space removed, is longer than 3000 characters, GetTimeRecord of
the mapper of NewCSVTimeRecordMapper returns an error. -/
theorem C27_long_description (dateFormatter : date.Formatter) (row : List String)
    (description : String) (hcell : row[6]? = some description)
    (hlong : 3000 < (strings.TrimSpace description).length) :
    ∃ err, (NewCSVTimeRecordMapper dateFormatter).GetTimeRecord row = some (.error err) := by
  by_cases hseven : row.length = 7
  · match row, hseven, hcell with
    | [start, stop, workspace, project, client, tags, cell], _, hcell =>
      have hsame : cell = description := by simpa using hcell
      rw [hsame]
      exact (GetTimeRecord_rejects_iff dateFormatter start stop workspace project client tags
        description).2 (by omega)
  · exact ⟨_, GetTimeRecord_wrong_count (NewCSVTimeRecordMapper dateFormatter) row hseven⟩

/-- C27, witness: a row like the one of
`Test_GetTimeRecord_TooLongDescription_ErrorIsReturned`, with a description of
4000 letters. -/
theorem C27_long_description_witness :
    (["2015-03-26T08:00:00+01:00", "2015-03-26T11:00:00+01:00", "Workspace", "Project XY",
        "Client X", "", veryLongDescription][6]? = some veryLongDescription
      ∧ 3000 < (strings.TrimSpace veryLongDescription).length)
    ∧ ∃ err, (NewCSVTimeRecordMapper date.NewISO8601Formatter).GetTimeRecord
        ["2015-03-26T08:00:00+01:00", "2015-03-26T11:00:00+01:00", "Workspace", "Project XY",
          "Client X", "", veryLongDescription] = some (.error err) :=
  have hlong : 3000 < (strings.TrimSpace veryLongDescription).length := by
    unfold veryLongDescription
    rw [TrimSpace_letters]
    show 3000 < (List.replicate 4000 'x').length
    rw [List.length_replicate]
    decide
  ⟨⟨rfl, hlong⟩,
    C27_long_description date.NewISO8601Formatter
      ["2015-03-26T08:00:00+01:00", "2015-03-26T11:00:00+01:00", "Workspace", "Project XY",
        "Client X", "", veryLongDescription] veryLongDescription rfl hlong⟩

/-- The three rows under the headline give three records, in row order; the
headline alone and the empty table give none; a row with a date that does not
parse makes the whole table fail. -/
theorem GetTimeRecords_examples :
    csvTimeRecordMapper.GetTimeRecords threeRows
      = some (.ok [morning 26 "Some stuff", morning 27 "Some more stuff",
          morning 28 "Some more stuff"])
    ∧ csvTimeRecordMapper.GetTimeRecords [headline] = some (.ok [])
    ∧ csvTimeRecordMapper.GetTimeRecords [] = some (.ok [])
    ∧ csvTimeRecordMapper.GetTimeRecords
        [headline, ["Invalid Date", "2015-03-26T11:30:00+01:00", "Workspace", "Project XY",
          "Client X", "", "Some stuff"]]
      = some (.error ("Failed to create time entry from row: "
          ++ "Cannot parse the start date: parsing time: cannot parse")) := by
  decide

/-! ### GetRow -/

/-- Join of no element is the empty string, and Join of a list puts the
separator between its first element and the Join of the others. -/
theorem Join_cons (sep first second : String) (rest : List String) :
    strings.Join [] sep = ""
    ∧ strings.Join [first] sep = first
    ∧ strings.Join (first :: second :: rest) sep
      = first ++ sep ++ strings.Join (second :: rest) sep := by
  have go : ∀ (l : List String) (acc : String),
      String.intercalate.go acc sep l = acc ++ String.intercalate.go "" sep l := by
    intro l
    induction l with
    | nil => intro acc; simp [String.intercalate.go]
    | cons a l ih =>
      intro acc
      simp only [String.intercalate.go]
      rw [ih (acc ++ sep ++ a), ih ("" ++ sep ++ a)]
      simp [String.append_assoc]
  refine ⟨rfl, rfl, ?_⟩
  simp only [strings.Join, String.intercalate, String.intercalate.go]
  rw [go rest (first ++ sep ++ second), go rest second]
  simp [String.append_assoc]

/-- C29.  For every time record, GetRow of the mapper of NewCSVTimeRecordMapper
returns seven cells, as many as GetColumnNames, in the order of the column names
Start, Stop, Workspace Name, Project Name, Client Name, Tag(s), Description: the
formatted start, the formatted stop, the three names as they are, the tags joined
with "," in their order, and the description as it is. -/
theorem C29_GetRow (dateFormatter : date.Formatter) (timeRecord : TimeRecord) :
    (NewCSVTimeRecordMapper dateFormatter).GetColumnNames
      = ["Start", "Stop", "Workspace Name", "Project Name", "Client Name", "Tag(s)",
          "Description"]
    ∧ ((NewCSVTimeRecordMapper dateFormatter).GetRow timeRecord).length
      = (NewCSVTimeRecordMapper dateFormatter).GetColumnNames.length
    ∧ ((NewCSVTimeRecordMapper dateFormatter).GetRow timeRecord).length = 7
    ∧ (NewCSVTimeRecordMapper dateFormatter).GetRow timeRecord
      = [ dateFormatter.GetDateString timeRecord.Start,
          dateFormatter.GetDateString timeRecord.Stop,
          timeRecord.WorkspaceName, timeRecord.ProjectName, timeRecord.ClientName,
          strings.Join timeRecord.Tags ",", timeRecord.Description ]
    ∧ strings.Join [] "," = ""
    ∧ (∀ tag, strings.Join [tag] "," = tag)
    ∧ (∀ first second rest,
        strings.Join (first :: second :: rest) ","
          = first ++ "," ++ strings.Join (second :: rest) ",") :=
  ⟨rfl, rfl, rfl, rfl, rfl, fun _ => rfl,
    fun first second rest => (Join_cons "," first second rest).2.2⟩

/-- The row of `Test_GetRow`. -/
theorem GetRow_example :
    csvTimeRecordMapper.GetRow
        { WorkspaceName := "Workspace", ProjectName := "Project XY", ClientName := "Client X",
          Start := Time.zero, Stop := Time.zero, Description := "Some stuff",
          Tags := ["Tag 1", "Tag 2", "XYZ"] }
      = ["0001-01-01T00:00:00+00:00", "0001-01-01T00:00:00+00:00", "Workspace", "Project XY",
         "Client X", "Tag 1,Tag 2,XYZ", "Some stuff"] := by
  decide

/-! ## The importer (`import.go`) -/

/-- The loop of Import over the recording repository runs as the loop over the
repository itself. -/
theorem Import_loop_recording {σ : Type} (togglCSVImporter : TogglCSVImporter σ)
    (records : List TimeRecord) (s : σ) (log : List PortCall) :
    (TogglCSVImporter.Import.loop togglCSVImporter.recording records (s, log)).1
      = (TogglCSVImporter.Import.loop togglCSVImporter records s).1
    ∧ (TogglCSVImporter.Import.loop togglCSVImporter.recording records (s, log)).2.1
      = (TogglCSVImporter.Import.loop togglCSVImporter records s).2 := by
  induction records generalizing s log with
  | nil => exact ⟨rfl, rfl⟩
  | cons record rest ih =>
    simp only [TogglCSVImporter.Import.loop, TogglCSVImporter.recording,
      TimeRecorder.recording, observed]
    rcases hc : togglCSVImporter.timeRecordRepository.CreateTimeRecord record s with ⟨r, s1⟩
    cases r with
    | error e => exact ⟨rfl, rfl⟩
    | ok u => exact ih s1 _

/-- The calls of the loop of Import: CreateTimeRecord for the first `k` records,
in order, of which none but the last can have failed; the loop returns nil when
none failed, which takes all records, and an error when the last call failed. -/
theorem Import_loop_trace {σ : Type} (togglCSVImporter : TogglCSVImporter σ)
    (records : List TimeRecord) (s : σ) (log : List PortCall) :
    ∃ k calls, k ≤ records.length
      ∧ (TogglCSVImporter.Import.loop togglCSVImporter.recording records (s, log)).2.2
        = log ++ calls
      ∧ calls.length = k
      ∧ createCalls calls = records.take k
      ∧ (∀ c ∈ calls.dropLast, c.failed = false)
      ∧ (((TogglCSVImporter.Import.loop togglCSVImporter.recording records (s, log)).1 = .ok ()
            ∧ k = records.length ∧ (∀ c ∈ calls, c.failed = false)
            ∧ createdRecords calls = records)
          ∨ ((∃ err, (TogglCSVImporter.Import.loop togglCSVImporter.recording records
                (s, log)).1 = .error err)
            ∧ (∃ c, calls.getLast? = some c ∧ c.failed = true)
            ∧ createdRecords calls = records.take (k - 1))) := by
  induction records generalizing s log with
  | nil =>
    exact ⟨0, [], Nat.le_refl _, by simp [TogglCSVImporter.Import.loop], rfl, rfl,
      by simp, Or.inl ⟨rfl, rfl, by simp, rfl⟩⟩
  | cons record rest ih =>
    simp only [TogglCSVImporter.Import.loop, TogglCSVImporter.recording,
      TimeRecorder.recording, observed]
    rcases hc : togglCSVImporter.timeRecordRepository.CreateTimeRecord record s with ⟨r, s1⟩
    cases r with
    | error e =>
      refine ⟨1, [.CreateTimeRecord record (.error e)], by simp, rfl, rfl, by simp [createCalls],
        by simp, Or.inr ⟨⟨_, rfl⟩, ⟨_, rfl, rfl⟩, by simp [createdRecords]⟩⟩
    | ok u =>
      obtain ⟨k, calls, hk, hlog, hlen, hcalls, hinit, hres⟩ :=
        ih s1 (log ++ [.CreateTimeRecord record (.ok u)])
      simp only [TogglCSVImporter.recording, TimeRecorder.recording] at hlog hres
      refine ⟨k + 1, .CreateTimeRecord record (.ok u) :: calls, by simpa using hk,
        by simp only [hlog]; simp, by simp [hlen], by simp [createCalls, hcalls], ?_, ?_⟩
      · intro c hmem
        cases calls with
        | nil => simp at hmem
        | cons c1 calls1 =>
          simp only [List.dropLast_cons₂, List.mem_cons] at hmem
          rcases hmem with hmem | hmem
          · rw [hmem]; rfl
          · exact hinit c hmem
      · rcases hres with ⟨h1, h2, h3, h4⟩ | ⟨h1, ⟨c, h2, h3⟩, h4⟩
        · refine Or.inl ⟨h1, by simp [h2], ?_, by simp [createdRecords, h4]⟩
          intro c hmem
          rcases List.mem_cons.mp hmem with hmem | hmem
          · rw [hmem]; rfl
          · exact h3 c hmem
        · refine Or.inr ⟨h1, ⟨c, ?_, h3⟩, ?_⟩
          · cases calls with
            | nil => simp at h2
            | cons c1 calls1 => simpa using h2
          · have hpos : 0 < k := by
              cases calls with
              | nil => simp at h2
              | cons c1 calls1 => simp at hlen; omega
            obtain ⟨j, rfl⟩ : ∃ j, k = j + 1 := ⟨k - 1, by omega⟩
            simp [createdRecords, h4]

/-- C24.  Import makes no call on the time record repository but CreateTimeRecord
calls for mapped records.  If the input cannot be read, or the mapper fails,
panics or yields no records, CreateTimeRecord is never called.  Otherwise Import
calls CreateTimeRecord for the first `k` of the mapped records, once each and in
row order, and no call but the last can have failed: either no call failed, then
`k` is the number of records, every record was created and Import returns nil; or
the call for the `k`-th record failed, then Import returns an error, the records
before the `k`-th were created and CreateTimeRecord was called for no later
record.  The log is the one of the recording repository, which runs as the
repository itself. -/
theorem C24_Import {σ : Type} (togglCSVImporter : TogglCSVImporter σ) (input : csv.Input)
    (s : σ) :
    ((togglCSVImporter.recording.Import input (s, [])).1 = (togglCSVImporter.Import input s).1
      ∧ (togglCSVImporter.recording.Import input (s, [])).2.1
        = (togglCSVImporter.Import input s).2)
    ∧ (∀ err, input = .error err →
        ∃ importError, togglCSVImporter.recording.Import input (s, [])
          = (some (.error importError), (s, [])))
    ∧ (∀ rows, input = .ok rows → togglCSVImporter.csvMapper.GetTimeRecords rows = none →
        togglCSVImporter.recording.Import input (s, []) = (none, (s, [])))
    ∧ (∀ rows err, input = .ok rows →
        togglCSVImporter.csvMapper.GetTimeRecords rows = some (.error err) →
        togglCSVImporter.recording.Import input (s, []) = (some (.error err), (s, [])))
    ∧ (∀ rows, input = .ok rows →
        togglCSVImporter.csvMapper.GetTimeRecords rows = some (.ok []) →
        togglCSVImporter.recording.Import input (s, []) = (some (.ok ()), (s, [])))
    ∧ (∀ rows records, input = .ok rows →
        togglCSVImporter.csvMapper.GetTimeRecords rows = some (.ok records) →
        ∃ k, k ≤ records.length
          ∧ (togglCSVImporter.recording.Import input (s, [])).2.2.length = k
          ∧ createCalls (togglCSVImporter.recording.Import input (s, [])).2.2 = records.take k
          ∧ (∀ c ∈ (togglCSVImporter.recording.Import input (s, [])).2.2.dropLast,
              c.failed = false)
          ∧ (((togglCSVImporter.recording.Import input (s, [])).1 = some (.ok ())
                ∧ k = records.length
                ∧ (∀ c ∈ (togglCSVImporter.recording.Import input (s, [])).2.2,
                    c.failed = false)
                ∧ createdRecords (togglCSVImporter.recording.Import input (s, [])).2.2
                  = records)
              ∨ ((∃ err, (togglCSVImporter.recording.Import input (s, [])).1
                    = some (.error err))
                ∧ (∃ c, (togglCSVImporter.recording.Import input (s, [])).2.2.getLast? = some c
                    ∧ c.failed = true)
                ∧ createdRecords (togglCSVImporter.recording.Import input (s, [])).2.2
                  = records.take (k - 1)))) := by
  refine ⟨?_, ?_, ?_, ?_, ?_, ?_⟩
  · cases input with
    | error e => exact ⟨rfl, rfl⟩
    | ok rows =>
      simp only [TogglCSVImporter.Import]
      have hm : togglCSVImporter.recording.csvMapper = togglCSVImporter.csvMapper := rfl
      rw [hm]
      cases hmap : togglCSVImporter.csvMapper.GetTimeRecords rows with
      | none => exact ⟨rfl, rfl⟩
      | some result =>
        cases result with
        | error e => exact ⟨rfl, rfl⟩
        | ok records =>
          simp only
          split_ifs
          · exact ⟨rfl, rfl⟩
          · exact ⟨congrArg some (Import_loop_recording togglCSVImporter records s []).1,
              (Import_loop_recording togglCSVImporter records s []).2⟩
  · intro err h
    rw [h]
    exact ⟨_, rfl⟩
  · intro rows h hmap
    have hm : togglCSVImporter.recording.csvMapper = togglCSVImporter.csvMapper := rfl
    simp only [h, TogglCSVImporter.Import, hm, hmap]
  · intro rows err h hmap
    have hm : togglCSVImporter.recording.csvMapper = togglCSVImporter.csvMapper := rfl
    simp only [h, TogglCSVImporter.Import, hm, hmap]
  · intro rows h hmap
    have hm : togglCSVImporter.recording.csvMapper = togglCSVImporter.csvMapper := rfl
    simp [h, TogglCSVImporter.Import, hm, hmap]
  · intro rows records h hmap
    have hm : togglCSVImporter.recording.csvMapper = togglCSVImporter.csvMapper := rfl
    cases records with
    | nil =>
      have hrun : togglCSVImporter.recording.Import input (s, []) = (some (.ok ()), (s, [])) := by
        simp [h, TogglCSVImporter.Import, hm, hmap]
      rw [hrun]
      exact ⟨0, Nat.le_refl _, rfl, rfl, by simp, Or.inl ⟨rfl, rfl, by simp, rfl⟩⟩
    | cons record rest =>
      have hrun : togglCSVImporter.recording.Import input (s, [])
          = (some (TogglCSVImporter.Import.loop togglCSVImporter.recording (record :: rest)
                (s, [])).1,
              (TogglCSVImporter.Import.loop togglCSVImporter.recording (record :: rest)
                (s, [])).2) := by
        simp [h, TogglCSVImporter.Import, hm, hmap]
      rw [hrun]
      obtain ⟨k, calls, hk, hlog, hlen, hcalls, hinit, hres⟩ :=
        Import_loop_trace togglCSVImporter (record :: rest) s []
      simp only [List.nil_append] at hlog
      simp only [hlog]
      refine ⟨k, hk, hlen, hcalls, hinit, ?_⟩
      rcases hres with ⟨h1, h2, h3, h4⟩ | ⟨⟨e, h1⟩, h2, h3⟩
      · exact Or.inl ⟨congrArg some h1, h2, h3, h4⟩
      · exact Or.inr ⟨⟨e, congrArg some h1⟩, h2, h3⟩

/-- The import of a table of three rows whose second row is refused by the
repository: the first record is created, the call for the second fails, Import
returns an error and the third record is never passed to CreateTimeRecord.
Importing the empty input or the headline alone makes no call. -/
theorem Import_examples :
    listImporter.recording.Import (.ok refusedSecond) ([], [])
      = (some (.error (Wrap "Create failed" "Failed to create time record")),
          ([morning 26 "Some stuff"],
            [.CreateTimeRecord (morning 26 "Some stuff") (.ok ()),
             .CreateTimeRecord (morning 27 "refused") (.error "Create failed")]))
    ∧ listImporter.recording.Import (.ok threeRows) ([], [])
      = (some (.ok ()),
          ([morning 26 "Some stuff", morning 27 "Some more stuff", morning 28 "Some more stuff"],
            [.CreateTimeRecord (morning 26 "Some stuff") (.ok ()),
             .CreateTimeRecord (morning 27 "Some more stuff") (.ok ()),
             .CreateTimeRecord (morning 28 "Some more stuff") (.ok ())]))
    ∧ listImporter.recording.Import (.ok []) ([], []) = (some (.ok ()), ([], []))
    ∧ listImporter.recording.Import (.ok [headline]) ([], []) = (some (.ok ()), ([], []))
    ∧ listImporter.recording.Import (.ok [[]]) ([], []) = (none, ([], [])) :=
  ⟨by decide, by decide, by decide, by decide, by decide⟩

/-! ## The exporter (`export.go`) -/

/-- The rows written in a log that continues another. -/
theorem writtenRows_append (log more : List PortCall) :
    writtenRows (log ++ more) = writtenRows log ++ writtenRows more := by
  induction log with
  | nil => rfl
  | cons c log ih => cases c <;> simp [writtenRows, ih]

/-- The queries of a log that continues another. -/
theorem recordQueries_append (log more : List PortCall) :
    recordQueries (log ++ more) = recordQueries log ++ recordQueries more := by
  induction log with
  | nil => rfl
  | cons c log ih => cases c <;> simp [recordQueries, ih]

/-- The CreateTimeRecord calls of a log that continues another. -/
theorem createCalls_append (log more : List PortCall) :
    createCalls (log ++ more) = createCalls log ++ createCalls more := by
  induction log with
  | nil => rfl
  | cons c log ih => cases c <;> simp [createCalls, ih]

/-- The loop of Export over the recording writer runs as the loop over the writer
itself, and hands the row of each record to Write, in order; it makes no call on
the time record repository. -/
theorem Export_loop_trace {σ : Type} (exporter : TogglCSVExporter σ) (csvWriter : csv.Writer σ)
    (records : List TimeRecord) (s : σ) (log : List PortCall) :
    ∃ calls,
      TogglCSVExporter.Export.loop exporter.recording csvWriter.recording records (s, log)
        = (TogglCSVExporter.Export.loop exporter csvWriter records s, log ++ calls)
      ∧ writtenRows calls = records.map exporter.csvMapper.GetRow
      ∧ recordQueries calls = []
      ∧ createCalls calls = [] := by
  induction records generalizing s log with
  | nil => exact ⟨[], by simp [TogglCSVExporter.Export.loop], rfl, rfl, rfl⟩
  | cons record rest ih =>
    simp only [TogglCSVExporter.Export.loop]
    obtain ⟨calls, h1, h2, h3, h4⟩ :=
      ih (csvWriter.Flush (csvWriter.Write (exporter.csvMapper.GetRow record) s).2)
        (log ++ [.Write (exporter.csvMapper.GetRow record)
          (csvWriter.Write (exporter.csvMapper.GetRow record) s).1] ++ [.Flush])
    refine ⟨[.Write (exporter.csvMapper.GetRow record)
          (csvWriter.Write (exporter.csvMapper.GetRow record) s).1, .Flush] ++ calls, ?_, ?_, ?_, ?_⟩
    · have hstep : csvWriter.recording.Flush
          (csvWriter.recording.Write (exporter.recording.csvMapper.GetRow record) (s, log)).2
          = (csvWriter.Flush (csvWriter.Write (exporter.csvMapper.GetRow record) s).2,
              log ++ [.Write (exporter.csvMapper.GetRow record)
                (csvWriter.Write (exporter.csvMapper.GetRow record) s).1] ++ [.Flush]) := rfl
      rw [hstep, h1]
      simp
    · simp [writtenRows_append, writtenRows, h2]
    · simp [recordQueries_append, recordQueries, h3]
    · simp [createCalls_append, createCalls, h4]

/-- C25.  Export hands the column names to the writer before it asks the time
record repository for the records, once, with the two given dates.  For every
list of records that GetTimeRecords then returns, Export returns nil and the
rows written are the header followed by GetRow of each record, one row per
record in the order returned, which is the header alone if there are no
records.  If GetTimeRecords fails, Export returns an error and the header is the
only row written.  The log is the one of the recording collaborators, which run
as the collaborators themselves. -/
theorem C25_Export {σ : Type} (exporter : TogglCSVExporter σ) (startDate endDate : Time)
    (csvWriter : csv.Writer σ) (s : σ) :
    ((exporter.recording.Export startDate endDate csvWriter.recording (s, [])).1
        = (exporter.Export startDate endDate csvWriter s).1
      ∧ (exporter.recording.Export startDate endDate csvWriter.recording (s, [])).2.1
        = (exporter.Export startDate endDate csvWriter s).2)
    ∧ recordQueries (exporter.recording.Export startDate endDate csvWriter.recording (s, [])).2.2
      = [(startDate, endDate)]
    ∧ createCalls (exporter.recording.Export startDate endDate csvWriter.recording (s, [])).2.2
      = []
    ∧ (exporter.recording.Export startDate endDate csvWriter.recording (s, [])).2.2.take 3
      = [ .Write exporter.csvMapper.GetColumnNames
            (csvWriter.Write exporter.csvMapper.GetColumnNames s).1,
          .Flush,
          .GetTimeRecords startDate endDate
            (exporter.timeRecordRepository.GetTimeRecords startDate endDate
              (csvWriter.Flush (csvWriter.Write exporter.csvMapper.GetColumnNames s).2)).1 ]
    ∧ (∀ records,
        (exporter.timeRecordRepository.GetTimeRecords startDate endDate
          (csvWriter.Flush (csvWriter.Write exporter.csvMapper.GetColumnNames s).2)).1
          = .ok records →
        (exporter.Export startDate endDate csvWriter s).1 = .ok ()
        ∧ writtenRows
            (exporter.recording.Export startDate endDate csvWriter.recording (s, [])).2.2
          = exporter.csvMapper.GetColumnNames :: records.map exporter.csvMapper.GetRow)
    ∧ (∀ err,
        (exporter.timeRecordRepository.GetTimeRecords startDate endDate
          (csvWriter.Flush (csvWriter.Write exporter.csvMapper.GetColumnNames s).2)).1
          = .error err →
        (∃ exportError, (exporter.Export startDate endDate csvWriter s).1 = .error exportError)
        ∧ writtenRows
            (exporter.recording.Export startDate endDate csvWriter.recording (s, [])).2.2
          = [exporter.csvMapper.GetColumnNames]) := by
  have hhead : csvWriter.recording.Flush
      (csvWriter.recording.Write exporter.recording.csvMapper.GetColumnNames (s, [])).2
      = (csvWriter.Flush (csvWriter.Write exporter.csvMapper.GetColumnNames s).2,
          [.Write exporter.csvMapper.GetColumnNames
              (csvWriter.Write exporter.csvMapper.GetColumnNames s).1, .Flush]) := rfl
  have hquery : ∀ (s1 : σ) (log : List PortCall),
      exporter.recording.timeRecordRepository.GetTimeRecords startDate endDate (s1, log)
        = ((exporter.timeRecordRepository.GetTimeRecords startDate endDate s1).1,
            ((exporter.timeRecordRepository.GetTimeRecords startDate endDate s1).2,
              log ++ [.GetTimeRecords startDate endDate
                (exporter.timeRecordRepository.GetTimeRecords startDate endDate s1).1])) :=
    fun _ _ => rfl
  simp only [TogglCSVExporter.Export]
  rw [hhead, hquery]
  rcases hq : exporter.timeRecordRepository.GetTimeRecords startDate endDate
      (csvWriter.Flush (csvWriter.Write exporter.csvMapper.GetColumnNames s).2) with ⟨r, s1⟩
  cases r with
  | error e =>
    simp [recordQueries, createCalls, writtenRows, csv.Writer.recording]
  | ok records =>
    obtain ⟨calls, h1, h2, h3, h4⟩ := Export_loop_trace exporter csvWriter records s1
      ([.Write exporter.csvMapper.GetColumnNames
          (csvWriter.Write exporter.csvMapper.GetColumnNames s).1, .Flush]
        ++ [.GetTimeRecords startDate endDate (.ok records)])
    simp only [h1]
    simp [recordQueries, createCalls, writtenRows, csv.Writer.recording, recordQueries_append,
      createCalls_append, writtenRows_append, h2, h3, h4]

/-- The export of two records, of no record, and with a failing repository, as
in the tests of `export_test.go`: the rows handed to the writer. -/
theorem Export_examples :
    (answeringExporter (.ok [morning 26 "Some stuff", morning 27 "Some more stuff"])).Export
        jan1 aug30 bufferWriter ((), [])
      = (.ok (),
          ((), [headline,
            ["2015-03-26T08:00:00+01:00", "2015-03-26T11:30:00+01:00", "Workspace", "Project XY",
              "Client X", "", "Some stuff"],
            ["2015-03-27T08:00:00+01:00", "2015-03-27T11:30:00+01:00", "Workspace", "Project XY",
              "Client X", "", "Some more stuff"]]))
    ∧ (answeringExporter (.ok [])).Export jan1 aug30 bufferWriter ((), [])
      = (.ok (), ((), [headline]))
    ∧ (answeringExporter (.error "No time records")).Export jan1 aug30 bufferWriter ((), [])
      = (.error "Failed to retrieve time records: No time records", ((), [headline])) :=
  ⟨by decide, by decide, by decide⟩

/-! ## The request gate (`restclient.go`) -/

/-- The issue instants of a trace that continues another. -/
theorem issues_append (trace more : List Event) :
    issues (trace ++ more) = issues trace ++ issues more := by
  induction trace with
  | nil => rfl
  | cons e trace ih => cases e <;> simp [issues, ih]

/-- One call of Request: the pause of the gate stays, the request time it captures
is the new last request time, the clock ends at the completion of the exchange,
and the trace grows by at most one sleep, the issue and the completion.  If the
last request time was not ahead of the clock, the request is issued at least the
pause after it. -/
theorem Request_step {ω : Type}
    (request : String → String → String → ω → Except Error String × ω)
    (timing : Timing) (method route payload : String) (client : togglRESTAPIClient)
    (w : World ω) (hpause : client.pauseBetweenRequests ≤ maxDuration) :
    ∃ now sleeps,
      (togglRESTAPIClient.Request request timing method route payload (client, w)).2.1
        = { client with lastRequestTimestamp := now }
      ∧ (togglRESTAPIClient.Request request timing method route payload (client, w)).2.2.clock
        = now + timing.exchange
      ∧ (togglRESTAPIClient.Request request timing method route payload (client, w)).2.2.trace
        = w.trace ++ sleeps ++ [.issued now, .completed (now + timing.exchange)]
      ∧ issues sleeps = []
      ∧ w.clock ≤ now
      ∧ (client.lastRequestTimestamp ≤ w.clock →
          client.lastRequestTimestamp + client.pauseBetweenRequests ≤ now) := by
  unfold togglRESTAPIClient.Request
  simp only
  by_cases hlt : Sub (w.clock + timing.idle) client.lastRequestTimestamp
      < client.pauseBetweenRequests
  · simp only [hlt, if_true, Sleep]
    refine ⟨_, [.slept (Duration.sub client.pauseBetweenRequests
      (Sub (w.clock + timing.idle) client.lastRequestTimestamp))], rfl, rfl, by simp, rfl, ?_, ?_⟩
    · split_ifs <;> omega
    · intro hlast
      unfold Sub Duration.sub maxDuration minDuration at *
      split_ifs at hlt ⊢ <;> omega
  · simp only [hlt, if_false]
    refine ⟨_, [], rfl, rfl, by simp, rfl, by omega, ?_⟩
    intro hlast
    unfold Sub maxDuration minDuration at *
    split_ifs at hlt <;> omega

/-- One call of Request on a gate whose last request time is not ahead of the
clock.  The time measured is the time from the last request time to the reading
of the clock; if it is less than the pause, Request sleeps for the remainder and
issues the request at the last request time plus the pause (plus what the sleep
overruns and what passes until the clock is read again); otherwise it issues the
request without a sleep. -/
theorem Request_exact {ω : Type}
    (request : String → String → String → ω → Except Error String × ω)
    (timing : Timing) (method route payload : String) (client : togglRESTAPIClient)
    (w : World ω) (hpause : client.pauseBetweenRequests ≤ maxDuration)
    (hlast : client.lastRequestTimestamp ≤ w.clock) :
    (w.clock + timing.idle - client.lastRequestTimestamp < client.pauseBetweenRequests →
      (togglRESTAPIClient.Request request timing method route payload (client, w)).2.2.trace
        = w.trace ++
          [ .slept (client.pauseBetweenRequests
              - (w.clock + timing.idle - client.lastRequestTimestamp)),
            .issued (client.lastRequestTimestamp + client.pauseBetweenRequests
              + timing.overslept + timing.lag),
            .completed (client.lastRequestTimestamp + client.pauseBetweenRequests
              + timing.overslept + timing.lag + timing.exchange) ])
    ∧ (client.pauseBetweenRequests ≤ w.clock + timing.idle - client.lastRequestTimestamp →
      (togglRESTAPIClient.Request request timing method route payload (client, w)).2.2.trace
        = w.trace ++
          [ .issued (w.clock + timing.idle + timing.lag),
            .completed (w.clock + timing.idle + timing.lag + timing.exchange) ]) := by
  have hsub : w.clock + timing.idle - client.lastRequestTimestamp < client.pauseBetweenRequests
      ↔ Sub (w.clock + timing.idle) client.lastRequestTimestamp
        < client.pauseBetweenRequests := by
    unfold Sub maxDuration minDuration at *
    split_ifs <;> omega
  constructor
  · intro hshort
    have hlt := hsub.mp hshort
    have hs : Sub (w.clock + timing.idle) client.lastRequestTimestamp
        = w.clock + timing.idle - client.lastRequestTimestamp := by
      unfold Sub maxDuration minDuration at *
      split_ifs <;> omega
    have hd : Duration.sub client.pauseBetweenRequests
        (w.clock + timing.idle - client.lastRequestTimestamp)
        = client.pauseBetweenRequests
          - (w.clock + timing.idle - client.lastRequestTimestamp) := by
      unfold Duration.sub
      unfold maxDuration at hpause
      omega
    have hpos : 0 < client.pauseBetweenRequests
        - (w.clock + timing.idle - client.lastRequestTimestamp) := by omega
    have hnow : w.clock + timing.idle
        + (client.pauseBetweenRequests - (w.clock + timing.idle - client.lastRequestTimestamp))
        + timing.overslept + timing.lag
        = client.lastRequestTimestamp + client.pauseBetweenRequests + timing.overslept
          + timing.lag := by omega
    unfold togglRESTAPIClient.Request
    simp only [hs, hshort, if_true, Sleep, hd, hpos, hnow, List.append_assoc,
      List.singleton_append, List.cons_append, List.nil_append]
  · intro hlong
    have hlt : ¬ Sub (w.clock + timing.idle) client.lastRequestTimestamp
        < client.pauseBetweenRequests := fun h => absurd (hsub.mpr h) (by omega)
    unfold togglRESTAPIClient.Request
    simp only [hlt, if_false]

/-- Consecutive calls on a gate keep the issue instants of its trace a pause
apart, and add one issue per call. -/
theorem RequestAll_spacing {ω : Type}
    (request : String → String → String → ω → Except Error String × ω)
    (calls : List Outbound) (client : togglRESTAPIClient) (w : World ω)
    (hpause : client.pauseBetweenRequests ≤ maxDuration)
    (hchain : List.Chain' (fun first second => first + client.pauseBetweenRequests ≤ second)
      (issues w.trace))
    (hlast : ∀ t, (issues w.trace).getLast? = some t →
      t = client.lastRequestTimestamp ∧ client.lastRequestTimestamp ≤ w.clock) :
    List.Chain' (fun first second => first + client.pauseBetweenRequests ≤ second)
      (issues (togglRESTAPIClient.RequestAll request calls (client, w)).2.trace)
    ∧ (issues (togglRESTAPIClient.RequestAll request calls (client, w)).2.trace).length
      = (issues w.trace).length + calls.length := by
  induction calls generalizing client w with
  | nil => exact ⟨hchain, rfl⟩
  | cons call rest ih =>
    obtain ⟨now, sleeps, hclient, hclock, htrace, hsleeps, hnow, hgap⟩ :=
      Request_step request call.timing call.method call.route call.payload client w hpause
    have hissues : issues (togglRESTAPIClient.Request request call.timing call.method
        call.route call.payload (client, w)).2.2.trace = issues w.trace ++ [now] := by
      rw [htrace, issues_append, issues_append, hsleeps]
      simp [issues]
    have hstate : (togglRESTAPIClient.Request request call.timing call.method call.route
        call.payload (client, w)).2
        = ((togglRESTAPIClient.Request request call.timing call.method call.route
            call.payload (client, w)).2.1,
          (togglRESTAPIClient.Request request call.timing call.method call.route
            call.payload (client, w)).2.2) := rfl
    simp only [togglRESTAPIClient.RequestAll]
    rw [hstate]
    have hp : (togglRESTAPIClient.Request request call.timing call.method call.route
        call.payload (client, w)).2.1.pauseBetweenRequests = client.pauseBetweenRequests := by
      rw [hclient]
    have hl : (togglRESTAPIClient.Request request call.timing call.method call.route
        call.payload (client, w)).2.1.lastRequestTimestamp = now := by
      rw [hclient]
    have := ih _ _ (by rw [hp]; exact hpause)
      (by
        rw [hp, hissues, List.chain'_append]
        refine ⟨hchain, List.chain'_singleton _, ?_⟩
        intro x hx y hy
        simp only [List.head?_cons, Option.mem_def, Option.some.injEq] at hy
        obtain ⟨h1, h2⟩ := hlast x hx
        rw [← hy, h1]
        exact hgap h2)
      (by
        intro t ht
        rw [hissues, List.getLast?_append] at ht
        have ht1 : now = t := by simpa [Option.or] using ht
        rw [hl, hclock, ← ht1]
        exact ⟨rfl, by omega⟩)
    rw [hp, hissues] at this
    refine ⟨this.1, ?_⟩
    rw [this.2]
    simp
    omega

/-- C22.  For every gate whose pause is a `time.Duration`, and every sequence of
consecutive calls to Request on it, each call issues one request, and of any two
consecutive calls the second request is issued no earlier than
pauseBetweenRequests after the first was issued, whatever time the HTTP
exchanges take and whatever else delays the calls.  The gate that NewAPI makes
has a pause of one second. -/
theorem C22_request_spacing {ω : Type}
    (request : String → String → String → ω → Except Error String × ω)
    (client : togglRESTAPIClient) (clock : Int) (remote : ω) (calls : List Outbound)
    (hpause : client.pauseBetweenRequests ≤ maxDuration) :
    List.Chain' (fun first second => first + client.pauseBetweenRequests ≤ second)
      (issues (togglRESTAPIClient.RequestAll request calls
        (client, { clock := clock, remote := remote, trace := [] })).2.trace)
    ∧ (issues (togglRESTAPIClient.RequestAll request calls
        (client, { clock := clock, remote := remote, trace := [] })).2.trace).length
      = calls.length
    ∧ (∀ baseURL token,
        (NewAPI.restAPI baseURL token).pauseBetweenRequests = 1000000000
        ∧ (NewAPI.restAPI baseURL token).pauseBetweenRequests ≤ maxDuration) := by
  have h := RequestAll_spacing request calls client
    { clock := clock, remote := remote, trace := [] } hpause List.chain'_nil
    (by intro t ht; simp [issues] at ht)
  refine ⟨h.1, ?_, fun _ _ => ⟨rfl, by show (1000000 * 1000 : Int) ≤ maxDuration; decide⟩⟩
  rw [h.2]
  simp [issues]

/-- C22, witness: three consecutive calls on the gate of the program, whose
exchanges take 400 ms, 300 ms and 1500 ms. -/
theorem C22_request_spacing_witness :
    gate.pauseBetweenRequests ≤ maxDuration
    ∧ (List.Chain' (fun first second => first + gate.pauseBetweenRequests ≤ second)
        (issues (togglRESTAPIClient.RequestAll silent
          [getWorkspaces 400, getWorkspaces 300, getWorkspaces 1500]
          (gate, { clock := aug1.unixNano, remote := (), trace := [] })).2.trace)
      ∧ (issues (togglRESTAPIClient.RequestAll silent
          [getWorkspaces 400, getWorkspaces 300, getWorkspaces 1500]
          (gate, { clock := aug1.unixNano, remote := (), trace := [] })).2.trace).length
        = [getWorkspaces 400, getWorkspaces 300, getWorkspaces 1500].length
      ∧ (∀ baseURL token,
          (NewAPI.restAPI baseURL token).pauseBetweenRequests = 1000000000
          ∧ (NewAPI.restAPI baseURL token).pauseBetweenRequests ≤ maxDuration)) :=
  ⟨by decide,
    C22_request_spacing silent gate aug1.unixNano ()
      [getWorkspaces 400, getWorkspaces 300, getWorkspaces 1500] (by decide)⟩

/-- The trace of three consecutive calls on the gate of the program whose
exchanges take 400 ms, 300 ms and 1500 ms: the first request is issued at once,
the second a second after the first, the third a second after the second. -/
theorem RequestAll_example :
    (togglRESTAPIClient.RequestAll silent
        [getWorkspaces 400, getWorkspaces 300, getWorkspaces 1500] (gate, august)).2.trace
      = [ .issued aug1.unixNano,
          .completed (aug1.unixNano + 400000000),
          .slept 600000000,
          .issued (aug1.unixNano + 1000000000),
          .completed (aug1.unixNano + 1300000000),
          .slept 700000000,
          .issued (aug1.unixNano + 2000000000),
          .completed (aug1.unixNano + 3500000000) ] := by
  decide

/-- C23, counterexample: two consecutive calls on the gate of the program, which
has a pause of one second; the exchange of the first takes 400 ms.  The second
call sleeps for 600 ms only, and its request is issued 600 ms after the first
call completed, which is less than the pause. -/
theorem C23_pause_counterexample :
    gate.pauseBetweenRequests = 1000000000
    ∧ (togglRESTAPIClient.RequestAll silent [getWorkspaces 400, getWorkspaces 300]
        (gate, august)).2.trace
      = [ .issued aug1.unixNano,
          .completed (aug1.unixNano + 400000000),
          .slept 600000000,
          .issued (aug1.unixNano + 400000000 + 600000000),
          .completed (aug1.unixNano + 1300000000) ]
    ∧ (aug1.unixNano + 400000000 + 600000000) - (aug1.unixNano + 400000000)
      < gate.pauseBetweenRequests := by
  decide

/-- C23, amended.  The time that Request measures is the time since the previous
request on the gate was issued: its request time is captured before the HTTP
exchange starts, so the exchange counts towards the pause.  For two consecutive
calls on a gate whose pause is a `time.Duration`: if the exchange of the first
call, and what passes until the second call reads the clock, took less than the
pause, the second call sleeps for the remainder, otherwise it does not sleep;
the second request is issued no earlier than the pause after the first request
was issued, which is the pause less the duration of the first exchange after the
first call completed. -/
theorem C23_pause_from_issue {ω : Type}
    (request : String → String → String → ω → Except Error String × ω)
    (client : togglRESTAPIClient) (w : World ω) (first second : Outbound)
    (hpause : client.pauseBetweenRequests ≤ maxDuration) :
    ∃ issuedFirst issuedSecond sleeps,
      issues sleeps = []
      ∧ (togglRESTAPIClient.RequestAll request [first] (client, w)).2.trace
        = w.trace ++ sleeps
          ++ [.issued issuedFirst, .completed (issuedFirst + first.timing.exchange)]
      ∧ (togglRESTAPIClient.RequestAll request [first, second] (client, w)).2.trace
        = (togglRESTAPIClient.RequestAll request [first] (client, w)).2.trace
          ++ (if first.timing.exchange + second.timing.idle < client.pauseBetweenRequests then
                [.slept (client.pauseBetweenRequests
                  - (first.timing.exchange + second.timing.idle))]
              else [])
          ++ [.issued issuedSecond, .completed (issuedSecond + second.timing.exchange)]
      ∧ issuedSecond
        = (if first.timing.exchange + second.timing.idle < client.pauseBetweenRequests then
            issuedFirst + client.pauseBetweenRequests + second.timing.overslept
              + second.timing.lag
          else
            issuedFirst + first.timing.exchange + second.timing.idle + second.timing.lag)
      ∧ issuedFirst + client.pauseBetweenRequests ≤ issuedSecond
      ∧ (issuedFirst + first.timing.exchange)
          + (client.pauseBetweenRequests - first.timing.exchange) ≤ issuedSecond := by
  obtain ⟨now, sleeps, hclient, hclock, htrace, hsleeps, -, -⟩ :=
    Request_step request first.timing first.method first.route first.payload client w hpause
  have hstate : (togglRESTAPIClient.Request request first.timing first.method first.route
      first.payload (client, w)).2
      = ((togglRESTAPIClient.Request request first.timing first.method first.route
          first.payload (client, w)).2.1,
        (togglRESTAPIClient.Request request first.timing first.method first.route
          first.payload (client, w)).2.2) := rfl
  have hp : (togglRESTAPIClient.Request request first.timing first.method first.route
      first.payload (client, w)).2.1.pauseBetweenRequests = client.pauseBetweenRequests := by
    rw [hclient]
  have hl : (togglRESTAPIClient.Request request first.timing first.method first.route
      first.payload (client, w)).2.1.lastRequestTimestamp = now := by
    rw [hclient]
  obtain ⟨hshort, hlong⟩ := Request_exact request second.timing second.method second.route
    second.payload
    (togglRESTAPIClient.Request request first.timing first.method first.route
      first.payload (client, w)).2.1
    (togglRESTAPIClient.Request request first.timing first.method first.route
      first.payload (client, w)).2.2
    (by rw [hp]; exact hpause) (by rw [hl, hclock]; omega)
  rw [hp, hl, hclock] at hshort hlong
  have he : now + first.timing.exchange + second.timing.idle - now
      = first.timing.exchange + second.timing.idle := by omega
  rw [he] at hshort hlong
  by_cases h : first.timing.exchange + second.timing.idle < client.pauseBetweenRequests
  · refine ⟨now, now + client.pauseBetweenRequests + second.timing.overslept
      + second.timing.lag, sleeps, hsleeps, htrace, ?_, by simp only [h, if_true],
      by omega, by omega⟩
    simp only [togglRESTAPIClient.RequestAll, h, if_true]
    rw [hstate, hshort h]
    simp
  · refine ⟨now, now + first.timing.exchange + second.timing.idle + second.timing.lag, sleeps,
      hsleeps, htrace, ?_, by simp only [h, if_false], by omega, by omega⟩
    simp only [togglRESTAPIClient.RequestAll, h, if_false]
    rw [hstate, hlong (by omega)]
    simp

/-- C23, witness: the two calls of the counterexample. -/
theorem C23_pause_from_issue_witness :
    gate.pauseBetweenRequests ≤ maxDuration
    ∧ ∃ issuedFirst issuedSecond sleeps,
      issues sleeps = []
      ∧ (togglRESTAPIClient.RequestAll silent [getWorkspaces 400] (gate, august)).2.trace
        = august.trace ++ sleeps
          ++ [.issued issuedFirst,
              .completed (issuedFirst + (getWorkspaces 400).timing.exchange)]
      ∧ (togglRESTAPIClient.RequestAll silent [getWorkspaces 400, getWorkspaces 300]
            (gate, august)).2.trace
        = (togglRESTAPIClient.RequestAll silent [getWorkspaces 400] (gate, august)).2.trace
          ++ (if (getWorkspaces 400).timing.exchange + (getWorkspaces 300).timing.idle
                  < gate.pauseBetweenRequests then
                [.slept (gate.pauseBetweenRequests
                  - ((getWorkspaces 400).timing.exchange + (getWorkspaces 300).timing.idle))]
              else [])
          ++ [.issued issuedSecond,
              .completed (issuedSecond + (getWorkspaces 300).timing.exchange)]
      ∧ issuedSecond
        = (if (getWorkspaces 400).timing.exchange + (getWorkspaces 300).timing.idle
              < gate.pauseBetweenRequests then
            issuedFirst + gate.pauseBetweenRequests + (getWorkspaces 300).timing.overslept
              + (getWorkspaces 300).timing.lag
          else
            issuedFirst + (getWorkspaces 400).timing.exchange
              + (getWorkspaces 300).timing.idle + (getWorkspaces 300).timing.lag)
      ∧ issuedFirst + gate.pauseBetweenRequests ≤ issuedSecond
      ∧ (issuedFirst + (getWorkspaces 400).timing.exchange)
          + (gate.pauseBetweenRequests - (getWorkspaces 400).timing.exchange)
        ≤ issuedSecond :=
  ⟨by decide,
    C23_pause_from_issue silent gate august (getWorkspaces 400) (getWorkspaces 300)
      (by decide)⟩

/-! ## The command line interface (`cli.go`) -/

/-- What Execute does on an export invocation with a date that does not parse.
If the start date does not parse, Execute reports the parse error, and then
still calls Export of the exporter, with the zero time as the start date; if the
start date parses and an end date is given that does not parse, Execute reports
the parse error and still calls Export, with the zero time as the end date.  In
both cases Execute returns what the export gives: true if Export returns nil,
false (after reporting that error too) if it fails. -/
theorem Execute_export_invalid_date {σ : Type} (cli : togglCli σ)
    (Parse : List String → kingpin.Parsed) (timeParse : String → Except Error Time)
    (Now : Time) (input : csv.Input) (output : csv.Writer σ) (errorOutput : List String)
    (args : List String) (s : σ)
    (hcommand : (Parse args).command = "export") (herr : (Parse args).err = none) :
    (∀ parseError, timeParse (Parse args).exportStartDate = .error parseError →
      ∃ endDate,
        (cli.Execute Parse timeParse Now input output errorOutput args s).1
          = some (((cli.exporterFactory (Parse args).exportAPIToken).Export Time.zero endDate
              output s).1.toBool)
        ∧ (cli.Execute Parse timeParse Now input output errorOutput args s).2.2
          = ((cli.exporterFactory (Parse args).exportAPIToken).Export Time.zero endDate
              output s).2
        ∧ (errorOutput ++ ["Failed to parse the given start date. " ++ parseError])
          <+: (cli.Execute Parse timeParse Now input output errorOutput args s).2.1)
    ∧ (∀ startDate parseError, timeParse (Parse args).exportStartDate = .ok startDate →
        (Parse args).exportEndDate.utf8ByteSize > 0 →
        timeParse (Parse args).exportEndDate = .error parseError →
        (cli.Execute Parse timeParse Now input output errorOutput args s).1
          = some (((cli.exporterFactory (Parse args).exportAPIToken).Export startDate
              Time.zero output s).1.toBool)
        ∧ (cli.Execute Parse timeParse Now input output errorOutput args s).2.2
          = ((cli.exporterFactory (Parse args).exportAPIToken).Export startDate Time.zero
              output s).2
        ∧ (errorOutput ++ ["Failed to parse the given end date. " ++ parseError])
          <+: (cli.Execute Parse timeParse Now input output errorOutput args s).2.1) := by
  constructor
  · intro parseError hstart
    by_cases hend : (Parse args).exportEndDate.utf8ByteSize > 0
    · cases hparse : timeParse (Parse args).exportEndDate with
      | error e =>
        refine ⟨Time.zero, ?_⟩
        simp only [togglCli.Execute, hcommand, herr, hstart, hend, hparse, beq_self_eq_true,
          if_true, togglCli.Fatalf, togglCli.terminate]
        rcases (cli.exporterFactory (Parse args).exportAPIToken).Export Time.zero Time.zero
          output s with ⟨r, s1⟩
        cases r <;> simp [Except.toBool, List.prefix_iff_eq_append]
      | ok endDate =>
        refine ⟨endDate, ?_⟩
        simp only [togglCli.Execute, hcommand, herr, hstart, hend, hparse, beq_self_eq_true,
          if_true, togglCli.Fatalf, togglCli.terminate]
        rcases (cli.exporterFactory (Parse args).exportAPIToken).Export Time.zero endDate
          output s with ⟨r, s1⟩
        cases r <;> simp [Except.toBool, List.prefix_iff_eq_append]
    · refine ⟨Date Now.Year Now.Month Now.Day 23 59 59 0 UTC, ?_⟩
      simp only [togglCli.Execute, hcommand, herr, hstart, hend, beq_self_eq_true,
        if_true, if_false, togglCli.Fatalf, togglCli.terminate]
      rcases (cli.exporterFactory (Parse args).exportAPIToken).Export Time.zero
        (Date Now.Year Now.Month Now.Day 23 59 59 0 UTC) output s with ⟨r, s1⟩
      cases r <;> simp [Except.toBool, List.prefix_iff_eq_append]
  · intro startDate parseError hstart hend hparse
    simp only [togglCli.Execute, hcommand, herr, hstart, hend, hparse, beq_self_eq_true,
      if_true, togglCli.Fatalf, togglCli.terminate]
    rcases (cli.exporterFactory (Parse args).exportAPIToken).Export startDate Time.zero
      output s with ⟨r, s1⟩
    cases r <;> simp [Except.toBool, List.prefix_iff_eq_append]

/-- C30.  Execute at the failing inputs, and on every export invocation with a
date that does not parse.  With the arguments of the two tests of
`cli_export_test.go` whose start date, or end date, does not parse, over an
exporter that returns nil, Execute writes the parse error, calls Export all the
same, with the zero time in place of the date, and returns true.  In general,
for every outcome of the argument parser that selects the export command: if the
start date does not parse, Execute reports the parse error and then calls Export
with the zero time as the start date; if the start date parses and the end date
given does not, it reports the parse error and calls Export with the zero time
as the end date; either way it returns true exactly when Export returns nil. -/
theorem C30_Execute_invalid_date :
    (mockCli.Execute parseArguments parseDay aug12 (.ok []) discard []
        ["export", "1971800d4d82861d8f2c1651fea4d212", "2013  03.   10"] []
      = (some true, ["Failed to parse the given start date. parsing time: cannot parse"],
          [(Time.zero, Date 2016 8 12 23 59 59 0 UTC)]))
    ∧ (mockCli.Execute parseArguments parseDay aug12 (.ok []) discard []
        ["export", "1971800d4d82861d8f2c1651fea4d212", "2013-03-10", "2013 09.  -30"] []
      = (some true, ["Failed to parse the given end date. parsing time: cannot parse"],
          [(Date 2013 3 10 0 0 0 0 UTC, Time.zero)]))
    ∧ (∀ (σ : Type) (cli : togglCli σ) (Parse : List String → kingpin.Parsed)
        (timeParse : String → Except Error Time) (Now : Time) (input : csv.Input)
        (output : csv.Writer σ) (errorOutput : List String) (args : List String) (s : σ),
        (Parse args).command = "export" → (Parse args).err = none →
        (∀ parseError, timeParse (Parse args).exportStartDate = .error parseError →
          ∃ endDate,
            (cli.Execute Parse timeParse Now input output errorOutput args s).1
              = some (((cli.exporterFactory (Parse args).exportAPIToken).Export Time.zero
                  endDate output s).1.toBool)
            ∧ (cli.Execute Parse timeParse Now input output errorOutput args s).2.2
              = ((cli.exporterFactory (Parse args).exportAPIToken).Export Time.zero endDate
                  output s).2
            ∧ (errorOutput ++ ["Failed to parse the given start date. " ++ parseError])
              <+: (cli.Execute Parse timeParse Now input output errorOutput args s).2.1)
        ∧ (∀ startDate parseError, timeParse (Parse args).exportStartDate = .ok startDate →
            (Parse args).exportEndDate.utf8ByteSize > 0 →
            timeParse (Parse args).exportEndDate = .error parseError →
            (cli.Execute Parse timeParse Now input output errorOutput args s).1
              = some (((cli.exporterFactory (Parse args).exportAPIToken).Export startDate
                  Time.zero output s).1.toBool)
            ∧ (cli.Execute Parse timeParse Now input output errorOutput args s).2.2
              = ((cli.exporterFactory (Parse args).exportAPIToken).Export startDate Time.zero
                  output s).2
            ∧ (errorOutput ++ ["Failed to parse the given end date. " ++ parseError])
              <+: (cli.Execute Parse timeParse Now input output errorOutput args s).2.1)) :=
  ⟨by decide, by decide,
    fun _ cli Parse timeParse Now input output errorOutput args s hcommand herr =>
      Execute_export_invalid_date cli Parse timeParse Now input output errorOutput args s
        hcommand herr⟩

/-- With dates that parse, Export is called with them and nothing is written to
the error output; without an end date, the end of the current day in UTC is
used; an argument list that selects no command makes Execute return false
without calling the exporter. -/
theorem Execute_examples :
    mockCli.Execute parseArguments parseDay aug12 (.ok []) discard []
        ["export", "1971800d4d82861d8f2c1651fea4d212", "2013-03-10", "2013-09-30"] []
      = (some true, [], [(Date 2013 3 10 0 0 0 0 UTC, Date 2013 9 30 0 0 0 0 UTC)])
    ∧ mockCli.Execute parseArguments parseDay aug12 (.ok []) discard []
        ["export", "1971800d4d82861d8f2c1651fea4d212", "2013-03-10"] []
      = (some true, [], [(Date 2013 3 10 0 0 0 0 UTC, Date 2016 8 12 23 59 59 0 UTC)])
    ∧ mockCli.Execute parseArguments parseDay aug12 (.ok []) discard [] ["export"] []
      = (some false, ["the arguments do not select a command"], []) :=
  ⟨by decide, by decide, by decide⟩

/-! ## The importer of `main.go` over the remote service that accepts every request -/

/-- The import of two rows for the same new project and client into the small
account, through the importer as `main.go` wires it: the requests that reach
the service, in order.  The client and the project are created once, for the
first row. -/
theorem Import_end_to_end :
    ((getCSVImporter idealAPI.recording).Import (.ok twoNewRows)
        (Repositories.fresh (smallAccount, []))).1 = some (.ok ())
    ∧ (((getCSVImporter idealAPI.recording).Import (.ok twoNewRows)
        (Repositories.fresh (smallAccount, []))).2.remote.2).map RemoteCall.name
      = ["GetWorkspaces", "GetProjects", "GetClients", "CreateClient Newcomer",
          "CreateProject New", "GetProjects", "GetClients", "CreateTimeEntry work",
          "CreateTimeEntry more work"] :=
  ⟨by decide, by decide⟩

/-! ## The description limit and the totality of the CSV mapper -/

/-- A list of seven elements is the list of its seven cells. -/
theorem seven_cells {α : Type} (row : List α) (hcells : row.length = 7) :
    ∃ a b c d e f g, row = [a, b, c, d, e, f, g] := by
  match row, hcells with
  | [a, b, c, d, e, f, g], _ => exact ⟨a, b, c, d, e, f, g, rfl⟩

/-- C36.  For every row of seven cells whose start and stop cells parse,
GetTimeRecord of the mapper of NewCSVTimeRecordMapper returns an error if and
only if the description cell, with the white space around it removed, has 3000
bytes or more; the error is the one of the description check, and a row that is
not rejected gives a record with the trimmed description.  With a description of
exactly 3000 letters the row is rejected, with one of 2999 letters it is
accepted. -/
theorem C36_description_limit (dateFormatter : date.Formatter) (row : List String)
    (start stop description : String) (startDate stopDate : Time)
    (hcells : row.length = 7)
    (h0 : row[0]? = some start) (h1 : row[1]? = some stop) (h6 : row[6]? = some description)
    (hstart : dateFormatter.GetDate start = .ok startDate)
    (hstop : dateFormatter.GetDate stop = .ok stopDate) :
    ((∃ err, (NewCSVTimeRecordMapper dateFormatter).GetTimeRecord row = some (.error err))
      ↔ 3000 ≤ (strings.TrimSpace description).utf8ByteSize)
    ∧ (3000 ≤ (strings.TrimSpace description).utf8ByteSize →
        (NewCSVTimeRecordMapper dateFormatter).GetTimeRecord row
          = some (.error "The description text of the time entry is too long"))
    ∧ ((strings.TrimSpace description).utf8ByteSize < 3000 →
        ∃ record, (NewCSVTimeRecordMapper dateFormatter).GetTimeRecord row = some (.ok record)
          ∧ record.Description = strings.TrimSpace description
          ∧ record.Start = startDate ∧ record.Stop = stopDate)
    ∧ (∃ err, (NewCSVTimeRecordMapper dateFormatter).GetTimeRecord
        (row.take 6 ++ [String.mk (List.replicate 3000 'x')]) = some (.error err))
    ∧ (∃ record, (NewCSVTimeRecordMapper dateFormatter).GetTimeRecord
        (row.take 6 ++ [String.mk (List.replicate 2999 'x')]) = some (.ok record)) := by
  obtain ⟨a, b, c, d, e, f, g, rfl⟩ := seven_cells row hcells
  simp only [List.getElem?_cons_zero, List.getElem?_cons_succ, Option.some.injEq] at h0 h1 h6
  subst h0 h1 h6
  have key : ∀ text : String,
      (NewCSVTimeRecordMapper dateFormatter).GetTimeRecord [a, b, c, d, e, f, text]
        = if (strings.TrimSpace text).utf8ByteSize ≥ 3000 then
            some (.error "The description text of the time entry is too long")
          else
            some (.ok
              { Start := startDate
                Stop := stopDate
                WorkspaceName := strings.TrimSpace c
                ProjectName := strings.TrimSpace d
                ClientName := strings.TrimSpace e
                Description := strings.TrimSpace text
                Tags := (strings.Split f ",").map strings.TrimSpace }) := by
    intro text
    rw [GetTimeRecord_seven, hstart, hstop]
  have htake : List.take 6 [a, b, c, d, e, f, g] = [a, b, c, d, e, f] := rfl
  refine ⟨?_, ?_, ?_, ?_, ?_⟩
  · rw [key]
    constructor
    · rintro ⟨err, herr⟩
      by_contra hshort
      rw [if_neg hshort] at herr
      cases herr
    · intro hlong
      rw [if_pos hlong]
      exact ⟨_, rfl⟩
  · intro hlong
    rw [key, if_pos hlong]
  · intro hshort
    rw [key, if_neg (by omega)]
    exact ⟨_, rfl, rfl, rfl, rfl⟩
  · rw [htake]
    show ∃ err, (NewCSVTimeRecordMapper dateFormatter).GetTimeRecord
      [a, b, c, d, e, f, String.mk (List.replicate 3000 'x')] = some (.error err)
    rw [key, TrimSpace_letters, utf8ByteSize_replicate, if_pos (by omega)]
    exact ⟨_, rfl⟩
  · rw [htake]
    show ∃ record, (NewCSVTimeRecordMapper dateFormatter).GetTimeRecord
      [a, b, c, d, e, f, String.mk (List.replicate 2999 'x')] = some (.ok record)
    rw [key, TrimSpace_letters, utf8ByteSize_replicate, if_neg (by omega)]
    exact ⟨_, rfl⟩

/-- C36, witness: the row of `Test_GetTimeRecord_ValidInput_TimeRecordIsReturned`
with the ISO 8601 formatter. -/
theorem C36_description_limit_witness :
    ((∃ err, csvTimeRecordMapper.GetTimeRecord
          ["2015-03-26T08:00:00+01:00", "2015-03-26T11:30:00+01:00", "Workspace", "Project XY",
            "Client X", "", "Some stuff"] = some (.error err))
      ↔ 3000 ≤ (strings.TrimSpace "Some stuff").utf8ByteSize)
    ∧ (∃ err, csvTimeRecordMapper.GetTimeRecord
        ["2015-03-26T08:00:00+01:00", "2015-03-26T11:30:00+01:00", "Workspace", "Project XY",
          "Client X", "", String.mk (List.replicate 3000 'x')] = some (.error err))
    ∧ (∃ record, csvTimeRecordMapper.GetTimeRecord
        ["2015-03-26T08:00:00+01:00", "2015-03-26T11:30:00+01:00", "Workspace", "Project XY",
          "Client X", "", String.mk (List.replicate 2999 'x')] = some (.ok record)) :=
  have h := C36_description_limit date.NewISO8601Formatter
    ["2015-03-26T08:00:00+01:00", "2015-03-26T11:30:00+01:00", "Workspace", "Project XY",
      "Client X", "", "Some stuff"]
    "2015-03-26T08:00:00+01:00" "2015-03-26T11:30:00+01:00" "Some stuff"
    (Date 2015 3 26 8 0 0 0 3600) (Date 2015 3 26 11 30 0 0 3600)
    rfl rfl rfl rfl (by decide) (by decide)
  ⟨h.1, h.2.2.2.1, h.2.2.2.2⟩

/-- More fuel does not change what the loop of GetTimeRanges returns. -/
theorem rangesLoop_more_fuel (start stop : Time) (extra : Nat) :
    ∀ (fuel : Nat) (month : Time) (ranges : List timeRange)
      (result : Except Error (List timeRange)),
      fullMonthTimeRangeProvider.rangesLoop start stop fuel month ranges = some result →
      fullMonthTimeRangeProvider.rangesLoop start stop (fuel + extra) month ranges
        = some result := by
  intro fuel
  induction fuel with
  | zero =>
    intro month ranges result h
    exact absurd h (by rw [show fullMonthTimeRangeProvider.rangesLoop start stop 0 month ranges
      = none from rfl]; simp)
  | succ n ih =>
    intro month ranges result h
    have hfuel : n + 1 + extra = (n + extra) + 1 := by omega
    rw [hfuel]
    rw [rangesLoop_succ] at h ⊢
    split_ifs at h ⊢ with hbefore <;>
      first
      | exact h
      | (revert h
         generalize newTimeRange _ _ = r
         cases r <;> intro h <;> first | exact h | exact ih _ _ _ h)

/-- What GetTimeRanges returns, with whatever fuel, for a start date that is not
after the end date, the years of both at most 292277024626: the list of the
ranges by calendar month, never an error. -/
theorem GetTimeRanges_some (fuel : Nat) (startDate endDate : Time)
    (result : Except Error (List timeRange))
    (hstart : startDate.Year ≤ 292277024626) (hend : endDate.Year ≤ 292277024626)
    (h : fullMonthTimeRangeProvider.GetTimeRanges fuel startDate endDate = some result)
    (hafter : startDate.After endDate = false) :
    result = .ok (monthlyRanges startDate endDate) := by
  have hbig := GetTimeRanges_eq startDate endDate
    (fuel + ((monthCount startDate endDate).toNat + 1)) hstart hend hafter (by omega)
  simp only [fullMonthTimeRangeProvider.GetTimeRanges, hafter, Bool.false_eq_true,
    if_false] at h hbig
  have hmore := rangesLoop_more_fuel _ _ ((monthCount startDate endDate).toNat + 1) _ _ _ _ h
  rw [hmore] at hbig
  simpa using hbig

/-- A list of ranges that GetTimeRanges returns, with whatever fuel, for dates
with years up to 292277024626 is the list of the ranges by calendar month. -/
theorem GetTimeRanges_returned (fuel : Nat) (startDate endDate : Time)
    (ranges : List timeRange)
    (hstart : startDate.Year ≤ 292277024626) (hend : endDate.Year ≤ 292277024626)
    (h : fullMonthTimeRangeProvider.GetTimeRanges fuel startDate endDate = some (.ok ranges)) :
    ranges = monthlyRanges startDate endDate := by
  cases hafter : startDate.After endDate with
  | true =>
    simp [fullMonthTimeRangeProvider.GetTimeRanges, hafter] at h
  | false =>
    simpa using GetTimeRanges_some fuel startDate endDate _ hstart hend h hafter

/-- A range that newTimeRange returns has the two bounds it was given, the lower
one strictly before the upper one. -/
theorem newTimeRange_built (lo hi : Time) (range : timeRange)
    (h : newTimeRange lo hi = .ok range) :
    range = { start := lo, stop := hi } ∧ lo.unixNano < hi.unixNano := by
  unfold newTimeRange at h
  split_ifs at h with h1 h2
  simp only [Time.After, decide_eq_true_eq, Time.Equal] at h1 h2
  simp only [Except.ok.injEq] at h
  exact ⟨h.symm, by omega⟩

/-- The loop of GetTimeRanges only adds ranges that start before they stop. -/
theorem rangesLoop_built (start stop : Time) :
    ∀ (fuel : Nat) (month : Time) (acc ranges : List timeRange),
      (∀ range ∈ acc, range.start.unixNano < range.stop.unixNano) →
      fullMonthTimeRangeProvider.rangesLoop start stop fuel month acc = some (.ok ranges) →
      ∀ range ∈ ranges, range.start.unixNano < range.stop.unixNano := by
  intro fuel
  induction fuel with
  | zero =>
    intro month acc ranges _ h
    exact absurd h (by rw [show fullMonthTimeRangeProvider.rangesLoop start stop 0 month acc
      = none from rfl]; simp)
  | succ n ih =>
    intro month acc ranges hacc h
    rw [rangesLoop_succ] at h
    by_cases hbefore : month.Before stop = true
    · rw [if_pos hbefore] at h
      revert h
      generalize hr : newTimeRange _ _ = r
      cases r with
      | error err => intro h; simp at h
      | ok range =>
        intro h
        obtain ⟨hrange, hlt⟩ := newTimeRange_built _ _ _ hr
        refine ih _ _ _ ?_ h
        intro r hmem
        rcases List.mem_append.1 hmem with hm | hm
        · exact hacc r hm
        · rw [List.mem_singleton] at hm
          rw [hm, hrange]
          exact hlt
    · rw [if_neg hbefore] at h
      simp only [Option.some.injEq, Except.ok.injEq] at h
      rw [← h]
      exact hacc

/-- Every range of a list that GetTimeRanges returns starts before it stops,
whatever the dates and the fuel. -/
theorem GetTimeRanges_built (fuel : Nat) (startDate endDate : Time) (ranges : List timeRange)
    (h : fullMonthTimeRangeProvider.GetTimeRanges fuel startDate endDate = some (.ok ranges)) :
    ∀ range ∈ ranges, range.start.unixNano < range.stop.unixNano := by
  unfold fullMonthTimeRangeProvider.GetTimeRanges at h
  simp only at h
  split_ifs at h
  · simp at h
  · exact rangesLoop_built _ _ fuel _ [] ranges (fun r hr => absurd hr (List.not_mem_nil r)) h

/-- In the ranges by calendar month every range starts strictly before it stops,
and stops strictly before the next range starts. -/
theorem monthlyRanges_ordered (s e : Time) (he : e.Year ≤ 292277024626) (i : Nat)
    (hi : i < (monthlyRanges s e).length) :
    ((monthlyRanges s e).get ⟨i, hi⟩).start.unixNano
        < ((monthlyRanges s e).get ⟨i, hi⟩).stop.unixNano
    ∧ ∀ (hnext : i + 1 < (monthlyRanges s e).length),
        ((monthlyRanges s e).get ⟨i, hi⟩).stop.unixNano
          < ((monthlyRanges s e).get ⟨i + 1, hnext⟩).start.unixNano := by
  have hd := monthlyRanges_nonempty_days s e i hi
  have hlen := monthlyRanges_length s e hd
  constructor
  · rw [monthlyRanges_get]
    have hlt := chunk_lt s e i he hd (by omega)
    have hn : (monthlyRanges s e).length = (monthCount s e).toNat := by omega
    rw [hn]
    exact hlt
  · intro hnext
    rw [monthlyRanges_get, monthlyRanges_get]
    have h1 : i + 1 ≠ (monthlyRanges s e).length := by omega
    have h2 : i + 1 ≠ 0 := by omega
    have hw := chunk_safe_succ s e i he (by omega)
    have e2 : 12 * s.Year + (s.Month + (i : Int) + 1) - 1 = 12 * s.Year + s.Month - 1 + i + 1 := by
      ring
    have e3 : s.Month + ((i + 1 : Nat) : Int) = s.Month + (i : Int) + 1 := by push_cast; ring
    simp only [chunkStop, chunkStart, if_neg h1, if_neg h2]
    rw [e3, Date_pred s.Year (s.Month + i + 1) (by rw [e2]; exact hw),
      Date_firstDay s.Year (s.Month + i + 1) 1 0 0 0 0 UTC (by rw [e2]; exact hw)
        (by omega) (by omega) (by omega) (by decide)]
    simp only [UTC]
    omega

/-- In the ranges by calendar month every range stops strictly before every
later range starts. -/
theorem monthlyRanges_disjoint (s e : Time) (he : e.Year ≤ 292277024626) (i : Nat) :
    ∀ (j : Nat) (hi : i < (monthlyRanges s e).length) (hj : j < (monthlyRanges s e).length),
      i < j →
      ((monthlyRanges s e).get ⟨i, hi⟩).stop.unixNano
        < ((monthlyRanges s e).get ⟨j, hj⟩).start.unixNano := by
  intro j
  induction j with
  | zero => intro hi hj hij; omega
  | succ j ih =>
    intro hi hj hij
    rcases Nat.lt_succ_iff_lt_or_eq.1 hij with hlt | heq
    · have h1 := ih hi (by omega) hlt
      have h2 := (monthlyRanges_ordered s e he j (by omega)).1
      have h3 := (monthlyRanges_ordered s e he j (by omega)).2 hj
      omega
    · subst heq
      exact (monthlyRanges_ordered s e he i hi).2 hj

/-- C31, as amended.  For every list that GetTimeRanges returns, with whatever
fuel its loop has: each range has its Start strictly before its Stop; and when
the years of the start date and of the end date are at most 292277024626, each
range has its Stop strictly before the Start of the next range, and so every
range has its Stop strictly before the Start of every later range: the ranges are
in chronological order and pairwise disjoint. -/
theorem C31_ranges_disjoint (fuel : Nat) (startDate endDate : Time) (ranges : List timeRange)
    (h : fullMonthTimeRangeProvider.GetTimeRanges fuel startDate endDate = some (.ok ranges)) :
    (∀ range ∈ ranges, range.Start.Before range.Stop = true)
    ∧ (startDate.Year ≤ 292277024626 → endDate.Year ≤ 292277024626 →
        (∀ (i : Nat) (hi : i < ranges.length) (hnext : i + 1 < ranges.length),
          (ranges.get ⟨i, hi⟩).Stop.Before (ranges.get ⟨i + 1, hnext⟩).Start = true)
        ∧ List.Pairwise (fun range later => range.Stop.Before later.Start = true) ranges) := by
  refine ⟨?_, ?_⟩
  · intro range hmem
    simp only [timeRange.Start, timeRange.Stop, Time.Before, decide_eq_true_eq]
    exact GetTimeRanges_built fuel startDate endDate ranges h range hmem
  · intro hstart hend
    have heq := GetTimeRanges_returned fuel startDate endDate ranges hstart hend h
    subst heq
    refine ⟨?_, ?_⟩
    · intro i hi hnext
      simp only [timeRange.Start, timeRange.Stop, Time.Before, decide_eq_true_eq]
      exact (monthlyRanges_ordered startDate endDate hend i hi).2 hnext
    · rw [List.pairwise_iff_get]
      intro i j hij
      simp only [timeRange.Start, timeRange.Stop, Time.Before, decide_eq_true_eq]
      exact monthlyRanges_disjoint startDate endDate hend i.1 j.1 i.2 j.2 hij

/-- C31, witness: the two ranges of 12 July to 12 August 2016. -/
theorem C31_ranges_disjoint_witness :
    fullMonthTimeRangeProvider.GetTimeRanges 3 jul12 aug12
      = some (.ok [{ start := Date 2016 7 12 0 0 1 0 UTC,
                     stop := (Date 2016 8 1 0 0 0 0 UTC).Add (-1) },
                   { start := Date 2016 8 1 0 0 0 0 UTC,
                     stop := Date 2016 8 12 23 59 59 0 UTC }])
    ∧ (jul12.Year ≤ 292277024626 ∧ aug12.Year ≤ 292277024626)
    ∧ (Date 2016 7 12 0 0 1 0 UTC).Before ((Date 2016 8 1 0 0 0 0 UTC).Add (-1)) = true
    ∧ ((Date 2016 8 1 0 0 0 0 UTC).Add (-1)).Before (Date 2016 8 1 0 0 0 0 UTC) = true
    ∧ (Date 2016 8 1 0 0 0 0 UTC).Before (Date 2016 8 12 23 59 59 0 UTC) = true :=
  have h := C31_ranges_disjoint 3 jul12 aug12
    [{ start := Date 2016 7 12 0 0 1 0 UTC, stop := (Date 2016 8 1 0 0 0 0 UTC).Add (-1) },
     { start := Date 2016 8 1 0 0 0 0 UTC, stop := Date 2016 8 12 23 59 59 0 UTC }]
    (by decide)
  ⟨by decide, ⟨by decide, by decide⟩, h.1 _ (List.mem_cons_self _ _),
    (h.2 (by decide) (by decide)).1 0 (by decide) (by decide),
    h.1 _ (List.mem_cons_of_mem _ (List.mem_cons_self _ _))⟩

/-- C31, counterexample.  The start is the instant one day before the absolute
epoch of package `time`, the end lies 335 days after the epoch.  The methods of
`time.Time` read the start as a day of the year 292277026854, the loop walks on
from that month, and when its variable passes the epoch the end of that month,
computed by EndOfMonth, lies after the beginning of what the methods then read as
the month of the loop variable: GetTimeRanges returns a list in which a range
does not stop before the next range starts. -/
theorem C31_ranges_disjoint_counterexample :
    beforeEpoch.After afterEpoch = false
    ∧ beforeEpoch.Valid ∧ afterEpoch.Valid
    ∧ beforeEpoch.Year = 292277026854
    ∧ (fullMonthTimeRangeProvider.GetTimeRanges 40 beforeEpoch afterEpoch).map
        (fun result => result.map overlapping) = some (.ok true) := by
  decide

/-- C35, as amended.  For every start date and end date in UTC, values of
`time.Time` with years up to 292277024626, with the start not after the end:
GetTimeRanges returns the ranges by calendar month, at least one, whenever the
fuel of its loop exceeds the number of months from the month of the start to the
month of the end, and with no fuel does it return an error; the loop starts in the
month of the start, and each iteration up to the month of the end takes the loop
variable from the `k`-th month to the `k + 1`-th; each range is one that
newTimeRange built without rejecting it, with its lower bound strictly before its
upper bound, and the `k`-th range starts in the `k`-th month. -/
theorem C35_GetTimeRanges_safe (startDate endDate : Time)
    (hstartValid : startDate.Valid) (hendValid : endDate.Valid)
    (hstart : startDate.offset = UTC) (hend : endDate.offset = UTC)
    (hstartYear : startDate.Year ≤ 292277024626) (hendYear : endDate.Year ≤ 292277024626)
    (h : startDate.After endDate = false) :
    (∀ fuel, (monthCount startDate endDate).toNat < fuel →
        fullMonthTimeRangeProvider.GetTimeRanges fuel startDate endDate
          = some (.ok (monthlyRanges startDate endDate)))
    ∧ (∀ fuel result,
        fullMonthTimeRangeProvider.GetTimeRanges fuel startDate endDate = some result →
        result = .ok (monthlyRanges startDate endDate))
    ∧ 1 ≤ monthCount startDate endDate
    ∧ ((monthlyRanges startDate endDate).length : Int) = monthCount startDate endDate
    ∧ loopState startDate (normalizedStart startDate) 0
    ∧ (∀ (month : Time) (k : Nat), (k : Int) < monthCount startDate endDate →
        loopState startDate month k →
        loopState startDate
          ((if month.Day != 1 then now.BeginningOfMonth month else month).AddDate 0 1 0) (k + 1))
    ∧ (∀ (month : Time) (k : Nat), loopState startDate month k →
        12 * month.Year + month.Month = 12 * startDate.Year + startDate.Month + k)
    ∧ ∀ (k : Nat) (hk : k < (monthlyRanges startDate endDate).length),
        newTimeRange ((monthlyRanges startDate endDate).get ⟨k, hk⟩).start
            ((monthlyRanges startDate endDate).get ⟨k, hk⟩).stop
          = .ok ((monthlyRanges startDate endDate).get ⟨k, hk⟩)
        ∧ ((monthlyRanges startDate endDate).get ⟨k, hk⟩).Start.Before
            ((monthlyRanges startDate endDate).get ⟨k, hk⟩).Stop = true
        ∧ 12 * ((monthlyRanges startDate endDate).get ⟨k, hk⟩).Start.Year
            + ((monthlyRanges startDate endDate).get ⟨k, hk⟩).Start.Month
          = 12 * startDate.Year + startDate.Month + k := by
  have hd : startDate.days ≤ endDate.days :=
    days_le_of_utc startDate endDate hstartValid hendValid hstart hend hstartYear hendYear h
  refine ⟨fun fuel hf => GetTimeRanges_eq startDate endDate fuel hstartYear hendYear h hf,
    fun fuel result hr =>
      GetTimeRanges_some fuel startDate endDate result hstartYear hendYear hr h,
    monthCount_pos startDate endDate hd, monthlyRanges_length startDate endDate hd,
    loopState_start startDate hstartYear,
    fun month k hk hl =>
      loop_next startDate month k hl (chunk_safe_succ startDate endDate k hendYear hk),
    fun month k hl => by have := hl.2.2.1; omega, ?_⟩
  intro k hk
  have hlt := (monthlyRanges_ordered startDate endDate hendYear k hk).1
  have hlen := monthlyRanges_length startDate endDate hd
  refine ⟨?_, ?_, ?_⟩
  · revert hlt
    generalize (monthlyRanges startDate endDate).get ⟨k, hk⟩ = range
    intro hlt
    have h1 : ¬ range.stop.unixNano < range.start.unixNano := by omega
    have h2 : ¬ range.stop.unixNano = range.start.unixNano := by omega
    simp [newTimeRange, Time.After, Time.Equal, h1, h2]
  · simp only [timeRange.Start, timeRange.Stop, Time.Before, decide_eq_true_eq]
    exact hlt
  · rw [monthlyRanges_get]
    exact (chunk_month startDate endDate k hstartYear hendYear (by omega)).1

/-- C35, witness: 12 July to 12 August 2016, both in UTC. -/
theorem C35_GetTimeRanges_safe_witness :
    (jul12.Valid ∧ aug12.Valid ∧ jul12.offset = UTC ∧ aug12.offset = UTC
      ∧ jul12.Year ≤ 292277024626 ∧ aug12.Year ≤ 292277024626 ∧ jul12.After aug12 = false)
    ∧ fullMonthTimeRangeProvider.GetTimeRanges 3 jul12 aug12
      = some (.ok (monthlyRanges jul12 aug12))
    ∧ monthlyRanges jul12 aug12
      = [{ start := Date 2016 7 12 0 0 1 0 UTC, stop := (Date 2016 8 1 0 0 0 0 UTC).Add (-1) },
         { start := Date 2016 8 1 0 0 0 0 UTC, stop := Date 2016 8 12 23 59 59 0 UTC }] :=
  ⟨⟨by decide, by decide, by decide, by decide, by decide, by decide, by decide⟩,
    (C35_GetTimeRanges_safe jul12 aug12 (by decide) (by decide) (by decide) (by decide)
      (by decide) (by decide) (by decide)).1 3 (by decide),
    by decide⟩

/-- C35, counterexample.  Start and end are the 2nd and the 3rd of December of
the year 292277024627, the last month that a `time.Time` reaches, both in UTC and
the start not after the end; there is one month to walk.  After the first
iteration the loop variable is `month.AddDate(0, 1, 0)`, January 1 of the year
292277024628, which is past the last second of `time.Time`: its seconds wrap to
an instant 2^64 s earlier, which is before the end.  The loop goes on: with fuel
for 2 iterations, and for 200, the call has not returned. -/
theorem C35_GetTimeRanges_safe_counterexample :
    lastDec2.Valid ∧ lastDec3.Valid ∧ lastDec2.offset = UTC ∧ lastDec3.offset = UTC
    ∧ lastDec2.After lastDec3 = false
    ∧ lastDec3.Year = 292277024627
    ∧ monthCount lastDec2 lastDec3 = 1
    ∧ ((now.BeginningOfMonth lastDec2).AddDate 0 1 0).Year = 292277024628
    ∧ ((now.BeginningOfMonth lastDec2).AddDate 0 1 0).Before
        (Date lastDec3.Year lastDec3.Month lastDec3.Day 23 59 59 0 UTC) = true
    ∧ fullMonthTimeRangeProvider.GetTimeRanges 2 lastDec2 lastDec3 = none
    ∧ fullMonthTimeRangeProvider.GetTimeRanges 200 lastDec2 lastDec3 = none := by
  decide


/-! ## Split and TrimSpace -/

/-- The characters of TrimSpace: the white space dropped from the front, then
from the back. -/
theorem TrimSpace_toList (s : String) :
    (strings.TrimSpace s).toList
      = (s.toList.dropWhile strings.IsSpace).rdropWhile strings.IsSpace := rfl

/-- A list is what is left of it without a run at its end, followed by the run. -/
theorem rdropWhile_append {α : Type} (p : α → Bool) (l : List α) :
    l.rdropWhile p ++ l.rtakeWhile p = l := by
  unfold List.rdropWhile List.rtakeWhile
  rw [← List.reverse_append, List.takeWhile_append_dropWhile, List.reverse_reverse]

/-- TrimSpace returns the string between a run of white space in front of it and
a run of white space behind it, and what it returns has no leading and no
trailing white space. -/
theorem TrimSpace_spec (s : String) :
    (∃ before after, s.toList = before ++ (strings.TrimSpace s).toList ++ after
      ∧ (∀ c ∈ before, strings.IsSpace c = true) ∧ (∀ c ∈ after, strings.IsSpace c = true))
    ∧ strings.Trimmed (strings.TrimSpace s) = true := by
  constructor
  · refine ⟨s.toList.takeWhile strings.IsSpace,
      (s.toList.dropWhile strings.IsSpace).rtakeWhile strings.IsSpace, ?_, ?_, ?_⟩
    · rw [TrimSpace_toList, List.append_assoc, rdropWhile_append,
        List.takeWhile_append_dropWhile]
    · intro c hc
      exact List.mem_takeWhile_imp hc
    · intro c hc
      exact List.mem_rtakeWhile_imp hc
  · unfold strings.Trimmed
    rw [TrimSpace_toList]
    generalize hd : s.toList.dropWhile strings.IsSpace = d
    have hfront : ∀ c, d.head? = some c → strings.IsSpace c = false := by
      intro c hc
      have := List.head?_dropWhile_not strings.IsSpace s.toList
      rw [hd, hc] at this
      simpa using this
    rw [Bool.and_eq_true]
    constructor
    · cases hm : (d.rdropWhile strings.IsSpace).head? with
      | none => rfl
      | some c =>
        have hpre : d.rdropWhile strings.IsSpace <+: d := List.rdropWhile_prefix _ _
        have : d.head? = some c := by
          obtain ⟨t, ht⟩ := hpre
          rw [← ht]
          cases hl : d.rdropWhile strings.IsSpace with
          | nil => rw [hl] at hm; cases hm
          | cons a rest =>
            rw [hl] at hm
            simpa using hm
        simp [hfront c this]
    · cases hm : (d.rdropWhile strings.IsSpace).getLast? with
      | none => rfl
      | some c =>
        have hne : d.rdropWhile strings.IsSpace ≠ [] := by
          intro hnil
          rw [hnil] at hm
          cases hm
        have hlast := List.rdropWhile_last_not strings.IsSpace d hne
        rw [List.getLast?_eq_getLast _ hne] at hm
        cases hm
        simpa using hlast

/-- TrimSpace leaves a string with no leading and no trailing white space as it
is. -/
theorem TrimSpace_of_Trimmed (s : String) (h : strings.Trimmed s = true) :
    strings.TrimSpace s = s := by
  unfold strings.Trimmed at h
  rw [Bool.and_eq_true] at h
  obtain ⟨hfront, hback⟩ := h
  have h1 : s.toList.dropWhile strings.IsSpace = s.toList := by
    revert hfront
    generalize s.toList = l
    intro hfront
    cases l with
    | nil => rfl
    | cons c rest =>
      simp only [List.head?_cons, Option.all_some, Bool.not_eq_true'] at hfront
      simp [List.dropWhile, hfront]
  have h2 : s.toList.rdropWhile strings.IsSpace = s.toList := by
    rw [List.rdropWhile_eq_self_iff]
    intro hl
    rw [List.getLast?_eq_getLast _ hl] at hback
    simpa using hback
  apply String.ext
  show (strings.TrimSpace s).toList = s.toList
  rw [TrimSpace_toList, h1, h2]

/-- The scan of Split with the separator "," cuts at every comma. -/
theorem Split_scan_comma (cs piece : List Char) :
    strings.Split.scan [','] 0 cs piece
      = (List.splitOnP.go (fun c => c == ',') cs piece).map String.mk := by
  induction cs generalizing piece with
  | nil => simp [strings.Split.scan, List.splitOnP.go]
  | cons c rest ih =>
    by_cases hc : c = ','
    · subst hc
      simp [strings.Split.scan, List.splitOnP.go, ih, List.isPrefixOf]
    · have hne : (c == ',') = false := by simpa using hc
      have hc' : ¬ ',' = c := fun h => hc h.symm
      simp [strings.Split.scan, List.splitOnP.go, ih, List.isPrefixOf, hne, hc']

/-- Split with the separator "," gives the pieces between the commas. -/
theorem Split_comma (s : String) :
    strings.Split s "," = (s.toList.splitOn ',').map String.mk := by
  have hsep : (",".isEmpty) = false := by decide
  simp only [strings.Split, hsep, Bool.false_eq_true, if_false]
  exact Split_scan_comma s.toList []

/-- The number of pieces between the commas is the number of commas and one. -/
theorem splitOnP_go_length (cs piece : List Char) :
    (List.splitOnP.go (fun c => c == ',') cs piece).length = cs.count ',' + 1 := by
  induction cs generalizing piece with
  | nil => simp [List.splitOnP.go]
  | cons c rest ih =>
    by_cases hc : c = ','
    · subst hc
      simp [List.splitOnP.go, ih]
    · have hne : (c == ',') = false := by simpa using hc
      simp [List.splitOnP.go, ih, hne, List.count_cons, hc]

/-- Split with the separator "," returns one piece more than the string has
commas. -/
theorem Split_comma_length (s : String) :
    (strings.Split s ",").length = s.toList.count ',' + 1 := by
  rw [Split_comma, List.length_map]
  exact splitOnP_go_length s.toList []


/-! ## The ISO 8601 formatter: formatting, then parsing -/

/-- One step of the digit loop of `toString` on a natural number. -/
theorem toDigitsCore_step (fuel n : Nat) (ds : List Char) (hf : 0 < fuel) :
    Nat.toDigitsCore 10 fuel n ds
      = if n / 10 = 0 then Nat.digitChar (n % 10) :: ds
        else Nat.toDigitsCore 10 (fuel - 1) (n / 10) (Nat.digitChar (n % 10) :: ds) := by
  obtain ⟨f, rfl⟩ : ∃ f, fuel = f + 1 := ⟨fuel - 1, by omega⟩
  rfl

/-- The decimal digits of a number below 10000, as `toString` writes them. -/
theorem toDigits_small (n : Nat) (h : n < 10000) :
    Nat.toDigits 10 n
      = if n < 10 then [Nat.digitChar n]
        else if n < 100 then [Nat.digitChar (n / 10), Nat.digitChar (n % 10)]
        else if n < 1000 then
          [Nat.digitChar (n / 100), Nat.digitChar (n / 10 % 10), Nat.digitChar (n % 10)]
        else
          [Nat.digitChar (n / 1000), Nat.digitChar (n / 100 % 10), Nat.digitChar (n / 10 % 10),
            Nat.digitChar (n % 10)] := by
  unfold Nat.toDigits
  rw [toDigitsCore_step _ _ _ (by omega)]
  by_cases h1 : n < 10
  · rw [if_pos (by omega), if_pos h1]
    have : n % 10 = n := by omega
    rw [this]
  · rw [if_neg (by omega), if_neg h1, toDigitsCore_step _ _ _ (by omega)]
    by_cases h2 : n < 100
    · rw [if_pos (by omega), if_pos h2]
      have : n / 10 % 10 = n / 10 := by omega
      rw [this]
    · rw [if_neg (by omega), if_neg h2, toDigitsCore_step _ _ _ (by omega)]
      have e100 : n / 10 / 10 = n / 100 := by omega
      by_cases h3 : n < 1000
      · rw [if_pos (by omega), if_pos h3, e100]
        have : n / 100 % 10 = n / 100 := by omega
        rw [this]
      · rw [if_neg (by omega), if_neg h3, toDigitsCore_step _ _ _ (by omega), if_pos (by omega),
          e100]
        have e1000 : n / 100 / 10 = n / 1000 := by omega
        have : n / 1000 % 10 = n / 1000 := by omega
        rw [e1000, this]

/-- The two digits that `appendInt` writes for a number below 100. -/
theorem appendInt_two (n : Nat) (h : n < 100) :
    date.appendInt (n : Int) 2 = String.mk [Nat.digitChar (n / 10), Nat.digitChar (n % 10)] := by
  have hneg : ¬ ((n : Int) < 0) := by omega
  have hs : toString n = String.mk (Nat.toDigits 10 n) := rfl
  simp only [date.appendInt, hneg, if_false, Int.natAbs_ofNat, hs, toDigits_small n (by omega)]
  by_cases h1 : n < 10
  · have e1 : n / 10 = 0 := by omega
    have e2 : n % 10 = n := by omega
    simp only [if_pos h1, e1, e2]
    rfl
  · simp only [if_neg h1, if_pos h]
    rfl

/-- The four digits that `appendInt` writes for a number below 10000. -/
theorem appendInt_four (n : Nat) (h : n < 10000) :
    date.appendInt (n : Int) 4
      = String.mk [Nat.digitChar (n / 1000), Nat.digitChar (n / 100 % 10),
          Nat.digitChar (n / 10 % 10), Nat.digitChar (n % 10)] := by
  have hneg : ¬ ((n : Int) < 0) := by omega
  have hs : toString n = String.mk (Nat.toDigits 10 n) := rfl
  simp only [date.appendInt, hneg, if_false, Int.natAbs_ofNat, hs, toDigits_small n h]
  by_cases h1 : n < 10
  · have e1 : n / 1000 = 0 := by omega
    have e2 : n / 100 % 10 = 0 := by omega
    have e3 : n / 10 % 10 = 0 := by omega
    have e4 : n % 10 = n := by omega
    simp only [if_pos h1, e1, e2, e3, e4]
    rfl
  · by_cases h2 : n < 100
    · have e1 : n / 1000 = 0 := by omega
      have e2 : n / 100 % 10 = 0 := by omega
      have e3 : n / 10 % 10 = n / 10 := by omega
      simp only [if_neg h1, if_pos h2, e1, e2, e3]
      rfl
    · by_cases h3 : n < 1000
      · have e1 : n / 1000 = 0 := by omega
        have e2 : n / 100 % 10 = n / 100 := by omega
        simp only [if_neg h1, if_neg h2, if_pos h3, e1, e2]
        rfl
      · simp only [if_neg h1, if_neg h2, if_neg h3]
        rfl

/-- The character of a digit has the code of the digit after the code of '0'. -/
theorem digitChar_toNat (d : Nat) (h : d < 10) : (Nat.digitChar d).toNat = 48 + d := by
  interval_cases d <;> rfl

/-- The number written by two digits. -/
theorem number_two (a b : Nat) (ha : a < 10) (hb : b < 10) :
    date.number [Nat.digitChar a, Nat.digitChar b] = some ((10 * a + b : Nat) : Int) := by
  simp only [date.number, List.foldl, Option.some_bind, digitChar_toNat a ha,
    digitChar_toNat b hb]
  rw [if_pos (by omega), Option.some_bind, if_pos (by omega)]
  congr 1
  push_cast
  omega

/-- The number written by four digits. -/
theorem number_four (a b c d : Nat) (ha : a < 10) (hb : b < 10) (hc : c < 10) (hd : d < 10) :
    date.number [Nat.digitChar a, Nat.digitChar b, Nat.digitChar c, Nat.digitChar d]
      = some ((1000 * a + 100 * b + 10 * c + d : Nat) : Int) := by
  simp only [date.number, List.foldl, Option.some_bind, digitChar_toNat a ha,
    digitChar_toNat b hb, digitChar_toNat c hc, digitChar_toNat d hd]
  rw [if_pos (by omega), Option.some_bind, if_pos (by omega), Option.some_bind,
    if_pos (by omega), Option.some_bind, if_pos (by omega)]
  congr 1
  push_cast
  omega


/-- The number written by the two digits of a number below 100. -/
theorem number_of_two (n : Nat) (h : n < 100) :
    date.number [Nat.digitChar (n / 10), Nat.digitChar (n % 10)] = some (n : Int) := by
  rw [number_two _ _ (by omega) (by omega)]
  congr 2
  omega

/-- The number written by the four digits of a number below 10000. -/
theorem number_of_four (n : Nat) (h : n < 10000) :
    date.number [Nat.digitChar (n / 1000), Nat.digitChar (n / 100 % 10),
        Nat.digitChar (n / 10 % 10), Nat.digitChar (n % 10)] = some (n : Int) := by
  rw [number_four _ _ _ _ (by omega) (by omega) (by omega) (by omega)]
  congr 2
  omega

/-- The character of a digit is a digit. -/
theorem isDigit_digitChar (d : Nat) (h : d < 10) : date.isDigit (Nat.digitChar d) = true := by
  interval_cases d <;> rfl

/-- The number read by getnum from two digits. -/
theorem getnum_two (a b : Nat) (ha : a < 10) (hb : b < 10) (rest : List Char) (fixed : Bool) :
    date.getnum (Nat.digitChar a :: Nat.digitChar b :: rest) fixed
      = some (((10 * a + b : Nat) : Int), rest) := by
  simp only [date.getnum, isDigit_digitChar a ha, isDigit_digitChar b hb, if_true,
    digitChar_toNat a ha, digitChar_toNat b hb]
  congr 2
  push_cast
  omega

/-- The number read by getnum from the two digits of a number below 100. -/
theorem getnum_of_two (n : Nat) (h : n < 100) (rest : List Char) (fixed : Bool) :
    date.getnum (Nat.digitChar (n / 10) :: Nat.digitChar (n % 10) :: rest) fixed
      = some ((n : Int), rest) := by
  rw [getnum_two _ _ (by omega) (by omega)]
  congr 2
  omega

/-- No fraction of a second starts with a sign. -/
theorem fraction_sign (c : Char) (hc : c = '+' ∨ c = '-') (rest : List Char) :
    date.fraction (c :: rest) = some (0, c :: rest) := by
  cases rest with
  | nil => rfl
  | cons d rest =>
    have h : ¬ ((c = '.' ∨ c = ',') ∧ date.isDigit d = true) := by
      rcases hc with rfl | rfl <;> simp
    simp only [date.fraction, if_neg h]

/-- Parse on the 25 characters that spell eight numbers in the layout: the time
built in UTC from the date and the clock, moved by the offset of the zone. -/
theorem Parse_spelled (Y M D H Mi S n : Nat) (c19 : Char) (hY : Y < 10000)
    (hM : 1 ≤ M ∧ M ≤ 12) (hD : 1 ≤ D ∧ (D : Int) ≤ daysIn M (isLeap Y)) (hD100 : D < 100)
    (hH : H < 24) (hMi : Mi < 60) (hS : S < 60) (hn : n < 1500)
    (hsign : c19 = '+' ∨ c19 = '-') :
    date.Parse
        [Nat.digitChar (Y / 1000), Nat.digitChar (Y / 100 % 10), Nat.digitChar (Y / 10 % 10),
          Nat.digitChar (Y % 10), '-', Nat.digitChar (M / 10), Nat.digitChar (M % 10), '-',
          Nat.digitChar (D / 10), Nat.digitChar (D % 10), 'T', Nat.digitChar (H / 10),
          Nat.digitChar (H % 10), ':', Nat.digitChar (Mi / 10), Nat.digitChar (Mi % 10), ':',
          Nat.digitChar (S / 10), Nat.digitChar (S % 10), c19, Nat.digitChar (n / 60 / 10),
          Nat.digitChar (n / 60 % 10), ':', Nat.digitChar (n % 60 / 10),
          Nat.digitChar (n % 60 % 10)]
      = some { (Date Y M D H Mi S 0 UTC).Add
            (-(if c19 = '-' then -((((n / 60 : Nat) : Int) * 60 + ((n % 60 : Nat) : Int)) * 60)
              else (((n / 60 : Nat) : Int) * 60 + ((n % 60 : Nat) : Int)) * 60) * 1000000000) with
          offset := if c19 = '-' then
              -((((n / 60 : Nat) : Int) * 60 + ((n % 60 : Nat) : Int)) * 60)
            else (((n / 60 : Nat) : Int) * 60 + ((n % 60 : Nat) : Int)) * 60 } := by
  have hdate : date.parseDate
      [Nat.digitChar (Y / 1000), Nat.digitChar (Y / 100 % 10), Nat.digitChar (Y / 10 % 10),
        Nat.digitChar (Y % 10), '-', Nat.digitChar (M / 10), Nat.digitChar (M % 10), '-',
        Nat.digitChar (D / 10), Nat.digitChar (D % 10), 'T', Nat.digitChar (H / 10),
        Nat.digitChar (H % 10), ':', Nat.digitChar (Mi / 10), Nat.digitChar (Mi % 10), ':',
        Nat.digitChar (S / 10), Nat.digitChar (S % 10), c19, Nat.digitChar (n / 60 / 10),
        Nat.digitChar (n / 60 % 10), ':', Nat.digitChar (n % 60 / 10),
        Nat.digitChar (n % 60 % 10)]
      = some ((Y : Int), (M : Int), (D : Int),
        ['T', Nat.digitChar (H / 10),
        Nat.digitChar (H % 10), ':', Nat.digitChar (Mi / 10), Nat.digitChar (Mi % 10), ':',
        Nat.digitChar (S / 10), Nat.digitChar (S % 10), c19, Nat.digitChar (n / 60 / 10),
        Nat.digitChar (n / 60 % 10), ':', Nat.digitChar (n % 60 / 10),
        Nat.digitChar (n % 60 % 10)]) := by
    unfold date.parseDate
    rw [if_neg (by simp [isDigit_digitChar (Y / 1000) (by omega)])]
    simp only [List.take_succ_cons, List.take_zero, List.drop_succ_cons, List.drop_zero,
      number_of_four Y hY, date.skip, if_true, getnum_of_two M (by omega),
      getnum_of_two D hD100]
    rw [if_neg (by omega)]
  have hclock : date.parseClock
      ['T', Nat.digitChar (H / 10),
        Nat.digitChar (H % 10), ':', Nat.digitChar (Mi / 10), Nat.digitChar (Mi % 10), ':',
        Nat.digitChar (S / 10), Nat.digitChar (S % 10), c19, Nat.digitChar (n / 60 / 10),
        Nat.digitChar (n / 60 % 10), ':', Nat.digitChar (n % 60 / 10),
        Nat.digitChar (n % 60 % 10)]
      = some ((H : Int), (Mi : Int), (S : Int), 0,
        [c19, Nat.digitChar (n / 60 / 10),
        Nat.digitChar (n / 60 % 10), ':', Nat.digitChar (n % 60 / 10),
        Nat.digitChar (n % 60 % 10)]) := by
    unfold date.parseClock
    simp only [date.skip, if_true, getnum_of_two H (by omega)]
    rw [if_neg (by omega)]
    simp only [if_true, getnum_of_two Mi (by omega)]
    rw [if_neg (by omega)]
    simp only [if_true, getnum_of_two S (by omega)]
    rw [if_neg (by omega)]
    simp only [fraction_sign c19 hsign]
  have hzone : date.parseZone
      [c19, Nat.digitChar (n / 60 / 10),
        Nat.digitChar (n / 60 % 10), ':', Nat.digitChar (n % 60 / 10),
        Nat.digitChar (n % 60 % 10)]
      = some (if c19 = '-' then -((((n / 60 : Nat) : Int) * 60 + ((n % 60 : Nat) : Int)) * 60)
          else (((n / 60 : Nat) : Int) * 60 + ((n % 60 : Nat) : Int)) * 60) := by
    unfold date.parseZone
    simp only [ne_eq, not_true_eq_false, if_false, getnum_of_two (n / 60) (by omega),
      getnum_of_two (n % 60) (by omega)]
    rw [if_neg (by omega)]
    rcases hsign with rfl | rfl
    · rw [if_pos rfl, if_neg (by decide)]
    · rw [if_neg (by decide), if_pos rfl, if_pos rfl]
  unfold date.Parse
  simp only [hdate, hclock, hzone]
  rw [if_neg (by omega)]

/-- The clock fields of a time are in their ranges. -/
theorem clock_bounds (t : Time) :
    (0 ≤ t.Hour ∧ t.Hour < 24) ∧ (0 ≤ t.Minute ∧ t.Minute < 60)
    ∧ (0 ≤ t.Second ∧ t.Second < 60) := by
  have h : 0 ≤ t.nanoOfDay ∧ t.nanoOfDay < 86400000000000 := by
    unfold Time.nanoOfDay; omega
  unfold Time.Hour Time.Minute Time.Second
  omega

/-- A value of `time.Time` that reads a year of four digits, in a location less
than 25 hours from UTC, has not wrapped: its wall clock is its instant moved by
the offset. -/
theorem abs_of_spelled (t : Time) (hv : t.Valid) (hy : t.Year ≤ 9999)
    (ho : -90000 < t.offset ∧ t.offset < 90000) :
    t.abs = t.unixNano + (t.offset + 62135596800) * 1000000000 := by
  by_cases hlo : -9223371966606163200 ≤ t.unixNano / 1000000000 + 62135596800 + t.offset
  · obtain ⟨_, v2⟩ := hv
    exact abs_of_range t hlo (by omega)
  · exfalso
    obtain ⟨v1, _⟩ := hv
    have hb : 9223372036854685808000000000 ≤ t.abs := by
      unfold Time.abs uint64
      omega
    obtain ⟨d1, d2, d3, d4, d5⟩ := days_eq_firstDay t
    have f := firstDay_safe _ (month_safe t (by omega)).1
    have hd : 106751991167298 ≤ t.days := by unfold Time.days; omega
    have g := daysIn_ge t.Month (isLeap t.Year) ⟨d4, d5⟩
    omega

/-- The date and clock fields of a time, put together again by Date in UTC and
moved by the offset of the time, give the time in its location. -/
theorem Date_of_fields (t : Time) (hv : t.Valid) (hy : t.Year ≤ 9999)
    (ho : -90000 < t.offset ∧ t.offset < 90000) :
    { (Date t.Year t.Month t.Day t.Hour t.Minute t.Second t.Nanosecond UTC).Add
          (-t.offset * 1000000000) with offset := t.offset } = t := by
  obtain ⟨⟨v1, v2, v3, v4⟩, e⟩ := civil_valid t
  obtain ⟨d1, d2, d3, d4, d5⟩ := days_eq_firstDay t
  have f := firstDay_safe _ (month_safe t (by omega)).1
  obtain ⟨c1, c2⟩ := clock_range t
  have e1 : (t.Month - 1) / 12 = 0 := by omega
  have e2 : (t.Month - 1) % 12 + 1 = t.Month := by omega
  have g := daysIn_ge t.Month (isLeap t.Year) ⟨d4, d5⟩
  have hexact := abs_of_spelled t hv hy ho
  have h1 := clock_recompose t
  have h2 := abs_split t
  have hvalid := hv
  obtain ⟨w1, w2⟩ := hvalid
  have hdate := Date_of_range t.Year t.Month t.Day t.Hour t.Minute t.Second t.Nanosecond UTC
    ⟨month_ge t, by omega⟩ c2 (by rw [e1, e2, add_zero, e, UTC]; omega)
    (by rw [e1, e2, add_zero, e, UTC]; omega)
  rw [e1, e2, add_zero, e] at hdate
  have key : (t.days * 86400 + t.Hour * 3600 + t.Minute * 60 + t.Second - 62135596800 - UTC)
      * 1000000000 + t.Nanosecond + -t.offset * 1000000000 = t.unixNano := by
    rw [UTC]
    linarith
  rw [hdate, Add_of_range _ _ (by simp only []; rw [key]; exact w1)
    (by simp only []; rw [key]; exact w2)]
  simp only []
  rw [key]

/-- What GetDate reads besides the strings that GetDateString writes: an hour of
one digit, a fraction of a second after the seconds, with a period or a comma,
and an offset of 24 hours and of 60 minutes.  What it rejects: an offset of 25
hours or of 61 minutes, a month of one digit, a day that the month does not
have, text after the offset and the letter Z for the offset. -/
theorem GetDate_examples :
    date.iso80601Formatter.GetDate "2015-03-26T08:00:00+01:00"
      = .ok (Date 2015 3 26 8 0 0 0 3600)
    ∧ date.iso80601Formatter.GetDate "2015-03-26T8:00:00+01:00"
      = .ok (Date 2015 3 26 8 0 0 0 3600)
    ∧ date.iso80601Formatter.GetDate "2015-03-26T08:00:00.5+01:00"
      = .ok (Date 2015 3 26 8 0 0 500000000 3600)
    ∧ date.iso80601Formatter.GetDate "2015-03-26T08:00:00,1234567891+01:00"
      = .ok (Date 2015 3 26 8 0 0 123456789 3600)
    ∧ date.iso80601Formatter.GetDate "2015-03-26T08:00:00-24:60"
      = .ok (Date 2015 3 26 8 0 0 0 (-90000))
    ∧ date.iso80601Formatter.GetDate "2015-03-26T08:00:00+25:00"
      = .error "parsing time: cannot parse"
    ∧ date.iso80601Formatter.GetDate "2015-03-26T08:00:00+01:61"
      = .error "parsing time: cannot parse"
    ∧ date.iso80601Formatter.GetDate "2015-3-26T08:00:00+01:00"
      = .error "parsing time: cannot parse"
    ∧ date.iso80601Formatter.GetDate "2015-02-29T08:00:00+01:00"
      = .error "parsing time: cannot parse"
    ∧ date.iso80601Formatter.GetDate "2016-02-29T08:00:00+01:00"
      = .ok (Date 2016 2 29 8 0 0 0 3600)
    ∧ date.iso80601Formatter.GetDate "2015-03-26T08:00:00+01:00 "
      = .error "parsing time: cannot parse"
    ∧ date.iso80601Formatter.GetDate "2015-03-26T08:00:00Z"
      = .error "parsing time: cannot parse" := by
  decide

/-- The 25 characters of a formatted time, field by field. -/
theorem spelled_string
    (c0 c1 c2 c3 c5 c6 c8 c9 c11 c12 c14 c15 c17 c18 c19 c20 c21 c23 c24 : Char) :
    String.mk [c0, c1, c2, c3] ++ "-" ++ String.mk [c5, c6] ++ "-" ++ String.mk [c8, c9]
        ++ "T" ++ String.mk [c11, c12] ++ ":" ++ String.mk [c14, c15]
        ++ ":" ++ String.mk [c17, c18] ++ String.mk [c19] ++ String.mk [c20, c21]
        ++ ":" ++ String.mk [c23, c24]
      = String.mk [c0, c1, c2, c3, '-', c5, c6, '-', c8, c9, 'T', c11, c12, ':', c14, c15, ':',
          c17, c18, c19, c20, c21, ':', c23, c24] := rfl

/-- GetDate reads back what GetDateString writes: for a time that the layout can
spell, with no fraction of a second, parsing the formatted time gives the time. -/
theorem GetDate_GetDateString (t : Time) (hv : t.Valid)
    (hspell : date.iso80601Formatter.Spells t) (hn : t.Nanosecond = 0) :
    date.iso80601Formatter.GetDate (date.iso80601Formatter.GetDateString t) = .ok t := by
  obtain ⟨hy0, hy1, hoff, hlo, hhi⟩ := hspell
  obtain ⟨⟨v1, v2, v3, v4⟩, -⟩ := civil_valid t
  have hd31 := (daysIn_ge t.Month (isLeap t.Year) ⟨v1, v2⟩).2
  obtain ⟨⟨hh0, hh1⟩, ⟨hm0, hm1⟩, ⟨hs0, hs1⟩⟩ := clock_bounds t
  obtain ⟨Y, hY⟩ : ∃ Y : Nat, t.Year = Y := ⟨t.Year.toNat, by omega⟩
  obtain ⟨M, hM⟩ : ∃ M : Nat, t.Month = M := ⟨t.Month.toNat, by omega⟩
  obtain ⟨D, hD⟩ : ∃ D : Nat, t.Day = D := ⟨t.Day.toNat, by omega⟩
  obtain ⟨H, hH⟩ : ∃ H : Nat, t.Hour = H := ⟨t.Hour.toNat, by omega⟩
  obtain ⟨Mi, hMi⟩ : ∃ Mi : Nat, t.Minute = Mi := ⟨t.Minute.toNat, by omega⟩
  obtain ⟨S, hS⟩ : ∃ S : Nat, t.Second = S := ⟨t.Second.toNat, by omega⟩
  have hzone : Int.tdiv t.offset 60 * 60 = t.offset :=
    Int.tdiv_mul_cancel (Int.dvd_of_emod_eq_zero hoff)
  have hfields := Date_of_fields t hv hy1 ⟨hlo, hhi⟩
  rw [hn] at hfields
  unfold date.iso80601Formatter.GetDateString
  simp only []
  generalize Int.tdiv t.offset 60 = zone at hzone ⊢
  obtain ⟨n, hzn⟩ : ∃ n : Nat, zone.natAbs = n := ⟨_, rfl⟩
  have a0 : date.appendInt t.Year 4
      = String.mk [Nat.digitChar (Y / 1000), Nat.digitChar (Y / 100 % 10),
          Nat.digitChar (Y / 10 % 10), Nat.digitChar (Y % 10)] := by
    rw [hY]; exact appendInt_four Y (by omega)
  have a1 : date.appendInt t.Month 2 = String.mk [Nat.digitChar (M / 10), Nat.digitChar (M % 10)] := by
    rw [hM]; exact appendInt_two M (by omega)
  have a2 : date.appendInt t.Day 2 = String.mk [Nat.digitChar (D / 10), Nat.digitChar (D % 10)] := by
    rw [hD]; exact appendInt_two D (by omega)
  have a3 : date.appendInt t.Hour 2 = String.mk [Nat.digitChar (H / 10), Nat.digitChar (H % 10)] := by
    rw [hH]; exact appendInt_two H (by omega)
  have a4 : date.appendInt t.Minute 2 = String.mk [Nat.digitChar (Mi / 10), Nat.digitChar (Mi % 10)] := by
    rw [hMi]; exact appendInt_two Mi (by omega)
  have a5 : date.appendInt t.Second 2 = String.mk [Nat.digitChar (S / 10), Nat.digitChar (S % 10)] := by
    rw [hS]; exact appendInt_two S (by omega)
  have hn1500 : n < 1500 := by omega
  have a6 : date.appendInt ((n : Int) / 60) 2
      = String.mk [Nat.digitChar (n / 60 / 10), Nat.digitChar (n / 60 % 10)] := by
    have h := appendInt_two (n / 60) (by omega)
    rw [Int.natCast_div] at h
    exact h
  have a7 : date.appendInt ((n : Int) % 60) 2
      = String.mk [Nat.digitChar (n % 60 / 10), Nat.digitChar (n % 60 % 10)] := by
    have h := appendInt_two (n % 60) (by omega)
    rw [Int.natCast_mod] at h
    exact h
  rw [hzn, a0, a1, a2, a3, a4, a5, a6, a7]
  have main : ∀ c19 : Char, (c19 = '+' ∨ c19 = '-') →
      (if c19 = '-' then -((((n / 60 : Nat) : Int) * 60 + ((n % 60 : Nat) : Int)) * 60)
        else (((n / 60 : Nat) : Int) * 60 + ((n % 60 : Nat) : Int)) * 60) = t.offset →
      date.iso80601Formatter.GetDate
        (String.mk [Nat.digitChar (Y / 1000), Nat.digitChar (Y / 100 % 10),
            Nat.digitChar (Y / 10 % 10), Nat.digitChar (Y % 10)]
          ++ "-" ++ String.mk [Nat.digitChar (M / 10), Nat.digitChar (M % 10)]
          ++ "-" ++ String.mk [Nat.digitChar (D / 10), Nat.digitChar (D % 10)]
          ++ "T" ++ String.mk [Nat.digitChar (H / 10), Nat.digitChar (H % 10)]
          ++ ":" ++ String.mk [Nat.digitChar (Mi / 10), Nat.digitChar (Mi % 10)]
          ++ ":" ++ String.mk [Nat.digitChar (S / 10), Nat.digitChar (S % 10)]
          ++ String.mk [c19]
          ++ String.mk [Nat.digitChar (n / 60 / 10), Nat.digitChar (n / 60 % 10)]
          ++ ":" ++ String.mk [Nat.digitChar (n % 60 / 10), Nat.digitChar (n % 60 % 10)])
        = .ok t := by
    intro c19 hsign hoffset
    have hparse := Parse_spelled Y M D H Mi S n c19 (by omega) (by omega)
      ⟨by omega, by rw [← hD, ← hM, ← hY]; exact v4⟩ (by omega) (by omega) (by omega)
      (by omega) hn1500 hsign
    rw [hoffset, ← hY, ← hM, ← hD, ← hH, ← hMi, ← hS, hfields] at hparse
    rw [spelled_string]
    simp only [date.iso80601Formatter.GetDate, String.toList, hparse]
  have hnat : zone = n ∨ zone = -(n : Int) := by
    rw [← hzn]
    exact Int.natAbs_eq zone
  by_cases hneg : zone < 0
  · rw [if_pos hneg]
    refine main '-' (Or.inr rfl) ?_
    rw [if_pos rfl]
    push_cast
    omega
  · rw [if_neg hneg]
    refine main '+' (Or.inl rfl) ?_
    rw [if_neg (by decide)]
    push_cast
    omega


/-- The characters of Join: the characters of the elements with the characters
of the separator between them. -/
theorem Join_toList (elems : List String) (sep : String) :
    (strings.Join elems sep).toList = sep.toList.intercalate (elems.map String.toList) := by
  induction elems with
  | nil => rfl
  | cons first rest ih =>
    cases rest with
    | nil =>
      rw [(Join_cons sep first "" []).2.1]
      simp [List.intercalate]
    | cons second rest =>
      have happ : ∀ a b : String, (a ++ b).toList = a.toList ++ b.toList :=
        fun a b => String.data_append a b
      rw [(Join_cons sep first second rest).2.2, happ, happ, ih]
      simp [List.intercalate, List.intersperse]

/-- Split with the separator "," takes apart what Join with "," put together,
when there is at least one element and no element has a comma. -/
theorem Split_Join (elems : List String) (hne : elems ≠ [])
    (hcomma : ∀ elem ∈ elems, ',' ∉ elem.toList) :
    strings.Split (strings.Join elems ",") "," = elems := by
  have hsep : ",".toList = [','] := rfl
  rw [Split_comma, Join_toList, hsep, List.splitOn_intercalate]
  · rw [List.map_map]
    have hid : (String.mk ∘ String.toList) = id := rfl
    rw [hid, List.map_id]
  · intro l hl
    obtain ⟨elem, hmem, rfl⟩ := List.mem_map.1 hl
    exact hcomma elem hmem
  · simpa using hne

/-- No piece between the commas has a comma. -/
theorem splitOnP_go_not_mem (cs : List Char) :
    ∀ acc : List Char, ',' ∉ acc →
      ∀ l ∈ List.splitOnP.go (fun c => c == ',') cs acc, ',' ∉ l := by
  induction cs with
  | nil =>
    intro acc hacc l hl
    simp only [List.splitOnP.go, List.mem_singleton] at hl
    subst hl
    simpa using hacc
  | cons c rest ih =>
    intro acc hacc l hl
    by_cases hc : c = ','
    · subst hc
      simp only [List.splitOnP.go, beq_self_eq_true, if_true, List.mem_cons] at hl
      rcases hl with rfl | hl
      · simpa using hacc
      · exact ih [] (by simp) l hl
    · have hne : (c == ',') = false := by simpa using hc
      simp only [List.splitOnP.go, hne, Bool.false_eq_true, if_false] at hl
      refine ih (c :: acc) ?_ l hl
      simp only [List.mem_cons, not_or]
      exact ⟨fun h => hc h.symm, hacc⟩

/-- Join with "," puts together what Split with "," took apart, and no piece of
Split has a comma. -/
theorem Join_Split (s : String) :
    strings.Join (strings.Split s ",") "," = s
    ∧ ∀ piece ∈ strings.Split s ",", ',' ∉ piece.toList := by
  constructor
  · apply String.ext
    show (strings.Join (strings.Split s ",") ",").toList = s.toList
    have hsep : ",".toList = [','] := rfl
    rw [Join_toList, Split_comma, List.map_map, hsep]
    have hid : (String.toList ∘ String.mk) = id := rfl
    rw [hid, List.map_id, List.intercalate_splitOn]
  · intro piece hpiece
    rw [Split_comma] at hpiece
    obtain ⟨l, hl, rfl⟩ := List.mem_map.1 hpiece
    show ',' ∉ l
    exact splitOnP_go_not_mem s.toList [] (by simp) l hl


/-! ## The cells of a row and the round trip of rows -/

/-- C34.  For every row that GetTimeRecord of the mapper of
NewCSVTimeRecordMapper accepts: the tags of the record are the pieces of the tag
cell between its commas, in the order of the cell, each with the white space
around it removed; there is one tag more than the cell has commas, so at least
one, and an empty cell gives the one tag ""; the workspace, project and client
names and the description of the record are the cells with the white space
around them removed.  The pieces are such that joining them with commas gives
the cell back, and none has a comma; removing the white space around a string
leaves the string between a run of white space in front of it and one behind
it, with no white space at either end. -/
theorem C34_GetTimeRecord_cells (dateFormatter : date.Formatter) (row : List String)
    (record : TimeRecord)
    (h : (NewCSVTimeRecordMapper dateFormatter).GetTimeRecord row = some (.ok record)) :
    ∃ start stop workspace project client tags description,
      row = [start, stop, workspace, project, client, tags, description]
      ∧ record.Tags.length = tags.toList.count ',' + 1
      ∧ record.Tags = (strings.Split tags ",").map strings.TrimSpace
      ∧ strings.Join (strings.Split tags ",") "," = tags
      ∧ (∀ piece ∈ strings.Split tags ",", ',' ∉ piece.toList)
      ∧ (∀ tag ∈ record.Tags, strings.Trimmed tag = true)
      ∧ record.Tags ≠ []
      ∧ (tags = "" → record.Tags = [""])
      ∧ record.WorkspaceName = strings.TrimSpace workspace
      ∧ record.ProjectName = strings.TrimSpace project
      ∧ record.ClientName = strings.TrimSpace client
      ∧ record.Description = strings.TrimSpace description
      ∧ strings.Trimmed record.WorkspaceName = true
      ∧ strings.Trimmed record.ProjectName = true
      ∧ strings.Trimmed record.ClientName = true
      ∧ strings.Trimmed record.Description = true
      ∧ ∀ s : String,
          ∃ before after, s.toList = before ++ (strings.TrimSpace s).toList ++ after
            ∧ (∀ c ∈ before, strings.IsSpace c = true)
            ∧ (∀ c ∈ after, strings.IsSpace c = true) := by
  have hcells : row.length = 7 := by
    by_contra hne
    rw [GetTimeRecord_wrong_count (NewCSVTimeRecordMapper dateFormatter) row hne] at h
    cases h
  obtain ⟨start, stop, workspace, project, client, tags, description, rfl⟩ :=
    seven_cells row hcells
  refine ⟨start, stop, workspace, project, client, tags, description, rfl, ?_⟩
  rw [GetTimeRecord_seven] at h
  have hrecord : record
      = { Start := record.Start
          Stop := record.Stop
          WorkspaceName := strings.TrimSpace workspace
          ProjectName := strings.TrimSpace project
          ClientName := strings.TrimSpace client
          Description := strings.TrimSpace description
          Tags := (strings.Split tags ",").map strings.TrimSpace } := by
    cases hstart : dateFormatter.GetDate start with
    | error e => rw [hstart] at h; cases h
    | ok startDate =>
      cases hstop : dateFormatter.GetDate stop with
      | error e => rw [hstart, hstop] at h; cases h
      | ok stopDate =>
        rw [hstart, hstop] at h
        simp only at h
        split_ifs at h
        · cases h
        · simp only [Option.some.injEq, Except.ok.injEq] at h
          rw [← h]
  have hlen := Split_comma_length tags
  rw [hrecord]
  refine ⟨by simp [hlen], rfl, (Join_Split tags).1, (Join_Split tags).2, ?_, ?_, ?_, rfl, rfl,
    rfl, rfl, (TrimSpace_spec _).2, (TrimSpace_spec _).2, (TrimSpace_spec _).2,
    (TrimSpace_spec _).2, fun s => (TrimSpace_spec s).1⟩
  · intro tag htag
    obtain ⟨piece, -, rfl⟩ := List.mem_map.1 htag
    exact (TrimSpace_spec piece).2
  · intro hnil
    have := congrArg List.length hnil
    simp [hlen] at this
  · intro hempty
    subst hempty
    show List.map strings.TrimSpace (strings.Split "" ",") = [""]
    decide

/-- C34, witness: the row of `Test_GetTimeRecord_ValidInput_TimeRecordIsReturned`,
with the ISO 8601 formatter: its empty tag cell gives the one tag "". -/
theorem C34_GetTimeRecord_cells_witness :
    (NewCSVTimeRecordMapper date.NewISO8601Formatter).GetTimeRecord
        ["2015-03-26T08:00:00+01:00", "2015-03-26T11:30:00+01:00", "Workspace", "Project XY",
          "Client X", "", "Some stuff"] = some (.ok (morning 26 "Some stuff"))
    ∧ (morning 26 "Some stuff").Tags = [""]
    ∧ ∃ start stop workspace project client tags description,
        ["2015-03-26T08:00:00+01:00", "2015-03-26T11:30:00+01:00", "Workspace", "Project XY",
          "Client X", "", "Some stuff"]
          = [start, stop, workspace, project, client, tags, description]
        ∧ (morning 26 "Some stuff").Tags.length = tags.toList.count ',' + 1
        ∧ (morning 26 "Some stuff").WorkspaceName = strings.TrimSpace workspace
        ∧ (morning 26 "Some stuff").Description = strings.TrimSpace description :=
  have h := C34_GetTimeRecord_cells date.NewISO8601Formatter
    ["2015-03-26T08:00:00+01:00", "2015-03-26T11:30:00+01:00", "Workspace", "Project XY",
      "Client X", "", "Some stuff"] (morning 26 "Some stuff") (by decide)
  ⟨by decide, rfl,
    h.elim fun start h => h.elim fun stop h => h.elim fun workspace h => h.elim fun project h =>
      h.elim fun client h => h.elim fun tags h => h.elim fun description h =>
        ⟨start, stop, workspace, project, client, tags, description, h.1, h.2.1,
          h.2.2.2.2.2.2.2.2.1, h.2.2.2.2.2.2.2.2.2.2.2.1⟩⟩

/-- The cells of a row with white space around the names, the tags and the
description, and three tags. -/
theorem GetTimeRecord_cells_example :
    csvTimeRecordMapper.GetTimeRecord
        ["2015-03-26T08:00:00+01:00", "2015-03-26T11:30:00+01:00", " Workspace ",
          "\tProject XY", "Client X  ", "Tag 1, Tag 2 ,,XYZ", "  Some stuff\n"]
      = some (.ok
          { WorkspaceName := "Workspace", ProjectName := "Project XY", ClientName := "Client X",
            Start := Date 2015 3 26 8 0 0 0 3600, Stop := Date 2015 3 26 11 30 0 0 3600,
            Description := "Some stuff", Tags := ["Tag 1", "Tag 2", "", "XYZ"] }) := by
  decide

/-- C38, counterexample.  Three records that have trimmed names and description,
a short description, two tags without comma or white space around them, and
start and stop on whole seconds.  The first lies in the year 10000: GetRow writes
the year with five digits, and GetTimeRecord rejects the row because the start
does not parse.  The second lies in a location half a minute east of UTC: GetRow
writes the offset as `+00:00`, and GetTimeRecord returns a record whose start
and stop are not the instants of the record, but half a minute later.  The third
lies in a location 25 hours east of UTC: GetRow writes the offset as `+25:00`,
and GetTimeRecord rejects the row, because Parse takes no offset of more than 24
hours. -/
theorem C38_round_trip_counterexample :
    (farRecord.Plain
      ∧ csvTimeRecordMapper.GetRow farRecord
        = ["10000-01-01T08:00:00+00:00", "10000-01-01T09:00:00+00:00", "Workspace",
            "Project XY", "Client X", "Tag 1,Tag 2", "Some stuff"]
      ∧ csvTimeRecordMapper.GetTimeRecord (csvTimeRecordMapper.GetRow farRecord)
        = some (.error "Cannot parse the start date: parsing time: cannot parse"))
    ∧ (halfMinuteRecord.Plain
      ∧ csvTimeRecordMapper.GetRow halfMinuteRecord
        = ["2015-03-26T08:00:00+00:00", "2015-03-26T11:30:00+00:00", "Workspace",
            "Project XY", "Client X", "Tag 1,Tag 2", "Some stuff"]
      ∧ csvTimeRecordMapper.GetTimeRecord (csvTimeRecordMapper.GetRow halfMinuteRecord)
        = some (.ok { halfMinuteRecord with
            Start := Date 2015 3 26 8 0 0 0 UTC, Stop := Date 2015 3 26 11 30 0 0 UTC })
      ∧ (Date 2015 3 26 8 0 0 0 UTC).Equal halfMinuteRecord.Start = false
      ∧ (Date 2015 3 26 11 30 0 0 UTC).Equal halfMinuteRecord.Stop = false
      ∧ (Date 2015 3 26 8 0 0 0 UTC).unixNano = halfMinuteRecord.Start.unixNano + 30000000000)
    ∧ (dayAheadRecord.Plain
      ∧ csvTimeRecordMapper.GetRow dayAheadRecord
        = ["2015-03-26T08:00:00+25:00", "2015-03-26T11:30:00+25:00", "Workspace",
            "Project XY", "Client X", "Tag 1,Tag 2", "Some stuff"]
      ∧ csvTimeRecordMapper.GetTimeRecord (csvTimeRecordMapper.GetRow dayAheadRecord)
        = some (.error "Cannot parse the start date: parsing time: cannot parse")) :=
  ⟨⟨by decide, by decide, by decide⟩,
    ⟨by decide, by decide, by decide, by decide, by decide, by decide⟩,
    by decide, by decide, by decide⟩

/-- C38, amended.  For every time record whose workspace, project and client
names and description have no leading or trailing white space, whose description
is shorter than 3000 bytes, whose tag list is not empty with every tag free of
commas and of white space around it, and whose start and stop have no fraction
of a second, lie in a year from 0 to 9999 and in a location at a whole number of
minutes, less than 25 hours, from UTC: GetTimeRecord of the row that GetRow
writes for the record, with the ISO 8601 formatter, succeeds and returns the
record itself, so the same names, description and tags and the same start and
stop instants.  The start and the stop are values of `time.Time`. -/
theorem C38_round_trip (timeRecord : TimeRecord) (hstartValid : timeRecord.Start.Valid)
    (hstopValid : timeRecord.Stop.Valid) (hplain : timeRecord.Plain)
    (hstart : date.iso80601Formatter.Spells timeRecord.Start)
    (hstop : date.iso80601Formatter.Spells timeRecord.Stop) :
    (NewCSVTimeRecordMapper date.NewISO8601Formatter).GetTimeRecord
        ((NewCSVTimeRecordMapper date.NewISO8601Formatter).GetRow timeRecord)
      = some (.ok timeRecord)
    ∧ ∃ record,
        (NewCSVTimeRecordMapper date.NewISO8601Formatter).GetTimeRecord
            ((NewCSVTimeRecordMapper date.NewISO8601Formatter).GetRow timeRecord)
          = some (.ok record)
        ∧ record.WorkspaceName = timeRecord.WorkspaceName
        ∧ record.ProjectName = timeRecord.ProjectName
        ∧ record.ClientName = timeRecord.ClientName
        ∧ record.Description = timeRecord.Description
        ∧ record.Tags = timeRecord.Tags
        ∧ record.Start.Equal timeRecord.Start = true
        ∧ record.Stop.Equal timeRecord.Stop = true := by
  obtain ⟨hw, hp, hc, hd, hshort, htags, htag, hn1, hn2⟩ := hplain
  have key : (NewCSVTimeRecordMapper date.NewISO8601Formatter).GetTimeRecord
        ((NewCSVTimeRecordMapper date.NewISO8601Formatter).GetRow timeRecord)
      = some (.ok timeRecord) := by
    have hrow : (NewCSVTimeRecordMapper date.NewISO8601Formatter).GetRow timeRecord
        = [date.iso80601Formatter.GetDateString timeRecord.Start,
            date.iso80601Formatter.GetDateString timeRecord.Stop,
            timeRecord.WorkspaceName, timeRecord.ProjectName, timeRecord.ClientName,
            strings.Join timeRecord.Tags ",", timeRecord.Description] := rfl
    have hparse : date.NewISO8601Formatter.GetDate = date.iso80601Formatter.GetDate := rfl
    rw [hrow, GetTimeRecord_seven, hparse, GetDate_GetDateString timeRecord.Start hstartValid hstart hn1,
      GetDate_GetDateString timeRecord.Stop hstopValid hstop hn2]
    simp only
    rw [TrimSpace_of_Trimmed _ hw, TrimSpace_of_Trimmed _ hp, TrimSpace_of_Trimmed _ hc,
      TrimSpace_of_Trimmed _ hd, if_neg (by omega),
      Split_Join timeRecord.Tags htags (fun tag hmem => (htag tag hmem).1)]
    have hmap : timeRecord.Tags.map strings.TrimSpace = timeRecord.Tags := by
      conv_rhs => rw [← List.map_id timeRecord.Tags]
      apply List.map_congr_left
      intro tag hmem
      exact TrimSpace_of_Trimmed tag (htag tag hmem).2
    rw [hmap]
  refine ⟨key, timeRecord, key, rfl, rfl, rfl, rfl, rfl, ?_, ?_⟩ <;> simp [Time.Equal]

/-- C38, witness: a record with two tags, at one hour east of UTC in March
2015. -/
theorem C38_round_trip_witness :
    (taggedRecord.Start.Valid ∧ taggedRecord.Stop.Valid ∧ taggedRecord.Plain
      ∧ date.iso80601Formatter.Spells taggedRecord.Start
      ∧ date.iso80601Formatter.Spells taggedRecord.Stop)
    ∧ csvTimeRecordMapper.GetRow taggedRecord
      = ["2015-03-26T08:00:00+01:00", "2015-03-26T11:30:00+01:00", "Workspace", "Project XY",
          "Client X", "Tag 1,Tag 2", "Some stuff"]
    ∧ csvTimeRecordMapper.GetTimeRecord (csvTimeRecordMapper.GetRow taggedRecord)
      = some (.ok taggedRecord) :=
  ⟨⟨by decide, by decide, by decide, by decide, by decide⟩, by decide,
    (C38_round_trip taggedRecord (by decide) (by decide) (by decide) (by decide)
      (by decide)).1⟩


/-! ## The workspace and the client of a fetched project -/

theorem listedUnder_append (a b : List RemoteCall) :
    listedUnder (a ++ b) = listedUnder a ++ listedUnder b := by
  induction a with
  | nil => rfl
  | cons call rest ih =>
    cases call with
    | GetProjects workspaceID result =>
      cases result with
      | error e => simpa [listedUnder] using ih
      | ok projects => simp [listedUnder, ih]
    | _ => simpa [listedUnder] using ih

theorem listedUnder_of_no_listing (calls : List RemoteCall) (h : projectListings calls = 0) :
    listedUnder calls = [] := by
  induction calls with
  | nil => rfl
  | cons call rest ih =>
    have happ := projectListings_append [call] rest
    simp only [List.singleton_append] at happ
    cases call with
    | GetProjects workspaceID result =>
      have one : projectListings [RemoteCall.GetProjects workspaceID result] = 1 := rfl
      omega
    | _ =>
      simp only [listedUnder]
      apply ih
      omega

/-- The wire records of `listedUnder` are the ones of `listedProjects`. -/
theorem listedUnder_projects (calls : List RemoteCall) :
    (listedUnder calls).map Prod.snd = listedProjects calls := by
  induction calls with
  | nil => rfl
  | cons call rest ih =>
    cases call with
    | GetProjects workspaceID result =>
      cases result with
      | error e => simpa [listedUnder, listedProjects] using ih
      | ok projects => simp [listedUnder, listedProjects, ih, Function.comp_def]
    | _ => simpa [listedUnder, listedProjects] using ih

/-- The inner loop of GetProjects, when it succeeds, appends one project for
each project of the API's list, in order: with the ID and the name of the wire
record, the workspace of the loop, a client that has the client ID of the wire
record, and the zero client when that ID is 0. -/
theorem GetProjects_inner_carried {σ : Type} (api : model.TogglAPI σ) (workspace : Workspace) :
    ∀ (models : List model.Project) (projects out : List Project) (s s1 : Repositories σ),
      ProjectRepository.GetProjects.inner api workspace models projects s = (.ok out, s1) →
      ∃ new, out = projects ++ new
        ∧ List.Forall₂ (fun (project : Project) (model : model.Project) =>
            project.ID = model.ID ∧ project.Name = model.Name
            ∧ project.Workspace = workspace
            ∧ project.Client.ID = model.ClientID
            ∧ (model.ClientID = 0 → project.Client = Client.zero)) new models := by
  intro models
  induction models with
  | nil =>
    intro projects out s s1 h
    simp only [ProjectRepository.GetProjects.inner, Prod.mk.injEq, Except.ok.injEq] at h
    exact ⟨[], by simp [h.1], List.Forall₂.nil⟩
  | cons model rest ih =>
    intro projects out s s1 h
    unfold ProjectRepository.GetProjects.inner at h
    simp only at h
    split_ifs at h with hc
    · rcases hg : ClientRepository.GetClientByID api model.ClientID s with ⟨r, s0⟩
      rw [hg] at h
      cases r with
      | error e => simp at h
      | ok client =>
        simp only at h
        obtain ⟨-, hid, -⟩ := GetClientByID_ok api model.ClientID s s0 client hg
        obtain ⟨new, hout, hall⟩ := ih _ out s0 s1 h
        refine ⟨{ ID := model.ID, Name := model.Name, Workspace := workspace,
                  Client := client } :: new, by rw [hout]; simp, ?_⟩
        have hne : model.ClientID ≠ 0 := by simpa using hc
        exact List.Forall₂.cons ⟨rfl, rfl, rfl, hid, fun h0 => absurd h0 hne⟩ hall
    · obtain ⟨new, hout, hall⟩ := ih _ out s s1 h
      have h0 : model.ClientID = 0 := by simpa using hc
      refine ⟨{ ID := model.ID, Name := model.Name, Workspace := workspace,
                Client := Client.zero } :: new, by rw [hout]; simp, ?_⟩
      exact List.Forall₂.cons ⟨rfl, rfl, rfl, h0.symm, fun _ => rfl⟩ hall

/-- The outer loop of GetProjects, when it succeeds, appends one project for each
project that the project listing of the remote returned during the loop, in
order, with the workspace of the loop for which the listing was requested. -/
theorem GetProjects_outer_carried {σ : Type} (api : model.TogglAPI σ) (all : List Workspace) :
    ∀ (workspaces : List Workspace) (projects out : List Project)
      (s s1 : Repositories (σ × List RemoteCall)),
      (∀ workspace ∈ workspaces, workspace ∈ all) →
      ProjectRepository.GetProjects.outer api.recording workspaces projects s = (.ok out, s1) →
      ∃ calls new, Sent s s1 calls ∧ out = projects ++ new
        ∧ List.Forall₂ (fun (project : Project) (entry : Int × model.Project) =>
            project.ID = entry.2.ID ∧ project.Name = entry.2.Name
            ∧ project.Workspace ∈ all ∧ project.Workspace.ID = entry.1
            ∧ project.Client.ID = entry.2.ClientID
            ∧ (entry.2.ClientID = 0 → project.Client = Client.zero))
          new (listedUnder calls) := by
  intro workspaces
  induction workspaces with
  | nil =>
    intro projects out s s1 _ h
    simp only [ProjectRepository.GetProjects.outer, Prod.mk.injEq, Except.ok.injEq] at h
    exact ⟨[], [], by rw [← h.2]; exact Sent.sent_refl s, by simp [h.1], List.Forall₂.nil⟩
  | cons workspace rest ih =>
    intro projects out s s1 hsub h
    unfold ProjectRepository.GetProjects.outer at h
    rcases hg : api.recording.GetProjects workspace.ID s.remote with ⟨r, remote⟩
    rw [hg] at h
    cases r with
    | error e => simp at h
    | ok models =>
      simp only at h
      have hrem : Sent s { s with remote := remote } [.GetProjects workspace.ID (.ok models)] := by
        simp only [model.TogglAPI.recording, traced, Prod.mk.injEq] at hg
        unfold Sent
        rw [← hg.2, hg.1]
      obtain ⟨ci, hsi, hpi⟩ := GetProjects_inner_sent api workspace models projects
        { s with remote := remote }
      rcases hg2 : ProjectRepository.GetProjects.inner api.recording workspace models projects
        { s with remote := remote } with ⟨r1, s0⟩
      rw [hg2] at h hsi
      cases r1 with
      | error e => simp at h
      | ok projects1 =>
        simp only at h hsi
        obtain ⟨new1, hout1, hall1⟩ :=
          GetProjects_inner_carried api.recording workspace models projects projects1 _ s0 hg2
        obtain ⟨cr, new2, hsr, hout2, hall2⟩ := ih projects1 out s0 s1
          (fun w hw => hsub w (List.mem_cons_of_mem _ hw)) h
        refine ⟨_, new1 ++ new2, (hrem.sent_trans hsi).sent_trans hsr,
          by rw [hout2, hout1]; simp, ?_⟩
        rw [listedUnder_append, listedUnder_append, listedUnder_of_no_listing ci hpi]
        simp only [listedUnder, List.append_nil]
        refine List.rel_append ?_ hall2
        rw [List.forall₂_map_right_iff]
        refine hall1.imp ?_
        rintro project model ⟨h1, h2, h3, h4, h5⟩
        exact ⟨h1, h2, by rw [h3]; exact hsub workspace (List.mem_cons_self _ _),
          by rw [h3], h4, h5⟩

/-- A relation that holds along two lists holds together with a property of the
elements of the first list. -/
theorem Forall₂_and_mem {α β : Type} {R : α → β → Prop} {P : α → Prop} {l1 : List α}
    {l2 : List β} (h : List.Forall₂ R l1 l2) (hp : ∀ a ∈ l1, P a) :
    List.Forall₂ (fun a b => R a b ∧ P a) l1 l2 := by
  induction h with
  | nil => exact List.Forall₂.nil
  | cons hab _ ih =>
    exact List.Forall₂.cons ⟨hab, hp _ (List.mem_cons_self _ _)⟩
      (ih fun a ha => hp a (List.mem_cons_of_mem _ ha))

/-- C32, counterexample: the remote API of
`Test_GetProjectByName_WorkspaceNameDoesNotMatch_ErrorIsReturned`.  The listing
requested for workspace 1 returns two wire records with the workspace ID 2; the
projects that GetProjects makes of them carry workspace 1 "Workspace A", the
workspace that the listing was requested for, and not workspace 2. -/
theorem C32_GetProjects_carries_counterexample :
    (secondWorkspaceAPI.GetProjects 1 ()).1
      = .ok [{ ID := 0, WorkspaceID := 2, ClientID := 0, Name := "Project A" },
             { ID := 0, WorkspaceID := 2, ClientID := 0, Name := "Project B" }]
    ∧ (ProjectRepository.GetProjects secondWorkspaceAPI freshRepositories).1
      = .ok [{ ID := 0, Name := "Project A", Client := Client.zero,
               Workspace := { ID := 1, Name := "Workspace A" } },
             { ID := 0, Name := "Project B", Client := Client.zero,
               Workspace := { ID := 1, Name := "Workspace A" } },
             { ID := 0, Name := "Project A", Client := Client.zero,
               Workspace := { ID := 2, Name := "Workspace B" } },
             { ID := 0, Name := "Project B", Client := Client.zero,
               Workspace := { ID := 2, Name := "Workspace B" } }] := by
  decide

/-- C32, amended.  For every remote API, whatever its workspace listing and its
project listing return: a successful fetch by GetProjects returns one project
for each wire record that the project listing returned during the call, in
order; the project has the ID and the name of the wire record; it carries the
workspace, one of the list of GetWorkspaces, for whose ID the listing that
returned the record was requested; when the client ID of the wire record is not
0 it carries the client with that ID, the one that the clients cache holds under
it, and otherwise the zero client.  So if every listing returns only records with
the workspace ID that was requested, the workspace of each project has the
workspace ID of its wire record. -/
theorem C32_GetProjects_carries {σ : Type} (api : model.TogglAPI σ)
    (s s1 : Repositories (σ × List RemoteCall)) (list : List Project)
    (hc : s.projectsCache = [])
    (h : ProjectRepository.GetProjects api.recording s = (.ok list, s1)) :
    ∃ workspaces calls,
      (WorkspaceRepository.GetWorkspaces api.recording s).1 = .ok workspaces
      ∧ Sent s s1 calls
      ∧ List.Forall₂ (fun (project : Project) (entry : Int × model.Project) =>
          project.ID = entry.2.ID ∧ project.Name = entry.2.Name
          ∧ project.Workspace ∈ workspaces ∧ project.Workspace.ID = entry.1
          ∧ (entry.2.ClientID ≠ 0 →
              project.Client.ID = entry.2.ClientID
              ∧ s1.clientsCache.find? (fun client => client.ID == entry.2.ClientID)
                = some project.Client)
          ∧ (entry.2.ClientID = 0 → project.Client = Client.zero)
          ∧ (entry.2.WorkspaceID = entry.1 → project.Workspace.ID = entry.2.WorkspaceID))
        list (listedUnder calls) := by
  have hconsistent : cachesConsistent s := by
    unfold cachesConsistent clientsResolved
    rw [hc]
    intro p hp
    cases hp
  obtain ⟨hres, hcache, -⟩ := GetProjects_ok api.recording s s1 list h hconsistent
  have hresolved : ∀ p ∈ list, p.Client.ID ≠ 0 →
      s1.clientsCache.find? (fun client => client.ID == p.Client.ID) = some p.Client := by
    intro p hp hne
    have hl : list ≠ [] := List.ne_nil_of_mem hp
    unfold cachesConsistent clientsResolved at hres
    rw [hcache hl] at hres
    exact (hres p hp).1 hne
  rw [GetProjects_fetch api.recording s hc] at h
  obtain ⟨c1, hs1, -, -, hp1⟩ := GetWorkspaces_sent api s
  rcases ha : WorkspaceRepository.GetWorkspaces api.recording s with ⟨ra, s0⟩
  rw [ha] at h hs1
  cases ra with
  | error e => simp at h
  | ok workspaces =>
    simp only at h hs1
    rcases hl : ProjectRepository.GetProjects.outer api.recording workspaces [] s0
      with ⟨rl, sl⟩
    rw [hl] at h
    cases rl with
    | error e => simp at h
    | ok projects =>
      simp only [Prod.mk.injEq, Except.ok.injEq] at h
      obtain ⟨c2, new, hs2, hout, hall⟩ :=
        GetProjects_outer_carried api workspaces workspaces [] projects s0 sl
          (fun _ hw => hw) hl
      simp only [List.nil_append] at hout
      refine ⟨workspaces, c1 ++ c2, rfl, ?_, ?_⟩
      · have := hs1.sent_trans hs2
        unfold Sent at this ⊢
        rw [← h.2]
        exact this
      · rw [listedUnder_append, listedUnder_of_no_listing c1 hp1, List.nil_append,
          ← h.1, hout]
        have hmem : ∀ p ∈ new, p.Client.ID ≠ 0 →
            s1.clientsCache.find? (fun client => client.ID == p.Client.ID)
              = some p.Client := by
          intro p hp
          exact hresolved p (by rw [← h.1, hout]; exact hp)
        refine (Forall₂_and_mem hall hmem).imp ?_
        rintro project entry ⟨⟨h1, h2, h3, h4, h5, h6⟩, h7⟩
        refine ⟨h1, h2, h3, h4, ?_, h6, fun hw => by rw [h4, hw]⟩
        intro hne
        refine ⟨h5, ?_⟩
        rw [← h5]
        exact h7 (by rw [h5]; exact hne)

/-- C32, witness: the fetch of the account of `accountAPI` (workspace 1
"Workspace", client 5 "Client", project 7 "Project" of that client) by
repositories that have fetched nothing yet. -/
theorem C32_GetProjects_carries_witness :
    ((Repositories.fresh ((), ([] : List RemoteCall))).projectsCache = []
      ∧ ProjectRepository.GetProjects accountAPI.recording (Repositories.fresh ((), []))
        = (.ok [{ ID := 7, Name := "Project",
                  Client := { ID := 5, Name := "Client",
                              Workspace := { ID := 1, Name := "Workspace" } },
                  Workspace := { ID := 1, Name := "Workspace" } }],
            (ProjectRepository.GetProjects accountAPI.recording
              (Repositories.fresh ((), []))).2))
    ∧ ∃ workspaces calls,
      (WorkspaceRepository.GetWorkspaces accountAPI.recording
          (Repositories.fresh ((), []))).1 = .ok workspaces
      ∧ Sent (Repositories.fresh ((), []))
          (ProjectRepository.GetProjects accountAPI.recording
            (Repositories.fresh ((), []))).2 calls
      ∧ List.Forall₂ (fun (project : Project) (entry : Int × model.Project) =>
          project.ID = entry.2.ID ∧ project.Name = entry.2.Name
          ∧ project.Workspace ∈ workspaces ∧ project.Workspace.ID = entry.1
          ∧ (entry.2.ClientID ≠ 0 →
              project.Client.ID = entry.2.ClientID
              ∧ (ProjectRepository.GetProjects accountAPI.recording
                  (Repositories.fresh ((), []))).2.clientsCache.find?
                    (fun client => client.ID == entry.2.ClientID)
                = some project.Client)
          ∧ (entry.2.ClientID = 0 → project.Client = Client.zero)
          ∧ (entry.2.WorkspaceID = entry.1 → project.Workspace.ID = entry.2.WorkspaceID))
        [{ ID := 7, Name := "Project",
           Client := { ID := 5, Name := "Client",
                       Workspace := { ID := 1, Name := "Workspace" } },
           Workspace := { ID := 1, Name := "Workspace" } }]
        (listedUnder calls) :=
  ⟨⟨rfl, by decide⟩,
    C32_GetProjects_carries accountAPI (Repositories.fresh ((), [])) _ _ rfl (by decide)⟩

/-- The requests of the fetch of the account of `accountAPI`, and the wire
records that the project listing returned with the workspace ID asked for. -/
theorem GetProjects_listedUnder_example :
    (ProjectRepository.GetProjects accountAPI.recording (Repositories.fresh ((), []))).2.remote.2
      = [.GetWorkspaces (.ok [{ ID := 1, Name := "Workspace" }]),
         .GetProjects 1 (.ok [{ ID := 7, WorkspaceID := 1, ClientID := 5, Name := "Project" }]),
         .GetClients (.ok [{ ID := 5, WorkspaceID := 1, Name := "Client", Notes := "" }])]
    ∧ listedUnder (ProjectRepository.GetProjects accountAPI.recording
        (Repositories.fresh ((), []))).2.remote.2
      = [(1, { ID := 7, WorkspaceID := 1, ClientID := 5, Name := "Project" })] := by
  decide


/-! ## CreateTimeRecord for a record whose project is found -/

/-- Over the repositories of an API: when the lookup of the project of the
record succeeds, the only create request that CreateTimeRecord can send to the
remote is one time entry. -/
theorem CreateTimeRecord_found_creations {σ : Type} (api : model.TogglAPI σ)
    (timeRecord : TimeRecord) (s : Repositories (σ × List RemoteCall)) (found : Project)
    (h : (ProjectRepository.GetProjectByName api.recording timeRecord.ProjectName
        timeRecord.WorkspaceName timeRecord.ClientName s).1 = .ok found) :
    creations ((NewTimeRecordRepository api.recording).CreateTimeRecord timeRecord s).2.remote.2
        = creations s.remote.2
    ∨ ∃ timeEntry result,
        creations ((NewTimeRecordRepository api.recording).CreateTimeRecord timeRecord
            s).2.remote.2
          = creations s.remote.2 ++ [.CreateTimeEntry timeEntry result] := by
  have gq := GetProjectByName_quiet api timeRecord.ProjectName timeRecord.WorkspaceName
    timeRecord.ClientName s
  rcases hg0 : ProjectRepository.GetProjectByName api.recording timeRecord.ProjectName
    timeRecord.WorkspaceName timeRecord.ClientName s with ⟨r0, s1⟩
  rw [hg0] at h gq
  simp only at h
  subst h
  simp only [TimeRecordRepository.CreateTimeRecord, NewTimeRecordRepository,
    NewProjectRepository, hg0]
  simp only [TimeRecordRepository.CreateTimeRecord.submit,
    TogglModelConverter.asModelConverter, TogglModelConverter.ConvertTimeRecordToTimeEntry,
    NewWorkspaceRepository]
  have wq := GetWorkspaceByName_quiet api timeRecord.WorkspaceName s1
  rcases hg2 : WorkspaceRepository.GetWorkspaceByName api.recording
    timeRecord.WorkspaceName s1 with ⟨r2, s3⟩
  rw [hg2] at wq
  cases r2 with
  | error e =>
    left
    exact (gq.quiet_trans wq).creations_eq
  | ok workspace =>
    simp only
    have pq := GetProjectByName_quiet api timeRecord.ProjectName timeRecord.WorkspaceName
      timeRecord.ClientName s3
    rcases hg3 : ProjectRepository.GetProjectByName api.recording timeRecord.ProjectName
      timeRecord.WorkspaceName timeRecord.ClientName s3 with ⟨r3, s4⟩
    rw [hg3] at pq
    cases r3 with
    | error e =>
      left
      exact ((gq.quiet_trans wq).quiet_trans pq).creations_eq
    | ok project =>
      right
      have hq := ((gq.quiet_trans wq).quiet_trans pq).creations_eq
      simp only [model.TogglAPI.recording, traced]
      rcases hc : api.CreateTimeEntry
          { ID := 0, Wid := workspace.ID, Pid := project.ID, Start := timeRecord.Start,
            Stop := timeRecord.Stop, Billable := false, Description := timeRecord.Description,
            Tags := timeRecord.Tags, CreatedWith := "" } s4.remote.1 with ⟨result, remote⟩
      refine ⟨{ ID := 0, Wid := workspace.ID, Pid := project.ID, Start := timeRecord.Start,
                Stop := timeRecord.Stop, Billable := false,
                Description := timeRecord.Description, Tags := timeRecord.Tags,
                CreatedWith := "" }, result, ?_⟩
      cases result <;>
        (simp only [creations, List.filter_append] at hq ⊢
         rw [hq]
         rfl)

/-- C33, counterexample: the repository of
`Test_CreateTimeRecord_ConversionFails_ErrorIsReturned`.  The lookup of the
project succeeds and the conversion of the record fails: CreateTimeRecord
returns the error of the conversion after two calls, the lookup and the
conversion, and submits no time entry. -/
theorem C33_found_project_counterexample :
    (conversionFails.projects.GetProjectByName yadaRecord.ProjectName
        yadaRecord.WorkspaceName yadaRecord.ClientName ()).1 = .ok Project.zero
    ∧ conversionFails.recording.CreateTimeRecord yadaRecord ((), [])
      = (.error (Wrap "Conversion failed" "Failed to convert the given time record"),
          ((), [.GetProjectByName "" "" "" (.ok Project.zero),
                .ConvertTimeRecordToTimeEntry yadaRecord (.error "Conversion failed")])) := by
  decide

/-- C33, amended.  If GetProjectByName succeeds for the project, workspace and
client names of the record, CreateTimeRecord does not call CreateProject: after
the lookup it converts the record and, if the conversion succeeds, submits
exactly one time entry, the converted one, and returns nil or the error of the
submission; if the conversion fails it makes no further call and returns the
error.  Over the repositories of an API the remote receives, accordingly, no
request that creates a project or a client: the create requests of the call are
none or one time entry. -/
theorem C33_found_project {σ : Type} (repository : TimeRecordRepository σ)
    (timeRecord : TimeRecord) (s s1 : σ) (log : List Call) (project : Project)
    (hfound : repository.projects.GetProjectByName timeRecord.ProjectName
        timeRecord.WorkspaceName timeRecord.ClientName s = (.ok project, s1)) :
    (∀ timeEntry s2,
        repository.modelConverter.ConvertTimeRecordToTimeEntry timeRecord s1
          = (.ok timeEntry, s2) →
        (repository.recording.CreateTimeRecord timeRecord (s, log)).2.2
          = log ++ [.GetProjectByName timeRecord.ProjectName timeRecord.WorkspaceName
                      timeRecord.ClientName (.ok project),
                    .ConvertTimeRecordToTimeEntry timeRecord (.ok timeEntry),
                    .CreateTimeEntry timeEntry
                      (repository.timeEntryAPI.CreateTimeEntry timeEntry s2).1]
        ∧ ((repository.recording.CreateTimeRecord timeRecord (s, log)).1 = .ok ()
            ↔ ∃ created, (repository.timeEntryAPI.CreateTimeEntry timeEntry s2).1
                = .ok created))
    ∧ (∀ conversionError s2,
        repository.modelConverter.ConvertTimeRecordToTimeEntry timeRecord s1
          = (.error conversionError, s2) →
        (repository.recording.CreateTimeRecord timeRecord (s, log)).2.2
          = log ++ [.GetProjectByName timeRecord.ProjectName timeRecord.WorkspaceName
                      timeRecord.ClientName (.ok project),
                    .ConvertTimeRecordToTimeEntry timeRecord (.error conversionError)]
        ∧ (repository.recording.CreateTimeRecord timeRecord (s, log)).1
          = .error (Wrap conversionError "Failed to convert the given time record"))
    ∧ (∀ {τ : Type} (api : model.TogglAPI τ) (state : Repositories (τ × List RemoteCall))
        (found : Project),
        (ProjectRepository.GetProjectByName api.recording timeRecord.ProjectName
          timeRecord.WorkspaceName timeRecord.ClientName state).1 = .ok found →
        creations ((NewTimeRecordRepository api.recording).CreateTimeRecord timeRecord
            state).2.remote.2 = creations state.remote.2
        ∨ ∃ timeEntry result,
            creations ((NewTimeRecordRepository api.recording).CreateTimeRecord timeRecord
                state).2.remote.2
              = creations state.remote.2 ++ [.CreateTimeEntry timeEntry result]) := by
  refine ⟨?_, ?_, fun api state found h =>
    CreateTimeRecord_found_creations api timeRecord state found h⟩
  · intro timeEntry s2 hconv
    simp only [TimeRecordRepository.CreateTimeRecord,
      TimeRecordRepository.CreateTimeRecord.submit, TimeRecordRepository.recording, logged,
      hfound, hconv]
    rcases h4 : repository.timeEntryAPI.CreateTimeEntry timeEntry s2 with ⟨sub, s4⟩
    cases sub with
    | error e => simp
    | ok created => simp
  · intro conversionError s2 hconv
    simp only [TimeRecordRepository.CreateTimeRecord,
      TimeRecordRepository.CreateTimeRecord.submit, TimeRecordRepository.recording, logged,
      hfound, hconv]
    simp

/-- C33, witness: the repository of
`Test_CreateTimeRecord_CreateSucceeds_NoErrorIsReturned`.  The lookup of the
project succeeds, and so does the conversion: CreateTimeRecord makes three
calls, the lookup, the conversion and the submission of one time entry, and
returns nil. -/
theorem C33_found_project_witness :
    createSucceeds.projects.GetProjectByName yadaRecord.ProjectName yadaRecord.WorkspaceName
        yadaRecord.ClientName () = (.ok Project.zero, ())
    ∧ createSucceeds.modelConverter.ConvertTimeRecordToTimeEntry yadaRecord ()
      = (.ok zeroEntry, ())
    ∧ (createSucceeds.recording.CreateTimeRecord yadaRecord ((), [])).2.2
      = [] ++ [.GetProjectByName yadaRecord.ProjectName yadaRecord.WorkspaceName
                  yadaRecord.ClientName (.ok Project.zero),
               .ConvertTimeRecordToTimeEntry yadaRecord (.ok zeroEntry),
               .CreateTimeEntry zeroEntry
                  (createSucceeds.timeEntryAPI.CreateTimeEntry zeroEntry ()).1]
    ∧ (createSucceeds.recording.CreateTimeRecord yadaRecord ((), [])).1 = .ok () :=
  have h := (C33_found_project createSucceeds yadaRecord () () [] Project.zero rfl).1
    zeroEntry () rfl
  ⟨rfl, rfl, h.1, h.2.2 ⟨zeroEntry, rfl⟩⟩


/-! ## Two records of one project -/

theorem projectCreations_append (a b : List RemoteCall) :
    projectCreations (a ++ b) = projectCreations a + projectCreations b := by
  simp [projectCreations, List.filter_append]

theorem clientCreations_append (a b : List RemoteCall) :
    clientCreations (a ++ b) = clientCreations a + clientCreations b := by
  simp [clientCreations, List.filter_append]

/-- The requests that create a project or a client are among the create
requests. -/
theorem creations_counts (log : List RemoteCall) :
    projectCreations (creations log) = projectCreations log
    ∧ clientCreations (creations log) = clientCreations log := by
  induction log with
  | nil => exact ⟨rfl, rfl⟩
  | cons call rest ih =>
    have h1 := projectCreations_append [call] rest
    have h2 := clientCreations_append [call] rest
    have h3 : creations (call :: rest) = creations [call] ++ creations rest := by
      simp [creations, List.filter_cons]
      split <;> simp
    simp only [List.singleton_append] at h1 h2
    rw [h3, projectCreations_append, clientCreations_append, ih.1, ih.2, h1, h2]
    cases call <;> exact ⟨rfl, rfl⟩

/-- Requests that create nothing create no project and no client. -/
theorem Quiet.counts_eq {σ : Type} {s s1 : Repositories (σ × List RemoteCall)}
    (h : Quiet s s1) :
    projectCreations s1.remote.2 = projectCreations s.remote.2
    ∧ clientCreations s1.remote.2 = clientCreations s.remote.2 := by
  have hc := h.creations_eq
  have h1 := creations_counts s1.remote.2
  have h2 := creations_counts s.remote.2
  rw [hc] at h1
  exact ⟨h1.1.symm.trans h2.1, h1.2.symm.trans h2.2⟩

/-- CreateClient sends at most one request that creates a client and none that
creates a project. -/
theorem CreateClient_counts {σ : Type} (api : model.TogglAPI σ) (workspaceID : Int)
    (name : String) (s : Repositories (σ × List RemoteCall)) :
    projectCreations (ClientRepository.CreateClient api.recording workspaceID name s).2.remote.2
        = projectCreations s.remote.2
    ∧ clientCreations (ClientRepository.CreateClient api.recording workspaceID name s).2.remote.2
        ≤ clientCreations s.remote.2 + 1 := by
  have hq := GetWorkspaceByID_quiet api workspaceID s
  obtain ⟨herr, hok⟩ := CreateClient_spec api workspaceID name s
  rcases hg : WorkspaceRepository.GetWorkspaceByID api.recording workspaceID s with ⟨r, s1⟩
  rw [hg] at hq
  obtain ⟨q1, q2⟩ := hq.counts_eq
  cases r with
  | error e =>
    rw [herr e s1 hg]
    exact ⟨q1, by simp only at q2 ⊢; omega⟩
  | ok workspace =>
    obtain ⟨hlog, -⟩ := hok workspace s1 hg
    rw [hlog, projectCreations_append, clientCreations_append]
    simp only at q1 q2
    rw [q1, q2]
    exact ⟨rfl, le_refl _⟩

/-- The end of CreateProject sends one request that creates a project and none
that creates a client. -/
theorem CreateProject_submit_counts {σ : Type} (api : model.TogglAPI σ) (projectName : String)
    (workspace : Workspace) (client : Client) (s : Repositories (σ × List RemoteCall)) :
    projectCreations (ProjectRepository.CreateProject.submit api.recording projectName
        workspace client s).2.remote.2 = projectCreations s.remote.2 + 1
    ∧ clientCreations (ProjectRepository.CreateProject.submit api.recording projectName
        workspace client s).2.remote.2 = clientCreations s.remote.2 := by
  obtain ⟨hlog, -⟩ := CreateProject_submit_spec api projectName workspace client s
  rw [hlog, projectCreations_append, clientCreations_append]
  exact ⟨rfl, rfl⟩

/-- CreateProject sends at most one request that creates a project and at most
one that creates a client; when it returns a project it has sent exactly one
request that creates a project. -/
theorem CreateProject_counts {σ : Type} (api : model.TogglAPI σ)
    (projectName workspaceName clientName : String) (s : Repositories (σ × List RemoteCall)) :
    projectCreations (ProjectRepository.CreateProject api.recording projectName workspaceName
        clientName s).2.remote.2 ≤ projectCreations s.remote.2 + 1
    ∧ clientCreations (ProjectRepository.CreateProject api.recording projectName workspaceName
        clientName s).2.remote.2 ≤ clientCreations s.remote.2 + 1
    ∧ (∀ project, (ProjectRepository.CreateProject api.recording projectName workspaceName
          clientName s).1 = .ok project →
        projectCreations (ProjectRepository.CreateProject api.recording projectName
          workspaceName clientName s).2.remote.2 = projectCreations s.remote.2 + 1) := by
  unfold ProjectRepository.CreateProject
  have wq := GetWorkspaceByName_quiet api workspaceName s
  rcases hw : WorkspaceRepository.GetWorkspaceByName api.recording workspaceName s with ⟨r, s1⟩
  rw [hw] at wq
  obtain ⟨w1, w2⟩ := wq.counts_eq
  simp only at w1 w2
  cases r with
  | error e =>
    simp only
    exact ⟨by omega, by omega, fun project h => by cases h⟩
  | ok workspace =>
    simp only
    split_ifs
    · have cq := GetClientByName_quiet api workspaceName clientName s1
      rcases hc : ClientRepository.GetClientByName api.recording workspaceName clientName s1
        with ⟨rc, s2⟩
      rw [hc] at cq
      obtain ⟨c1, c2⟩ := cq.counts_eq
      simp only at c1 c2
      cases rc with
      | error e =>
        simp only
        obtain ⟨k1, k2⟩ := CreateClient_counts api workspace.ID clientName s2
        rcases hcc : ClientRepository.CreateClient api.recording workspace.ID clientName s2
          with ⟨rcc, s3⟩
        rw [hcc] at k1 k2
        simp only at k1 k2
        cases rcc with
        | error e1 =>
          simp only
          exact ⟨by omega, by omega, fun project h => by cases h⟩
        | ok createdClient =>
          simp only
          obtain ⟨p1, p2⟩ := CreateProject_submit_counts api projectName workspace
            createdClient s3
          exact ⟨by omega, by omega, fun _ _ => by omega⟩
      | ok existingClient =>
        simp only
        obtain ⟨p1, p2⟩ := CreateProject_submit_counts api projectName workspace
          existingClient s2
        exact ⟨by omega, by omega, fun _ _ => by omega⟩
    · obtain ⟨p1, p2⟩ := CreateProject_submit_counts api projectName workspace Client.zero s1
      exact ⟨by omega, by omega, fun _ _ => by omega⟩


/-- The end of CreateTimeRecord over the ideal remote, from a state whose caches
agree with the account.  It returns nil exactly when the account has a workspace
with the workspace name of the record and a project with the three names of the
record.  Then the one create request it sends is the time entry of the record
for the first such workspace and the first such project; afterwards the account
has this time entry more, the workspaces cache and the projects cache hold the
lists of the account, and the caches agree with the account.  When both caches
were populated before, the time entry is the only request. -/
theorem submit_ideal (timeRecord : TimeRecord) (s : Repositories (Remote × List RemoteCall))
    (hs : Synced s) (hwf : s.remote.1.WellFormed) :
    ((TimeRecordRepository.CreateTimeRecord.submit (NewTimeRecordRepository idealAPI.recording)
        timeRecord s).1 = .ok ()
      ↔ ∃ found, s.remote.1.projectList.find? (fun project =>
          project.Name == timeRecord.ProjectName
            && project.Workspace.Name == timeRecord.WorkspaceName
            && project.Client.Name == timeRecord.ClientName) = some found)
    ∧ ((TimeRecordRepository.CreateTimeRecord.submit (NewTimeRecordRepository idealAPI.recording)
        timeRecord s).1 = .ok () →
      ∃ workspace found,
        s.remote.1.workspaceList.find?
            (fun workspace => workspace.Name == timeRecord.WorkspaceName) = some workspace
        ∧ s.remote.1.projectList.find? (fun project =>
            project.Name == timeRecord.ProjectName
              && project.Workspace.Name == timeRecord.WorkspaceName
              && project.Client.Name == timeRecord.ClientName) = some found
        ∧ (TimeRecordRepository.CreateTimeRecord.submit
            (NewTimeRecordRepository idealAPI.recording) timeRecord s).2.remote.1
          = { s.remote.1 with
              timeEntries := s.remote.1.timeEntries
                ++ [{ entryOf timeRecord workspace found with ID := s.remote.1.nextID }],
              nextID := s.remote.1.nextID + 1 }
        ∧ (TimeRecordRepository.CreateTimeRecord.submit
            (NewTimeRecordRepository idealAPI.recording) timeRecord s).2.workspacesCache
          = s.remote.1.workspaceList
        ∧ (TimeRecordRepository.CreateTimeRecord.submit
            (NewTimeRecordRepository idealAPI.recording) timeRecord s).2.projectsCache
          = s.remote.1.projectList
        ∧ Synced (TimeRecordRepository.CreateTimeRecord.submit
            (NewTimeRecordRepository idealAPI.recording) timeRecord s).2
        ∧ creations (TimeRecordRepository.CreateTimeRecord.submit
            (NewTimeRecordRepository idealAPI.recording) timeRecord s).2.remote.2
          = creations s.remote.2 ++ [.CreateTimeEntry (entryOf timeRecord workspace found)
              (.ok { entryOf timeRecord workspace found with ID := s.remote.1.nextID })]
        ∧ (s.workspacesCache ≠ [] → s.projectsCache ≠ [] →
            (TimeRecordRepository.CreateTimeRecord.submit
              (NewTimeRecordRepository idealAPI.recording) timeRecord s).2.remote.2
            = s.remote.2 ++ [.CreateTimeEntry (entryOf timeRecord workspace found)
                (.ok { entryOf timeRecord workspace found with ID := s.remote.1.nextID })])) := by
  -- the lookup of the workspace
  obtain ⟨w1, w2⟩ := GetWorkspaceByName_ideal timeRecord.WorkspaceName s hs
  have wq := GetWorkspaceByName_quiet idealAPI timeRecord.WorkspaceName s
  have wstate := GetWorkspaceByName_state idealAPI.recording timeRecord.WorkspaceName s
  rcases hg2 : WorkspaceRepository.GetWorkspaceByName idealAPI.recording
    timeRecord.WorkspaceName s with ⟨r2, s3⟩
  rw [hg2] at w1 w2 wq wstate
  simp only at w1 w2 wq wstate
  have hrem3 : s3.remote.1 = s.remote.1 := w2.1
  -- the lookup of the project
  obtain ⟨p1, p2⟩ := GetProjectByName_ideal timeRecord.ProjectName timeRecord.WorkspaceName
    timeRecord.ClientName s3 w2.2 (by rw [hrem3]; exact hwf)
  have pq := GetProjectByName_quiet idealAPI timeRecord.ProjectName timeRecord.WorkspaceName
    timeRecord.ClientName s3
  have pstate := GetProjectByName_state idealAPI.recording timeRecord.ProjectName
    timeRecord.WorkspaceName timeRecord.ClientName s3
  obtain ⟨l1, -⟩ := GetProjects_ideal s3 w2.2 (by rw [hrem3]; exact hwf)
  have pkept := GetProjects_kept idealAPI s3
  rcases hg3 : ProjectRepository.GetProjectByName idealAPI.recording timeRecord.ProjectName
    timeRecord.WorkspaceName timeRecord.ClientName s3 with ⟨r3, s4⟩
  rw [hg3] at p1 p2 pq pstate
  simp only at p1 p2 pq pstate
  rw [← pstate] at pkept
  have hgp : ProjectRepository.GetProjects idealAPI.recording s3
      = (.ok s3.remote.1.projectList, s4) := Prod.ext l1 pstate.symm
  have hrem4 : s4.remote.1 = s.remote.1 := p2.1.trans hrem3
  rw [hrem3] at p1
  -- a project of the account with the names is in a workspace with the name
  have hworkspace : ∀ found, s.remote.1.projectList.find? (fun project =>
        project.Name == timeRecord.ProjectName
          && project.Workspace.Name == timeRecord.WorkspaceName
          && project.Client.Name == timeRecord.ClientName) = some found →
      ∃ workspace, s.remote.1.workspaceList.find?
        (fun workspace => workspace.Name == timeRecord.WorkspaceName) = some workspace := by
    intro found hfound
    have hprop := List.find?_some hfound
    simp only [Bool.and_eq_true, beq_iff_eq] at hprop
    obtain ⟨workspace, hmem, model, -, -, rfl⟩ :=
      mem_projectList _ found (List.mem_of_find?_eq_some hfound)
    cases hf : s.remote.1.workspaceList.find?
        (fun workspace => workspace.Name == timeRecord.WorkspaceName) with
    | none =>
      have := List.find?_eq_none.1 hf workspace hmem
      simp only [beq_iff_eq] at this
      exact absurd hprop.1.2 this
    | some w => exact ⟨w, rfl⟩
  simp only [TimeRecordRepository.CreateTimeRecord.submit, NewTimeRecordRepository,
    TogglModelConverter.asModelConverter, TogglModelConverter.ConvertTimeRecordToTimeEntry,
    NewWorkspaceRepository, NewProjectRepository, hg2]
  cases hfw : s.remote.1.workspaceList.find?
      (fun workspace => workspace.Name == timeRecord.WorkspaceName) with
  | none =>
    rw [hfw] at w1
    subst w1
    simp only
    refine ⟨⟨(fun h => nomatch h), ?_⟩, (fun h => nomatch h)⟩
    rintro ⟨found, hfound⟩
    obtain ⟨w, hw⟩ := hworkspace found hfound
    rw [hfw] at hw
    cases hw
  | some workspace =>
    rw [hfw] at w1
    subst w1
    simp only [hg3]
    cases hfp : s.remote.1.projectList.find? (fun project =>
        project.Name == timeRecord.ProjectName
          && project.Workspace.Name == timeRecord.WorkspaceName
          && project.Client.Name == timeRecord.ClientName) with
    | none =>
      rw [hfp] at p1
      subst p1
      simp only
      exact ⟨⟨(fun h => nomatch h), (fun ⟨found, h⟩ => nomatch h)⟩, (fun h => nomatch h)⟩
    | some found =>
      rw [hfp] at p1
      subst p1
      simp only [model.TogglAPI.recording, traced, idealAPI]
      obtain ⟨hmem, -, -, hpc3⟩ := GetWorkspaceByName_ok idealAPI.recording
        timeRecord.WorkspaceName s s3 workspace hg2
      have hne3 : s3.workspacesCache ≠ [] := List.ne_nil_of_mem hmem
      have hwc3 : s3.workspacesCache = s.remote.1.workspaceList := by
        rcases w2.2.1 with h | h
        · exact absurd h hne3
        · rw [h, hrem3]
      have hpc4 : s4.projectsCache = s.remote.1.projectList := by
        rw [GetProjects_ok_cache idealAPI.recording s3 s4 _ hgp, hrem3]
      have hwc4 : s4.workspacesCache = s.remote.1.workspaceList := by
        rw [(pkept.1 hne3).1, hwc3]
      have hq : creations s4.remote.2 = creations s.remote.2 :=
        (wq.quiet_trans pq).creations_eq
      refine ⟨⟨fun _ => ⟨found, rfl⟩, fun _ => trivial⟩,
        fun _ => ⟨workspace, found, rfl, rfl, ?_, hwc4, hpc4, ?_, ?_, ?_⟩⟩
      · rw [hrem4]
        rfl
      · obtain ⟨a, b, c⟩ := p2.2
        exact ⟨a, b, c⟩
      · simp only [creations, List.filter_append] at hq ⊢
        rw [hq, hrem4]
        rfl
      · intro hw hp
        have e3 : s3 = s := by
          rw [wstate, GetWorkspaces_cached idealAPI.recording s hw]
        have e4 : s4 = s3 := by
          rw [pstate, GetProjects_cached idealAPI.recording s3 (by rw [hpc3]; exact hp)]
        rw [e4, e3]
        rfl


/-- A time entry more in the account leaves its references resolved. -/
theorem WellFormed_add_entry (remote : Remote) (timeEntries : List model.TimeEntry)
    (hwf : remote.WellFormed) :
    Remote.WellFormed { remote with timeEntries := timeEntries, nextID := remote.nextID + 1 } := by
  obtain ⟨h1, h2, h3, h4⟩ := hwf
  refine ⟨h1, h2, ?_, ?_⟩
  · show 0 < remote.nextID + 1
    omega
  · intro client hc
    have := h4 client hc
    show client.ID < remote.nextID + 1
    omega

/-- CreateTimeRecord over the repositories of an API: the lookup of the project,
its creation when the lookup failed, and the end of the call. -/
theorem CreateTimeRecord_wired {σ : Type} (api : model.TogglAPI σ) (timeRecord : TimeRecord)
    (s : Repositories σ) :
    (NewTimeRecordRepository api).CreateTimeRecord timeRecord s
      = match ProjectRepository.GetProjectByName api timeRecord.ProjectName
          timeRecord.WorkspaceName timeRecord.ClientName s with
        | (.error _, s1) =>
          match ProjectRepository.CreateProject api timeRecord.ProjectName
              timeRecord.WorkspaceName timeRecord.ClientName s1 with
          | (.error createProjectError, s2) =>
            (.error (Wrap createProjectError "Failed to create project for time record"), s2)
          | (.ok _, s2) =>
            TimeRecordRepository.CreateTimeRecord.submit (NewTimeRecordRepository api)
              timeRecord s2
        | (.ok _, s1) =>
          TimeRecordRepository.CreateTimeRecord.submit (NewTimeRecordRepository api)
            timeRecord s1 := by
  have e1 : (NewTimeRecordRepository api).projects.GetProjectByName
      = ProjectRepository.GetProjectByName api := rfl
  have e2 : (NewTimeRecordRepository api).projects.CreateProject
      = ProjectRepository.CreateProject api := rfl
  unfold TimeRecordRepository.CreateTimeRecord
  rw [e1, e2]
  rcases ProjectRepository.GetProjectByName api timeRecord.ProjectName
    timeRecord.WorkspaceName timeRecord.ClientName s with ⟨r, s1⟩
  cases r with
  | ok p => rfl
  | error e =>
    simp only
    rcases ProjectRepository.CreateProject api timeRecord.ProjectName
      timeRecord.WorkspaceName timeRecord.ClientName s1 with ⟨r1, s2⟩
    cases r1 <;> rfl

/-- CreateTimeRecord over the ideal remote, from a state whose caches agree with
the account, when it returns nil: afterwards the references of the account
resolve, the caches agree with the account, the workspaces cache and the
projects cache are populated with the lists of the account, and the account has
a project with the three names of the record.  The call has sent at most one
request that creates a project and at most one that creates a client: exactly
one that creates a project when the lookup of the project had failed, and only
the time entry when the lookup had succeeded. -/
theorem CreateTimeRecord_ideal_after (timeRecord : TimeRecord)
    (s : Repositories (Remote × List RemoteCall)) (hs : Synced s)
    (hwf : s.remote.1.WellFormed)
    (hok : ((NewTimeRecordRepository idealAPI.recording).CreateTimeRecord timeRecord s).1
      = .ok ()) :
    ((NewTimeRecordRepository idealAPI.recording).CreateTimeRecord timeRecord
        s).2.remote.1.WellFormed
    ∧ Synced ((NewTimeRecordRepository idealAPI.recording).CreateTimeRecord timeRecord s).2
    ∧ ((NewTimeRecordRepository idealAPI.recording).CreateTimeRecord timeRecord
        s).2.workspacesCache ≠ []
    ∧ ((NewTimeRecordRepository idealAPI.recording).CreateTimeRecord timeRecord
        s).2.projectsCache
      = ((NewTimeRecordRepository idealAPI.recording).CreateTimeRecord timeRecord
        s).2.remote.1.projectList
    ∧ (∃ found, ((NewTimeRecordRepository idealAPI.recording).CreateTimeRecord timeRecord
        s).2.remote.1.projectList.find? (fun project =>
          project.Name == timeRecord.ProjectName
            && project.Workspace.Name == timeRecord.WorkspaceName
            && project.Client.Name == timeRecord.ClientName) = some found)
    ∧ projectCreations ((NewTimeRecordRepository idealAPI.recording).CreateTimeRecord
        timeRecord s).2.remote.2 ≤ projectCreations s.remote.2 + 1
    ∧ clientCreations ((NewTimeRecordRepository idealAPI.recording).CreateTimeRecord
        timeRecord s).2.remote.2 ≤ clientCreations s.remote.2 + 1
    ∧ ((∃ e, (ProjectRepository.GetProjectByName idealAPI.recording timeRecord.ProjectName
          timeRecord.WorkspaceName timeRecord.ClientName s).1 = .error e) →
        projectCreations ((NewTimeRecordRepository idealAPI.recording).CreateTimeRecord
          timeRecord s).2.remote.2 = projectCreations s.remote.2 + 1)
    ∧ ((∃ project, (ProjectRepository.GetProjectByName idealAPI.recording
          timeRecord.ProjectName timeRecord.WorkspaceName timeRecord.ClientName s).1
            = .ok project) →
        projectCreations ((NewTimeRecordRepository idealAPI.recording).CreateTimeRecord
          timeRecord s).2.remote.2 = projectCreations s.remote.2
        ∧ clientCreations ((NewTimeRecordRepository idealAPI.recording).CreateTimeRecord
          timeRecord s).2.remote.2 = clientCreations s.remote.2) := by
  -- what the end of the call leaves, from the state `sx` it starts in
  have tail : ∀ sx : Repositories (Remote × List RemoteCall), Synced sx →
      sx.remote.1.WellFormed →
      (TimeRecordRepository.CreateTimeRecord.submit (NewTimeRecordRepository idealAPI.recording)
        timeRecord sx).1 = .ok () →
      (TimeRecordRepository.CreateTimeRecord.submit (NewTimeRecordRepository idealAPI.recording)
        timeRecord sx).2.remote.1.WellFormed
      ∧ Synced (TimeRecordRepository.CreateTimeRecord.submit
          (NewTimeRecordRepository idealAPI.recording) timeRecord sx).2
      ∧ (TimeRecordRepository.CreateTimeRecord.submit
          (NewTimeRecordRepository idealAPI.recording) timeRecord sx).2.workspacesCache ≠ []
      ∧ (TimeRecordRepository.CreateTimeRecord.submit
          (NewTimeRecordRepository idealAPI.recording) timeRecord sx).2.projectsCache
        = (TimeRecordRepository.CreateTimeRecord.submit
          (NewTimeRecordRepository idealAPI.recording) timeRecord sx).2.remote.1.projectList
      ∧ (∃ found, (TimeRecordRepository.CreateTimeRecord.submit
          (NewTimeRecordRepository idealAPI.recording) timeRecord
            sx).2.remote.1.projectList.find? (fun project =>
              project.Name == timeRecord.ProjectName
                && project.Workspace.Name == timeRecord.WorkspaceName
                && project.Client.Name == timeRecord.ClientName) = some found)
      ∧ projectCreations (TimeRecordRepository.CreateTimeRecord.submit
          (NewTimeRecordRepository idealAPI.recording) timeRecord sx).2.remote.2
        = projectCreations sx.remote.2
      ∧ clientCreations (TimeRecordRepository.CreateTimeRecord.submit
          (NewTimeRecordRepository idealAPI.recording) timeRecord sx).2.remote.2
        = clientCreations sx.remote.2 := by
    intro sx hsx hwfx hokx
    obtain ⟨workspace, found, hfw, hfp, hrem, hwc, hpc, hsync, hcre, -⟩ :=
      (submit_ideal timeRecord sx hsx hwfx).2 hokx
    have c1 := creations_counts (TimeRecordRepository.CreateTimeRecord.submit
      (NewTimeRecordRepository idealAPI.recording) timeRecord sx).2.remote.2
    have c2 := creations_counts sx.remote.2
    rw [hcre, projectCreations_append, clientCreations_append] at c1
    refine ⟨?_, hsync, ?_, ?_, ⟨found, ?_⟩, ?_, ?_⟩
    · rw [hrem]
      exact WellFormed_add_entry sx.remote.1 _ hwfx
    · rw [hwc]
      intro hnil
      rw [hnil] at hfw
      cases hfw
    · rw [hpc, hrem]
      rfl
    · rw [hrem]
      exact hfp
    · have : projectCreations [RemoteCall.CreateTimeEntry (entryOf timeRecord workspace found)
          (.ok { entryOf timeRecord workspace found with ID := sx.remote.1.nextID })] = 0 := rfl
      omega
    · have : clientCreations [RemoteCall.CreateTimeEntry (entryOf timeRecord workspace found)
          (.ok { entryOf timeRecord workspace found with ID := sx.remote.1.nextID })] = 0 := rfl
      omega
  obtain ⟨g1, g2⟩ := GetProjectByName_ideal timeRecord.ProjectName timeRecord.WorkspaceName
    timeRecord.ClientName s hs hwf
  have gq := GetProjectByName_quiet idealAPI timeRecord.ProjectName timeRecord.WorkspaceName
    timeRecord.ClientName s
  rcases hg0 : ProjectRepository.GetProjectByName idealAPI.recording timeRecord.ProjectName
    timeRecord.WorkspaceName timeRecord.ClientName s with ⟨r0, s1⟩
  rw [hg0] at g2 gq
  simp only at g2 gq
  obtain ⟨q1, q2⟩ := gq.counts_eq
  have hwf1 : s1.remote.1.WellFormed := by rw [g2.1]; exact hwf
  rw [CreateTimeRecord_wired, hg0] at hok ⊢
  cases r0 with
  | ok project =>
    simp only at hok ⊢
    obtain ⟨t1, t2, t3, t4, t5, t6, t7⟩ := tail s1 g2.2 hwf1 hok
    exact ⟨t1, t2, t3, t4, t5, by omega, by omega, (fun ⟨e, he⟩ => nomatch he),
      fun _ => ⟨by omega, by omega⟩⟩
  | error e0 =>
    simp only at hok ⊢
    obtain ⟨i1, i2⟩ := CreateProject_invariant timeRecord.ProjectName timeRecord.WorkspaceName
      timeRecord.ClientName s1 hwf1 g2.2
    obtain ⟨k1, k2, k3⟩ := CreateProject_counts idealAPI timeRecord.ProjectName
      timeRecord.WorkspaceName timeRecord.ClientName s1
    rcases hg1 : ProjectRepository.CreateProject idealAPI.recording timeRecord.ProjectName
      timeRecord.WorkspaceName timeRecord.ClientName s1 with ⟨r1, s2⟩
    rw [hg1] at hok i1 i2 k1 k2 k3
    cases r1 with
    | error e1 => cases hok
    | ok created =>
      simp only at hok i1 i2 k1 k2 k3 ⊢
      have k4 := k3 created rfl
      obtain ⟨t1, t2, t3, t4, t5, t6, t7⟩ := tail s2 i2 i1 hok
      exact ⟨t1, t2, t3, t4, t5, by omega, by omega, fun _ => by omega,
        (fun ⟨project, hp⟩ => nomatch hp)⟩


/-- CreateTimeRecord over the ideal remote for a record whose project the
account has, from a state whose workspaces cache and projects cache are
populated: the lookup of the project returns the first project of the cache with
the three names of the record, without a request; the call returns nil, and the
one request it sends is the time entry of the record. -/
theorem CreateTimeRecord_ideal_cached (timeRecord : TimeRecord)
    (s : Repositories (Remote × List RemoteCall)) (hs : Synced s)
    (hwf : s.remote.1.WellFormed) (hw : s.workspacesCache ≠ [])
    (hp : s.projectsCache = s.remote.1.projectList) (found : Project)
    (hfound : s.remote.1.projectList.find? (fun project =>
        project.Name == timeRecord.ProjectName
          && project.Workspace.Name == timeRecord.WorkspaceName
          && project.Client.Name == timeRecord.ClientName) = some found) :
    ProjectRepository.GetProjectByName idealAPI.recording timeRecord.ProjectName
        timeRecord.WorkspaceName timeRecord.ClientName s = (.ok found, s)
    ∧ ∃ workspace,
        s.remote.1.workspaceList.find?
            (fun workspace => workspace.Name == timeRecord.WorkspaceName) = some workspace
        ∧ ((NewTimeRecordRepository idealAPI.recording).CreateTimeRecord timeRecord s).1
          = .ok ()
        ∧ ((NewTimeRecordRepository idealAPI.recording).CreateTimeRecord timeRecord
            s).2.remote.2
          = s.remote.2 ++ [.CreateTimeEntry (entryOf timeRecord workspace found)
              (.ok { entryOf timeRecord workspace found with ID := s.remote.1.nextID })] := by
  have hne : s.projectsCache ≠ [] := by
    rw [hp]
    intro hnil
    rw [hnil] at hfound
    cases hfound
  obtain ⟨g1, -⟩ := GetProjectByName_ideal timeRecord.ProjectName timeRecord.WorkspaceName
    timeRecord.ClientName s hs hwf
  rw [hfound] at g1
  have gstate := GetProjectByName_state idealAPI.recording timeRecord.ProjectName
    timeRecord.WorkspaceName timeRecord.ClientName s
  rw [GetProjects_cached idealAPI.recording s hne] at gstate
  have hg0 : ProjectRepository.GetProjectByName idealAPI.recording timeRecord.ProjectName
      timeRecord.WorkspaceName timeRecord.ClientName s = (.ok found, s) := Prod.ext g1 gstate
  refine ⟨hg0, ?_⟩
  obtain ⟨hiff, hrun⟩ := submit_ideal timeRecord s hs hwf
  have hok := hiff.2 ⟨found, hfound⟩
  obtain ⟨workspace, found1, hfw, hfp, -, -, -, -, -, hlog⟩ := hrun hok
  rw [hfound] at hfp
  cases hfp
  refine ⟨workspace, hfw, ?_, ?_⟩
  · rw [CreateTimeRecord_wired, hg0]
    exact hok
  · rw [CreateTimeRecord_wired, hg0]
    exact hlog hw hne

/-- C39, counterexample.  On the account `smallAccount`, which has the project
"Project" of client "Client" in workspace "Workspace", two calls for the record
of that project create no project and no client: the create requests are the two
time entries.  On the account without workspaces, two calls for the record of
project "New" both return an error and send no create request: no project is
created, and no time entry.  On the account `strayClientAccount`, which has a
client of a workspace that it does not list, two calls for the record of project
"New" of client "Newcomer" both return an error and each creates the client and
the project: the project is created twice. -/
theorem C39_second_record_counterexample :
    (((NewTimeRecordRepository idealAPI.recording).CreateTimeRecord (projectRecord "Client")
        (Repositories.fresh (smallAccount, []))).1 = .ok ()
      ∧ ((NewTimeRecordRepository idealAPI.recording).CreateTimeRecord (projectRecord "Client")
          ((NewTimeRecordRepository idealAPI.recording).CreateTimeRecord
            (projectRecord "Client") (Repositories.fresh (smallAccount, []))).2).1 = .ok ()
      ∧ (creations ((NewTimeRecordRepository idealAPI.recording).CreateTimeRecord
          (projectRecord "Client")
          ((NewTimeRecordRepository idealAPI.recording).CreateTimeRecord
            (projectRecord "Client")
            (Repositories.fresh (smallAccount, []))).2).2.remote.2).map RemoteCall.name
        = ["CreateTimeEntry work", "CreateTimeEntry work"]
      ∧ projectCreations ((NewTimeRecordRepository idealAPI.recording).CreateTimeRecord
          (projectRecord "Client")
          ((NewTimeRecordRepository idealAPI.recording).CreateTimeRecord
            (projectRecord "Client")
            (Repositories.fresh (smallAccount, []))).2).2.remote.2 = 0)
    ∧ (((NewTimeRecordRepository idealAPI.recording).CreateTimeRecord newProjectRecord
        (Repositories.fresh (noWorkspaces, []))).1
        = .error (Wrap (Wrap "Workspace was not found" "Failed to get workspace")
            "Failed to create project for time record")
      ∧ ((NewTimeRecordRepository idealAPI.recording).CreateTimeRecord newProjectRecord
          ((NewTimeRecordRepository idealAPI.recording).CreateTimeRecord newProjectRecord
            (Repositories.fresh (noWorkspaces, []))).2).1
        = .error (Wrap (Wrap "Workspace was not found" "Failed to get workspace")
            "Failed to create project for time record")
      ∧ creations ((NewTimeRecordRepository idealAPI.recording).CreateTimeRecord
          newProjectRecord
          ((NewTimeRecordRepository idealAPI.recording).CreateTimeRecord newProjectRecord
            (Repositories.fresh (noWorkspaces, []))).2).2.remote.2 = [])
    ∧ ((creations ((NewTimeRecordRepository idealAPI.recording).CreateTimeRecord
          newProjectRecord
          ((NewTimeRecordRepository idealAPI.recording).CreateTimeRecord newProjectRecord
            (Repositories.fresh (strayClientAccount, []))).2).2.remote.2).map RemoteCall.name
        = ["CreateClient Newcomer", "CreateProject New", "CreateClient Newcomer",
            "CreateProject New"]
      ∧ projectCreations ((NewTimeRecordRepository idealAPI.recording).CreateTimeRecord
          newProjectRecord
          ((NewTimeRecordRepository idealAPI.recording).CreateTimeRecord newProjectRecord
            (Repositories.fresh (strayClientAccount, []))).2).2.remote.2 = 2) :=
  ⟨⟨by decide, by decide, by decide, by decide⟩, ⟨by decide, by decide, by decide⟩,
    by decide, by decide⟩

/-- C39, amended.  Against the remote whose calls all succeed, whose listings
reflect every earlier creation and which gives every created entity a fresh ID
(`idealAPI`), on repositories in a state reached from fresh ones over an account
that is well-formed (every client belongs to a workspace of the account, every
project has no client or a client of the account, the next ID that the remote
gives is positive and above the client IDs): when a first CreateTimeRecord
call returns nil, a second call for a record that shares the workspace, client
and project names of the first returns nil as well and sends one request, its
time entry; the lookup of its project is answered from the projects cache, which
holds the list of the account as fetched after the first call's creations, with
no request.  The two calls together send at most one request that creates a
project and at most one that creates a client: exactly one that creates a
project when the project was not found before the first call, and none that
creates a project or a client when it was found. -/
theorem C39_second_record (account : Remote) (operations : List Operation)
    (first second : TimeRecord) (s afterFirst afterSecond : Repositories (Remote × List RemoteCall))
    (hreached : s = runAll idealAPI.recording operations (Repositories.fresh (account, [])))
    (hwf : account.WellFormed)
    (hworkspace : second.WorkspaceName = first.WorkspaceName)
    (hproject : second.ProjectName = first.ProjectName)
    (hclient : second.ClientName = first.ClientName)
    (hfirst : (NewTimeRecordRepository idealAPI.recording).CreateTimeRecord first s
      = (.ok (), afterFirst))
    (hsecond : afterSecond
      = ((NewTimeRecordRepository idealAPI.recording).CreateTimeRecord second afterFirst).2) :
    ((NewTimeRecordRepository idealAPI.recording).CreateTimeRecord second afterFirst).1 = .ok ()
    ∧ (∃ workspace found,
        afterFirst.remote.1.workspaceList.find?
            (fun workspace => workspace.Name == second.WorkspaceName) = some workspace
        ∧ afterFirst.projectsCache = afterFirst.remote.1.projectList
        ∧ afterFirst.projectsCache.find? (fun project =>
            project.Name == second.ProjectName
              && project.Workspace.Name == second.WorkspaceName
              && project.Client.Name == second.ClientName) = some found
        ∧ ProjectRepository.GetProjectByName idealAPI.recording second.ProjectName
            second.WorkspaceName second.ClientName afterFirst = (.ok found, afterFirst)
        ∧ afterSecond.remote.2
          = afterFirst.remote.2 ++ [.CreateTimeEntry (entryOf second workspace found)
              (.ok { entryOf second workspace found with ID := afterFirst.remote.1.nextID })])
    ∧ projectCreations afterSecond.remote.2 = projectCreations afterFirst.remote.2
    ∧ clientCreations afterSecond.remote.2 = clientCreations afterFirst.remote.2
    ∧ projectCreations afterSecond.remote.2 ≤ projectCreations s.remote.2 + 1
    ∧ clientCreations afterSecond.remote.2 ≤ clientCreations s.remote.2 + 1
    ∧ ((∃ e, (ProjectRepository.GetProjectByName idealAPI.recording first.ProjectName
          first.WorkspaceName first.ClientName s).1 = .error e) →
        projectCreations afterSecond.remote.2 = projectCreations s.remote.2 + 1)
    ∧ ((∃ project, (ProjectRepository.GetProjectByName idealAPI.recording first.ProjectName
          first.WorkspaceName first.ClientName s).1 = .ok project) →
        projectCreations afterSecond.remote.2 = projectCreations s.remote.2
        ∧ clientCreations afterSecond.remote.2 = clientCreations s.remote.2) := by
  have hinv := runAll_invariant operations (Repositories.fresh (account, [])) hwf
    ⟨Or.inl rfl, Or.inl rfl, Or.inl rfl⟩
  rw [← hreached] at hinv
  have hok : ((NewTimeRecordRepository idealAPI.recording).CreateTimeRecord first s).1
      = .ok () := by rw [hfirst]
  obtain ⟨f1, f2, f3, f4, ⟨found, f5⟩, f6, f7, f8, f9⟩ :=
    CreateTimeRecord_ideal_after first s hinv.2 hinv.1 hok
  rw [hfirst] at f1 f2 f3 f4 f5 f6 f7 f8 f9
  simp only at f1 f2 f3 f4 f5 f6 f7 f8 f9
  rw [← hworkspace, ← hproject, ← hclient] at f5
  obtain ⟨c1, workspace, c2, c3, c4⟩ :=
    CreateTimeRecord_ideal_cached second afterFirst f2 f1 f3 f4 found f5
  rw [← hsecond] at c4
  have p0 : projectCreations [RemoteCall.CreateTimeEntry (entryOf second workspace found)
      (.ok { entryOf second workspace found with ID := afterFirst.remote.1.nextID })] = 0 := rfl
  have p1 : clientCreations [RemoteCall.CreateTimeEntry (entryOf second workspace found)
      (.ok { entryOf second workspace found with ID := afterFirst.remote.1.nextID })] = 0 := rfl
  have e1 : projectCreations afterSecond.remote.2 = projectCreations afterFirst.remote.2 := by
    rw [c4, projectCreations_append, p0]
    rfl
  have e2 : clientCreations afterSecond.remote.2 = clientCreations afterFirst.remote.2 := by
    rw [c4, clientCreations_append, p1]
    rfl
  refine ⟨c3, ⟨workspace, found, c2, f4, by rw [f4]; exact f5, c1, c4⟩, e1, e2, by omega,
    by omega, fun h => by rw [e1]; exact f8 h, fun h => ?_⟩
  obtain ⟨g1, g2⟩ := f9 h
  exact ⟨by omega, by omega⟩

/-- C39, witness: on the account `smallAccount`, two records of the new project
"New" of the new client "Newcomer".  Both calls return nil; the first creates
the client and the project, the second sends its time entry and nothing else. -/
theorem C39_second_record_witness :
    (smallAccount.WellFormed
      ∧ secondNewProjectRecord.WorkspaceName = newProjectRecord.WorkspaceName
      ∧ secondNewProjectRecord.ProjectName = newProjectRecord.ProjectName
      ∧ secondNewProjectRecord.ClientName = newProjectRecord.ClientName
      ∧ ((NewTimeRecordRepository idealAPI.recording).CreateTimeRecord newProjectRecord
          (Repositories.fresh (smallAccount, []))).1 = .ok ())
    ∧ ((NewTimeRecordRepository idealAPI.recording).CreateTimeRecord secondNewProjectRecord
        ((NewTimeRecordRepository idealAPI.recording).CreateTimeRecord newProjectRecord
          (Repositories.fresh (smallAccount, []))).2).1 = .ok ()
    ∧ projectCreations ((NewTimeRecordRepository idealAPI.recording).CreateTimeRecord
        secondNewProjectRecord
        ((NewTimeRecordRepository idealAPI.recording).CreateTimeRecord newProjectRecord
          (Repositories.fresh (smallAccount, []))).2).2.remote.2
      = projectCreations (Repositories.fresh (smallAccount, ([] : List RemoteCall))).remote.2 + 1
    ∧ (((NewTimeRecordRepository idealAPI.recording).CreateTimeRecord secondNewProjectRecord
        ((NewTimeRecordRepository idealAPI.recording).CreateTimeRecord newProjectRecord
          (Repositories.fresh (smallAccount, []))).2).2.remote.2).map RemoteCall.name
      = ["GetWorkspaces", "GetProjects", "GetClients", "CreateClient Newcomer",
          "CreateProject New", "GetProjects", "GetClients", "CreateTimeEntry work",
          "CreateTimeEntry more work"] := by
  have hwf : smallAccount.WellFormed := by unfold Remote.WellFormed; decide
  have hfirst : ((NewTimeRecordRepository idealAPI.recording).CreateTimeRecord newProjectRecord
      (Repositories.fresh (smallAccount, []))).1 = .ok () := by decide
  have h := C39_second_record smallAccount [] newProjectRecord secondNewProjectRecord
    (Repositories.fresh (smallAccount, []))
    ((NewTimeRecordRepository idealAPI.recording).CreateTimeRecord newProjectRecord
      (Repositories.fresh (smallAccount, []))).2
    ((NewTimeRecordRepository idealAPI.recording).CreateTimeRecord secondNewProjectRecord
      ((NewTimeRecordRepository idealAPI.recording).CreateTimeRecord newProjectRecord
        (Repositories.fresh (smallAccount, []))).2).2
    rfl hwf rfl rfl rfl (Prod.ext hfirst rfl) rfl
  exact ⟨⟨hwf, rfl, rfl, rfl, hfirst⟩, h.1, h.2.2.2.2.2.2.1 ⟨"Project was not found", by decide⟩,
    by decide⟩

end Toggl
